import Mathlib

/-!
Brownie gap closer: a shallow embedding of `findGap.cpp` and `graph.h`.

Strings (`std::string`) are lists of characters, `size_t` values are natural
numbers, C++ exceptions and failed assertions are the `none` of `Option`.
-/

namespace Brownie

/-! ## Strings -/

/-- The library call `std::string::substr(pos, len)`: the characters from `pos`
on, at most `len` of them; it throws `std::out_of_range` when `pos` is
beyond the end of the string. -/
def substr {α : Type} (s : List α) (pos len : Nat) : Option (List α) :=
  if pos ≤ s.length then some ((s.drop pos).take len) else none

/-! ## `FindGap::getLongestCommonSubStr` (findGap.cpp 530-562) -/

/-- The local variables of `getLongestCommonSubStr`: the table
`int LCSuff[m+1][n+1]`, `int result`, and the two `size_t` indices. -/
structure LCSState where
  LCSuff : Nat → Nat → Int
  result : Int
  maxIndex1 : Nat
  maxIndex2 : Nat

/-- The assignment `LCSuff[i][j] = v`. -/
def LCSState.store (st : LCSState) (i j : Nat) (v : Int) : LCSState :=
  { st with LCSuff := fun a b => if a = i ∧ b = j then v else st.LCSuff a b }

/-- The body of the inner loop of `getLongestCommonSubStr` at `(i, j)`. -/
def lcsBody {α : Type} [DecidableEq α] (str1 str2 : List α) (i j : Nat)
    (st : LCSState) : LCSState :=
  if i = 0 ∨ j = 0 then
    st.store i j 0
  else if str1[i - 1]? = str2[j - 1]? then
    let st1 := st.store i j (st.LCSuff (i - 1) (j - 1) + 1)
    if st1.result < st1.LCSuff i j then
      { st1 with result := st1.LCSuff i j, maxIndex1 := i, maxIndex2 := j }
    else st1
  else
    st.store i j 0

/-- The inner loop `for (size_t j=0; j<=n; j++)` of row `i`. -/
def lcsRow {α : Type} [DecidableEq α] (str1 str2 : List α) (i : Nat)
    (st : LCSState) : LCSState :=
  (List.range (str2.length + 1)).foldl (fun s j => lcsBody str1 str2 i j s) st

/-- The two nested loops of `getLongestCommonSubStr`, started with
`result = 0`, `maxIndex1 = maxIndex2 = 0`. The source does not initialise the table; every
cell is written before it is read (`LcsInv.table`), so its first contents (here 0) do not
matter. The entries are at most `min(m, n)`, far from the range of `int` for the windows and
stack arrays the function is used with, so they are kept as integers. -/
def lcsScan {α : Type} [DecidableEq α] (str1 str2 : List α) : LCSState :=
  (List.range (str1.length + 1)).foldl (fun s i => lcsRow str1 str2 i s)
    { LCSuff := fun _ _ => 0, result := 0, maxIndex1 := 0, maxIndex2 := 0 }

/-- The value of `FindGap::getLongestCommonSubStr(str1, str2, firsStartIndex,
SecondStartIndex)`: the returned string and the values left in the two
reference parameters. In `maxIndex1 - result` the `int` is never negative and never above
`maxIndex1` (`getLongestCommonSubStr_spec`), so the `size_t` subtraction does not wrap. -/
def getLongestCommonSubStr {α : Type} [DecidableEq α] (str1 str2 : List α) :
    Option (List α × Nat × Nat) :=
  let st := lcsScan str1 str2
  let firsStartIndex := st.maxIndex1 - st.result.toNat
  let SecondStartIndex := st.maxIndex2 - st.result.toNat
  (substr str1 (st.maxIndex1 - st.result.toNat) st.result.toNat).map
    fun commonSubstr => (commonSubstr, firsStartIndex, SecondStartIndex)

/-- Length of the longest common suffix of `str1[0,i)` and `str2[0,j)`: the
recurrence that the table `LCSuff` is filled with. -/
def lcSuffix {α : Type} [DecidableEq α] (str1 str2 : List α) : Nat → Nat → Nat
  | i + 1, j + 1 => if str1[i]? = str2[j]? then lcSuffix str1 str2 i j + 1 else 0
  | _, _ => 0

/-- The cells written before the scan reaches `(i, j)`, for rows of `n+1` cells. -/
def lcsDone (n i j a b : Nat) : Prop := (a < i ∧ b ≤ n) ∨ (a = i ∧ b < j)

/-- Loop invariant of the scan of `getLongestCommonSubStr` on reaching `(i, j)`. -/
structure LcsInv {α : Type} [DecidableEq α] (str1 str2 : List α) (i j : Nat)
    (st : LCSState) : Prop where
  table : ∀ a b, lcsDone str2.length i j a b → st.LCSuff a b = lcSuffix str1 str2 a b
  best : st.result = lcSuffix str1 str2 st.maxIndex1 st.maxIndex2
  upper : ∀ a b, lcsDone str2.length i j a b → (lcSuffix str1 str2 a b : Int) ≤ st.result
  first : ∀ a b, b ≤ str2.length → (a < st.maxIndex1 ∨ (a = st.maxIndex1 ∧ b < st.maxIndex2)) →
    (lcSuffix str1 str2 a b : Int) < st.result
  seen : (st.maxIndex1 = 0 ∧ st.maxIndex2 = 0) ∨ lcsDone str2.length i j st.maxIndex1 st.maxIndex2

/-! ## `size_t` arithmetic -/

/-- Subtraction of two `size_t` values: it wraps modulo `2^64`. -/
def sizeSub (a b : Nat) : Nat := (a % 2 ^ 64 + 2 ^ 64 - b % 2 ^ 64) % 2 ^ 64

/-- Addition of two `size_t` values: it wraps modulo `2^64`. -/
def sizeAdd (a b : Nat) : Nat := (a + b) % 2 ^ 64

/-! ## The graph store (graph.h; `ssnode.h`, `dsnode.h`, `arc.h`, `kmernpp.h` and
`nucleotide.h` are not among the sources) -/

/-- Modelled from the spec: the alphabet of a node's DNA sequence (`nucleotide.h` is missing). -/
inductive Nucleotide where
  | A | C | G | T
  deriving DecidableEq, Repr

/-- Modelled from the spec: the complementary base, used by the reverse-complement view
(`nucleotide.h` is missing). -/
def Nucleotide.complement : Nucleotide → Nucleotide
  | .A => .T
  | .C => .G
  | .G => .C
  | .T => .A

/-- Modelled from the spec: `Nucleotide::revCompl`, the reverse complement of a sequence
(`nucleotide.h` is missing). -/
def revCompl (s : List Nucleotide) : List Nucleotide :=
  (s.map Nucleotide.complement).reverse

/-- A signed node identifier: `abs` is the physical index, the sign is the orientation. -/
abbrev NodeID := Int

/-- Modelled from the spec: an arc endpoint, the node it leads to and its coverage
(`arc.h` is missing). -/
structure Arc where
  nodeID : NodeID
  coverage : Nat
  deriving DecidableEq, Repr

/-- Modelled from the spec: the arc seen from the reverse-complement strand, its endpoint
negated. -/
def Arc.negate (a : Arc) : Arc := { a with nodeID := -a.nodeID }

/-- Modelled from the spec: the physical node record (`dsnode.h` is missing): the sequence of
the natural strand, the two coverages, the left and right adjacency and the validity flag. -/
structure DSNode where
  sequence : List Nucleotide
  kmerCov : Nat
  readStartCov : Nat
  leftArcs : List Arc
  rightArcs : List Arc
  invalid : Bool
  deriving DecidableEq, Repr

/-- Modelled from the spec: `NodePosPair`, a node and an offset in it; node 0 is the invalid
sentinel (`kmernpp.h` is missing). -/
structure NodePosPair where
  nodeID : NodeID
  position : Nat
  deriving DecidableEq, Repr

/-- Modelled from the spec: `NodePosPair::isValid`. -/
def NodePosPair.isValid (npp : NodePosPair) : Bool := npp.nodeID != 0

/-- The class `DBGraph` of graph.h: the node array `nodes` (slot 0 is never addressed), the
number of nodes and the k-mer table. The lookup `findNPP` is declared in graph.h and defined
elsewhere; it is kept as the function from a k-mer to the stored `NodePosPair` (the invalid
sentinel when the k-mer is absent). -/
structure DBGraph where
  numNodes : Nat
  nodes : Nat → DSNode
  findNPP : List Nucleotide → NodePosPair

/-- A single stranded view `SSNode(nodes + uNodeID, nodeID)`: the index of the physical
record and the signed identifier. -/
structure SSNode where
  dsNode : Nat
  nodeID : NodeID
  deriving DecidableEq, Repr

/-- The accessor `DBGraph::getDSNode` (graph.h 264-267): `none` is the failed assertion. -/
def DBGraph.getDSNode (g : DBGraph) (nodeID : NodeID) : Option DSNode :=
  if nodeID > 0 ∧ nodeID ≤ (g.numNodes : Int) then some (g.nodes nodeID.natAbs) else none

/-- The accessor `DBGraph::getSSNode` (graph.h 274-289): `none` is the failed assertion. -/
def DBGraph.getSSNode (g : DBGraph) (nodeID : NodeID) : Option SSNode :=
  let uNodeID := nodeID.natAbs
  if uNodeID ≠ 0 ∧ uNodeID ≤ g.numNodes then some ⟨uNodeID, nodeID⟩ else none

/-- The write access `nodes[idx]`: the record at index `idx` becomes `f` of it. -/
def DBGraph.modify (g : DBGraph) (idx : Nat) (f : DSNode → DSNode) : DBGraph :=
  { g with nodes := fun i => if i = idx then f (g.nodes i) else g.nodes i }

namespace SSNode

/-- Modelled from the spec: `SSNode::getNodeID`. -/
def getNodeID (v : SSNode) : NodeID := v.nodeID

/-- Modelled from the spec: `SSNode::isValid`, the validity flag of the record. -/
def isValid (v : SSNode) (g : DBGraph) : Bool := !(g.nodes v.dsNode).invalid

/-- Modelled from the spec: `SSNode::getSequence`, the sequence in the orientation of the
view (the reverse complement for a negative identifier). -/
def getSequence (v : SSNode) (g : DBGraph) : List Nucleotide :=
  if v.nodeID > 0 then (g.nodes v.dsNode).sequence else revCompl (g.nodes v.dsNode).sequence

/-- Modelled from the spec: `SSNode::setSequence`, storing a sequence given in the
orientation of the view. -/
def setSequence (v : SSNode) (g : DBGraph) (str : List Nucleotide) : DBGraph :=
  g.modify v.dsNode fun d =>
    { d with sequence := if v.nodeID > 0 then str else revCompl str }

/-- Modelled from the spec: `SSNode::getKmerCov`. -/
def getKmerCov (v : SSNode) (g : DBGraph) : Nat := (g.nodes v.dsNode).kmerCov

/-- Modelled from the spec: `SSNode::setKmerCov`. -/
def setKmerCov (v : SSNode) (g : DBGraph) (c : Nat) : DBGraph :=
  g.modify v.dsNode fun d => { d with kmerCov := c }

/-- Modelled from the spec: `SSNode::getReadStartCov`. -/
def getReadStartCov (v : SSNode) (g : DBGraph) : Nat := (g.nodes v.dsNode).readStartCov

/-- Modelled from the spec: `SSNode::setReadStartCov`. -/
def setReadStartCov (v : SSNode) (g : DBGraph) (c : Nat) : DBGraph :=
  g.modify v.dsNode fun d => { d with readStartCov := c }

/-- Modelled from the spec: the arcs from `leftBegin()` to `leftEnd()`: the left arcs of the
record for a positive identifier, its right arcs with each endpoint negated for a negative
one. -/
def leftArcs (v : SSNode) (g : DBGraph) : List Arc :=
  if v.nodeID > 0 then (g.nodes v.dsNode).leftArcs
  else (g.nodes v.dsNode).rightArcs.map Arc.negate

/-- Modelled from the spec: the arcs from `rightBegin()` to `rightEnd()`: the right arcs of
the record for a positive identifier, its left arcs with each endpoint negated for a negative
one. -/
def rightArcs (v : SSNode) (g : DBGraph) : List Arc :=
  if v.nodeID > 0 then (g.nodes v.dsNode).rightArcs
  else (g.nodes v.dsNode).leftArcs.map Arc.negate

/-- Modelled from the spec: `SSNode::getNumLeftArcs`. -/
def getNumLeftArcs (v : SSNode) (g : DBGraph) : Nat := (v.leftArcs g).length

/-- Modelled from the spec: `SSNode::getNumRightArcs`. -/
def getNumRightArcs (v : SSNode) (g : DBGraph) : Nat := (v.rightArcs g).length

/-- Modelled from the spec: the write access to the left adjacency of a view; `arcs` is given
in the orientation of the view. -/
def setLeftArcs (v : SSNode) (g : DBGraph) (arcs : List Arc) : DBGraph :=
  g.modify v.dsNode fun d =>
    if v.nodeID > 0 then { d with leftArcs := arcs }
    else { d with rightArcs := arcs.map Arc.negate }

/-- Modelled from the spec: the write access to the right adjacency of a view; `arcs` is given
in the orientation of the view. -/
def setRightArcs (v : SSNode) (g : DBGraph) (arcs : List Arc) : DBGraph :=
  g.modify v.dsNode fun d =>
    if v.nodeID > 0 then { d with rightArcs := arcs }
    else { d with leftArcs := arcs.map Arc.negate }

/-- Modelled from the spec: `SSNode::deleteAllLeftArcs`. -/
def deleteAllLeftArcs (v : SSNode) (g : DBGraph) : DBGraph := v.setLeftArcs g []

/-- Modelled from the spec: `SSNode::deleteAllRightArcs`. -/
def deleteAllRightArcs (v : SSNode) (g : DBGraph) : DBGraph := v.setRightArcs g []

/-- Modelled from the spec: `SSNode::deleteLeftArc(targetID)` removes the left arc of the view
that leads to `targetID`; the returned flag is `false`, and nothing changes, when the view has
no such arc. -/
def deleteLeftArc (v : SSNode) (g : DBGraph) (targetID : NodeID) : Bool × DBGraph :=
  if (v.leftArcs g).any (fun a => a.nodeID = targetID) then
    (true, v.setLeftArcs g ((v.leftArcs g).eraseP fun a => a.nodeID = targetID))
  else (false, g)

/-- Modelled from the spec: `SSNode::deleteRightArc(targetID)` removes the right arc of the
view that leads to `targetID`; the returned flag is `false`, and nothing changes, when the view
has no such arc. -/
def deleteRightArc (v : SSNode) (g : DBGraph) (targetID : NodeID) : Bool × DBGraph :=
  if (v.rightArcs g).any (fun a => a.nodeID = targetID) then
    (true, v.setRightArcs g ((v.rightArcs g).eraseP fun a => a.nodeID = targetID))
  else (false, g)

/-- Modelled from the spec: re-pointing in a list of arcs, the first arc that leads to `origID`
now leads to `newID`. -/
def repoint (origID newID : NodeID) : List Arc → List Arc
  | [] => []
  | a :: rest =>
    if a.nodeID = origID then { a with nodeID := newID } :: rest
    else a :: repoint origID newID rest

/-- Modelled from the spec: re-pointing a boundary arc, the left arc of the view that leads to
`origID` now leads to `newID`; a missing arc is an invariant violation, which aborts. -/
def replaceLeftArc (v : SSNode) (g : DBGraph) (origID newID : NodeID) : Option DBGraph :=
  if (v.leftArcs g).any (fun a => a.nodeID = origID) then
    some (v.setLeftArcs g (repoint origID newID (v.leftArcs g)))
  else none

/-- Modelled from the spec: `SSNode::inheritRightArcs(target)`, the view absorbs the right
arcs of `target`: every right neighbour of `target` has its arc back to `target` re-pointed to
the view, the right arcs of `target` become the right arcs of the view, and `target` is left
without right arcs. -/
def inheritRightArcs (v : SSNode) (g : DBGraph) (target : SSNode) : Option DBGraph := do
  let g1 ← (target.rightArcs g).foldlM (fun (g : DBGraph) (it : Arc) => do
      let rightNode ← g.getSSNode it.nodeID
      rightNode.replaceLeftArc g target.nodeID v.nodeID) g
  let g2 := v.setRightArcs g1 (target.rightArcs g1)
  pure (target.deleteAllRightArcs g2)

/-- Modelled from the spec: `SSNode::invalidate` marks the node as removed; its slot stays. -/
def invalidate (v : SSNode) (g : DBGraph) : DBGraph :=
  g.modify v.dsNode fun d => { d with invalid := true }

end SSNode

/-- Modelled from the spec: the k-mer windows visited by `KmerIt` on a string, in order of
offset (`kmer.h` is missing); the word size is `Kmer::getK()`. -/
def kmerWindows (k : Nat) (s : List Nucleotide) : List (List Nucleotide) :=
  (List.range (s.length + 1 - k)).map fun o => (s.drop o).take k

/-! ## `FindGap` (findGap.cpp) -/

/-- Modelled from the spec: the numeric fields of the class `FindGap` that findGap.cpp reads
and writes (their declarations are in `findGap.h`, which is missing): the word size and the
five search parameters. -/
structure FindGap where
  kmerSize : Nat
  maxSearchSize : Nat
  minNumbOfPairs : Nat
  minOverlapSize : Nat
  minSim : Nat
  minExactMatchSize : Nat
  deriving DecidableEq, Repr

/-- The function `FindGap::parameterInitialization` (findGap.cpp 34-40). -/
def FindGap.parameterInitialization (fg : FindGap) : FindGap :=
  { fg with
    maxSearchSize := fg.kmerSize + 20
    minNumbOfPairs := 10
    minOverlapSize := 15
    minSim := 50
    minExactMatchSize := 7 }

/-- The six reference parameters of `extendRead`. -/
structure ReadRefs where
  firstStartIndex : Nat
  secondStartIndex : Nat
  firstEndInex : Nat
  secondEndIndex : Nat
  firstRead : List Nucleotide
  secondRead : List Nucleotide
  deriving DecidableEq, Repr

/-- Lines 395-397 and 400-402 of `FindGap::extendRead`: the length of a search window, the
length of the sequence capped at `maxSearchSize`. -/
def FindGap.windowLen (fg : FindGap) (len : Nat) : Nat :=
  if len > fg.maxSearchSize then fg.maxSearchSize else len

/-- Lines 413-420 of `FindGap::extendRead`: the two start indices, moved back together until
one of them is 0. -/
def shiftStart (firstStartIndex secondStartIndex : Nat) : Nat × Nat :=
  if firstStartIndex < secondStartIndex then (0, secondStartIndex - firstStartIndex)
  else (firstStartIndex - secondStartIndex, 0)

/-- Lines 421-428 of `FindGap::extendRead`: the two end indices, moved forward together until
one of them is the end of its sequence. -/
def shiftEnd (firstLen secondLen firstEndInex secondEndIndex : Nat) : Nat × Nat :=
  if firstLen - firstEndInex < secondLen - secondEndIndex then
    (firstLen, secondEndIndex + firstLen - firstEndInex)
  else (firstEndInex + secondLen - secondEndIndex, secondLen)

/-- The function `FindGap::extendRead` (findGap.cpp 387-434): the returned flag and the values
left in the six reference parameters. The indices are natural numbers with truncated subtraction: every
subtraction in the function has a left operand at least as large as the right one
(`extendRead_accept`), so none of them wraps. -/
def FindGap.extendRead (fg : FindGap) (g : DBGraph) (first second : SSNode) (r : ReadRefs) :
    Option (Bool × ReadRefs) := do
  let firstSeq := first.getSequence g
  let secondSeq := second.getSequence g
  let maxLen1 := fg.windowLen firstSeq.length
  let firstSeq ← substr firstSeq (firstSeq.length - maxLen1) maxLen1
  let maxLen2 := fg.windowLen secondSeq.length
  let secondSeq ← substr secondSeq 0 maxLen2
  let (commonSubstr, firstStartIndex, secondStartIndex) ←
    getLongestCommonSubStr firstSeq secondSeq
  if commonSubstr.length < fg.minExactMatchSize then
    pure (false, { r with firstStartIndex := firstStartIndex,
                          secondStartIndex := secondStartIndex })
  else
    let firstStartIndex := firstStartIndex + (first.getSequence g).length - maxLen1
    let firstEndInex := firstStartIndex + commonSubstr.length
    let secondEndIndex := secondStartIndex + commonSubstr.length
    let (firstStartIndex, secondStartIndex) := shiftStart firstStartIndex secondStartIndex
    let (firstEndInex, secondEndIndex) :=
      shiftEnd (first.getSequence g).length (second.getSequence g).length
        firstEndInex secondEndIndex
    let firstRead ← substr (first.getSequence g) firstStartIndex (firstEndInex - firstStartIndex)
    let secondRead ←
      substr (second.getSequence g) secondStartIndex (secondEndIndex - secondStartIndex)
    let out : ReadRefs := ⟨firstStartIndex, secondStartIndex, firstEndInex, secondEndIndex,
      firstRead, secondRead⟩
    if firstEndInex < (first.getSequence g).length ∨ secondStartIndex > 0 then
      pure (false, out)
    else pure (true, out)

/-- The window of `first` searched by `extendRead`: its last `windowLen` bases. -/
def FindGap.trailingWindow (fg : FindGap) (s : List Nucleotide) : List Nucleotide :=
  (s.drop (s.length - fg.windowLen s.length)).take (fg.windowLen s.length)

/-- The window of `second` searched by `extendRead`: its first `windowLen` bases. -/
def FindGap.leadingWindow (fg : FindGap) (s : List Nucleotide) : List Nucleotide :=
  s.take (fg.windowLen s.length)

/-- Lines 233-242 of `FindGap::connectNodes`: the call of `extendRead` (its flag is not
looked at) and the assembly of `consensusStr`. -/
def FindGap.consensusStr (fg : FindGap) (g : DBGraph) (first second : SSNode) :
    Option (List Nucleotide) := do
  let (_, r) ← fg.extendRead g first second ⟨0, 0, 0, 0, [], []⟩
  let consensusStr ←
    if r.firstStartIndex > 0 then substr (first.getSequence g) 0 r.firstStartIndex
    else pure []
  let consensusStr := consensusStr ++ r.firstRead
  if (second.getSequence g).length > r.secondEndIndex then
    let tail ← substr (second.getSequence g) r.secondEndIndex
      ((second.getSequence g).length - r.secondEndIndex)
    pure (consensusStr ++ tail)
  else pure consensusStr

/-- Lines 243-253 of `FindGap::connectNodes`: the two boundary comparisons and the k-mer
ownership loop; `some false` is one of the three `return false`. -/
def FindGap.validate (fg : FindGap) (g : DBGraph) (first second : SSNode)
    (firstNodeID secondNodeID : NodeID) (consensusStr : List Nucleotide) : Option Bool := do
  let k1 := sizeSub fg.kmerSize 1
  let firstHead ← substr (first.getSequence g) 0 k1
  let consHead ← substr consensusStr 0 k1
  if firstHead ≠ consHead then pure false
  else
    let secondSeq := second.getSequence g
    let secondTail ← substr secondSeq (sizeAdd (sizeSub secondSeq.length fg.kmerSize) 1) k1
    let consTail ←
      substr consensusStr (sizeAdd (sizeSub consensusStr.length fg.kmerSize) 1) k1
    if secondTail ≠ consTail then pure false
    else if (kmerWindows fg.kmerSize consensusStr).any (fun kmer =>
        let result := g.findNPP kmer
        result.isValid && decide (result.nodeID.natAbs ≠ firstNodeID.natAbs)
          && decide (result.nodeID.natAbs ≠ secondNodeID.natAbs)) then pure false
    else pure true

/-- One round of the loop of lines 257-263: detach the left neighbour `it` from `second`. -/
def detachLeft (second : SSNode) (g : DBGraph) (it : Arc) : Option DBGraph := do
  let leftNode ← g.getSSNode it.nodeID
  if leftNode.getNodeID = -second.getNodeID then pure g
  else
    let (result, g') := leftNode.deleteRightArc g second.getNodeID
    if result then pure g' else none

/-- One round of the loop of lines 264-270: detach the right neighbour `it` from `second`. -/
def detachRight (second : SSNode) (g : DBGraph) (it : Arc) : Option DBGraph := do
  let rightNode ← g.getSSNode it.nodeID
  if rightNode.getNodeID = -second.getNodeID then pure g
  else
    let (result, g') := rightNode.deleteLeftArc g second.getNodeID
    if result then pure g' else none

/-- Lines 254-278 of `FindGap::connectNodes`: the commit. A failed `assert(result)` is `none`.
The loop bodies never change the list they iterate over (the only neighbour sharing that list
is `-second`, which is skipped), so each loop runs over the arcs found at its start. -/
def connectNodesCommit (g : DBGraph) (first second : SSNode)
    (consensusStr : List Nucleotide) : Option DBGraph := do
  let g := first.deleteAllRightArcs g
  let g ← first.inheritRightArcs g second
  let g := first.setSequence g consensusStr
  let g ← (second.leftArcs g).foldlM (detachLeft second) g
  let g ← (second.rightArcs g).foldlM (detachRight second) g
  let newKmerCov := first.getKmerCov g + second.getKmerCov g
  let newReadStartCov := first.getReadStartCov g + second.getReadStartCov g
  let g := first.setKmerCov g newKmerCov
  let g := first.setReadStartCov g newReadStartCov
  let g := second.deleteAllLeftArcs g
  let g := second.deleteAllRightArcs g
  pure (second.invalidate g)

/-- The function `FindGap::connectNodes` (findGap.cpp 229-280): the returned flag and the graph
it leaves; `none` is an abort (a failed assertion or an uncaught `std::out_of_range`). -/
def FindGap.connectNodes (fg : FindGap) (g : DBGraph) (firstNodeID secondNodeID : NodeID) :
    Option (Bool × DBGraph) := do
  let first ← g.getSSNode firstNodeID
  let second ← g.getSSNode secondNodeID
  let consensusStr ← fg.consensusStr g first second
  if ← fg.validate g first second firstNodeID secondNodeID consensusStr then
    let g' ← connectNodesCommit g first second consensusStr
    pure (true, g')
  else pure (false, g)

/-! ## A small graph used to run the definitions -/

/-- Offset of the first occurrence of `w` in `s`. -/
def findOffset (w s : List Nucleotide) : Option Nat :=
  (List.range (s.length + 1 - w.length)).find? fun o => (s.drop o).take w.length = w

/-- A k-mer table for the first `n` nodes of `nodes`: a k-mer is located on the first node
that holds it, on the reverse strand when only the reverse complement holds it. -/
def tableOf (nodes : Nat → DSNode) (n : Nat) (w : List Nucleotide) : NodePosPair :=
  match (List.range n).findSome? (fun i =>
      match findOffset w (nodes (i + 1)).sequence with
      | some o => some (⟨((i + 1 : Nat) : Int), o⟩ : NodePosPair)
      | none =>
        match findOffset w (revCompl (nodes (i + 1)).sequence) with
        | some o => some ⟨-((i + 1 : Nat) : Int), o⟩
        | none => none) with
  | some r => r
  | none => ⟨0, 0⟩

/-- Four nodes: node 1 (`TTACGGTCA`) and node 2 (`ACGGTCAGG`) are two tips that overlap in
`ACGGTCA`; node 4 precedes node 1 and node 3 (reversed) follows node 2. -/
def exNodes : Nat → DSNode
  | 1 => ⟨[.T, .T, .A, .C, .G, .G, .T, .C, .A], 30, 4, [⟨4, 2⟩], [], false⟩
  | 2 => ⟨[.A, .C, .G, .G, .T, .C, .A, .G, .G], 20, 3, [], [⟨-3, 5⟩], false⟩
  | 3 => ⟨[.A, .A, .A, .C, .C], 9, 1, [], [⟨-2, 5⟩], false⟩
  | 4 => ⟨[.G, .C, .G, .T, .T], 8, 2, [], [⟨1, 2⟩], false⟩
  | _ => ⟨[], 0, 0, [], [], true⟩

/-- The example graph, with the k-mer table of its four nodes for `k = 3`. -/
def exGraph : DBGraph := ⟨4, exNodes, tableOf exNodes 4⟩

/-- The parameters of a run with `k = 3`. -/
def exFindGap : FindGap := (FindGap.mk 3 0 0 0 0 0).parameterInitialization

/-- The reference parameters as `connectNodes` initialises them. -/
def ReadRefs.init : ReadRefs := ⟨0, 0, 0, 0, [], []⟩

/-- The graphs `g` and `g'` differ in arcs only: same size, same k-mer table, and every node
has the same sequence, coverages and validity flag. -/
structure SamePayload (g g' : DBGraph) : Prop where
  numNodes : g'.numNodes = g.numNodes
  findNPP : g'.findNPP = g.findNPP
  sequence : ∀ i, (g'.nodes i).sequence = (g.nodes i).sequence
  kmerCov : ∀ i, (g'.nodes i).kmerCov = (g.nodes i).kmerCov
  readStartCov : ∀ i, (g'.nodes i).readStartCov = (g.nodes i).readStartCov
  invalid : ∀ i, (g'.nodes i).invalid = (g.nodes i).invalid

/-- The k-mer ownership condition of a merge of `firstNodeID` and `secondNodeID`: the window
`kmer` is absent from the table, or anchored on one of the two nodes. -/
def ownedKmer (g : DBGraph) (firstNodeID secondNodeID : NodeID) (kmer : List Nucleotide) :
    Prop :=
  (g.findNPP kmer).nodeID = 0 ∨ (g.findNPP kmer).nodeID.natAbs = firstNodeID.natAbs
    ∨ (g.findNPP kmer).nodeID.natAbs = secondNodeID.natAbs

instance (g : DBGraph) (a b : NodeID) (kmer : List Nucleotide) :
    Decidable (ownedKmer g a b kmer) := by
  unfold ownedKmer; infer_instance

/-- The validation of a consensus in the words of the spec: its first `k-1` bases are those
of `first`, its last `k-1` bases are those of `second`, and every k-mer window of it is absent
from the table or anchored on one of the two nodes. -/
def Validated (k : Nat) (g : DBGraph) (first second : SSNode) (firstNodeID secondNodeID : NodeID)
    (cons : List Nucleotide) : Prop :=
  cons.take (k - 1) = (first.getSequence g).take (k - 1) ∧
  cons.drop (cons.length - (k - 1))
    = (second.getSequence g).drop ((second.getSequence g).length - (k - 1)) ∧
  ∀ kmer ∈ kmerWindows k cons, ownedKmer g firstNodeID secondNodeID kmer

instance (k : Nat) (g : DBGraph) (first second : SSNode) (a b : NodeID)
    (cons : List Nucleotide) : Decidable (Validated k g first second a b cons) := by
  unfold Validated; infer_instance

/-- Two isolated nodes of a de Bruijn graph for `k = 3`: node 1 is `ACG`, node 2 is `GTT`. -/
def exTipNodes : Nat → DSNode
  | 1 => ⟨[.A, .C, .G], 5, 1, [], [], false⟩
  | 2 => ⟨[.G, .T, .T], 4, 1, [], [], false⟩
  | _ => ⟨[], 0, 0, [], [], true⟩

/-- The graph of the two isolated nodes, with its k-mer table. -/
def exTips : DBGraph := ⟨2, exTipNodes, tableOf exTipNodes 2⟩

/-- The graph left by `connectNodes(1, 2)` on the two isolated nodes. -/
def exTipsJoined : DBGraph :=
  ((exFindGap.connectNodes exTips 1 2).map Prod.snd).getD exTips

/-- The right arcs of the oriented node `x`: the whole adjacency of the graph, indexed by
signed identifier (the left arcs of `x` are the arcs of `-x`, negated). -/
def DBGraph.adj (g : DBGraph) (x : NodeID) : List Arc := SSNode.rightArcs ⟨x.natAbs, x⟩ g

/-- The number of arcs of a list that lead to the oriented node `t`. -/
def refs (t : NodeID) (l : List Arc) : Nat := l.countP fun a => decide (a.nodeID = t)

/-- The data-model invariant "arc lists are symmetric": if the oriented node `x` has a right
arc to `y` with coverage `c`, then `y` has a left arc back to `x` with the same coverage. -/
def ArcSymmetric (g : DBGraph) : Prop :=
  ∀ (x : NodeID) (X : SSNode), g.getSSNode x = some X → ∀ arc ∈ X.rightArcs g,
    ∀ Y : SSNode, g.getSSNode arc.nodeID = some Y →
      (⟨x, arc.coverage⟩ : Arc) ∈ Y.leftArcs g

/-- No node has two arcs on the same side that lead to the same oriented node. -/
def NoParallelArcs (g : DBGraph) : Prop :=
  ∀ (x : NodeID) (X : SSNode), g.getSSNode x = some X →
    ((X.rightArcs g).map Arc.nodeID).Nodup

/-- Two isolated nodes whose sequences share the two blocks `AAACGTC` and `TTGACCA`, one base
further apart in node 2 than in node 1. -/
def exTwinNodes : Nat → DSNode
  | 1 => ⟨[.A, .A, .A, .C, .G, .T, .C, .G, .T, .T, .G, .A, .C, .C, .A, .C], 30, 4, [], [], false⟩
  | 2 => ⟨[.A, .A, .A, .C, .G, .T, .C, .C, .T, .T, .T, .G, .A, .C, .C, .A, .G], 40, 3, [], [],
      false⟩
  | _ => ⟨[], 0, 0, [], [], true⟩

/-- The graph of the two nodes of `exTwinNodes`, with its k-mer table. -/
def exTwins : DBGraph := ⟨2, exTwinNodes, tableOf exTwinNodes 2⟩

/-! ## Tips (findGap.cpp 632-646) -/

/-- One round of the loop of `FindGap::findTips` (findGap.cpp 634-645) for the identifier
`id`; the container `set<int>` is a finite set of integers. -/
def findTipsRound (g : DBGraph) (tipNodes : Finset Int) (id : NodeID) : Option (Finset Int) := do
  let node ← g.getSSNode id
  if !node.isValid g then pure tipNodes
  else
    let leftDE := node.getNumLeftArcs g == 0
    let rightDE := node.getNumRightArcs g == 0
    if !leftDE && !rightDE then pure tipNodes
    else pure (insert node.getNodeID tipNodes)

/-- The function `FindGap::findTips` (findGap.cpp 632-646): `id` runs from 1 to the number of
nodes. -/
def FindGap.findTips (g : DBGraph) (tipNodes : Finset Int) : Option (Finset Int) :=
  (List.range g.numNodes).foldlM (fun tipNodes i => findTipsRound g tipNodes ((i + 1 : Nat) : Int))
    tipNodes

/-- The physical node `n` of `g` is a tip: it is valid and has no left arc or no right arc. -/
def IsTip (g : DBGraph) (n : Nat) : Prop :=
  (g.nodes n).invalid = false ∧ ((g.nodes n).leftArcs = [] ∨ (g.nodes n).rightArcs = [])

instance (g : DBGraph) (n : Nat) : Decidable (IsTip g n) := by
  unfold IsTip; infer_instance

/-- The reading of the stored identifiers in the words of the spec: the sign of a stored
identifier tells which side is open, so a tip open only on its right and a tip open only on
its left are stored with opposite signs. -/
def SignRecordsOpenSide (g : DBGraph) (tips : Finset Int) : Prop :=
  ∀ x ∈ tips, ∀ y ∈ tips,
    ((g.nodes x.natAbs).rightArcs = [] ∧ (g.nodes x.natAbs).leftArcs ≠ []) →
    ((g.nodes y.natAbs).leftArcs = [] ∧ (g.nodes y.natAbs).rightArcs ≠ []) →
    (0 < x ↔ y < 0)

/-! ## Streaming the reads (findGap.cpp 182-209 and 282-384) -/

/-- The key type `pair<int, int>` of the two maps of `streamReads`: a pair of tip
identifiers. -/
abbrev TipPair := Int × Int

/-- The order of `std::pair<int, int>`, by which a `std::map` keeps its keys: lexicographic. -/
def TipPair.lt (a b : TipPair) : Prop := a.1 < b.1 ∨ (a.1 = b.1 ∧ a.2 < b.2)

instance (a b : TipPair) : Decidable (TipPair.lt a b) := by
  unfold TipPair.lt; infer_instance

/-- The container `std::map<pair<int, int>, int>`: its entries in the order of their keys,
which is the order in which an iterator visits them. The counts are never negative. -/
abbrev JoinMap := List (TipPair × Nat)

/-- The lookup `m.find(key)`: the value stored under `key`, `none` for `m.end()`. -/
def JoinMap.find : JoinMap → TipPair → Option Nat
  | [], _ => none
  | (k, v) :: rest, key => if k = key then some v else JoinMap.find rest key

/-- The assignment `m[key] = value`: the entry of `key` is overwritten, or created at the
place of `key` in the order of the keys. -/
def JoinMap.assign : JoinMap → TipPair → Nat → JoinMap
  | [], key, value => [(key, value)]
  | (k, v) :: rest, key, value =>
    if k = key then (key, value) :: rest
    else if TipPair.lt key k then (key, value) :: (k, v) :: rest
    else (k, v) :: JoinMap.assign rest key value

/-- Lines 337-340 of `FindGap::streamReads`: one more vote for `join`. -/
def JoinMap.vote (pairedEndJoinsTemp : JoinMap) (join : TipPair) : JoinMap :=
  match JoinMap.find pairedEndJoinsTemp join with
  | some v => JoinMap.assign pairedEndJoinsTemp join (v + 1)
  | none => JoinMap.assign pairedEndJoinsTemp join 1

/-- Lines 347-359 of `FindGap::streamReads`: the map `pairedEndJoins` built from the votes,
one round of the loop for each entry `it` of `pairedEndJoinsTemp`. -/
def FindGap.sumDirections (fg : FindGap) (pairedEndJoinsTemp : JoinMap) : JoinMap :=
  pairedEndJoinsTemp.foldl (fun pairedEndJoins it =>
    if it.1.1.natAbs < it.1.2.natAbs then
      let reverseJoin : TipPair := (-it.1.2, -it.1.1)
      let frequency := it.2
      let frequency :=
        match JoinMap.find pairedEndJoinsTemp reverseJoin with
        | some r => frequency + r
        | none => frequency
      if frequency > fg.minNumbOfPairs then JoinMap.assign pairedEndJoins it.1 frequency
      else pairedEndJoins
    else pairedEndJoins) []

/-- The contract of `std::sort` with the comparator `sort_pairs` of lines 362-366
(`left.second > right.second`): the result is a rearrangement of the input in which no
element is ordered before an element that stands earlier. The order among elements of equal
count is left open by the library, so the sorting routine is a parameter of `streamReads`. -/
def SortsPairs (stdSort : List (TipPair × Nat) → List (TipPair × Nat)) : Prop :=
  ∀ l, (stdSort l).Perm l ∧ (stdSort l).Pairwise fun left right => ¬ right.2 > left.2

/-- The number of votes recorded for the ordered pair `join`. -/
def votes (pairedEndJoinsTemp : JoinMap) (join : TipPair) : Nat :=
  (JoinMap.find pairedEndJoinsTemp join).getD 0

/-- The combined support of `(t1, t2)` in the words of the spec: its votes plus the votes of
the equivalent pair `(-t2, -t1)`. -/
def combinedSupport (pairedEndJoinsTemp : JoinMap) (join : TipPair) : Nat :=
  votes pairedEndJoinsTemp join + votes pairedEndJoinsTemp (-join.2, -join.1)

/-- The keys of a map are strictly increasing. -/
def JoinMap.WF (m : JoinMap) : Prop := (m.map Prod.fst).Pairwise TipPair.lt

namespace SSNode

/-- Modelled from the spec: `SSNode::getLength`, the length of the sequence of the node. -/
def getLength (v : SSNode) (g : DBGraph) : Nat := (v.getSequence g).length

/-- Modelled from the spec: `SSNode::getNucleotide(pos)`, the base at offset `pos` of the
sequence in the orientation of the view; there is none past the end. -/
def getNucleotide (v : SSNode) (g : DBGraph) (pos : Nat) : Option Nucleotide :=
  (v.getSequence g)[pos]?

/-- Modelled from the spec: `SSNode::getMarginalLength`, the length of sequence a node
contributes beyond the `k - 1` overlap. -/
def getMarginalLength (v : SSNode) (g : DBGraph) (k : Nat) : Nat := v.getLength g - (k - 1)

/-- Modelled from the spec: `SSNode::substr`, a piece of the sequence of the view. -/
def substr (v : SSNode) (g : DBGraph) (pos len : Nat) : Option (List Nucleotide) :=
  Brownie.substr (v.getSequence g) pos len

/-- Modelled from the spec: `SSNode::getAvgKmerCov`, the k-mer coverage divided by the
marginal length. The source computes it in floating point; here it is the exact quotient. -/
def getAvgKmerCov (v : SSNode) (g : DBGraph) (k : Nat) : ℚ :=
  (v.getKmerCov g : ℚ) / (v.getMarginalLength g k : ℚ)

end SSNode

/-- The write `nppv[index] = npp` into a `std::vector`; an index past the end is outside
the vector and has no defined effect, it is `none`. -/
def vectorSet (nppv : List NodePosPair) (index : Nat) (npp : NodePosPair) :
    Option (List NodePosPair) :=
  if index < nppv.length then some (nppv.set index npp) else none

/-- The construction `vector<NodePosPair> nppv(length + 1 - Kmer::getK())` of lines 306 and
308: a vector of invalid pairs. When `length + 1` is less than `k` the `size_t` difference
wraps to nearly `2^64` elements and the allocation fails, which is `none`. -/
def newNppv (k length : Nat) : Option (List NodePosPair) :=
  if length + 1 < k then none else some (List.replicate (length + 1 - k) ⟨0, 0⟩)

/-- The `while` loop of `FindGap::findNPPFast` (findGap.cpp 196-205). The first argument
counts the bases of the read from `readPos` on: the loop stops at the latest when it is used
up, because then `readPos < read.size()` fails. The result is the offset at which the k-mer
iterator `it` stands, and the vector. -/
def findNPPFastRun (k : Nat) (g : DBGraph) (read : List Nucleotide) (nodeID : NodeID)
    (node : SSNode) :
    Nat → Nat → Nat → Nat → List NodePosPair → Option (Nat × List NodePosPair)
  | 0, offset, _, _, nppv => some (offset, nppv)
  | left + 1, offset, readPos, nodePos, nppv =>
    if readPos < read.length ∧ nodePos < node.getLength g then do
      let c ← read[readPos]?
      let d ← node.getNucleotide g nodePos
      if c = d then
        let offset := offset + 1
        let nppv ← vectorSet nppv offset ⟨nodeID, nodePos - k + 1⟩
        findNPPFastRun k g read nodeID node left offset (readPos + 1) (nodePos + 1) nppv
      else pure (offset, nppv)
    else pure (offset, nppv)

/-- The `for` loop of `FindGap::findNPPFast` (findGap.cpp 184-208): the k-mer iterator stands
at `offset` and is valid while a whole k-mer is left. Every round moves the iterator forward,
so `fuel` rounds are enough when `fuel` exceeds the length of the read; with too few the
result is `none`. -/
def findNPPFastLoop (k : Nat) (g : DBGraph) (read : List Nucleotide) :
    Nat → Nat → List NodePosPair → Option (List NodePosPair)
  | 0, offset, nppv => if offset + k ≤ read.length then none else some nppv
  | fuel + 1, offset, nppv =>
    if offset + k ≤ read.length then do
      let kmer := (read.drop offset).take k
      let npp := g.findNPP kmer
      let nppv ← vectorSet nppv offset npp
      if !npp.isValid then findNPPFastLoop k g read fuel (offset + 1) nppv
      else
        let nodeID := npp.nodeID
        let node ← g.getSSNode nodeID
        let readPos := offset + k
        let nodePos := npp.position + k
        let (offset, nppv) ←
          findNPPFastRun k g read nodeID node (read.length - readPos) offset readPos nodePos nppv
        findNPPFastLoop k g read fuel (offset + 1) nppv
    else some nppv

/-- The function `FindGap::findNPPFast` (findGap.cpp 182-209): the vector it leaves. A read
is a sequence over the alphabet of the graph; what `KmerIt` (kmer.h, not among the sources)
does with other characters is not modelled. -/
def FindGap.findNPPFast (fg : FindGap) (g : DBGraph) (read : List Nucleotide)
    (nppv : List NodePosPair) : Option (List NodePosPair) :=
  findNPPFastLoop fg.kmerSize g read (read.length + 1) 0 nppv

/-- The first loop of lines 312-321 of `FindGap::streamReads`, run on the entries of
`nppvFirst` that are left: the value of `firstTipId` and of `firstFoundOntip` at its end. -/
def scanFirstMate (g : DBGraph) (tipNodes : Finset Int) :
    List NodePosPair → Int → Option (Int × Bool)
  | [], firstTipId => some (firstTipId, false)
  | npp :: rest, firstTipId =>
    if npp.isValid then
      if (npp.nodeID.natAbs : Int) ∈ tipNodes then do
        let firstTipId := npp.nodeID
        let node ← g.getSSNode firstTipId
        if node.getNumRightArcs g = 0 then pure (firstTipId, true)
        else scanFirstMate g tipNodes rest firstTipId
      else scanFirstMate g tipNodes rest firstTipId
    else scanFirstMate g tipNodes rest firstTipId

/-- The second loop of lines 322-331 of `FindGap::streamReads`, run on the entries of
`nppvSecond` that are left: the value of `secondTipId` and of `secondFoundOnTip` at its end. -/
def scanSecondMate (g : DBGraph) (tipNodes : Finset Int) :
    List NodePosPair → Int → Option (Int × Bool)
  | [], secondTipId => some (secondTipId, false)
  | npp :: rest, secondTipId =>
    if npp.isValid then
      if (npp.nodeID.natAbs : Int) ∈ tipNodes then do
        let secondTipId := -npp.nodeID
        let node ← g.getSSNode secondTipId
        if node.getNumLeftArcs g = 0 then pure (secondTipId, true)
        else scanSecondMate g tipNodes rest secondTipId
      else scanSecondMate g tipNodes rest secondTipId
    else scanSecondMate g tipNodes rest secondTipId

/-- Lines 332-343 of `FindGap::streamReads`: the vote of one read pair, from the two anchor
vectors. -/
def countVote (g : DBGraph) (tipNodes : Finset Int) (nppvFirst nppvSecond : List NodePosPair)
    (pairedEndJoinsTemp : JoinMap) : Option JoinMap := do
  let (firstTipId, firstFoundOntip) ← scanFirstMate g tipNodes nppvFirst 0
  let (secondTipId, secondFoundOnTip) ← scanSecondMate g tipNodes nppvSecond 0
  if firstFoundOntip && secondFoundOnTip then
    if firstTipId.natAbs ≠ secondTipId.natAbs then
      let join : TipPair := (firstTipId, secondTipId)
      pure (JoinMap.vote pairedEndJoinsTemp join)
    else pure pairedEndJoinsTemp
  else pure pairedEndJoinsTemp

/-- Lines 305-344 of `FindGap::streamReads`: the work done for one read pair. -/
def FindGap.countPair (fg : FindGap) (g : DBGraph) (tipNodes : Finset Int)
    (firstPair secondPair : List Nucleotide) (pairedEndJoinsTemp : JoinMap) :
    Option JoinMap := do
  let nppvFirst ← newNppv fg.kmerSize firstPair.length
  let nppvFirst ← fg.findNPPFast g firstPair nppvFirst
  let nppvSecond ← newNppv fg.kmerSize secondPair.length
  let nppvSecond ← fg.findNPPFast g secondPair nppvSecond
  countVote g tipNodes nppvFirst nppvSecond pairedEndJoinsTemp

/-- The variables of the `while` loop of `FindGap::streamReads`. -/
structure StreamState where
  i : Nat
  firstPair : List Nucleotide
  secondPair : List Nucleotide
  pairedEndJoinsTemp : JoinMap

/-- One round of the `while` loop of `FindGap::streamReads` (findGap.cpp 296-346), for the
line just read. -/
def FindGap.streamLine (fg : FindGap) (g : DBGraph) (tipNodes : Finset Int) (st : StreamState)
    (line : List Nucleotide) : Option StreamState := do
  let firstPair := if st.i % 8 = 1 then line else st.firstPair
  let secondPair := if st.i % 8 = 5 then line else st.secondPair
  let pairedEndJoinsTemp ←
    (if st.i % 8 = 6 then fg.countPair g tipNodes firstPair secondPair st.pairedEndJoinsTemp
    else pure st.pairedEndJoinsTemp)
  pure ⟨st.i + 1, firstPair, secondPair, pairedEndJoinsTemp⟩

/-- The `while` loop of `FindGap::streamReads`: the votes collected from the lines of the
file. -/
def FindGap.collectVotes (fg : FindGap) (g : DBGraph) (tipNodes : Finset Int)
    (lines : List (List Nucleotide)) : Option JoinMap :=
  (lines.foldlM (fg.streamLine g tipNodes) ⟨0, [], [], []⟩).map StreamState.pairedEndJoinsTemp

/-- The function `FindGap::streamReads` (findGap.cpp 282-384): the vector `potentialPairs`
it leaves. The file is the list of its lines that `getline` reads with success, or `none`
when it cannot be opened; only the lines 1 and 5 of each group of 8 are looked at, and they
are sequences over the alphabet of the graph. -/
def FindGap.streamReads (fg : FindGap) (g : DBGraph)
    (stdSort : List (TipPair × Nat) → List (TipPair × Nat))
    (input : Option (List (List Nucleotide))) (tipNodes : Finset Int)
    (potentialPairs : List (TipPair × Nat)) : Option (List (TipPair × Nat)) :=
  match input with
  | none => some potentialPairs
  | some lines => do
    let pairedEndJoinsTemp ← fg.collectVotes g tipNodes lines
    let pairedEndJoins := fg.sumDirections pairedEndJoinsTemp
    let potentialPairs := potentialPairs ++ pairedEndJoins
    pure (stdSort potentialPairs)

/-- The count under which round `it` of the loop of `sumDirections` stores its key, if it
stores it. -/
def keptCount (fg : FindGap) (pairedEndJoinsTemp : JoinMap) (it : TipPair × Nat) :
    Option Nat :=
  if it.1.1.natAbs < it.1.2.natAbs ∧
      it.2 + votes pairedEndJoinsTemp (-it.1.2, -it.1.1) > fg.minNumbOfPairs then
    some (it.2 + votes pairedEndJoinsTemp (-it.1.2, -it.1.1))
  else none

/-- The tip of mate 1 in the words of the spec: the node identifier of the first anchored
position, in read order, that lies on a node of the tip set and whose oriented node has no
right arcs. -/
def firstMateTip (g : DBGraph) (tipNodes : Finset Int) (nppvFirst : List NodePosPair) :
    Option Int :=
  (nppvFirst.find? fun npp =>
    npp.isValid && decide ((npp.nodeID.natAbs : Int) ∈ tipNodes)
      && decide (SSNode.getNumRightArcs ⟨npp.nodeID.natAbs, npp.nodeID⟩ g = 0)).map
    fun npp => npp.nodeID

/-- The tip of mate 2 in the words of the spec: the negated node identifier of the first
anchored position that lies on a node of the tip set and whose negated orientation has no
left arcs. -/
def secondMateTip (g : DBGraph) (tipNodes : Finset Int) (nppvSecond : List NodePosPair) :
    Option Int :=
  (nppvSecond.find? fun npp =>
    npp.isValid && decide ((npp.nodeID.natAbs : Int) ∈ tipNodes)
      && decide (SSNode.getNumLeftArcs ⟨npp.nodeID.natAbs, -npp.nodeID⟩ g = 0)).map
    fun npp => -npp.nodeID

/-- The vote rule in the words of the spec: one vote for `(t1, t2)` if both tips exist and
lie on different physical nodes, no vote otherwise. -/
def voteRule (g : DBGraph) (tipNodes : Finset Int) (nppvFirst nppvSecond : List NodePosPair) :
    Option TipPair :=
  match firstMateTip g tipNodes nppvFirst, secondMateTip g tipNodes nppvSecond with
  | some t1, some t2 => if t1.natAbs ≠ t2.natAbs then some (t1, t2) else none
  | _, _ => none

/-- The anchor vector of a mate as `streamReads` computes it (lines 306-309). -/
def FindGap.anchors (fg : FindGap) (g : DBGraph) (read : List Nucleotide) :
    Option (List NodePosPair) := do
  let nppv ← newNppv fg.kmerSize read.length
  fg.findNPPFast g read nppv

/-- All values of a map are positive. -/
def JoinMap.Positive (m : JoinMap) : Prop := ∀ key v, JoinMap.find m key = some v → 0 < v

/-! ## Graph-assisted extension and tip alignment (findGap.cpp 211-227 and 436-529) -/

/-- An entry `pair<string, vector<NodeID>>` of the search of `expandNode`: the sequence
spelled by a path and the nodes of the path. -/
abbrev SearchPath := List Nucleotide × List NodeID

/-- One round of the inner loop of `FindGap::expandNode` (findGap.cpp 507-516): the path
extended by the right arc `it` is added to `mustVisit`. -/
def expandNodeArc (k : Nat) (g : DBGraph) (path : SearchPath) (mustVisit : List SearchPath)
    (it : Arc) : Option (List SearchPath) := do
  let currentPath := path.2
  let nextID := it.nodeID
  let currentPath := currentPath ++ [nextID]
  let nextNode ← g.getSSNode nextID
  let OLSize := nextNode.getMarginalLength g k
  let nodeOL ← nextNode.substr g (sizeSub k 1) OLSize
  let nextpath := path.1 ++ nodeOL
  pure (mustVisit ++ [(nextpath, currentPath)])

/-- One round of the outer loop of `FindGap::expandNode` (findGap.cpp 501-522), on the
vectors `mustVisit` and `result`; `back()` of an empty vector is `none`. -/
def expandNodeRound (k : Nat) (g : DBGraph) (length : Nat)
    (acc : List SearchPath × List SearchPath) (path : SearchPath) :
    Option (List SearchPath × List SearchPath) := do
  let (mustVisit, result) := acc
  let startNode ← g.getSSNode (← path.2.getLast?)
  let currentPathstr := path.1
  if currentPathstr.length < length then
    if startNode.getNumRightArcs g ≠ 0 then
      let mustVisit ← (startNode.rightArcs g).foldlM (expandNodeArc k g path) mustVisit
      pure (mustVisit, result)
    else pure (mustVisit, result)
  else pure (mustVisit, result ++ [path])

/-- The function `FindGap::expandNode` (findGap.cpp 495-529): the vector `result` it leaves.
The first argument bounds the depth of the recursion; `none` is an abort of the run or a
recursion deeper than that bound. -/
def FindGap.expandNode (fg : FindGap) (g : DBGraph) (length : Nat) :
    Nat → List SearchPath → List SearchPath → Option (List SearchPath)
  | 0, _, _ => none
  | fuel + 1, bfs, result => do
    let (mustVisit, result) ← bfs.foldlM (expandNodeRound fg.kmerSize g length) ([], result)
    if mustVisit.length > 0 then fg.expandNode g length fuel mustVisit result
    else pure result

/-- The loop of lines 450-457 of `expandReadByGraphToRight`: the best score and the best
path after the entries of `result`. -/
def bestRightPath (align : List Nucleotide → List Nucleotide → Int) (k len : Nat)
    (secondRight : List Nucleotide) (result : List SearchPath) (bestScore : Int) :
    Option (Int × List Nucleotide) :=
  result.foldlM (fun (best : Int × List Nucleotide) it => do
    let currentPathstr := it.1
    let pathRightPart ← substr currentPathstr (sizeSub k 1) len
    let score := align secondRight pathRightPart
    if score > best.1 then pure (score, pathRightPart) else pure best) (bestScore, [])

/-- The function `FindGap::expandReadByGraphToRight` (findGap.cpp 436-462): the values left
in `firstEndInex`, `secondEndIndex`, `firstRead` and `secondRead`. The scorer
`alignment.align` is the parameter `align`. -/
def FindGap.expandReadByGraphToRight (fg : FindGap) (g : DBGraph)
    (align : List Nucleotide → List Nucleotide → Int) (fuel : Nat) (first second : SSNode)
    (firstEndInex secondEndIndex : Nat) (firstRead secondRead : List Nucleotide) :
    Option (Nat × Nat × List Nucleotide × List Nucleotide) := do
  let nodes := [first.getNodeID]
  let firstSeq := first.getSequence g
  let pos := sizeAdd (sizeSub firstSeq.length fg.kmerSize) 1
  let p ← substr firstSeq pos (firstSeq.length - pos)
  let bfs := [(p, nodes)]
  let secondSeq := second.getSequence g
  let result ← fg.expandNode g
    (sizeSub (sizeAdd (sizeSub secondSeq.length secondEndIndex) fg.kmerSize) 1) fuel bfs []
  let secondRight ← substr secondSeq secondEndIndex (sizeSub secondSeq.length secondEndIndex)
  let bestScore : Int := -((sizeSub secondSeq.length secondEndIndex : Nat) : Int) * 2
  let (_, bestPath) ← bestRightPath align fg.kmerSize
    (sizeSub secondSeq.length secondEndIndex) secondRight result bestScore
  let firstRead := firstRead ++ bestPath
  let firstEndInex := firstEndInex + bestPath.length
  let secondEndIndex := secondEndIndex + bestPath.length
  let tail ← substr secondRight 0 bestPath.length
  let secondRead := secondRead ++ tail
  pure (firstEndInex, secondEndIndex, firstRead, secondRead)

/-- The loop of lines 475-484 of `expandReadByGraphToLeft`: as `bestRightPath`, each
candidate reverse complemented before it is scored. -/
def bestLeftPath (align : List Nucleotide → List Nucleotide → Int) (k len : Nat)
    (secondleft : List Nucleotide) (result : List SearchPath) (bestScore : Int) :
    Option (Int × List Nucleotide) :=
  result.foldlM (fun (best : Int × List Nucleotide) it => do
    let currentPathstr := it.1
    let pathRightPart ← substr currentPathstr (sizeSub k 1) len
    let pathRightPart := revCompl pathRightPart
    let score := align secondleft pathRightPart
    if score > best.1 then pure (score, pathRightPart) else pure best) (bestScore, [])

/-- The function `FindGap::expandReadByGraphToLeft` (findGap.cpp 463-491): the values left
in `firsStartIndex`, `secondStartIndex`, `firstRead` and `secondRead`. -/
def FindGap.expandReadByGraphToLeft (fg : FindGap) (g : DBGraph)
    (align : List Nucleotide → List Nucleotide → Int) (fuel : Nat) (first second : SSNode)
    (_firsStartIndex secondStartIndex : Nat) (firstRead secondRead : List Nucleotide) :
    Option (Nat × Nat × List Nucleotide × List Nucleotide) := do
  let nodes := [first.getNodeID]
  let firstSeq := first.getSequence g
  let pos := sizeAdd (sizeSub firstSeq.length fg.kmerSize) 1
  let p ← substr firstSeq pos (firstSeq.length - pos)
  let bfs := [(p, nodes)]
  let result ← fg.expandNode g (sizeSub (sizeAdd secondStartIndex fg.kmerSize) 1) fuel bfs []
  let secondleft ← substr (second.getSequence g) 0 secondStartIndex
  let bestScore : Int := -(secondStartIndex : Int) * 2
  let (_, bestPath) ← bestLeftPath align fg.kmerSize secondStartIndex secondleft result bestScore
  let firstRead := bestPath ++ firstRead
  let firsStartIndex := 0
  let head ← substr secondleft (sizeSub secondStartIndex bestPath.length) bestPath.length
  let secondRead := head ++ secondRead
  let secondStartIndex := sizeSub secondStartIndex bestPath.length
  pure (firsStartIndex, secondStartIndex, firstRead, secondRead)

/-- The function `FindGap::alignTips` (findGap.cpp 211-227): the returned flag and the values
left in `firstRead` and `secondRead`. -/
def FindGap.alignTips (fg : FindGap) (g : DBGraph)
    (align : List Nucleotide → List Nucleotide → Int) (fuel : Nat)
    (firstNodeId secondNodeId : Int) (firstRead secondRead : List Nucleotide) :
    Option (Bool × List Nucleotide × List Nucleotide) := do
  let first ← g.getSSNode firstNodeId
  let second ← g.getSSNode secondNodeId
  let (ok, r) ← fg.extendRead g first second ⟨0, 0, 0, 0, firstRead, secondRead⟩
  if !ok then pure (false, r.firstRead, r.secondRead)
  else
    let r ←
      (if second.getNumRightArcs g ≠ 0 ∧ (first.getSequence g).length > r.firstEndInex then do
        let (secondEndIndex, firstEndInex, secondRead, firstRead) ←
          fg.expandReadByGraphToRight g align fuel second first r.secondEndIndex r.firstEndInex
            r.secondRead r.firstRead
        pure { r with firstEndInex := firstEndInex, secondEndIndex := secondEndIndex,
                      firstRead := firstRead, secondRead := secondRead }
      else pure r)
    let r ←
      (if first.getNumLeftArcs g ≠ 0 ∧ r.secondStartIndex > 0 then do
        let (firsStartIndex, secondStartIndex, firstRead, secondRead) ←
          fg.expandReadByGraphToLeft g align fuel first second r.firstStartIndex
            r.secondStartIndex r.firstRead r.secondRead
        pure { r with firstStartIndex := firsStartIndex, secondStartIndex := secondStartIndex,
                      firstRead := firstRead, secondRead := secondRead }
      else pure r)
    pure (true, r.firstRead, r.secondRead)

/-! ## Orientation and connection of the candidates (findGap.cpp 85-179) -/

/-- The expression `alignment.align(firstRead, secondRead)*100/(int)firstRead.length()`
of lines 110-116 and 150. Modelled from the spec: the scorer is an oracle that returns an
integer score (`alignment.h` is missing); the quotient is the integer division of C++, and a
division by zero is `none`. -/
def similarity (align : List Nucleotide → List Nucleotide → Int)
    (firstRead secondRead : List Nucleotide) : Option Int :=
  if firstRead.length = 0 then none
  else some ((align firstRead secondRead * 100).tdiv (firstRead.length : Int))

/-- Lines 109-110 of `FindGap::reorderTips`, and likewise 112-113, 115-116 and 118-119: the
similarity of one trial orientation, `-100` when `alignTips` fails. -/
def FindGap.trialSim (fg : FindGap) (g : DBGraph)
    (align : List Nucleotide → List Nucleotide → Int) (fuel : Nat)
    (firstNodeId secondNodeId : Int) : Option Int := do
  let (ok, firstRead, secondRead) ← fg.alignTips g align fuel firstNodeId secondNodeId [] []
  if ok then similarity align firstRead secondRead else pure (-100)

/-- The two statements of lines 89-90 of `FindGap::reorderTips` (also 94-95 and 99-100):
both views are replaced by their reverse complements. -/
def flipBoth (g : DBGraph) (first second : SSNode) : Option (SSNode × SSNode) := do
  let first ← g.getSSNode (-first.getNodeID)
  let second ← g.getSSNode (-second.getNodeID)
  pure (first, second)

/-- Lines 107-124 of `FindGap::reorderTips`: the body of the fourth `if`. The assignment to
`second` of line 124 stands after the `if` of line 122, which has no braces, so it is not
part of the `else` chain. -/
def FindGap.reorderIsolated (fg : FindGap) (g : DBGraph)
    (align : List Nucleotide → List Nucleotide → Int) (fuel : Nat) (first second : SSNode) :
    Option (SSNode × SSNode) := do
  let sim1 ← fg.trialSim g align fuel first.getNodeID second.getNodeID
  let sim2 ← fg.trialSim g align fuel (-first.getNodeID) second.getNodeID
  let sim3 ← fg.trialSim g align fuel first.getNodeID (-second.getNodeID)
  let sim4 ← fg.trialSim g align fuel (-first.getNodeID) (-second.getNodeID)
  let (first, second) ←
    (if sim2 > sim1 ∧ sim2 > sim3 ∧ sim2 > sim4 then do
      let first ← g.getSSNode (-first.getNodeID)
      pure (first, second)
    else if sim3 > sim1 ∧ sim3 > sim2 ∧ sim3 > sim4 then do
      let second ← g.getSSNode (-second.getNodeID)
      pure (first, second)
    else if sim4 > sim1 ∧ sim4 > sim2 ∧ sim4 > sim3 then do
      let first ← g.getSSNode (-first.getNodeID)
      pure (first, second)
    else pure (first, second))
  let second ← g.getSSNode (-second.getNodeID)
  pure (first, second)

/-- The function `FindGap::reorderTips` (findGap.cpp 85-126): the views left in `first` and
`second`. -/
def FindGap.reorderTips (fg : FindGap) (g : DBGraph)
    (align : List Nucleotide → List Nucleotide → Int) (fuel : Nat) (first second : SSNode) :
    Option (SSNode × SSNode) := do
  let (first, second) ←
    (if first.getNumRightArcs g ≠ 0 ∧ first.getNumLeftArcs g = 0 ∧
        second.getNumLeftArcs g ≠ 0 ∧ second.getNumRightArcs g = 0 then
      flipBoth g first second
    else pure (first, second))
  let (first, second) ←
    (if first.getNumRightArcs g ≠ 0 ∧ first.getNumLeftArcs g = 0 ∧
        second.getNumLeftArcs g = 0 ∧ second.getNumRightArcs g = 0 then
      flipBoth g first second
    else pure (first, second))
  let (first, second) ←
    (if first.getNumRightArcs g = 0 ∧ first.getNumLeftArcs g = 0 ∧
        second.getNumLeftArcs g ≠ 0 ∧ second.getNumRightArcs g = 0 then
      flipBoth g first second
    else pure (first, second))
  if second.getNumLeftArcs g = 0 ∧ second.getNumRightArcs g = 0 ∧
      first.getNumLeftArcs g = 0 ∧ first.getNumRightArcs g = 0 then
    fg.reorderIsolated g align fuel first second
  else pure (first, second)

/-- A call of `connectNodes` made by `checkForTipConnection`: the graph at the time of the
call, the two arguments and the returned flag. -/
structure ConnectCall where
  before : DBGraph
  firstNodeID : NodeID
  secondNodeID : NodeID
  found : Bool

/-- The variables of `FindGap::checkForTipConnection`: the graph, the set `nodesHandled` and
the two counters; `calls` records the calls of `connectNodes` made so far, in order. -/
structure TipConnection where
  g : DBGraph
  nodesHandled : Finset Int
  numberOfNewConnection : Nat
  violateGraphStructure : Nat
  calls : List ConnectCall

/-- Lines 156-171 of `FindGap::checkForTipConnection`: the call of `connectNodes`, in the
direction chosen by the average k-mer coverage, and the bookkeeping that follows it. -/
def FindGap.connectTips (fg : FindGap) (st : TipConnection) (first second : SSNode) :
    Option TipConnection := do
  let (firstNodeID, secondNodeID) :=
    if first.getAvgKmerCov st.g fg.kmerSize ≥ second.getAvgKmerCov st.g fg.kmerSize then
      (first.getNodeID, second.getNodeID)
    else (-second.getNodeID, -first.getNodeID)
  let (found, g') ← fg.connectNodes st.g firstNodeID secondNodeID
  let calls := st.calls ++ [⟨st.g, firstNodeID, secondNodeID, found⟩]
  if found then
    pure { g := g'
           nodesHandled :=
            insert (second.getNodeID.natAbs : Int) (insert (first.getNodeID.natAbs : Int)
              st.nodesHandled)
           numberOfNewConnection := st.numberOfNewConnection + 1
           violateGraphStructure := st.violateGraphStructure
           calls := calls }
  else
    pure { g := g'
           nodesHandled := st.nodesHandled
           numberOfNewConnection := st.numberOfNewConnection
           violateGraphStructure := st.violateGraphStructure + 1
           calls := calls }

/-- One round of the loop of `FindGap::checkForTipConnection` (findGap.cpp 135-175), for the
candidate `it`. -/
def FindGap.checkCandidate (fg : FindGap) (align : List Nucleotide → List Nucleotide → Int)
    (fuel : Nat) (st : TipConnection) (it : TipPair × Nat) : Option TipConnection := do
  let first ← st.g.getSSNode it.1.1
  let second ← st.g.getSSNode it.1.2
  if (first.getNodeID.natAbs : Int) ∈ st.nodesHandled then pure st
  else if (second.getNodeID.natAbs : Int) ∈ st.nodesHandled then pure st
  else if !first.isValid st.g || !second.isValid st.g then pure st
  else
    let (first, second) ← fg.reorderTips st.g align fuel first second
    let (ok, firstRead, secondRead) ←
      fg.alignTips st.g align fuel first.getNodeID second.getNodeID [] []
    if ok then
      let sim ← similarity align firstRead secondRead
      if firstRead.length > fg.minOverlapSize ∧ sim > (fg.minSim : Int) then
        fg.connectTips st first second
      else pure st
    else pure st

/-- The function `FindGap::checkForTipConnection` (findGap.cpp 129-179): the graph, the set
of handled nodes and the two counters it leaves, with the record of its calls of
`connectNodes`. -/
def FindGap.checkForTipConnection (fg : FindGap) (g : DBGraph)
    (align : List Nucleotide → List Nucleotide → Int) (fuel : Nat)
    (potentialPairs : List (TipPair × Nat)) : Option TipConnection :=
  potentialPairs.foldlM (fg.checkCandidate align fuel) ⟨g, ∅, 0, 0, []⟩

/-- The two calls `c` and `d` of `connectNodes` have no physical node in common. -/
def ConnectCall.Disjoint (c d : ConnectCall) : Prop :=
  c.firstNodeID.natAbs ≠ d.firstNodeID.natAbs ∧ c.firstNodeID.natAbs ≠ d.secondNodeID.natAbs ∧
  c.secondNodeID.natAbs ≠ d.firstNodeID.natAbs ∧ c.secondNodeID.natAbs ≠ d.secondNodeID.natAbs

/-- The two nodes of the call `c` were valid when the call was made. -/
def ConnectCall.OnValid (c : ConnectCall) : Prop :=
  (c.before.nodes c.firstNodeID.natAbs).invalid = false ∧
  (c.before.nodes c.secondNodeID.natAbs).invalid = false

/-- The record `c` is a call of `connectNodes`: on the graph `c.before` the call returns
the flag `c.found`. -/
def ConnectCall.IsCall (fg : FindGap) (c : ConnectCall) : Prop :=
  ∃ g', fg.connectNodes c.before c.firstNodeID c.secondNodeID = some (c.found, g')

/-- What holds of the variables of `checkForTipConnection` after every round: each record is
a call of `connectNodes`, made on two valid nodes, a call shares no physical node with an
earlier call that succeeded, and the nodes of every call that succeeded are in
`nodesHandled`. -/
structure TipConnection.Inv (fg : FindGap) (st : TipConnection) : Prop where
  real : ∀ c ∈ st.calls, c.IsCall fg
  valid : ∀ c ∈ st.calls, c.OnValid
  once : st.calls.Pairwise fun c d => c.found = true → c.Disjoint d
  handled : ∀ c ∈ st.calls, c.found = true →
    (c.firstNodeID.natAbs : Int) ∈ st.nodesHandled ∧
    (c.secondNodeID.natAbs : Int) ∈ st.nodesHandled

/-! ## Inputs used to run the streaming and the connection of tips -/

/-- A sorting routine that meets the contract `SortsPairs`: insertion sort by decreasing
count. -/
def exSort (l : List (TipPair × Nat)) : List (TipPair × Nat) :=
  l.insertionSort fun left right => right.2 ≤ left.2

/-- The eight lines of one paired-end record; only the two sequence lines carry bases. -/
def exRecord (firstPair secondPair : List Nucleotide) : List (List Nucleotide) :=
  [[], firstPair, [], [], [], secondPair, [], []]

/-- A read file of `n` copies of one record. -/
def exReads (n : Nat) (firstPair secondPair : List Nucleotide) : List (List Nucleotide) :=
  (List.replicate n (exRecord firstPair secondPair)).flatten

/-- A scorer used to run the definitions: one point for each position at which the two
sequences agree, one point off for each position at which they differ or only one of them
has a base. -/
def exAlign (a b : List Nucleotide) : Int :=
  ((List.zipWith (fun x y => if x = y then (1 : Int) else -1) a b).sum)
    - ((a.length - b.length : Nat) : Int) - ((b.length - a.length : Nat) : Int)

/-- Three nodes for `k = 3`: node 1 (`TTACGGTCA`) and node 2 (`ACGGTCAGG`) overlap in
`ACGGTCA`, and node 1 has the right neighbour 3 (`CAGG`), which spells the two bases `GG`
that node 2 has beyond the overlap. -/
def exBridgeNodes : Nat → DSNode
  | 1 => ⟨[.T, .T, .A, .C, .G, .G, .T, .C, .A], 30, 4, [], [⟨3, 2⟩], false⟩
  | 2 => ⟨[.A, .C, .G, .G, .T, .C, .A, .G, .G], 20, 3, [], [], false⟩
  | 3 => ⟨[.C, .A, .G, .G], 6, 1, [⟨1, 2⟩], [], false⟩
  | _ => ⟨[], 0, 0, [], [], true⟩

/-- The graph of the three nodes of `exBridgeNodes`, with its k-mer table. -/
def exBridge : DBGraph := ⟨3, exBridgeNodes, tableOf exBridgeNodes 3⟩

/-- Two isolated nodes for `k = 3` that overlap in `ACGGTCA`, in the orientation in which
they are stored: node 1 is `TTACGGTCA`, node 2 is `ACGGTCAGG`. -/
def exPairNodes : Nat → DSNode
  | 1 => ⟨[.T, .T, .A, .C, .G, .G, .T, .C, .A], 30, 4, [], [], false⟩
  | 2 => ⟨[.A, .C, .G, .G, .T, .C, .A, .G, .G], 20, 3, [], [], false⟩
  | _ => ⟨[], 0, 0, [], [], true⟩

/-- The graph of the two nodes of `exPairNodes`, with its k-mer table. -/
def exPair : DBGraph := ⟨2, exPairNodes, tableOf exPairNodes 2⟩

/-- Two isolated nodes for `k = 3` that overlap in the 16 bases `ACGGTCAGCTTAGCCA`: node 1
is `TT` followed by the overlap, node 2 is the overlap followed by `GG`. -/
def exLongNodes : Nat → DSNode
  | 1 => ⟨[.T, .T, .A, .C, .G, .G, .T, .C, .A, .G, .C, .T, .T, .A, .G, .C, .C, .A], 30, 4, [], [],
      false⟩
  | 2 => ⟨[.A, .C, .G, .G, .T, .C, .A, .G, .C, .T, .T, .A, .G, .C, .C, .A, .G, .G], 20, 3, [], [],
      false⟩
  | _ => ⟨[], 0, 0, [], [], true⟩

/-- The graph of the two nodes of `exLongNodes`, with its k-mer table. -/
def exLong : DBGraph := ⟨2, exLongNodes, tableOf exLongNodes 2⟩

/-! ## Consistency of the k-mer table with the graph -/

/-- The oriented node `node` holds the k-mer `w` at offset `p`. -/
def HoldsKmer (g : DBGraph) (k : Nat) (node : SSNode) (p : Nat) (w : List Nucleotide) : Prop :=
  p + k ≤ node.getLength g ∧ ((node.getSequence g).drop p).take k = w

/-- The k-mer table is consistent with the graph, in the words of the spec: every stored
pair `(n, p)` for a k-mer `w` addresses a valid node `n` whose sequence holds `w` at `p`,
every k-mer of a valid node is in the table, and a k-mer occurs at one oriented position
only. -/
structure IndexConsistent (g : DBGraph) (k : Nat) : Prop where
  sound : ∀ w : List Nucleotide, w.length = k → (g.findNPP w).isValid = true →
    ∃ node, g.getSSNode (g.findNPP w).nodeID = some node ∧ node.isValid g = true ∧
      HoldsKmer g k node (g.findNPP w).position w
  complete : ∀ (n : NodeID) (node : SSNode) (p : Nat) (w : List Nucleotide),
    g.getSSNode n = some node → node.isValid g = true → HoldsKmer g k node p w →
    (g.findNPP w).isValid = true
  unique : ∀ (n n' : NodeID) (node node' : SSNode) (p p' : Nat) (w : List Nucleotide),
    g.getSSNode n = some node → node.isValid g = true →
    g.getSSNode n' = some node' → node'.isValid g = true →
    HoldsKmer g k node p w → HoldsKmer g k node' p' w → n = n' ∧ p = p'

/-- The entries below `o` of the vector `nppv` are the direct lookups of the windows of
`read`. -/
def LookedUp (g : DBGraph) (k : Nat) (read : List Nucleotide) (o : Nat)
    (nppv : List NodePosPair) : Prop :=
  nppv.length = read.length + 1 - k ∧
  ∀ i, i < o → i + k ≤ read.length → nppv[i]? = some (g.findNPP ((read.drop i).take k))

/-- The k-mer table of one node `ACGGT` for `k = 3`: its three k-mers and their reverse
complements, each at its offset on its strand. -/
def exRunTable : List Nucleotide → NodePosPair
  | [.A, .C, .G] => ⟨1, 0⟩
  | [.C, .G, .G] => ⟨1, 1⟩
  | [.G, .G, .T] => ⟨1, 2⟩
  | [.A, .C, .C] => ⟨-1, 0⟩
  | [.C, .C, .G] => ⟨-1, 1⟩
  | [.C, .G, .T] => ⟨-1, 2⟩
  | _ => ⟨0, 0⟩

/-- The graph of the single node `ACGGT`, with its k-mer table for `k = 3`. -/
def exRun : DBGraph :=
  ⟨1, fun i => if i = 1 then ⟨[.A, .C, .G, .G, .T], 5, 1, [], [], false⟩
    else ⟨[], 0, 0, [], [], true⟩, exRunTable⟩

/-! ## The walks enumerated by `expandNode`, in the words of the spec -/

/-- The walk `path` extended by the right arc `arc`: the accumulated string is followed by
the sequence of the appended node from position `k - 1` on. -/
def extendPath (g : DBGraph) (k : Nat) (path : SearchPath) (arc : Arc) : SearchPath :=
  (path.1 ++ (SSNode.getSequence ⟨arc.nodeID.natAbs, arc.nodeID⟩ g).drop (k - 1),
    path.2 ++ [arc.nodeID])

/-- The walks of the spec: `Walk g k length p q` says that `q` is obtained from `p` by
following right arcs from the last node of `p`, one node at a time, and stopping at the
first node at which the accumulated string reaches `length`. A walk that dead-ends before
it reaches the length leads nowhere. -/
inductive Walk (g : DBGraph) (k length : Nat) : SearchPath → SearchPath → Prop
  | stop (p : SearchPath) : length ≤ p.1.length → Walk g k length p p
  | step (p q : SearchPath) (v : NodeID) (node : SSNode) (arc : Arc) :
      p.1.length < length → p.2.getLast? = some v → g.getSSNode v = some node →
      arc ∈ node.rightArcs g → Walk g k length (extendPath g k p arc) q → Walk g k length p q

/-- Every right arc of a node of the graph leads to a node of the graph. -/
def ArcsInRange (g : DBGraph) : Prop :=
  ∀ (x : NodeID) (X : SSNode), g.getSSNode x = some X → ∀ arc ∈ X.rightArcs g,
    arc.nodeID ≠ 0 ∧ arc.nodeID.natAbs ≤ g.numNodes

/-- Every node of the graph has marginal length at least 1. -/
def MarginalAtLeastOne (g : DBGraph) (k : Nat) : Prop :=
  ∀ (x : NodeID) (X : SSNode), g.getSSNode x = some X → 1 ≤ X.getMarginalLength g k

/-- The walks that one round of `expandNode` adds to `mustVisit` for the walk `p`: one for
each right arc of its last node, if `p` is still too short. -/
def children (g : DBGraph) (k length : Nat) (p : SearchPath) : List SearchPath :=
  if p.1.length < length then
    match p.2.getLast? with
    | some v => (SSNode.rightArcs ⟨v.natAbs, v⟩ g).map (extendPath g k p)
    | none => []
  else []

/-- The last node of the walk `p` is a node of the graph. -/
def PathInRange (g : DBGraph) (p : SearchPath) : Prop :=
  ∃ v, p.2.getLast? = some v ∧ v ≠ 0 ∧ v.natAbs ≤ g.numNodes

/-! ## Connected components (findGap.cpp 648-707) -/

/-- The container `multimap<size_t, NodeID>`: its entries in the order of their keys, the
entries of one key in the order of their insertion. -/
abbrev DepthMap := List (Nat × NodeID)

/-- The insertion `nodeDepth.insert(pair<size_t, NodeID>(depth, id))`: the new entry goes
after the entries whose key is not larger. -/
def DepthMap.insert : DepthMap → Nat × NodeID → DepthMap
  | [], e => [e]
  | (d, x) :: rest, e => if e.1 < d then e :: (d, x) :: rest else (d, x) :: DepthMap.insert rest e

/-- One round of the loop of lines 682-689 of `FindGap::findComponentsInGraph`, and of the
loop of lines 690-697, which has the same body: the neighbour at the end of the arc `it` is
queued at depth `depth`, unless it is invalid or its identifier is handled. -/
def pushNeighbour (g : DBGraph) (nodesHandled : Finset Int) (depth : Nat) (nodeDepth : DepthMap)
    (it : Arc) : Option DepthMap := do
  let rNode ← g.getSSNode it.nodeID
  if !rNode.isValid g then pure nodeDepth
  else if it.nodeID ∈ nodesHandled then pure nodeDepth
  else pure (DepthMap.insert nodeDepth (depth, it.nodeID))

/-- The `while` loop of lines 666-698 of `FindGap::findComponentsInGraph`: the sets
`nodesHandled` and `currentSetNodes` it leaves. The first argument bounds the number of
rounds; `none` is an abort of the run, or a queue that is not empty when the rounds are used
up. The local sum `componentSize` is never read and is left out. -/
def componentWalk (g : DBGraph) (k : Nat) :
    Nat → DepthMap → Finset Int → Finset Int → Option (Finset Int × Finset Int)
  | 0, nodeDepth, nodesHandled, currentSetNodes =>
    if nodeDepth.isEmpty then some (nodesHandled, currentSetNodes) else none
  | _ + 1, [], nodesHandled, currentSetNodes => some (nodesHandled, currentSetNodes)
  | fuel + 1, (thisDepth, thisID) :: nodeDepth, nodesHandled, currentSetNodes =>
    if thisID ∈ nodesHandled then componentWalk g k fuel nodeDepth nodesHandled currentSetNodes
    else if -thisID ∈ nodesHandled then
      componentWalk g k fuel nodeDepth nodesHandled currentSetNodes
    else do
      let nodesHandled := insert thisID nodesHandled
      let currentSetNodes := insert thisID currentSetNodes
      let thisNode ← g.getSSNode thisID
      let depth := sizeAdd thisDepth (thisNode.getMarginalLength g k)
      let nodeDepth ← (thisNode.rightArcs g).foldlM (pushNeighbour g nodesHandled depth) nodeDepth
      let nodeDepth ← (thisNode.leftArcs g).foldlM (pushNeighbour g nodesHandled depth) nodeDepth
      componentWalk g k fuel nodeDepth nodesHandled currentSetNodes

/-- The variables of `FindGap::findComponentsInGraph` that outlive a round of its `for`
loop: the set `nodesHandled` and the components handed to `addComponent`. Modelled from
the spec: `ComponentHandler::addComponent` (not among the sources) keeps the sets it is
given, in order. -/
structure ComponentState where
  nodesHandled : Finset Int
  components : List (Finset Int)

/-- One round of the `for` loop of `FindGap::findComponentsInGraph` (findGap.cpp 654-705),
for the identifier `i`. -/
def FindGap.componentRound (fg : FindGap) (g : DBGraph) (fuel : Nat) (st : ComponentState)
    (i : Int) : Option ComponentState := do
  let node ← g.getSSNode i
  if !node.isValid g then pure st
  else if i ∈ st.nodesHandled then pure st
  else
    let srcID := i
    let (nodesHandled, currentSetNodes) ←
      componentWalk g fg.kmerSize fuel [(0, srcID)] st.nodesHandled ∅
    if currentSetNodes.card > 1 then
      pure ⟨nodesHandled, st.components ++ [currentSetNodes]⟩
    else pure ⟨nodesHandled, st.components⟩

/-- The function `FindGap::findComponentsInGraph` (findGap.cpp 648-707): the components
held by the handler when it returns. `fuel` bounds the rounds of each traversal. -/
def FindGap.findComponentsInGraph (fg : FindGap) (g : DBGraph) (fuel : Nat)
    (components : List (Finset Int)) : Option (List (Finset Int)) :=
  ((List.range g.numNodes).foldlM
    (fun st i => fg.componentRound g fuel st ((i + 1 : Nat) : Int)) ⟨∅, components⟩).map
    ComponentState.components

/-- The physical node `n` is in the set `s` of signed identifiers, under one sign or the
other. -/
def Phys (s : Finset Int) (n : Nat) : Prop := (n : Int) ∈ s ∨ -(n : Int) ∈ s

/-- An arc of the physical node `a`, on either side and whatever the strands, leads to the
valid physical node `b`. -/
def Link (g : DBGraph) (a b : Nat) : Prop :=
  (∃ arc ∈ (g.nodes a).leftArcs ++ (g.nodes a).rightArcs, arc.nodeID.natAbs = b) ∧
    (g.nodes b).invalid = false

/-- The physical node `m` is reached from `src` by following arcs in either direction
through valid nodes. -/
def Reach (g : DBGraph) (src m : Nat) : Prop := Relation.ReflTransGen (Link g) src m

/-- What holds of the variables of the `while` loop of `findComponentsInGraph` in a traversal
that started from `src` with the set `h0` of handled nodes: the handled nodes are those of
`h0` and the nodes marked in this traversal; every marked node and every queued node is a
valid node of the graph reached from `src`, and a marked node was not handled before, under
either sign; every valid neighbour of a marked node is handled or queued; and `src` is the
first node that is marked. -/
structure WalkInv (g : DBGraph) (h0 : Finset Int) (src : Int) (q : DepthMap)
    (h c : Finset Int) : Prop where
  handled : ∀ x, x ∈ h ↔ x ∈ h0 ∨ x ∈ c
  marked : ∀ x ∈ c, x ≠ 0 ∧ x.natAbs ≤ g.numNodes ∧ (g.nodes x.natAbs).invalid = false ∧
    Reach g src.natAbs x.natAbs ∧ ¬ Phys h0 x.natAbs ∧ -x ∉ c
  queued : ∀ e ∈ q, e.2 ≠ 0 ∧ e.2.natAbs ≤ g.numNodes ∧ (g.nodes e.2.natAbs).invalid = false ∧
    Reach g src.natAbs e.2.natAbs
  closed : ∀ x ∈ c, ∀ m, Link g x.natAbs m → Phys h m ∨ ∃ e ∈ q, e.2.natAbs = m
  source : src ∈ c ∨ (c = ∅ ∧ ∀ e ∈ q, e.2 = src)

/-- What holds of the variables of `findComponentsInGraph` after every round of its `for`
loop: the handled nodes are valid nodes of the graph, each under one sign, and every valid
neighbour of a handled node is handled; every component is a set of handled nodes with at
least two elements, it is the set of nodes reached from one of its nodes, and no physical
node is in two components. -/
structure CompInv (g : DBGraph) (st : ComponentState) : Prop where
  sound : ∀ x ∈ st.nodesHandled, x ≠ 0 ∧ x.natAbs ≤ g.numNodes ∧
    (g.nodes x.natAbs).invalid = false ∧ -x ∉ st.nodesHandled
  closed : ∀ x ∈ st.nodesHandled, ∀ m, Link g x.natAbs m → Phys st.nodesHandled m
  comps : ∀ c ∈ st.components, c ⊆ st.nodesHandled ∧ 2 ≤ c.card ∧
    ∃ src : Nat, (src : Int) ∈ c ∧ ∀ m, Phys c m ↔ Reach g src m
  disjoint : st.components.Pairwise fun c d => ∀ m, ¬ (Phys c m ∧ Phys d m)

/-! ## A run with two merges that share a junction k-mer -/

/-- Modelled from the spec: a k-mer table built afresh over the valid ones of the first `n`
nodes of `nodes` (`buildKmerNPPTable` is not among the sources): a k-mer is located on the
first valid node that holds it, on the reverse strand when only the reverse complement
holds it. -/
def freshTableOf (nodes : Nat → DSNode) (n : Nat) (w : List Nucleotide) : NodePosPair :=
  match (List.range n).findSome? (fun i =>
      if (nodes (i + 1)).invalid then none
      else
        match findOffset w (nodes (i + 1)).sequence with
        | some o => some (⟨((i + 1 : Nat) : Int), o⟩ : NodePosPair)
        | none =>
          match findOffset w (revCompl (nodes (i + 1)).sequence) with
          | some o => some ⟨-((i + 1 : Nat) : Int), o⟩
          | none => none) with
  | some r => r
  | none => ⟨0, 0⟩

/-- The 16 bases shared by the four nodes of `exChimeraNodes`. -/
def exOverlap : List Nucleotide :=
  [.A, .C, .G, .G, .T, .C, .A, .G, .C, .T, .T, .A, .G, .C, .C, .A]

/-- Four isolated nodes for `k = 18`: node 1 (`TAG` and the overlap) and node 2 (the overlap
and `TAC`) overlap in 16 bases, and so do node 3 (`CCG` and the overlap) and node 4 (the
overlap and `TCA`). No k-mer occurs in two nodes. -/
def exChimeraNodes : Nat → DSNode
  | 1 => ⟨[.T, .A, .G] ++ exOverlap, 30, 4, [], [], false⟩
  | 2 => ⟨exOverlap ++ [.T, .A, .C], 20, 3, [], [], false⟩
  | 3 => ⟨[.C, .C, .G] ++ exOverlap, 30, 4, [], [], false⟩
  | 4 => ⟨exOverlap ++ [.T, .C, .A], 20, 3, [], [], false⟩
  | _ => ⟨[], 0, 0, [], [], true⟩

/-- The graph of the four nodes of `exChimeraNodes`, with the k-mer table built over them
for `k = 18`. -/
def exChimera : DBGraph := ⟨4, exChimeraNodes, tableOf exChimeraNodes 4⟩

/-- The parameters of a run with `k = 18`. -/
def exFindGap18 : FindGap := (FindGap.mk 18 0 0 0 0 0).parameterInitialization

/-- The k-mer `G`, the overlap, `T`: the junction of both merges. -/
def exJunction : List Nucleotide := [.G] ++ exOverlap ++ [.T]

/-- The number of arcs stored at the physical node `i`. -/
def degree (g : DBGraph) (i : Nat) : Nat :=
  (g.nodes i).leftArcs.length + (g.nodes i).rightArcs.length

/-- The number of arcs of the graph, each counted at the node that stores it. -/
def totalArcs (g : DBGraph) : Nat :=
  ((List.range g.numNodes).map fun i => degree g (i + 1)).sum

/-- The physical nodes, counted from 0, that the set `h` holds under neither sign. -/
def unhandled (g : DBGraph) (h : Finset Int) : Finset Nat :=
  (Finset.range g.numNodes).filter fun i =>
    ((i + 1 : Nat) : Int) ∉ h ∧ -((i + 1 : Nat) : Int) ∉ h

/-- The arcs that a traversal may still follow: those of the nodes not handled yet. -/
def arcsLeft (g : DBGraph) (h : Finset Int) : Nat :=
  Finset.sum (unhandled g h) fun i => degree g (i + 1)

/-! ## The comparison of the priority queue of `writeCytoscapeGraph` (graph.h 64-84) -/

/-- The class `PathDFS` of graph.h (64-74): a node and the length of the path to it. -/
structure PathDFS where
  nodeID : NodeID
  length : Nat
  deriving DecidableEq, Repr

/-- The comparison `PathDFSComp::operator()` of graph.h (76-84):
`return f.length >= s.length`. -/
def PathDFSComp (f s : PathDFS) : Bool := decide (f.length ≥ s.length)

/-- One node `AAA` for `k = 3` that is its own right neighbour: a graph with a cycle. -/
def exLoopNodes : Nat → DSNode
  | 1 => ⟨[.A, .A, .A], 3, 1, [⟨1, 2⟩], [⟨1, 2⟩], false⟩
  | _ => ⟨[], 0, 0, [], [], true⟩

/-- The graph of the node of `exLoopNodes`, with its k-mer table. -/
def exLoop : DBGraph := ⟨1, exLoopNodes, tableOf exLoopNodes 1⟩

/-! ## `extendRead` with the arithmetic of `size_t` -/

/-- Lines 413-420 of `FindGap::extendRead`, each difference taken modulo `2^64`. -/
def shiftStartSize (firstStartIndex secondStartIndex : Nat) : Nat × Nat :=
  if firstStartIndex < secondStartIndex then (0, sizeSub secondStartIndex firstStartIndex)
  else (sizeSub firstStartIndex secondStartIndex, 0)

/-- Lines 421-428 of `FindGap::extendRead`, each sum and each difference taken modulo
`2^64`. -/
def shiftEndSize (firstLen secondLen firstEndInex secondEndIndex : Nat) : Nat × Nat :=
  if sizeSub firstLen firstEndInex < sizeSub secondLen secondEndIndex then
    (firstLen, sizeSub (sizeAdd secondEndIndex firstLen) firstEndInex)
  else (sizeSub (sizeAdd firstEndInex secondLen) secondEndIndex, secondLen)

/-- The function `FindGap::extendRead` (findGap.cpp 387-434) with the arithmetic of the
source: the indices are `size_t` values, and every sum and every difference of them is taken
modulo `2^64`. -/
def FindGap.extendReadSize (fg : FindGap) (g : DBGraph) (first second : SSNode)
    (r : ReadRefs) : Option (Bool × ReadRefs) := do
  let firstSeq := first.getSequence g
  let secondSeq := second.getSequence g
  let maxLen1 := fg.windowLen firstSeq.length
  let firstSeq ← substr firstSeq (sizeSub firstSeq.length maxLen1) maxLen1
  let maxLen2 := fg.windowLen secondSeq.length
  let secondSeq ← substr secondSeq 0 maxLen2
  let (commonSubstr, firstStartIndex, secondStartIndex) ←
    getLongestCommonSubStr firstSeq secondSeq
  if commonSubstr.length < fg.minExactMatchSize then
    pure (false, { r with firstStartIndex := firstStartIndex,
                          secondStartIndex := secondStartIndex })
  else
    let firstStartIndex :=
      sizeSub (sizeAdd firstStartIndex (first.getSequence g).length) maxLen1
    let firstEndInex := sizeAdd firstStartIndex commonSubstr.length
    let secondEndIndex := sizeAdd secondStartIndex commonSubstr.length
    let (firstStartIndex, secondStartIndex) := shiftStartSize firstStartIndex secondStartIndex
    let (firstEndInex, secondEndIndex) :=
      shiftEndSize (first.getSequence g).length (second.getSequence g).length
        firstEndInex secondEndIndex
    let firstRead ←
      substr (first.getSequence g) firstStartIndex (sizeSub firstEndInex firstStartIndex)
    let secondRead ←
      substr (second.getSequence g) secondStartIndex (sizeSub secondEndIndex secondStartIndex)
    let out : ReadRefs := ⟨firstStartIndex, secondStartIndex, firstEndInex, secondEndIndex,
      firstRead, secondRead⟩
    if firstEndInex < (first.getSequence g).length ∨ secondStartIndex > 0 then
      pure (false, out)
    else pure (true, out)

/-- The ordered pair `join` is a pair of tips of the graph that can be joined: both nodes
are in the tip set, they are different physical nodes, the first has no right arcs and the
second has no left arcs, each in its orientation. -/
def JoinsTips (g : DBGraph) (tipNodes : Finset Int) (join : TipPair) : Prop :=
  (join.1.natAbs : Int) ∈ tipNodes ∧ (join.2.natAbs : Int) ∈ tipNodes ∧
    join.1.natAbs ≠ join.2.natAbs ∧
    SSNode.getNumRightArcs ⟨join.1.natAbs, join.1⟩ g = 0 ∧
    SSNode.getNumLeftArcs ⟨join.2.natAbs, join.2⟩ g = 0

/-! ## The attempts of `checkForTipConnection` -/

/-- The call `c` of `connectNodes` is the attempt made for the reordered pair
`(first, second)`: `alignTips` succeeded on the pair with the overlap `firstRead`,
`secondRead`, the overlap is longer than `minOverlapSize`, its similarity `sim` is above
`minSim`, and the two arguments of the call are chosen by the average k-mer coverage. -/
structure ConnectCall.Attempt (fg : FindGap) (align : List Nucleotide → List Nucleotide → Int)
    (fuel : Nat) (c : ConnectCall) (first second : SSNode)
    (firstRead secondRead : List Nucleotide) (sim : Int) : Prop where
  views : first.dsNode = first.nodeID.natAbs ∧ second.dsNode = second.nodeID.natAbs
  aligned : fg.alignTips c.before align fuel first.getNodeID second.getNodeID [] []
    = some (true, firstRead, secondRead)
  score : similarity align firstRead secondRead = some sim
  overlap : firstRead.length > fg.minOverlapSize
  similar : sim > (fg.minSim : Int)
  direction : (c.firstNodeID, c.secondNodeID) =
    if first.getAvgKmerCov c.before fg.kmerSize ≥ second.getAvgKmerCov c.before fg.kmerSize
    then (first.getNodeID, second.getNodeID) else (-second.getNodeID, -first.getNodeID)

/-- What one round of the loop of `checkForTipConnection` does to its variables when it
attempts a merge: the call `c` is added to the record, and one of the two counters goes up
by one, by the flag of the call. -/
structure TipConnection.Attempted (st st' : TipConnection) (c : ConnectCall) : Prop where
  before : c.before = st.g
  calls : st'.calls = st.calls ++ [c]
  connections : st'.numberOfNewConnection
    = st.numberOfNewConnection + if c.found = true then 1 else 0
  skips : st'.violateGraphStructure
    = st.violateGraphStructure + if c.found = true then 0 else 1

/-- The number of calls of the record that returned the flag `b`. -/
def countFound (b : Bool) (calls : List ConnectCall) : Nat :=
  (calls.filter fun c => c.found == b).length

/-! ## The footprint of a merge -/

/-- The graph `s` differs from `g` only on the physical nodes of the set `N`, and the arcs
of the record `bb` of `s` lead to nodes of `N`. -/
def Within (N : Nat → Prop) (bb : Nat) (g s : DBGraph) : Prop :=
  (∀ i, ¬ N i → s.nodes i = g.nodes i) ∧
  ∀ m ∈ (s.nodes bb).leftArcs ++ (s.nodes bb).rightArcs, N m.nodeID.natAbs

/-- The physical node `i` is a neighbour of the oriented node `b` in `g`: a left or a right
arc of `b` leads to it. -/
def IsNeighbour (g : DBGraph) (b : NodeID) (i : Nat) : Prop :=
  (∃ m ∈ SSNode.leftArcs ⟨b.natAbs, b⟩ g, m.nodeID.natAbs = i) ∨
  ∃ m ∈ SSNode.rightArcs ⟨b.natAbs, b⟩ g, m.nodeID.natAbs = i

/-! # Theorems -/

set_option maxRecDepth 100000
set_option maxHeartbeats 1000000
set_option linter.unusedSectionVars false

section LCS
variable {α : Type} [DecidableEq α]

theorem foldl_range_induct {σ : Type} (f : σ → Nat → σ) (P : Nat → σ → Prop) (N : Nat) (s0 : σ)
    (h0 : P 0 s0) (hstep : ∀ k s, k < N → P k s → P (k + 1) (f s k)) :
    P N ((List.range N).foldl f s0) := by
  induction N with
  | zero => simpa using h0
  | succ N ih =>
    rw [List.range_succ, List.foldl_append]
    simp only [List.foldl_cons, List.foldl_nil]
    exact hstep N _ (Nat.lt_succ_self N)
      (ih (fun k s hk hP => hstep k s (Nat.lt_succ_of_lt hk) hP))

theorem lcSuffix_zero_left (str1 str2 : List α) (j : Nat) : lcSuffix str1 str2 0 j = 0 := by
  cases j <;> simp [lcSuffix]

theorem lcSuffix_zero_right (str1 str2 : List α) (i : Nat) : lcSuffix str1 str2 i 0 = 0 := by
  cases i <;> simp [lcSuffix]

theorem lcSuffix_succ (str1 str2 : List α) (i j : Nat) :
    lcSuffix str1 str2 (i + 1) (j + 1)
      = if str1[i]? = str2[j]? then lcSuffix str1 str2 i j + 1 else 0 := by
  simp [lcSuffix]

theorem lcSuffix_le_left (str1 str2 : List α) : ∀ i j, lcSuffix str1 str2 i j ≤ i
  | 0, j => by simp [lcSuffix_zero_left]
  | i + 1, 0 => by simp [lcSuffix_zero_right]
  | i + 1, j + 1 => by
    rw [lcSuffix_succ]
    split
    · exact Nat.succ_le_succ (lcSuffix_le_left str1 str2 i j)
    · exact Nat.zero_le _

theorem lcSuffix_le_right (str1 str2 : List α) : ∀ i j, lcSuffix str1 str2 i j ≤ j
  | 0, j => by simp [lcSuffix_zero_left]
  | i + 1, 0 => by simp [lcSuffix_zero_right]
  | i + 1, j + 1 => by
    rw [lcSuffix_succ]
    split
    · exact Nat.succ_le_succ (lcSuffix_le_right str1 str2 i j)
    · exact Nat.zero_le _

theorem take_succ_drop (s : List α) (p r : Nat) :
    (s.drop p).take (r + 1) = (s.drop p).take r ++ (s[p + r]?).toList := by
  rw [List.take_succ, List.getElem?_drop]

/-- The two blocks of length `lcSuffix i j` ending at `i` and at `j` agree. -/
theorem lcSuffix_spec (str1 str2 : List α) : ∀ i j,
    (str1.drop (i - lcSuffix str1 str2 i j)).take (lcSuffix str1 str2 i j)
      = (str2.drop (j - lcSuffix str1 str2 i j)).take (lcSuffix str1 str2 i j)
  | 0, j => by simp [lcSuffix_zero_left]
  | i + 1, 0 => by simp [lcSuffix_zero_right]
  | i + 1, j + 1 => by
    rw [lcSuffix_succ]
    split
    · rename_i h
      have hi := lcSuffix_le_left str1 str2 i j
      have hj := lcSuffix_le_right str1 str2 i j
      have ih := lcSuffix_spec str1 str2 i j
      rw [Nat.add_sub_add_right, Nat.add_sub_add_right, take_succ_drop, take_succ_drop, ih,
        Nat.sub_add_cancel hi, Nat.sub_add_cancel hj, h]
    · simp

/-- A block of length `L` common to both strings, ending at `p + L` and `q + L`, is no
longer than the common suffix there. -/
theorem lcSuffix_ge_of_common (str1 str2 : List α) (p q : Nat) : ∀ L,
    (∀ t, t < L → str1[p + t]? = str2[q + t]?) → L ≤ lcSuffix str1 str2 (p + L) (q + L)
  | 0, _ => Nat.zero_le _
  | L + 1, h => by
    have ih := lcSuffix_ge_of_common str1 str2 p q L (fun t ht => h t (Nat.lt_succ_of_lt ht))
    rw [← Nat.add_assoc, ← Nat.add_assoc, lcSuffix_succ, if_pos (h L (Nat.lt_succ_self L))]
    exact Nat.succ_le_succ ih

theorem lcsBody_eq (str1 str2 : List α) (i j : Nat) (st : LCSState) (h0 : 0 ≤ st.result)
    (hprev : i ≠ 0 → j ≠ 0 →
      st.LCSuff (i - 1) (j - 1) = lcSuffix str1 str2 (i - 1) (j - 1)) :
    lcsBody str1 str2 i j st =
      if st.result < (lcSuffix str1 str2 i j : Int) then
        { st.store i j (lcSuffix str1 str2 i j) with
          result := lcSuffix str1 str2 i j, maxIndex1 := i, maxIndex2 := j }
      else st.store i j (lcSuffix str1 str2 i j) := by
  unfold lcsBody
  by_cases hz : i = 0 ∨ j = 0
  · have hv : lcSuffix str1 str2 i j = 0 := by
      rcases hz with h | h
      · subst h; exact lcSuffix_zero_left _ _ _
      · subst h; exact lcSuffix_zero_right _ _ _
    rw [if_pos hz, hv, if_neg (by simpa using h0)]
    rfl
  · rw [if_neg hz]
    have hi : i ≠ 0 := fun h => hz (Or.inl h)
    have hj : j ≠ 0 := fun h => hz (Or.inr h)
    obtain ⟨i', rfl⟩ := Nat.exists_eq_succ_of_ne_zero hi
    obtain ⟨j', rfl⟩ := Nat.exists_eq_succ_of_ne_zero hj
    have hp := hprev hi hj
    simp only [Nat.succ_eq_add_one, Nat.add_sub_cancel] at hp ⊢
    rw [lcSuffix_succ]
    by_cases hc : str1[i']? = str2[j']?
    · simp only [if_pos hc, hp, LCSState.store, and_self, if_true]
      push_cast
      rfl
    · simp only [if_neg hc]
      rw [if_neg (by simpa using h0)]
      rfl

theorem LcsInv.result_nonneg {str1 str2 : List α} {i j : Nat} {st : LCSState}
    (h : LcsInv str1 str2 i j st) : 0 ≤ st.result := by
  rw [h.best]; exact Int.ofNat_nonneg _

theorem LcsInv.step {str1 str2 : List α} {i j : Nat} {st : LCSState}
    (h : LcsInv str1 str2 i j st) (hj : j ≤ str2.length) :
    LcsInv str1 str2 i (j + 1) (lcsBody str1 str2 i j st) := by
  have h0 := h.result_nonneg
  have hprev : i ≠ 0 → j ≠ 0 →
      st.LCSuff (i - 1) (j - 1) = lcSuffix str1 str2 (i - 1) (j - 1) := by
    intro hi _
    apply h.table
    left
    constructor <;> omega
  rw [lcsBody_eq str1 str2 i j st h0 hprev]
  have hdone : ∀ a b, lcsDone str2.length i (j + 1) a b →
      lcsDone str2.length i j a b ∨ (a = i ∧ b = j) := by
    intro a b hd
    rcases hd with ⟨h1, h2⟩ | ⟨h1, h2⟩
    · exact Or.inl (Or.inl ⟨h1, h2⟩)
    · rcases Nat.lt_succ_iff_lt_or_eq.mp h2 with h3 | h3
      · exact Or.inl (Or.inr ⟨h1, h3⟩)
      · exact Or.inr ⟨h1, h3⟩
  have hnot : ∀ a b, lcsDone str2.length i j a b → ¬ (a = i ∧ b = j) := by
    intro a b hd hab
    rcases hd with ⟨h1, _⟩ | ⟨_, h2⟩ <;> omega
  have htable : ∀ a b, lcsDone str2.length i (j + 1) a b →
      (st.store i j (lcSuffix str1 str2 i j)).LCSuff a b = lcSuffix str1 str2 a b := by
    intro a b hd
    rcases hdone a b hd with hd' | ⟨rfl, rfl⟩
    · simp only [LCSState.store, if_neg (hnot a b hd')]
      exact h.table a b hd'
    · simp [LCSState.store]
  split
  · rename_i hlt
    refine ⟨htable, rfl, ?_, ?_, Or.inr (Or.inr ⟨rfl, Nat.lt_succ_self j⟩)⟩
    · intro a b hd
      rcases hdone a b hd with hd' | ⟨rfl, rfl⟩
      · exact le_of_lt (lt_of_le_of_lt (h.upper a b hd') hlt)
      · exact le_refl _
    · intro a b hb hlex
      have hd' : lcsDone str2.length i j a b := by
        rcases hlex with h1 | ⟨h1, h2⟩
        · exact Or.inl ⟨h1, hb⟩
        · exact Or.inr ⟨h1, h2⟩
      exact lt_of_le_of_lt (h.upper a b hd') hlt
  · rename_i hlt
    refine ⟨htable, h.best, ?_, h.first, ?_⟩
    · intro a b hd
      rcases hdone a b hd with hd' | ⟨rfl, rfl⟩
      · exact h.upper a b hd'
      · exact not_lt.mp hlt
    · rcases h.seen with hs | hs
      · exact Or.inl hs
      · rcases hs with ⟨h1, h2⟩ | ⟨h1, h2⟩
        · exact Or.inr (Or.inl ⟨h1, h2⟩)
        · exact Or.inr (Or.inr ⟨h1, Nat.lt_succ_of_lt h2⟩)

theorem LcsInv.row {str1 str2 : List α} {i : Nat} {st : LCSState}
    (h : LcsInv str1 str2 i 0 st) : LcsInv str1 str2 (i + 1) 0 (lcsRow str1 str2 i st) := by
  have hrow : LcsInv str1 str2 i (str2.length + 1) (lcsRow str1 str2 i st) := by
    unfold lcsRow
    exact foldl_range_induct (fun s j => lcsBody str1 str2 i j s)
      (fun j s => LcsInv str1 str2 i j s) (str2.length + 1) st h
      (fun k s hk hs => hs.step (Nat.lt_succ_iff.mp hk))
  have hconv : ∀ a b, lcsDone str2.length (i + 1) 0 a b →
      lcsDone str2.length i (str2.length + 1) a b := by
    intro a b hd
    rcases hd with ⟨h1, h2⟩ | ⟨_, h2⟩
    · rcases Nat.lt_succ_iff_lt_or_eq.mp h1 with h3 | h3
      · exact Or.inl ⟨h3, h2⟩
      · exact Or.inr ⟨h3, Nat.lt_succ_of_le h2⟩
    · exact absurd h2 (Nat.not_lt_zero _)
  have hconv' : ∀ a b, lcsDone str2.length i (str2.length + 1) a b →
      lcsDone str2.length (i + 1) 0 a b := by
    intro a b hd
    rcases hd with ⟨h1, h2⟩ | ⟨h1, h2⟩
    · exact Or.inl ⟨Nat.lt_succ_of_lt h1, h2⟩
    · exact Or.inl ⟨by omega, Nat.lt_succ_iff.mp h2⟩
  refine ⟨fun a b hd => hrow.table a b (hconv a b hd), hrow.best,
    fun a b hd => hrow.upper a b (hconv a b hd), hrow.first, ?_⟩
  rcases hrow.seen with hs | hs
  · exact Or.inl hs
  · exact Or.inr (hconv' _ _ hs)

theorem lcsScan_inv (str1 str2 : List α) :
    LcsInv str1 str2 (str1.length + 1) 0 (lcsScan str1 str2) := by
  unfold lcsScan
  refine foldl_range_induct (fun s i => lcsRow str1 str2 i s)
    (fun i s => LcsInv str1 str2 i 0 s) (str1.length + 1) _ ?_ (fun k s _ hs => hs.row)
  refine ⟨?_, ?_, ?_, ?_, Or.inl ⟨rfl, rfl⟩⟩
  · intro a b hd
    rcases hd with ⟨h1, _⟩ | ⟨_, h2⟩ <;> omega
  · simp [lcSuffix_zero_left]
  · intro a b hd
    rcases hd with ⟨h1, _⟩ | ⟨_, h2⟩ <;> omega
  · intro a b _ hlex
    rcases hlex with h1 | ⟨_, h2⟩
    · exact absurd h1 (Nat.not_lt_zero _)
    · exact absurd h2 (Nat.not_lt_zero _)

/-- What `getLongestCommonSubStr` returns, in terms of the common-suffix lengths. -/
theorem getLongestCommonSubStr_spec (str1 str2 : List α) :
    ∃ c i j, getLongestCommonSubStr str1 str2 = some (c, i, j) ∧
      (str1.drop i).take c.length = c ∧ (str2.drop j).take c.length = c ∧
      i + c.length ≤ str1.length ∧ j + c.length ≤ str2.length ∧
      lcSuffix str1 str2 (i + c.length) (j + c.length) = c.length ∧
      (∀ a b, a ≤ str1.length → b ≤ str2.length → lcSuffix str1 str2 a b ≤ c.length) ∧
      (∀ a b, b ≤ str2.length → (a < i + c.length ∨ (a = i + c.length ∧ b < j + c.length)) →
        lcSuffix str1 str2 a b < c.length) := by
  have hinv := lcsScan_inv str1 str2
  have hm : (lcsScan str1 str2).maxIndex1 ≤ str1.length ∧
      (lcsScan str1 str2).maxIndex2 ≤ str2.length := by
    rcases hinv.seen with ⟨h1, h2⟩ | hs
    · rw [h1, h2]; exact ⟨Nat.zero_le _, Nat.zero_le _⟩
    · rcases hs with ⟨h1, h2⟩ | ⟨_, h2⟩
      · exact ⟨Nat.lt_succ_iff.mp h1, h2⟩
      · exact absurd h2 (Nat.not_lt_zero _)
  have hbest := hinv.best
  have hupper := hinv.upper
  have hfirst := hinv.first
  unfold getLongestCommonSubStr
  generalize lcsScan str1 str2 = st at hm hbest hupper hfirst
  obtain ⟨tbl, res, m1, m2⟩ := st
  simp only at hm hbest hupper hfirst ⊢
  subst hbest
  have hr1 := lcSuffix_le_left str1 str2 m1 m2
  have hr2 := lcSuffix_le_right str1 str2 m1 m2
  have hspec := lcSuffix_spec str1 str2 m1 m2
  generalize hr : lcSuffix str1 str2 m1 m2 = r at hr1 hr2 hspec hupper hfirst ⊢
  have hlen : ((str1.drop (m1 - r)).take r).length = r := by
    rw [List.length_take, List.length_drop]; omega
  have hsub : substr str1 (m1 - r) r = some ((str1.drop (m1 - r)).take r) := by
    unfold substr; rw [if_pos (by omega)]
  refine ⟨(str1.drop (m1 - r)).take r, m1 - r, m2 - r, ?_, ?_, ?_, ?_, ?_, ?_, ?_, ?_⟩
  · simp [hsub]
  · rw [hlen]
  · rw [hlen, hspec]
  · rw [hlen]; omega
  · rw [hlen]; omega
  · rw [hlen, Nat.sub_add_cancel hr1, Nat.sub_add_cancel hr2]
    exact hr
  · intro a b ha hb
    rw [hlen]
    have := hupper a b (Or.inl ⟨Nat.lt_succ_of_le ha, hb⟩)
    exact_mod_cast this
  · intro a b hb hlex
    rw [hlen] at hlex ⊢
    rw [Nat.sub_add_cancel hr1, Nat.sub_add_cancel hr2] at hlex
    have := hfirst a b hb hlex
    exact_mod_cast this

theorem infix_getElem? {w s : List α} (h : w <:+: s) :
    ∃ p, p + w.length ≤ s.length ∧ ∀ t, t < w.length → s[p + t]? = w[t]? := by
  obtain ⟨a, b, rfl⟩ := h
  refine ⟨a.length, by simp, ?_⟩
  intro t ht
  rw [List.append_assoc, List.getElem?_append_right (Nat.le_add_right _ _),
    Nat.add_sub_cancel_left, List.getElem?_append_left ht]

theorem singleton_infix_of_mem {x : α} {s : List α} (h : x ∈ s) : [x] <:+: s := by
  obtain ⟨a, b, rfl⟩ := List.append_of_mem h
  exact ⟨a, b, by simp⟩

theorem infix_take_drop (s : List α) (p r : Nat) : (s.drop p).take r <:+: s :=
  (List.take_prefix r (s.drop p)).isInfix.trans (List.drop_suffix p s).isInfix

/-- No block common to both strings is longer than the returned one. -/
theorem getLongestCommonSubStr_longest {str1 str2 c : List α} {i j : Nat}
    (h : getLongestCommonSubStr str1 str2 = some (c, i, j)) (w : List α)
    (h1 : w <:+: str1) (h2 : w <:+: str2) : w.length ≤ c.length := by
  obtain ⟨c', i', j', hc, _, _, _, _, _, hup, _⟩ := getLongestCommonSubStr_spec str1 str2
  rw [h] at hc
  obtain ⟨rfl, rfl, rfl⟩ : c = c' ∧ i = i' ∧ j = j' := by simpa using hc
  obtain ⟨p, hp, hpw⟩ := infix_getElem? h1
  obtain ⟨q, hq, hqw⟩ := infix_getElem? h2
  exact le_trans
    (lcSuffix_ge_of_common str1 str2 p q w.length (fun t ht => (hpw t ht).trans (hqw t ht).symm))
    (hup _ _ hp hq)

end LCS

/-- C7: for all strings `str1`, `str2`, `getLongestCommonSubStr` returns a string `c` and
offsets `(i, j)` such that `c` occurs in `str1` at offset `i` and in `str2` at offset `j`,
inside both strings; for "ACGTTGCA" and "TTGCAGGT" it returns "TTGCA" with offsets (3, 0). -/
theorem getLongestCommonSubStr_occurs :
    (∀ str1 str2 : List Char, ∃ c i j, getLongestCommonSubStr str1 str2 = some (c, i, j) ∧
      (str1.drop i).take c.length = c ∧ (str2.drop j).take c.length = c ∧
      i + c.length ≤ str1.length ∧ j + c.length ≤ str2.length) ∧
    getLongestCommonSubStr ['A', 'C', 'G', 'T', 'T', 'G', 'C', 'A']
      ['T', 'T', 'G', 'C', 'A', 'G', 'G', 'T'] = some (['T', 'T', 'G', 'C', 'A'], 3, 0) := by
  refine ⟨fun str1 str2 => ?_, by set_option maxRecDepth 100000 in decide⟩
  obtain ⟨c, i, j, h, h1, h2, h3, h4, _⟩ := getLongestCommonSubStr_spec str1 str2
  exact ⟨c, i, j, h, h1, h2, h3, h4⟩

/-- C8: the string returned by `getLongestCommonSubStr` is a longest common contiguous
substring: no string that is a contiguous substring of both `str1` and `str2` is longer;
and the result is empty exactly when the two strings share no character. -/
theorem getLongestCommonSubStr_maximal (str1 str2 : List Char) :
    ∃ c i j, getLongestCommonSubStr str1 str2 = some (c, i, j) ∧
      (∀ w : List Char, w <:+: str1 → w <:+: str2 → w.length ≤ c.length) ∧
      (c = [] ↔ ∀ x, x ∈ str1 → x ∉ str2) := by
  obtain ⟨c, i, j, h, h1, h2, _⟩ := getLongestCommonSubStr_spec str1 str2
  refine ⟨c, i, j, h, getLongestCommonSubStr_longest h, ?_, ?_⟩
  · intro hc x hx1 hx2
    have := getLongestCommonSubStr_longest h [x]
      (singleton_infix_of_mem hx1) (singleton_infix_of_mem hx2)
    rw [hc] at this
    simp at this
  · intro hno
    cases c with
    | nil => rfl
    | cons x t =>
      exfalso
      have hx1 : x ∈ str1 := by
        have : x ∈ (str1.drop i).take (x :: t).length := by rw [h1]; exact List.mem_cons_self _ _
        exact (infix_take_drop str1 i _).subset this
      have hx2 : x ∈ str2 := by
        have : x ∈ (str2.drop j).take (x :: t).length := by rw [h2]; exact List.mem_cons_self _ _
        exact (infix_take_drop str2 j _).subset this
      exact hno x hx1 hx2

/-! ## `extendRead` -/

theorem substr_of_le {α : Type} (s : List α) {pos : Nat} (len : Nat) (h : pos ≤ s.length) :
    substr s pos len = some ((s.drop pos).take len) := by
  unfold substr; rw [if_pos h]

theorem windowLen_le (fg : FindGap) (len : Nat) : fg.windowLen len ≤ len := by
  unfold FindGap.windowLen; split <;> omega

theorem windowLen_eq_min (fg : FindGap) (len : Nat) :
    fg.windowLen len = min len fg.maxSearchSize := by
  unfold FindGap.windowLen; split <;> omega

theorem trailingWindow_length (fg : FindGap) (s : List Nucleotide) :
    (fg.trailingWindow s).length = fg.windowLen s.length := by
  have := windowLen_le fg s.length
  unfold FindGap.trailingWindow
  rw [List.length_take, List.length_drop]; omega

theorem leadingWindow_length (fg : FindGap) (s : List Nucleotide) :
    (fg.leadingWindow s).length = fg.windowLen s.length := by
  have := windowLen_le fg s.length
  unfold FindGap.leadingWindow
  rw [List.length_take]; omega

/-- The first steps of `extendRead`: the two windows and the call of
`getLongestCommonSubStr` on them. -/
theorem extendRead_windows (fg : FindGap) (g : DBGraph) (first second : SSNode) (r : ReadRefs)
    {c : List Nucleotide} {i j : Nat}
    (hlcs : getLongestCommonSubStr (fg.trailingWindow (first.getSequence g))
      (fg.leadingWindow (second.getSequence g)) = some (c, i, j)) :
    fg.extendRead g first second r =
      if c.length < fg.minExactMatchSize then
        some (false, { r with firstStartIndex := i, secondStartIndex := j })
      else
        let fs := i + (first.getSequence g).length - fg.windowLen (first.getSequence g).length
        let s := shiftStart fs j
        let e := shiftEnd (first.getSequence g).length (second.getSequence g).length
          (fs + c.length) (j + c.length)
        (substr (first.getSequence g) s.1 (e.1 - s.1)).bind fun firstRead =>
        (substr (second.getSequence g) s.2 (e.2 - s.2)).bind fun secondRead =>
          if e.1 < (first.getSequence g).length ∨ s.2 > 0 then
            some (false, ⟨s.1, s.2, e.1, e.2, firstRead, secondRead⟩)
          else some (true, ⟨s.1, s.2, e.1, e.2, firstRead, secondRead⟩) := by
  unfold FindGap.trailingWindow FindGap.leadingWindow at hlcs
  unfold FindGap.extendRead
  simp only [substr_of_le _ _ (Nat.sub_le _ _), substr_of_le _ _ (Nat.zero_le _),
    Option.pure_def, Option.bind_eq_bind, Option.some_bind, List.drop_zero, hlcs]

/-- The seed test of `extendRead` rejects: only the two start indices are overwritten. -/
theorem extendRead_reject (fg : FindGap) (g : DBGraph) (first second : SSNode) (r : ReadRefs)
    {c : List Nucleotide} {i j : Nat}
    (hlcs : getLongestCommonSubStr (fg.trailingWindow (first.getSequence g))
      (fg.leadingWindow (second.getSequence g)) = some (c, i, j))
    (hlen : c.length < fg.minExactMatchSize) :
    fg.extendRead g first second r =
      some (false, { r with firstStartIndex := i, secondStartIndex := j }) := by
  rw [extendRead_windows fg g first second r hlcs, if_pos hlen]

/-- The seed test of `extendRead` accepts: the values left in the reference parameters, and
the flag. No subtraction on the way wraps. -/
theorem extendRead_accept (fg : FindGap) (g : DBGraph) (first second : SSNode) (r : ReadRefs)
    {c : List Nucleotide} {i j : Nat}
    (hlcs : getLongestCommonSubStr (fg.trailingWindow (first.getSequence g))
      (fg.leadingWindow (second.getSequence g)) = some (c, i, j))
    (hlen : ¬ c.length < fg.minExactMatchSize) :
    ∃ out : ReadRefs,
      fg.extendRead g first second r
        = some (decide (out.firstEndInex = (first.getSequence g).length
            ∧ out.secondStartIndex = 0), out) ∧
      out.firstStartIndex ≤ out.firstEndInex ∧
      out.firstEndInex ≤ (first.getSequence g).length ∧
      out.secondStartIndex ≤ out.secondEndIndex ∧
      out.secondEndIndex ≤ (second.getSequence g).length ∧
      out.firstEndInex - out.firstStartIndex = out.secondEndIndex - out.secondStartIndex ∧
      c.length ≤ out.firstEndInex - out.firstStartIndex ∧
      (out.firstStartIndex = 0 ∨ out.secondStartIndex = 0) ∧
      (out.firstEndInex = (first.getSequence g).length
        ∨ out.secondEndIndex = (second.getSequence g).length) ∧
      out.firstRead = ((first.getSequence g).drop out.firstStartIndex).take
        (out.firstEndInex - out.firstStartIndex) ∧
      out.secondRead = ((second.getSequence g).drop out.secondStartIndex).take
        (out.secondEndIndex - out.secondStartIndex) := by
  obtain ⟨c', i', j', hc, _, _, hi, hj, _⟩ := getLongestCommonSubStr_spec
    (fg.trailingWindow (first.getSequence g)) (fg.leadingWindow (second.getSequence g))
  rw [hlcs] at hc
  obtain ⟨rfl, rfl, rfl⟩ : c = c' ∧ i = i' ∧ j = j' := by simpa using hc
  rw [trailingWindow_length] at hi
  rw [leadingWindow_length] at hj
  have hw1 := windowLen_le fg (first.getSequence g).length
  have hw2 := windowLen_le fg (second.getSequence g).length
  rw [extendRead_windows fg g first second r hlcs, if_neg hlen]
  generalize (first.getSequence g) = A at *
  generalize (second.getSequence g) = B at *
  generalize fg.windowLen A.length = m1 at *
  generalize fg.windowLen B.length = m2 at *
  have hS : shiftStart (i + A.length - m1) j = (i + A.length - m1 - j, j - (i + A.length - m1)) := by
    unfold shiftStart; split <;> simp <;> omega
  have hE : shiftEnd A.length B.length (i + A.length - m1 + c.length) (j + c.length)
      = (i + A.length - m1 + c.length
          + min (A.length - (i + A.length - m1 + c.length)) (B.length - (j + c.length)),
         j + c.length
          + min (A.length - (i + A.length - m1 + c.length)) (B.length - (j + c.length))) := by
    unfold shiftEnd; split <;> simp <;> omega
  simp only [hS, hE]
  rw [substr_of_le _ _ (by omega), substr_of_le _ _ (by omega)]
  simp only [Option.some_bind]
  refine ⟨⟨i + A.length - m1 - j, j - (i + A.length - m1),
    i + A.length - m1 + c.length
      + min (A.length - (i + A.length - m1 + c.length)) (B.length - (j + c.length)),
    j + c.length
      + min (A.length - (i + A.length - m1 + c.length)) (B.length - (j + c.length)),
    (A.drop (i + A.length - m1 - j)).take
      (i + A.length - m1 + c.length
        + min (A.length - (i + A.length - m1 + c.length)) (B.length - (j + c.length))
        - (i + A.length - m1 - j)),
    (B.drop (j - (i + A.length - m1))).take
      (j + c.length
        + min (A.length - (i + A.length - m1 + c.length)) (B.length - (j + c.length))
        - (j - (i + A.length - m1)))⟩,
    ?_, ?_, ?_, ?_, ?_, ?_, ?_, ?_, ?_, rfl, rfl⟩
  · simp only
    split
    · rename_i hcond
      have : ¬ (i + A.length - m1 + c.length
          + min (A.length - (i + A.length - m1 + c.length)) (B.length - (j + c.length))
            = A.length ∧ j - (i + A.length - m1) = 0) := by omega
      simp [this]
    · rename_i hcond
      have : (i + A.length - m1 + c.length
          + min (A.length - (i + A.length - m1 + c.length)) (B.length - (j + c.length))
            = A.length ∧ j - (i + A.length - m1) = 0) := by omega
      simp [this]
  all_goals (simp only; omega)

theorem trailingWindow_eq (fg : FindGap) (s : List Nucleotide) :
    fg.trailingWindow s = s.drop (s.length - min s.length fg.maxSearchSize) := by
  unfold FindGap.trailingWindow
  rw [windowLen_eq_min]
  apply List.take_of_length_le
  rw [List.length_drop]; omega

theorem leadingWindow_eq (fg : FindGap) (s : List Nucleotide) :
    fg.leadingWindow s = s.take (min s.length fg.maxSearchSize) := by
  unfold FindGap.leadingWindow
  rw [windowLen_eq_min]

/-- C9: `extendRead` rejects (returns false and leaves `firstRead` and `secondRead` as they
were) whenever the longest common substring of the trailing window of A (its last
`min(|A|, maxSearchSize)` bases) and the leading window of B (its first
`min(|B|, maxSearchSize)` bases) is shorter than `minExactMatchSize`; a seed of length
`minExactMatchSize` or more passes this test: the extension is carried out, the reads are
overwritten with blocks at least as long as the seed, and the flag only depends on the
final test. -/
theorem extendRead_seed_test (fg : FindGap) (g : DBGraph) (first second : SSNode) (r : ReadRefs)
    (c : List Nucleotide) (i j : Nat)
    (hlcs : getLongestCommonSubStr
      ((first.getSequence g).drop
        ((first.getSequence g).length - min (first.getSequence g).length fg.maxSearchSize))
      ((second.getSequence g).take (min (second.getSequence g).length fg.maxSearchSize))
        = some (c, i, j)) :
    (c.length < fg.minExactMatchSize →
      ∃ out, fg.extendRead g first second r = some (false, out) ∧
        out.firstRead = r.firstRead ∧ out.secondRead = r.secondRead) ∧
    (fg.minExactMatchSize ≤ c.length →
      ∃ b out, fg.extendRead g first second r = some (b, out) ∧
        (b = true ↔ out.firstEndInex = (first.getSequence g).length ∧ out.secondStartIndex = 0) ∧
        out.firstRead = ((first.getSequence g).drop out.firstStartIndex).take
          (out.firstEndInex - out.firstStartIndex) ∧
        out.secondRead = ((second.getSequence g).drop out.secondStartIndex).take
          (out.secondEndIndex - out.secondStartIndex) ∧
        fg.minExactMatchSize ≤ out.firstRead.length ∧
        fg.minExactMatchSize ≤ out.secondRead.length) := by
  rw [← trailingWindow_eq, ← leadingWindow_eq] at hlcs
  constructor
  · intro hlen
    exact ⟨_, extendRead_reject fg g first second r hlcs hlen, rfl, rfl⟩
  · intro hlen
    obtain ⟨out, hout, h1, h2, h3, h4, h5, h6, _, _, h9, h10⟩ :=
      extendRead_accept fg g first second r hlcs (by omega)
    refine ⟨_, out, hout, by simp, h9, h10, ?_, ?_⟩
    · rw [h9, List.length_take, List.length_drop]; omega
    · rw [h10, List.length_take, List.length_drop]; omega

/-- C10: once the seed is accepted (the longest common substring `c` of the two windows has
at least `minExactMatchSize` bases), `extendRead` returns true if and only if the extended
match ends at the true end of A (`firstEndIndex = |A|`) and starts at the true start of B
(`secondStartIndex = 0`); and whenever it returns true, `firstRead` is the suffix of A of some
length `n`, `secondRead` is the prefix of B of the same length `n`, and `n ≤ min(|A|, |B|)`. -/
theorem extendRead_true_iff (fg : FindGap) (g : DBGraph) (first second : SSNode) (r : ReadRefs)
    (c : List Nucleotide) (i j : Nat)
    (hlcs : getLongestCommonSubStr
      ((first.getSequence g).drop
        ((first.getSequence g).length - min (first.getSequence g).length fg.maxSearchSize))
      ((second.getSequence g).take (min (second.getSequence g).length fg.maxSearchSize))
        = some (c, i, j))
    (hseed : fg.minExactMatchSize ≤ c.length) :
    ∃ b out, fg.extendRead g first second r = some (b, out) ∧
      (b = true ↔ out.firstEndInex = (first.getSequence g).length ∧ out.secondStartIndex = 0) ∧
      (b = true → ∃ n, n ≤ min (first.getSequence g).length (second.getSequence g).length ∧
        out.firstRead = (first.getSequence g).drop ((first.getSequence g).length - n) ∧
        out.secondRead = (second.getSequence g).take n ∧
        out.firstRead.length = n ∧ out.secondRead.length = n) := by
  rw [← trailingWindow_eq, ← leadingWindow_eq] at hlcs
  obtain ⟨out, hout, h1, h2, h3, h4, h5, h6, _, _, h9, h10⟩ :=
    extendRead_accept fg g first second r hlcs (by omega)
  refine ⟨_, out, hout, by simp, ?_⟩
  intro hb
  obtain ⟨he, hs⟩ : out.firstEndInex = (first.getSequence g).length ∧ out.secondStartIndex = 0 := by
    simpa using hb
  refine ⟨(first.getSequence g).length - out.firstStartIndex, by omega, ?_, ?_, ?_, ?_⟩
  · rw [h9, he, Nat.sub_sub_self (by omega)]
    apply List.take_of_length_le
    rw [List.length_drop]
  · rw [h10, hs, List.drop_zero]
    congr 1
    omega
  · rw [h9, List.length_take, List.length_drop]; omega
  · rw [h10, List.length_take, List.length_drop]; omega

theorem extendRead_seed_test_witness :
    (∃ out, exFindGap.extendRead exGraph ⟨1, 1⟩ ⟨4, 4⟩ ⟨5, 6, 7, 8, [.A], [.C]⟩ = some (false, out) ∧
      out.firstRead = [.A] ∧ out.secondRead = [.C]) ∧
    (∃ b out, exFindGap.extendRead exGraph ⟨1, 1⟩ ⟨2, 2⟩ ReadRefs.init = some (b, out) ∧
      (b = true ↔ out.firstEndInex = 9 ∧ out.secondStartIndex = 0) ∧
      out.firstRead = ((SSNode.getSequence ⟨1, 1⟩ exGraph).drop out.firstStartIndex).take
        (out.firstEndInex - out.firstStartIndex) ∧
      out.secondRead = ((SSNode.getSequence ⟨2, 2⟩ exGraph).drop out.secondStartIndex).take
        (out.secondEndIndex - out.secondStartIndex) ∧
      7 ≤ out.firstRead.length ∧ 7 ≤ out.secondRead.length) :=
  ⟨(extendRead_seed_test exFindGap exGraph ⟨1, 1⟩ ⟨4, 4⟩ ⟨5, 6, 7, 8, [.A], [.C]⟩
      [.T, .T] 0 3 (by decide)).1 (by decide),
   (extendRead_seed_test exFindGap exGraph ⟨1, 1⟩ ⟨2, 2⟩ ReadRefs.init
      [.A, .C, .G, .G, .T, .C, .A] 2 0 (by decide)).2 (by decide)⟩

theorem extendRead_true_iff_witness :
    ∃ b out, exFindGap.extendRead exGraph ⟨1, 1⟩ ⟨2, 2⟩ ReadRefs.init = some (b, out) ∧
      (b = true ↔ out.firstEndInex = 9 ∧ out.secondStartIndex = 0) ∧
      (b = true → ∃ n, n ≤ min 9 9 ∧
        out.firstRead = (SSNode.getSequence ⟨1, 1⟩ exGraph).drop (9 - n) ∧
        out.secondRead = (SSNode.getSequence ⟨2, 2⟩ exGraph).take n ∧
        out.firstRead.length = n ∧ out.secondRead.length = n) :=
  extendRead_true_iff exFindGap exGraph ⟨1, 1⟩ ⟨2, 2⟩ ReadRefs.init
    [.A, .C, .G, .G, .T, .C, .A] 2 0 (by decide) (by decide)

/-! ## Arc operations leave the payload of every node alone -/

@[simp] theorem modify_nodes (g : DBGraph) (idx : Nat) (f : DSNode → DSNode) (i : Nat) :
    (g.modify idx f).nodes i = if i = idx then f (g.nodes i) else g.nodes i := rfl

@[simp] theorem modify_numNodes (g : DBGraph) (idx : Nat) (f : DSNode → DSNode) :
    (g.modify idx f).numNodes = g.numNodes := rfl

@[simp] theorem modify_findNPP (g : DBGraph) (idx : Nat) (f : DSNode → DSNode) :
    (g.modify idx f).findNPP = g.findNPP := rfl

theorem SamePayload.refl (g : DBGraph) : SamePayload g g :=
  ⟨rfl, rfl, fun _ => rfl, fun _ => rfl, fun _ => rfl, fun _ => rfl⟩

theorem SamePayload.trans {g1 g2 g3 : DBGraph} (h12 : SamePayload g1 g2)
    (h23 : SamePayload g2 g3) : SamePayload g1 g3 :=
  ⟨h23.numNodes.trans h12.numNodes, h23.findNPP.trans h12.findNPP,
    fun i => (h23.sequence i).trans (h12.sequence i),
    fun i => (h23.kmerCov i).trans (h12.kmerCov i),
    fun i => (h23.readStartCov i).trans (h12.readStartCov i),
    fun i => (h23.invalid i).trans (h12.invalid i)⟩

theorem samePayload_modify (g : DBGraph) (idx : Nat) (f : DSNode → DSNode)
    (h1 : ∀ d, (f d).sequence = d.sequence) (h2 : ∀ d, (f d).kmerCov = d.kmerCov)
    (h3 : ∀ d, (f d).readStartCov = d.readStartCov) (h4 : ∀ d, (f d).invalid = d.invalid) :
    SamePayload g (g.modify idx f) := by
  refine ⟨rfl, rfl, ?_, ?_, ?_, ?_⟩ <;> intro i <;> simp only [modify_nodes] <;> split <;>
    simp [h1, h2, h3, h4]

theorem samePayload_setLeftArcs (v : SSNode) (g : DBGraph) (arcs : List Arc) :
    SamePayload g (v.setLeftArcs g arcs) := by
  unfold SSNode.setLeftArcs
  apply samePayload_modify <;> intro d <;> split <;> rfl

theorem samePayload_setRightArcs (v : SSNode) (g : DBGraph) (arcs : List Arc) :
    SamePayload g (v.setRightArcs g arcs) := by
  unfold SSNode.setRightArcs
  apply samePayload_modify <;> intro d <;> split <;> rfl

theorem samePayload_deleteLeftArc (v : SSNode) (g : DBGraph) (t : NodeID) :
    SamePayload g (v.deleteLeftArc g t).2 := by
  unfold SSNode.deleteLeftArc
  split
  · exact samePayload_setLeftArcs _ _ _
  · exact SamePayload.refl g

theorem samePayload_deleteRightArc (v : SSNode) (g : DBGraph) (t : NodeID) :
    SamePayload g (v.deleteRightArc g t).2 := by
  unfold SSNode.deleteRightArc
  split
  · exact samePayload_setRightArcs _ _ _
  · exact SamePayload.refl g

theorem samePayload_replaceLeftArc {v : SSNode} {g g' : DBGraph} {o n : NodeID}
    (h : v.replaceLeftArc g o n = some g') : SamePayload g g' := by
  unfold SSNode.replaceLeftArc at h
  split at h
  · cases h; exact samePayload_setLeftArcs _ _ _
  · cases h

/-- A relation that every round of a loop establishes, and that is reflexive and transitive,
holds between the state before the loop and the state after it. -/
theorem foldlM_rel {σ β : Type} (R : σ → σ → Prop) (hrefl : ∀ s, R s s)
    (htrans : ∀ a b c, R a b → R b c → R a c) (f : σ → β → Option σ)
    (hf : ∀ s x s', f s x = some s' → R s s') :
    ∀ (l : List β) (s s' : σ), l.foldlM f s = some s' → R s s'
  | [], s, s', h => by
    simp only [List.foldlM_nil, Option.pure_def, Option.some.injEq] at h
    subst h; exact hrefl s
  | x :: l, s, s', h => by
    simp only [List.foldlM_cons, Option.bind_eq_bind] at h
    cases hx : f s x with
    | none => rw [hx] at h; cases h
    | some s1 =>
      rw [hx] at h
      exact htrans _ _ _ (hf s x s1 hx) (foldlM_rel R hrefl htrans f hf l s1 s' h)

theorem samePayload_foldlM {β : Type} (f : DBGraph → β → Option DBGraph)
    (hf : ∀ s x s', f s x = some s' → SamePayload s s') (l : List β) (s s' : DBGraph)
    (h : l.foldlM f s = some s') : SamePayload s s' :=
  foldlM_rel SamePayload SamePayload.refl (fun _ _ _ => SamePayload.trans) f hf l s s' h

theorem samePayload_inheritRightArcs {v target : SSNode} {g g' : DBGraph}
    (h : v.inheritRightArcs g target = some g') : SamePayload g g' := by
  unfold SSNode.inheritRightArcs at h
  simp only [Option.pure_def, Option.bind_eq_bind] at h
  cases h1 : (target.rightArcs g).foldlM (fun (g : DBGraph) (it : Arc) =>
      (g.getSSNode it.nodeID).bind fun rightNode =>
        rightNode.replaceLeftArc g target.nodeID v.nodeID) g with
  | none => rw [h1] at h; cases h
  | some g1 =>
    rw [h1] at h
    simp only [Option.some_bind, Option.some.injEq] at h
    subst h
    have hg1 : SamePayload g g1 := by
      refine samePayload_foldlM _ ?_ _ _ _ h1
      intro s x s' hs
      cases hn : s.getSSNode x.nodeID with
      | none => rw [hn] at hs; cases hs
      | some rn => rw [hn] at hs; exact samePayload_replaceLeftArc hs
    exact (hg1.trans (samePayload_setRightArcs _ _ _)).trans (samePayload_setRightArcs _ _ _)

theorem samePayload_detachLeft {second : SSNode} {g g' : DBGraph} {it : Arc}
    (h : detachLeft second g it = some g') : SamePayload g g' := by
  unfold detachLeft at h
  cases hn : g.getSSNode it.nodeID with
  | none => rw [hn] at h; cases h
  | some ln =>
    rw [hn] at h
    simp only [Option.pure_def, Option.bind_eq_bind, Option.some_bind] at h
    split at h
    · cases h; exact SamePayload.refl g
    · have hp := samePayload_deleteRightArc ln g second.getNodeID
      cases hd : ln.deleteRightArc g second.getNodeID with
      | mk b g2 =>
        rw [hd] at h hp
        cases b
        · cases h
        · simp only [if_true, Option.some.injEq] at h
          subst h; exact hp

theorem samePayload_detachRight {second : SSNode} {g g' : DBGraph} {it : Arc}
    (h : detachRight second g it = some g') : SamePayload g g' := by
  unfold detachRight at h
  cases hn : g.getSSNode it.nodeID with
  | none => rw [hn] at h; cases h
  | some ln =>
    rw [hn] at h
    simp only [Option.pure_def, Option.bind_eq_bind, Option.some_bind] at h
    split at h
    · cases h; exact SamePayload.refl g
    · have hp := samePayload_deleteLeftArc ln g second.getNodeID
      cases hd : ln.deleteLeftArc g second.getNodeID with
      | mk b g2 =>
        rw [hd] at h hp
        cases b
        · cases h
        · simp only [if_true, Option.some.injEq] at h
          subst h; exact hp

/-! ## `connectNodes` -/

theorem revCompl_revCompl (s : List Nucleotide) : revCompl (revCompl s) = s := by
  unfold revCompl
  rw [List.map_reverse, List.reverse_reverse, List.map_map]
  have : Nucleotide.complement ∘ Nucleotide.complement = id := by
    funext x; cases x <;> rfl
  rw [this, List.map_id]

theorem revCompl_length (s : List Nucleotide) : (revCompl s).length = s.length := by
  simp [revCompl]

/-- Unfolding of the commit of `connectNodes`: two graphs that differ in arcs only stand
before and after the two detaching loops, and the payload is written in between. -/
theorem connectNodesCommit_eq {g g' : DBGraph} {first second : SSNode}
    {cons : List Nucleotide} (h : connectNodesCommit g first second cons = some g') :
    ∃ g2 g5, SamePayload g g2 ∧ SamePayload (first.setSequence g2 cons) g5 ∧
      g' = second.invalidate (second.deleteAllRightArcs (second.deleteAllLeftArcs
        (first.setReadStartCov
          (first.setKmerCov g5 (first.getKmerCov g5 + second.getKmerCov g5))
          (first.getReadStartCov g5 + second.getReadStartCov g5)))) := by
  unfold connectNodesCommit at h
  simp only [Option.pure_def, Option.bind_eq_bind] at h
  cases h2 : first.inheritRightArcs (first.deleteAllRightArcs g) second with
  | none => rw [h2] at h; cases h
  | some g2 =>
    rw [h2] at h
    simp only [Option.some_bind] at h
    cases h4 : (second.leftArcs (first.setSequence g2 cons)).foldlM (detachLeft second)
        (first.setSequence g2 cons) with
    | none => rw [h4] at h; cases h
    | some g4 =>
      rw [h4] at h
      simp only [Option.some_bind] at h
      cases h5 : (second.rightArcs g4).foldlM (detachRight second) g4 with
      | none => rw [h5] at h; cases h
      | some g5 =>
        rw [h5] at h
        simp only [Option.some_bind, Option.some.injEq] at h
        refine ⟨g2, g5, ?_, ?_, h.symm⟩
        · exact (samePayload_setRightArcs first g []).trans (samePayload_inheritRightArcs h2)
        · exact (samePayload_foldlM _ (fun _ _ _ => samePayload_detachLeft) _ _ _ h4).trans
            (samePayload_foldlM _ (fun _ _ _ => samePayload_detachRight) _ _ _ h5)

theorem invalidate_nodes (v : SSNode) (g : DBGraph) (i : Nat) :
    ((v.invalidate g).nodes i).sequence = (g.nodes i).sequence ∧
    ((v.invalidate g).nodes i).kmerCov = (g.nodes i).kmerCov ∧
    ((v.invalidate g).nodes i).readStartCov = (g.nodes i).readStartCov ∧
    ((v.invalidate g).nodes i).leftArcs = (g.nodes i).leftArcs ∧
    ((v.invalidate g).nodes i).rightArcs = (g.nodes i).rightArcs ∧
    ((v.invalidate g).nodes i).invalid = (if i = v.dsNode then true else (g.nodes i).invalid) := by
  simp only [SSNode.invalidate, modify_nodes]
  split <;> simp

theorem setKmerCov_nodes (v : SSNode) (g : DBGraph) (c i : Nat) :
    ((v.setKmerCov g c).nodes i).sequence = (g.nodes i).sequence ∧
    ((v.setKmerCov g c).nodes i).kmerCov = (if i = v.dsNode then c else (g.nodes i).kmerCov) ∧
    ((v.setKmerCov g c).nodes i).readStartCov = (g.nodes i).readStartCov ∧
    ((v.setKmerCov g c).nodes i).leftArcs = (g.nodes i).leftArcs ∧
    ((v.setKmerCov g c).nodes i).rightArcs = (g.nodes i).rightArcs ∧
    ((v.setKmerCov g c).nodes i).invalid = (g.nodes i).invalid := by
  simp only [SSNode.setKmerCov, modify_nodes]
  split <;> simp

theorem setReadStartCov_nodes (v : SSNode) (g : DBGraph) (c i : Nat) :
    ((v.setReadStartCov g c).nodes i).sequence = (g.nodes i).sequence ∧
    ((v.setReadStartCov g c).nodes i).kmerCov = (g.nodes i).kmerCov ∧
    ((v.setReadStartCov g c).nodes i).readStartCov
      = (if i = v.dsNode then c else (g.nodes i).readStartCov) ∧
    ((v.setReadStartCov g c).nodes i).leftArcs = (g.nodes i).leftArcs ∧
    ((v.setReadStartCov g c).nodes i).rightArcs = (g.nodes i).rightArcs ∧
    ((v.setReadStartCov g c).nodes i).invalid = (g.nodes i).invalid := by
  simp only [SSNode.setReadStartCov, modify_nodes]
  split <;> simp

theorem setSequence_nodes (v : SSNode) (g : DBGraph) (str : List Nucleotide) (i : Nat) :
    ((v.setSequence g str).nodes i).sequence
      = (if i = v.dsNode then (if v.nodeID > 0 then str else revCompl str)
         else (g.nodes i).sequence) ∧
    ((v.setSequence g str).nodes i).kmerCov = (g.nodes i).kmerCov ∧
    ((v.setSequence g str).nodes i).readStartCov = (g.nodes i).readStartCov ∧
    ((v.setSequence g str).nodes i).leftArcs = (g.nodes i).leftArcs ∧
    ((v.setSequence g str).nodes i).rightArcs = (g.nodes i).rightArcs ∧
    ((v.setSequence g str).nodes i).invalid = (g.nodes i).invalid := by
  simp only [SSNode.setSequence, modify_nodes]
  split <;> simp

theorem deleteAllArcs_nodes (v : SSNode) (g : DBGraph) :
    ((v.deleteAllRightArcs (v.deleteAllLeftArcs g)).nodes v.dsNode).leftArcs = [] ∧
    ((v.deleteAllRightArcs (v.deleteAllLeftArcs g)).nodes v.dsNode).rightArcs = [] := by
  simp only [SSNode.deleteAllRightArcs, SSNode.deleteAllLeftArcs, SSNode.setRightArcs,
    SSNode.setLeftArcs, modify_nodes, if_true]
  split <;> simp

/-- What the commit of `connectNodes` leaves in each field it writes. -/
theorem connectNodesCommit_fields {g g' : DBGraph} {first second : SSNode}
    {cons : List Nucleotide} (h : connectNodesCommit g first second cons = some g') :
    g'.numNodes = g.numNodes ∧ g'.findNPP = g.findNPP ∧
    (∀ i, (g'.nodes i).sequence =
      if i = first.dsNode then (if first.nodeID > 0 then cons else revCompl cons)
      else (g.nodes i).sequence) ∧
    (∀ i, (g'.nodes i).kmerCov =
      if i = first.dsNode then (g.nodes first.dsNode).kmerCov + (g.nodes second.dsNode).kmerCov
      else (g.nodes i).kmerCov) ∧
    (∀ i, (g'.nodes i).readStartCov =
      if i = first.dsNode then
        (g.nodes first.dsNode).readStartCov + (g.nodes second.dsNode).readStartCov
      else (g.nodes i).readStartCov) ∧
    (∀ i, (g'.nodes i).invalid = if i = second.dsNode then true else (g.nodes i).invalid) ∧
    (g'.nodes second.dsNode).leftArcs = [] ∧ (g'.nodes second.dsNode).rightArcs = [] := by
  obtain ⟨g2, g5, h2, h5, rfl⟩ := connectNodesCommit_eq h
  have hk1 : first.getKmerCov g5 = (g.nodes first.dsNode).kmerCov := by
    unfold SSNode.getKmerCov
    rw [h5.kmerCov, (setSequence_nodes _ _ _ _).2.1, h2.kmerCov]
  have hk2 : second.getKmerCov g5 = (g.nodes second.dsNode).kmerCov := by
    unfold SSNode.getKmerCov
    rw [h5.kmerCov, (setSequence_nodes _ _ _ _).2.1, h2.kmerCov]
  have hr1 : first.getReadStartCov g5 = (g.nodes first.dsNode).readStartCov := by
    unfold SSNode.getReadStartCov
    rw [h5.readStartCov, (setSequence_nodes _ _ _ _).2.2.1, h2.readStartCov]
  have hr2 : second.getReadStartCov g5 = (g.nodes second.dsNode).readStartCov := by
    unfold SSNode.getReadStartCov
    rw [h5.readStartCov, (setSequence_nodes _ _ _ _).2.2.1, h2.readStartCov]
  rw [hk1, hk2, hr1, hr2]
  have hL := samePayload_setLeftArcs second
  have hR := samePayload_setRightArcs second
  refine ⟨?_, ?_, ?_, ?_, ?_, ?_, ?_, ?_⟩
  · exact h5.numNodes.trans h2.numNodes
  · exact h5.findNPP.trans h2.findNPP
  · intro i
    rw [(invalidate_nodes _ _ _).1, SSNode.deleteAllRightArcs, (hR _ _).sequence,
      SSNode.deleteAllLeftArcs, (hL _ _).sequence, (setReadStartCov_nodes _ _ _ _).1,
      (setKmerCov_nodes _ _ _ _).1, h5.sequence, (setSequence_nodes _ _ _ _).1, h2.sequence]
  · intro i
    rw [(invalidate_nodes _ _ _).2.1, SSNode.deleteAllRightArcs, (hR _ _).kmerCov,
      SSNode.deleteAllLeftArcs, (hL _ _).kmerCov, (setReadStartCov_nodes _ _ _ _).2.1,
      (setKmerCov_nodes _ _ _ _).2.1, h5.kmerCov, (setSequence_nodes _ _ _ _).2.1, h2.kmerCov]
  · intro i
    rw [(invalidate_nodes _ _ _).2.2.1, SSNode.deleteAllRightArcs, (hR _ _).readStartCov,
      SSNode.deleteAllLeftArcs, (hL _ _).readStartCov, (setReadStartCov_nodes _ _ _ _).2.2.1,
      (setKmerCov_nodes _ _ _ _).2.2.1, h5.readStartCov, (setSequence_nodes _ _ _ _).2.2.1,
      h2.readStartCov]
  · intro i
    rw [(invalidate_nodes _ _ _).2.2.2.2.2, SSNode.deleteAllRightArcs, (hR _ _).invalid,
      SSNode.deleteAllLeftArcs, (hL _ _).invalid, (setReadStartCov_nodes _ _ _ _).2.2.2.2.2,
      (setKmerCov_nodes _ _ _ _).2.2.2.2.2, h5.invalid, (setSequence_nodes _ _ _ _).2.2.2.2.2,
      h2.invalid]
  · rw [(invalidate_nodes _ _ _).2.2.2.1]
    exact (deleteAllArcs_nodes second _).1
  · rw [(invalidate_nodes _ _ _).2.2.2.2.1]
    exact (deleteAllArcs_nodes second _).2

/-- The consensus of `connectNodes` in terms of what `extendRead` left in the reference
parameters. -/
theorem consensusStr_of_extendRead {fg : FindGap} {g : DBGraph} {first second : SSNode}
    {b : Bool} {out : ReadRefs}
    (h : fg.extendRead g first second ReadRefs.init = some (b, out)) :
    fg.consensusStr g first second =
      some ((first.getSequence g).take out.firstStartIndex ++ out.firstRead
        ++ (second.getSequence g).drop out.secondEndIndex) := by
  unfold FindGap.consensusStr
  unfold ReadRefs.init at h
  rw [h]
  simp only [Option.pure_def, Option.bind_eq_bind, Option.some_bind]
  have e2 : ∀ a : List Nucleotide,
      (if (second.getSequence g).length > out.secondEndIndex then
        (substr (second.getSequence g) out.secondEndIndex
          ((second.getSequence g).length - out.secondEndIndex)).bind
            fun t => some (a ++ out.firstRead ++ t)
      else some (a ++ out.firstRead))
      = some (a ++ out.firstRead ++ (second.getSequence g).drop out.secondEndIndex) := by
    intro a
    split
    · rename_i hlt
      rw [substr_of_le _ _ (le_of_lt hlt)]
      simp only [Option.some_bind]
      congr 2
      apply List.take_of_length_le
      rw [List.length_drop]
    · rename_i hlt
      rw [List.drop_of_length_le (by omega), List.append_nil]
  split
  · rw [substr_of_le _ _ (Nat.zero_le _), List.drop_zero]
    simp only [Option.some_bind]
    exact e2 _
  · have : out.firstStartIndex = 0 := by omega
    rw [this, List.take_zero]
    exact e2 _

/-- The consensus is always built, and it is a prefix of `first` followed by a suffix of
`second`. -/
theorem consensusStr_spec (fg : FindGap) (g : DBGraph) (first second : SSNode) :
    ∃ p q, fg.consensusStr g first second
        = some ((first.getSequence g).take p ++ (second.getSequence g).drop q) ∧
      p ≤ (first.getSequence g).length ∧ q ≤ (second.getSequence g).length := by
  obtain ⟨c, i, j, hlcs, _, _, hi, hj, _⟩ := getLongestCommonSubStr_spec
    (fg.trailingWindow (first.getSequence g)) (fg.leadingWindow (second.getSequence g))
  rw [trailingWindow_length] at hi
  have hw1 := windowLen_le fg (first.getSequence g).length
  by_cases hlen : c.length < fg.minExactMatchSize
  · have hr := extendRead_reject fg g first second ReadRefs.init hlcs hlen
    refine ⟨i, 0, ?_, by omega, Nat.zero_le _⟩
    rw [consensusStr_of_extendRead hr]
    simp [ReadRefs.init]
  · obtain ⟨out, hout, h1, h2, h3, h4, h5, h6, _, _, h9, h10⟩ :=
      extendRead_accept fg g first second ReadRefs.init hlcs hlen
    refine ⟨out.firstEndInex, out.secondEndIndex, ?_, h2, h4⟩
    rw [consensusStr_of_extendRead hout, h9]
    congr 2
    have : out.firstEndInex = out.firstStartIndex + (out.firstEndInex - out.firstStartIndex) := by
      omega
    conv_rhs => rw [this]
    rw [List.take_add]

theorem consensusStr_length_le {fg : FindGap} {g : DBGraph} {first second : SSNode}
    {cons : List Nucleotide} (h : fg.consensusStr g first second = some cons) :
    cons.length ≤ (first.getSequence g).length + (second.getSequence g).length := by
  obtain ⟨p, q, hc, hp, hq⟩ := consensusStr_spec fg g first second
  rw [h] at hc
  cases hc
  rw [List.length_append, List.length_take, List.length_drop]
  omega

theorem sizeSub_one {k : Nat} (h1 : 1 ≤ k) (hk : k < 2 ^ 64) : sizeSub k 1 = k - 1 := by
  unfold sizeSub; omega

theorem tailPos_of_le {n k : Nat} (h1 : 1 ≤ k) (hk : k < 2 ^ 64) (hn : n < 2 ^ 64)
    (h : k ≤ n + 1) : sizeAdd (sizeSub n k) 1 = n - (k - 1) := by
  unfold sizeAdd sizeSub; omega

theorem any_not_owned_iff (g : DBGraph) (a b : NodeID) (ws : List (List Nucleotide)) :
    (ws.any (fun kmer =>
        let result := g.findNPP kmer
        result.isValid && decide (result.nodeID.natAbs ≠ a.natAbs)
          && decide (result.nodeID.natAbs ≠ b.natAbs)) = true)
      ↔ ¬ ∀ kmer ∈ ws, ownedKmer g a b kmer := by
  simp only [List.any_eq_true, Bool.and_eq_true, decide_eq_true_eq, NodePosPair.isValid,
    bne_iff_ne, ne_eq, ownedKmer, not_forall]
  constructor
  · rintro ⟨w, hw, ⟨h0, h1⟩, h2⟩
    exact ⟨w, hw, fun h => by rcases h with h | h | h <;> contradiction⟩
  · rintro ⟨w, hw, h⟩
    exact ⟨w, hw, ⟨fun h0 => h (Or.inl h0), fun h1 => h (Or.inr (Or.inl h1))⟩,
      fun h2 => h (Or.inr (Or.inr h2))⟩

/-- The validation of `connectNodes` decides the condition `Validated`, when no boundary
`substr` is out of range. -/
theorem validate_eq (fg : FindGap) (g : DBGraph) (first second : SSNode) (a b : NodeID)
    (cons : List Nucleotide) (h1 : 1 ≤ fg.kmerSize) (hk : fg.kmerSize < 2 ^ 64)
    (hA : fg.kmerSize ≤ (first.getSequence g).length + 1)
    (hB : fg.kmerSize ≤ (second.getSequence g).length + 1)
    (hBsz : (second.getSequence g).length < 2 ^ 64) (hCsz : cons.length < 2 ^ 64) :
    fg.validate g first second a b cons
      = some (decide (Validated fg.kmerSize g first second a b cons)) := by
  unfold FindGap.validate
  simp only [substr_of_le _ _ (Nat.zero_le _), List.drop_zero, sizeSub_one h1 hk,
    Option.pure_def, Option.bind_eq_bind, Option.some_bind]
  by_cases hhead : (first.getSequence g).take (fg.kmerSize - 1) = cons.take (fg.kmerSize - 1)
  · rw [if_neg (not_not.mpr hhead)]
    have hclen : fg.kmerSize ≤ cons.length + 1 := by
      have := congrArg List.length hhead
      rw [List.length_take, List.length_take] at this
      omega
    rw [tailPos_of_le h1 hk hBsz hB, tailPos_of_le h1 hk hCsz hclen,
      substr_of_le _ _ (Nat.sub_le _ _), substr_of_le _ _ (Nat.sub_le _ _)]
    simp only [Option.some_bind]
    rw [List.take_of_length_le (by rw [List.length_drop]; omega),
      List.take_of_length_le (by rw [List.length_drop]; omega)]
    by_cases htail : (second.getSequence g).drop ((second.getSequence g).length - (fg.kmerSize - 1))
        = cons.drop (cons.length - (fg.kmerSize - 1))
    · rw [if_neg (not_not.mpr htail)]
      by_cases hown : ∀ kmer ∈ kmerWindows fg.kmerSize cons, ownedKmer g a b kmer
      · rw [if_neg (fun h => (any_not_owned_iff g a b _).mp h hown)]
        have : Validated fg.kmerSize g first second a b cons := ⟨hhead.symm, htail.symm, hown⟩
        simp [this]
      · rw [if_pos ((any_not_owned_iff g a b _).mpr hown)]
        have : ¬ Validated fg.kmerSize g first second a b cons := fun h => hown h.2.2
        simp [this]
    · rw [if_pos htail]
      have : ¬ Validated fg.kmerSize g first second a b cons := fun h => htail h.2.1.symm
      simp [this]
  · rw [if_pos hhead]
    have : ¬ Validated fg.kmerSize g first second a b cons := fun h => hhead h.1.symm
    simp [this]

/-- The call `connectNodes` once the two views and the consensus are known. -/
theorem connectNodes_unfold {fg : FindGap} {g : DBGraph} {a b : NodeID} {first second : SSNode}
    {cons : List Nucleotide} (hf : g.getSSNode a = some first) (hs : g.getSSNode b = some second)
    (hc : fg.consensusStr g first second = some cons) :
    fg.connectNodes g a b =
      (fg.validate g first second a b cons).bind fun ok =>
        if ok = true then (connectNodesCommit g first second cons).bind fun g' => some (true, g')
        else some (false, g) := by
  unfold FindGap.connectNodes
  rw [hf, hs]
  simp only [Option.pure_def, Option.bind_eq_bind, Option.some_bind, hc]

/-- The call `connectNodes` in terms of the condition `Validated`, when no boundary `substr` is out of
range. -/
theorem connectNodes_eq {fg : FindGap} {g : DBGraph} {a b : NodeID} {first second : SSNode}
    {cons : List Nucleotide} (hf : g.getSSNode a = some first) (hs : g.getSSNode b = some second)
    (hc : fg.consensusStr g first second = some cons)
    (h1 : 1 ≤ fg.kmerSize) (hk : fg.kmerSize < 2 ^ 64)
    (hsz : (first.getSequence g).length + (second.getSequence g).length < 2 ^ 64)
    (hA : fg.kmerSize - 1 ≤ (first.getSequence g).length)
    (hB : fg.kmerSize - 1 ≤ (second.getSequence g).length) :
    fg.connectNodes g a b =
      if Validated fg.kmerSize g first second a b cons then
        (connectNodesCommit g first second cons).bind fun g' => some (true, g')
      else some (false, g) := by
  have hlen := consensusStr_length_le hc
  rw [connectNodes_unfold hf hs hc,
    validate_eq fg g first second a b cons h1 hk (by omega) (by omega) (by omega) (by omega)]
  simp only [Option.some_bind, decide_eq_true_eq]

theorem getSequence_setSequence_nodes (v : SSNode) (g' : DBGraph) (cons : List Nucleotide)
    (h : (g'.nodes v.dsNode).sequence = if v.nodeID > 0 then cons else revCompl cons) :
    v.getSequence g' = cons := by
  unfold SSNode.getSequence
  rw [h]
  split
  · rfl
  · exact revCompl_revCompl cons

/-- A call of `connectNodes` that returns true went through the validation and the commit. -/
theorem connectNodes_true {fg : FindGap} {g g' : DBGraph} {a b : NodeID}
    (h : fg.connectNodes g a b = some (true, g')) :
    ∃ first second cons, g.getSSNode a = some first ∧ g.getSSNode b = some second ∧
      fg.consensusStr g first second = some cons ∧
      fg.validate g first second a b cons = some true ∧
      connectNodesCommit g first second cons = some g' := by
  unfold FindGap.connectNodes at h
  simp only [Option.pure_def, Option.bind_eq_bind] at h
  cases hf : g.getSSNode a with
  | none => rw [hf] at h; cases h
  | some first =>
    rw [hf] at h
    simp only [Option.some_bind] at h
    cases hs : g.getSSNode b with
    | none => rw [hs] at h; cases h
    | some second =>
      rw [hs] at h
      simp only [Option.some_bind] at h
      cases hc : fg.consensusStr g first second with
      | none => rw [hc] at h; cases h
      | some cons =>
        rw [hc] at h
        simp only [Option.some_bind] at h
        cases hv : fg.validate g first second a b cons with
        | none => rw [hv] at h; cases h
        | some ok =>
          rw [hv] at h
          simp only [Option.some_bind] at h
          cases ok with
          | false => simp at h
          | true =>
            simp only [if_true] at h
            cases hm : connectNodesCommit g first second cons with
            | none => rw [hm] at h; cases h
            | some g2 =>
              rw [hm] at h
              simp only [Option.some_bind, Option.some.injEq, Prod.mk.injEq, true_and] at h
              subst h
              exact ⟨first, second, cons, rfl, rfl, hc, hv, hm⟩

/-- A call of `connectNodes` that returns false returns the graph it was given. -/
theorem connectNodes_false {fg : FindGap} {g g' : DBGraph} {a b : NodeID}
    (h : fg.connectNodes g a b = some (false, g')) : g' = g := by
  unfold FindGap.connectNodes at h
  simp only [Option.pure_def, Option.bind_eq_bind] at h
  cases hf : g.getSSNode a with
  | none => rw [hf] at h; cases h
  | some first =>
    rw [hf] at h
    simp only [Option.some_bind] at h
    cases hs : g.getSSNode b with
    | none => rw [hs] at h; cases h
    | some second =>
      rw [hs] at h
      simp only [Option.some_bind] at h
      cases hc : fg.consensusStr g first second with
      | none => rw [hc] at h; cases h
      | some cons =>
        rw [hc] at h
        simp only [Option.some_bind] at h
        cases hv : fg.validate g first second a b cons with
        | none => rw [hv] at h; cases h
        | some ok =>
          rw [hv] at h
          simp only [Option.some_bind] at h
          cases ok with
          | false =>
            simp only [Bool.false_eq_true, if_false, Option.some.injEq, Prod.mk.injEq,
              true_and] at h
            exact h.symm
          | true =>
            simp only [if_true] at h
            cases hm : connectNodesCommit g first second cons with
            | none => rw [hm] at h; cases h
            | some g2 => rw [hm] at h; simp at h

theorem exists_of_map_fst {o : Option (Bool × DBGraph)} {v : Bool}
    (h : o.map Prod.fst = some v) : ∃ g', o = some (v, g') := by
  cases o with
  | none => cases h
  | some p =>
    obtain ⟨x, g'⟩ := p
    simp only [Option.map_some', Option.some.injEq] at h
    subst h
    exact ⟨g', rfl⟩

/-- On the example graph the tips 1 and 2 are merged. -/
theorem exGraph_connect_1_2 :
    ∃ g', exFindGap.connectNodes exGraph 1 2 = some (true, g') :=
  exists_of_map_fst (by decide)

/-- On the example graph the merge of node 1 with node 4 is rejected. -/
theorem exGraph_connect_1_4 :
    ∃ g', exFindGap.connectNodes exGraph 1 4 = some (false, g') :=
  exists_of_map_fst (by decide)

/-- C1: merge boundary identity. For every pair of nodes A, B, each with a sequence of at
least `k-1` bases, for which `connectNodes(A, B)` returns true, the sequence stored in A
afterwards has its first `k-1` bases equal to A's original first `k-1` bases and its last `k-1`
bases equal to B's original last `k-1` bases. (The word size and the lengths are `size_t`
values.) -/
theorem connectNodes_boundary (fg : FindGap) (g g' : DBGraph) (a b : NodeID)
    (first second : SSNode)
    (hf : g.getSSNode a = some first) (hs : g.getSSNode b = some second)
    (hk : fg.kmerSize < 2 ^ 64)
    (hsz : (first.getSequence g).length + (second.getSequence g).length < 2 ^ 64)
    (hA : fg.kmerSize - 1 ≤ (first.getSequence g).length)
    (hB : fg.kmerSize - 1 ≤ (second.getSequence g).length)
    (h : fg.connectNodes g a b = some (true, g')) :
    (first.getSequence g').take (fg.kmerSize - 1)
      = (first.getSequence g).take (fg.kmerSize - 1) ∧
    (first.getSequence g').drop ((first.getSequence g').length - (fg.kmerSize - 1))
      = (second.getSequence g).drop ((second.getSequence g).length - (fg.kmerSize - 1)) := by
  rcases Nat.eq_zero_or_pos fg.kmerSize with h0 | h1
  · simp [h0]
  · obtain ⟨first', second', cons, hf', hs', hc, hv, hm⟩ := connectNodes_true h
    rw [hf] at hf'; rw [hs] at hs'
    cases hf'; cases hs'
    have hlen := consensusStr_length_le hc
    rw [validate_eq fg g first second a b cons h1 hk (by omega) (by omega) (by omega)
      (by omega)] at hv
    have hval : Validated fg.kmerSize g first second a b cons := by simpa using hv
    have hseq : first.getSequence g' = cons :=
      getSequence_setSequence_nodes first g' cons (by
        rw [(connectNodesCommit_fields hm).2.2.1, if_pos rfl])
    rw [hseq]
    exact ⟨hval.1, hval.2.1⟩

theorem connectNodes_boundary_witness :
    ∃ g', exFindGap.connectNodes exGraph 1 2 = some (true, g') ∧
      (SSNode.getSequence ⟨1, 1⟩ g').take 2 = [.T, .T] ∧
      (SSNode.getSequence ⟨1, 1⟩ g').drop ((SSNode.getSequence ⟨1, 1⟩ g').length - 2)
        = [.G, .G] := by
  obtain ⟨g', h⟩ := exGraph_connect_1_2
  exact ⟨g', h, connectNodes_boundary exFindGap exGraph g' 1 2 ⟨1, 1⟩ ⟨2, 2⟩ rfl rfl
    (by decide) (by decide) (by decide) (by decide) h⟩

/-- C2: rejection is atomic. If `connectNodes(A, B)` returns false then the whole graph state
(every node's sequence, coverage fields, validity flag and arc lists, and the k-mer table) is
the state before the call. -/
theorem connectNodes_reject_atomic (fg : FindGap) (g g' : DBGraph) (a b : NodeID)
    (h : fg.connectNodes g a b = some (false, g')) :
    g' = g ∧ ∀ i, (g'.nodes i).sequence = (g.nodes i).sequence ∧
      (g'.nodes i).kmerCov = (g.nodes i).kmerCov ∧
      (g'.nodes i).readStartCov = (g.nodes i).readStartCov ∧
      (g'.nodes i).invalid = (g.nodes i).invalid ∧
      (g'.nodes i).leftArcs = (g.nodes i).leftArcs ∧
      (g'.nodes i).rightArcs = (g.nodes i).rightArcs := by
  have := connectNodes_false h
  subst this
  exact ⟨rfl, fun _ => ⟨rfl, rfl, rfl, rfl, rfl, rfl⟩⟩

theorem connectNodes_reject_atomic_witness :
    ∃ g', exFindGap.connectNodes exGraph 1 4 = some (false, g') ∧ g' = exGraph := by
  obtain ⟨g', h⟩ := exGraph_connect_1_4
  exact ⟨g', h, (connectNodes_reject_atomic exFindGap exGraph g' 1 4 h).1⟩

/-- C3: k-mer ownership validation. For a word size `1 ≤ k < 2^64` and two nodes of at least
`k-1` bases, with `cons` the consensus of the pair: `connectNodes(A, B)` returns true exactly
when `cons` passes both boundary checks and every k-mer window of it is absent from the table
or anchored on a node of physical index `|A|` or `|B|`: whatever the call returns, the flag is
true if and only if this validation passes; the graph returned with true is the one the
commit leaves; the call returns false, leaving the graph as it was, exactly when the
validation fails; a single window anchored on a third node makes it return false. -/
theorem connectNodes_validation (fg : FindGap) (g : DBGraph) (a b : NodeID)
    (first second : SSNode)
    (hf : g.getSSNode a = some first) (hs : g.getSSNode b = some second)
    (h1 : 1 ≤ fg.kmerSize) (hk : fg.kmerSize < 2 ^ 64)
    (hsz : (first.getSequence g).length + (second.getSequence g).length < 2 ^ 64)
    (hA : fg.kmerSize - 1 ≤ (first.getSequence g).length)
    (hB : fg.kmerSize - 1 ≤ (second.getSequence g).length) :
    ∃ cons, fg.consensusStr g first second = some cons ∧
      (∀ r g', fg.connectNodes g a b = some (r, g') →
        (r = true ↔ Validated fg.kmerSize g first second a b cons)) ∧
      (∀ g', fg.connectNodes g a b = some (true, g') ↔
        (Validated fg.kmerSize g first second a b cons ∧
          connectNodesCommit g first second cons = some g')) ∧
      (fg.connectNodes g a b = some (false, g) ↔
        ¬ Validated fg.kmerSize g first second a b cons) ∧
      ((∃ kmer ∈ kmerWindows fg.kmerSize cons,
          (g.findNPP kmer).nodeID ≠ 0 ∧ (g.findNPP kmer).nodeID.natAbs ≠ a.natAbs ∧
            (g.findNPP kmer).nodeID.natAbs ≠ b.natAbs) →
        fg.connectNodes g a b = some (false, g)) := by
  obtain ⟨p, q, hc, _, _⟩ := consensusStr_spec fg g first second
  refine ⟨_, hc, ?_, ?_, ?_, ?_⟩
  · intro r g' h
    rw [connectNodes_eq hf hs hc h1 hk hsz hA hB] at h
    split at h
    · rename_i hv
      cases hm : connectNodesCommit g first second
          (List.take p (first.getSequence g) ++ List.drop q (second.getSequence g)) with
      | none => rw [hm] at h; cases h
      | some g2 =>
        rw [hm] at h
        simp only [Option.some_bind, Option.some.injEq, Prod.mk.injEq] at h
        exact ⟨fun _ => hv, fun _ => h.1.symm⟩
    · rename_i hv
      simp only [Option.some.injEq, Prod.mk.injEq] at h
      constructor
      · intro hr; rw [hr] at h; exact absurd h.1 (by simp)
      · intro hval; exact absurd hval hv
  · intro g'
    rw [connectNodes_eq hf hs hc h1 hk hsz hA hB]
    constructor
    · intro h
      split at h
      · rename_i hv
        refine ⟨hv, ?_⟩
        cases hm : connectNodesCommit g first second
            (List.take p (first.getSequence g) ++ List.drop q (second.getSequence g)) with
        | none => rw [hm] at h; cases h
        | some g2 =>
          rw [hm] at h
          simp only [Option.some_bind, Option.some.injEq, Prod.mk.injEq, true_and] at h
          rw [h]
      · simp at h
    · rintro ⟨hv, hm⟩
      rw [if_pos hv, hm]
      rfl
  · rw [connectNodes_eq hf hs hc h1 hk hsz hA hB]
    constructor
    · intro h hv
      rw [if_pos hv] at h
      cases hm : connectNodesCommit g first second
          (List.take p (first.getSequence g) ++ List.drop q (second.getSequence g)) with
      | none => rw [hm] at h; cases h
      | some g2 => rw [hm] at h; simp at h
    · intro hv
      rw [if_neg hv]
  · rintro ⟨kmer, hmem, h0, ha, hb⟩
    rw [connectNodes_eq hf hs hc h1 hk hsz hA hB, if_neg]
    intro hv
    rcases hv.2.2 kmer hmem with h | h | h
    · exact h0 h
    · exact ha h
    · exact hb h

theorem connectNodes_validation_witness :
    ∃ cons, exFindGap.consensusStr exGraph ⟨1, 1⟩ ⟨2, 2⟩ = some cons ∧
      (∀ r g', exFindGap.connectNodes exGraph 1 2 = some (r, g') →
        (r = true ↔ Validated 3 exGraph ⟨1, 1⟩ ⟨2, 2⟩ 1 2 cons)) ∧
      (∀ g', exFindGap.connectNodes exGraph 1 2 = some (true, g') ↔
        (Validated 3 exGraph ⟨1, 1⟩ ⟨2, 2⟩ 1 2 cons ∧
          connectNodesCommit exGraph ⟨1, 1⟩ ⟨2, 2⟩ cons = some g')) ∧
      (exFindGap.connectNodes exGraph 1 2 = some (false, exGraph) ↔
        ¬ Validated 3 exGraph ⟨1, 1⟩ ⟨2, 2⟩ 1 2 cons) ∧
      ((∃ kmer ∈ kmerWindows 3 cons,
          (exGraph.findNPP kmer).nodeID ≠ 0 ∧ (exGraph.findNPP kmer).nodeID.natAbs ≠ 1 ∧
            (exGraph.findNPP kmer).nodeID.natAbs ≠ 2) →
        exFindGap.connectNodes exGraph 1 2 = some (false, exGraph)) :=
  connectNodes_validation exFindGap exGraph 1 2 ⟨1, 1⟩ ⟨2, 2⟩ rfl rfl
    (by decide) (by decide) (by decide) (by decide) (by decide)

/-- C5: commit payload. Whenever `connectNodes(A, B)` returns true, the sequence of node A
afterwards is exactly the consensus, the k-mer coverage of A is the sum of the k-mer coverages
of A and B before the call, and the read-start coverage of A is the sum of their read-start
coverages before the call. -/
theorem connectNodes_payload (fg : FindGap) (g g' : DBGraph) (a b : NodeID)
    (first second : SSNode) (cons : List Nucleotide)
    (hf : g.getSSNode a = some first) (hs : g.getSSNode b = some second)
    (hc : fg.consensusStr g first second = some cons)
    (h : fg.connectNodes g a b = some (true, g')) :
    first.getSequence g' = cons ∧
    first.getKmerCov g' = first.getKmerCov g + second.getKmerCov g ∧
    first.getReadStartCov g' = first.getReadStartCov g + second.getReadStartCov g := by
  obtain ⟨first', second', cons', hf', hs', hc', _, hm⟩ := connectNodes_true h
  rw [hf] at hf'; rw [hs] at hs'
  cases hf'; cases hs'
  rw [hc] at hc'
  cases hc'
  obtain ⟨_, _, hseq, hkc, hrc, _⟩ := connectNodesCommit_fields hm
  refine ⟨getSequence_setSequence_nodes first g' cons (by rw [hseq, if_pos rfl]), ?_, ?_⟩
  · unfold SSNode.getKmerCov
    rw [hkc, if_pos rfl]
  · unfold SSNode.getReadStartCov
    rw [hrc, if_pos rfl]

theorem connectNodes_payload_witness :
    ∃ g', exFindGap.connectNodes exGraph 1 2 = some (true, g') ∧
      SSNode.getSequence ⟨1, 1⟩ g' = [.T, .T, .A, .C, .G, .G, .T, .C, .A, .G, .G] ∧
      SSNode.getKmerCov ⟨1, 1⟩ g' = 30 + 20 ∧ SSNode.getReadStartCov ⟨1, 1⟩ g' = 4 + 3 := by
  obtain ⟨g', h⟩ := exGraph_connect_1_2
  exact ⟨g', h, connectNodes_payload exFindGap exGraph g' 1 2 ⟨1, 1⟩ ⟨2, 2⟩ _ rfl rfl
    (by decide) h⟩

/-- The verdict of `extendRead` depends on the orientation in which a pair is presented: on
`exTwins` it accepts the pair `(1, 2)` and rejects the pair `(-2, -1)`, which
`checkForTipConnection` hands to `connectNodes` when node 2 has the higher coverage; and
`connectNodes(-2, -1)` returns true all the same. -/
theorem extendRead_orientation_dependent :
    (exFindGap.extendRead exTwins ⟨1, 1⟩ ⟨2, 2⟩ ReadRefs.init).map Prod.fst = some true ∧
    (exFindGap.extendRead exTwins ⟨2, -2⟩ ⟨1, -1⟩ ReadRefs.init).map Prod.fst = some false ∧
    (exFindGap.connectNodes exTwins (-2) (-1)).map Prod.fst = some true := by
  decide

/-- C4, the code at the failing input: on the graph of the two isolated nodes `ACG` and `GTT`
(`k = 3`, `minExactMatchSize = 7`) the longest common substring of the two windows is the
single base `G`, so `extendRead(1, 2)` rejects the pair; `connectNodes(1, 2)`, which does not
look at that flag, returns true, writes `ACGTT` into node 1 and invalidates node 2. -/
theorem connectNodes_ignores_extendRead :
    getLongestCommonSubStr (exFindGap.trailingWindow (SSNode.getSequence ⟨1, 1⟩ exTips))
      (exFindGap.leadingWindow (SSNode.getSequence ⟨2, 2⟩ exTips)) = some ([.G], 2, 0) ∧
    (exFindGap.extendRead exTips ⟨1, 1⟩ ⟨2, 2⟩ ReadRefs.init).map Prod.fst = some false ∧
    (exFindGap.connectNodes exTips 1 2).map Prod.fst = some true ∧
    (exTipsJoined.nodes 1).sequence = [.A, .C, .G, .T, .T] ∧
    (exTipsJoined.nodes 1).kmerCov = 9 ∧
    (exTipsJoined.nodes 2).invalid = true ∧
    exTipsJoined.nodes 1 ≠ exTips.nodes 1 := by
  decide

/-! ## The adjacency by signed identifier -/

theorem negate_negate (a : Arc) : a.negate.negate = a := by
  cases a; simp [Arc.negate]

theorem map_negate_negate (l : List Arc) : (l.map Arc.negate).map Arc.negate = l := by
  rw [List.map_map]
  have : Arc.negate ∘ Arc.negate = id := by funext a; exact negate_negate a
  rw [this, List.map_id]

theorem getSSNode_eq_some {g : DBGraph} {x : Int} {X : SSNode} :
    g.getSSNode x = some X ↔ (x ≠ 0 ∧ x.natAbs ≤ g.numNodes) ∧ X = ⟨x.natAbs, x⟩ := by
  unfold DBGraph.getSSNode
  simp only [ne_eq, Int.natAbs_eq_zero]
  split
  · rename_i h
    simp only [Option.some.injEq]
    constructor
    · intro e; exact ⟨h, e.symm⟩
    · intro e; exact e.2.symm
  · rename_i h
    constructor
    · intro e; cases e
    · intro e; exact absurd e.1 h

theorem rightArcs_eq_adj (g : DBGraph) (v : Int) :
    SSNode.rightArcs ⟨v.natAbs, v⟩ g = g.adj v := rfl

theorem leftArcs_eq_adj (g : DBGraph) {v : Int} (hv : v ≠ 0) :
    SSNode.leftArcs ⟨v.natAbs, v⟩ g = (g.adj (-v)).map Arc.negate := by
  unfold DBGraph.adj SSNode.leftArcs SSNode.rightArcs
  simp only [Int.natAbs_neg]
  by_cases hp : v > 0
  · have : ¬ (-v > 0) := by omega
    rw [if_pos hp, if_neg this, map_negate_negate]
  · have : -v > 0 := by omega
    rw [if_neg hp, if_pos this]

theorem adj_setRightArcs (g : DBGraph) {v : Int} (hv : v ≠ 0) (l : List Arc) (x : Int) :
    (SSNode.setRightArcs ⟨v.natAbs, v⟩ g l).adj x = if x = v then l else g.adj x := by
  unfold DBGraph.adj SSNode.rightArcs SSNode.setRightArcs
  simp only [modify_nodes]
  by_cases hx : x = v
  · subst hx
    rw [if_pos rfl, if_pos rfl]
    by_cases hp : x > 0
    · simp [hp]
    · simp only [hp, if_false]
      exact map_negate_negate l
  · rw [if_neg hx]
    by_cases hn : x.natAbs = v.natAbs
    · have hxv : x = -v := by
        rcases Int.natAbs_eq_natAbs_iff.mp hn with h | h
        · exact absurd h hx
        · exact h
      subst hxv
      rw [if_pos hn]
      by_cases hp : v > 0
      · have : ¬ (-v > 0) := by omega
        simp [hp, this]
      · have : -v > 0 := by omega
        simp [hp, this]
    · rw [if_neg hn]

theorem adj_setLeftArcs (g : DBGraph) {v : Int} (hv : v ≠ 0) (l : List Arc) (x : Int) :
    (SSNode.setLeftArcs ⟨v.natAbs, v⟩ g l).adj x
      = if x = -v then l.map Arc.negate else g.adj x := by
  unfold DBGraph.adj SSNode.rightArcs SSNode.setLeftArcs
  simp only [modify_nodes]
  by_cases hx : x = -v
  · subst hx
    rw [if_pos rfl, if_pos (Int.natAbs_neg v)]
    by_cases hp : v > 0
    · have : ¬ (-v > 0) := by omega
      simp [hp, this]
    · have : -v > 0 := by omega
      simp [hp, this]
  · rw [if_neg hx]
    by_cases hn : x.natAbs = v.natAbs
    · have hxv : x = v := by
        rcases Int.natAbs_eq_natAbs_iff.mp hn with h | h
        · exact h
        · exact absurd h hx
      subst hxv
      rw [if_pos hn]
      by_cases hp : x > 0
      · simp [hp]
      · simp [hp]
    · rw [if_neg hn]

theorem adj_of_arcs_eq {g g' : DBGraph}
    (h : ∀ i, (g'.nodes i).leftArcs = (g.nodes i).leftArcs ∧
      (g'.nodes i).rightArcs = (g.nodes i).rightArcs) (x : Int) : g'.adj x = g.adj x := by
  unfold DBGraph.adj SSNode.rightArcs
  simp only [(h _).1, (h _).2]

theorem adj_setSequence (v : SSNode) (g : DBGraph) (s : List Nucleotide) (x : Int) :
    (v.setSequence g s).adj x = g.adj x :=
  adj_of_arcs_eq (fun i => ⟨(setSequence_nodes v g s i).2.2.2.1,
    (setSequence_nodes v g s i).2.2.2.2.1⟩) x

theorem adj_setKmerCov (v : SSNode) (g : DBGraph) (c : Nat) (x : Int) :
    (v.setKmerCov g c).adj x = g.adj x :=
  adj_of_arcs_eq (fun i => ⟨(setKmerCov_nodes v g c i).2.2.2.1,
    (setKmerCov_nodes v g c i).2.2.2.2.1⟩) x

theorem adj_setReadStartCov (v : SSNode) (g : DBGraph) (c : Nat) (x : Int) :
    (v.setReadStartCov g c).adj x = g.adj x :=
  adj_of_arcs_eq (fun i => ⟨(setReadStartCov_nodes v g c i).2.2.2.1,
    (setReadStartCov_nodes v g c i).2.2.2.2.1⟩) x

theorem adj_invalidate (v : SSNode) (g : DBGraph) (x : Int) :
    (v.invalidate g).adj x = g.adj x :=
  adj_of_arcs_eq (fun i => ⟨(invalidate_nodes v g i).2.2.2.1,
    (invalidate_nodes v g i).2.2.2.2.1⟩) x

/-! ## Counting the arcs that lead to a node -/

theorem refs_nil (t : Int) : refs t [] = 0 := rfl

theorem refs_cons (t : Int) (a : Arc) (l : List Arc) :
    refs t (a :: l) = refs t l + if a.nodeID = t then 1 else 0 := by
  unfold refs
  rw [List.countP_cons]
  simp

theorem refs_pos_iff {t : Int} {l : List Arc} : 0 < refs t l ↔ ∃ a ∈ l, a.nodeID = t := by
  unfold refs
  rw [List.countP_pos_iff]
  simp

theorem any_iff_refs_pos {t : Int} {l : List Arc} :
    (l.any fun a => decide (a.nodeID = t)) = true ↔ 0 < refs t l := by
  rw [refs_pos_iff, List.any_eq_true]
  simp

theorem refs_le_of_sublist {t : Int} {l l' : List Arc} (h : l'.Sublist l) :
    refs t l' ≤ refs t l :=
  h.countP_le _

theorem refs_le_one_of_nodup {t : Int} : ∀ {l : List Arc}, (l.map Arc.nodeID).Nodup →
    refs t l ≤ 1
  | [], _ => by simp [refs_nil]
  | a :: l, h => by
    rw [List.map_cons, List.nodup_cons] at h
    rw [refs_cons]
    have ih := refs_le_one_of_nodup (t := t) h.2
    by_cases ha : a.nodeID = t
    · rw [if_pos ha]
      have : refs t l = 0 := by
        by_contra hne
        obtain ⟨x, hx, hxt⟩ := refs_pos_iff.mp (Nat.pos_of_ne_zero hne)
        exact h.1 (List.mem_map.mpr ⟨x, hx, hxt.trans ha.symm⟩)
      omega
    · rw [if_neg ha]; omega

theorem negate_nodeID_eq (a : Arc) (t : Int) : a.negate.nodeID = t ↔ a.nodeID = -t := by
  show -(a.nodeID : Int) = t ↔ (a.nodeID : Int) = -t
  exact neg_eq_iff_eq_neg

theorem refs_map_negate (t : Int) (l : List Arc) : refs t (l.map Arc.negate) = refs (-t) l := by
  induction l with
  | nil => rfl
  | cons a l ih =>
    rw [List.map_cons, refs_cons, refs_cons, ih]
    have := negate_nodeID_eq a t
    by_cases h : a.nodeID = -t
    · rw [if_pos h, if_pos (this.mpr h)]
    · rw [if_neg h, if_neg (fun h' => h (this.mp h'))]

theorem refs_eraseP_self (t : Int) : ∀ l : List Arc,
    refs t (l.eraseP fun a => decide (a.nodeID = t)) = refs t l - 1
  | [] => rfl
  | a :: l => by
    by_cases h : a.nodeID = t
    · rw [List.eraseP_cons_of_pos (by simpa using h), refs_cons, if_pos h]
      omega
    · rw [List.eraseP_cons_of_neg (by simpa using h), refs_cons, refs_cons, if_neg h,
        refs_eraseP_self t l]
      omega

theorem refs_eraseP_ne {s t : Int} (hst : s ≠ t) : ∀ l : List Arc,
    refs s (l.eraseP fun a => decide (a.nodeID = t)) = refs s l
  | [] => rfl
  | a :: l => by
    by_cases h : a.nodeID = t
    · rw [List.eraseP_cons_of_pos (by simpa using h), refs_cons,
        if_neg (fun h' => hst (h'.symm.trans h))]
      rfl
    · rw [List.eraseP_cons_of_neg (by simpa using h), refs_cons, refs_cons,
        refs_eraseP_ne hst l]

theorem refs_repoint_self {t n : Int} (hn : n ≠ t) : ∀ l : List Arc,
    refs t (SSNode.repoint t n l) = refs t l - 1
  | [] => rfl
  | a :: l => by
    unfold SSNode.repoint
    by_cases h : a.nodeID = t
    · rw [if_pos h, refs_cons, refs_cons, if_pos h, if_neg (by simpa using hn)]
      omega
    · rw [if_neg h, refs_cons, refs_cons, if_neg h, refs_repoint_self hn l]
      omega

theorem refs_repoint_ne {s t n : Int} (hst : s ≠ t) (hsn : s ≠ n) : ∀ l : List Arc,
    refs s (SSNode.repoint t n l) = refs s l
  | [] => rfl
  | a :: l => by
    unfold SSNode.repoint
    by_cases h : a.nodeID = t
    · have h1 : ¬ a.nodeID = s := fun h' => hst (h'.symm.trans h)
      have h2 : ¬ n = s := fun h' => hsn h'.symm
      rw [if_pos h, refs_cons, refs_cons, if_neg h1]
      simp [h2]
    · rw [if_neg h, refs_cons, refs_cons, refs_repoint_ne hst hsn l]

theorem refs_repoint_new {t n : Int} : ∀ {l : List Arc}, 0 < refs t l →
    0 < refs n (SSNode.repoint t n l)
  | [], h => by simp [refs_nil] at h
  | a :: l, h => by
    unfold SSNode.repoint
    by_cases ha : a.nodeID = t
    · rw [if_pos ha, refs_cons, if_pos rfl]
      omega
    · rw [if_neg ha, refs_cons]
      rw [refs_cons, if_neg ha] at h
      have := refs_repoint_new (n := n) (l := l) (by simpa using h)
      omega

theorem repoint_map_negate (o n : Int) : ∀ l : List Arc,
    (SSNode.repoint o n (l.map Arc.negate)).map Arc.negate = SSNode.repoint (-o) (-n) l
  | [] => rfl
  | a :: l => by
    rw [List.map_cons]
    unfold SSNode.repoint
    have := negate_nodeID_eq a o
    by_cases h : a.nodeID = -o
    · rw [if_pos h, if_pos (this.mpr h), List.map_cons, map_negate_negate]
      simp [Arc.negate]
    · rw [if_neg h, if_neg (fun h' => h (this.mp h')), List.map_cons, negate_negate,
        repoint_map_negate o n l]

theorem eraseP_map_negate (t : Int) : ∀ l : List Arc,
    ((l.map Arc.negate).eraseP fun a => decide (a.nodeID = t)).map Arc.negate
      = l.eraseP fun a => decide (a.nodeID = -t)
  | [] => rfl
  | a :: l => by
    rw [List.map_cons]
    have := negate_nodeID_eq a t
    by_cases h : a.nodeID = -t
    · rw [List.eraseP_cons_of_pos (by simpa using this.mpr h),
        List.eraseP_cons_of_pos (by simpa using h), map_negate_negate]
    · rw [List.eraseP_cons_of_neg (by simpa using fun h' => h (this.mp h')),
        List.eraseP_cons_of_neg (by simpa using h), List.map_cons, negate_negate,
        eraseP_map_negate t l]

/-! ## The arc operations on the adjacency -/

theorem refs_repoint_mono {s t n : Int} (hst : s ≠ t) : ∀ l : List Arc,
    refs s l ≤ refs s (SSNode.repoint t n l)
  | [] => Nat.le_refl _
  | a :: l => by
    unfold SSNode.repoint
    by_cases h : a.nodeID = t
    · have h1 : ¬ a.nodeID = s := fun h' => hst (h'.symm.trans h)
      rw [if_pos h, refs_cons, refs_cons, if_neg h1]
      omega
    · rw [if_neg h, refs_cons, refs_cons]
      have := refs_repoint_mono (n := n) hst l
      omega

theorem deleteRightArc_adj {g g' : DBGraph} {v t : Int} (hv : v ≠ 0)
    (h : SSNode.deleteRightArc ⟨v.natAbs, v⟩ g t = (true, g')) :
    0 < refs t (g.adj v) ∧ ∀ x, g'.adj x =
      if x = v then (g.adj v).eraseP (fun a => decide (a.nodeID = t)) else g.adj x := by
  unfold SSNode.deleteRightArc at h
  rw [rightArcs_eq_adj] at h
  split at h
  · rename_i hany
    simp only [Prod.mk.injEq, true_and] at h
    subst h
    exact ⟨any_iff_refs_pos.mp hany, fun x => adj_setRightArcs g hv _ x⟩
  · simp at h

theorem deleteLeftArc_sublist (g : DBGraph) {v : Int} (hv : v ≠ 0) (t x : Int) :
    ((SSNode.deleteLeftArc ⟨v.natAbs, v⟩ g t).2.adj x).Sublist (g.adj x) := by
  unfold SSNode.deleteLeftArc
  split
  · simp only
    rw [adj_setLeftArcs g hv, leftArcs_eq_adj g hv, eraseP_map_negate]
    split
    · rename_i hx
      rw [hx]
      exact List.eraseP_sublist _
    · exact List.Sublist.refl _
  · exact List.Sublist.refl _

theorem replaceLeftArc_adj {g g' : DBGraph} {v o n : Int} (hv : v ≠ 0)
    (h : SSNode.replaceLeftArc ⟨v.natAbs, v⟩ g o n = some g') :
    0 < refs (-o) (g.adj (-v)) ∧ ∀ x, g'.adj x =
      if x = -v then SSNode.repoint (-o) (-n) (g.adj (-v)) else g.adj x := by
  unfold SSNode.replaceLeftArc at h
  rw [leftArcs_eq_adj g hv] at h
  split at h
  · rename_i hany
    simp only [Option.some.injEq] at h
    subst h
    refine ⟨?_, fun x => ?_⟩
    · have := any_iff_refs_pos.mp hany
      rwa [refs_map_negate] at this
    · rw [adj_setLeftArcs g hv, repoint_map_negate]
  · cases h

/-- One round of the re-pointing loop of `inheritRightArcs`, on the adjacency. -/
theorem repointStep_adj {g g' : DBGraph} {a b : Int} {it : Arc}
    (h : ((g.getSSNode it.nodeID).bind fun rightNode =>
      rightNode.replaceLeftArc g b a) = some g') :
    0 < refs (-b) (g.adj (-it.nodeID)) ∧ ∀ x, g'.adj x =
      if x = -it.nodeID then SSNode.repoint (-b) (-a) (g.adj (-it.nodeID)) else g.adj x := by
  cases hn : g.getSSNode it.nodeID with
  | none => rw [hn] at h; cases h
  | some R =>
    rw [hn] at h
    obtain ⟨⟨hr, _⟩, rfl⟩ := getSSNode_eq_some.mp hn
    exact replaceLeftArc_adj hr h

/-- One round of the first detaching loop of `connectNodes`, on the adjacency. -/
theorem detachLeft_adj {g g' : DBGraph} {b : Int} {it : Arc}
    (h : detachLeft ⟨b.natAbs, b⟩ g it = some g') :
    (it.nodeID = -b ∧ g' = g) ∨
    (it.nodeID ≠ -b ∧ 0 < refs b (g.adj it.nodeID) ∧ ∀ x, g'.adj x =
      if x = it.nodeID then (g.adj it.nodeID).eraseP (fun a => decide (a.nodeID = b))
      else g.adj x) := by
  unfold detachLeft at h
  cases hn : g.getSSNode it.nodeID with
  | none => rw [hn] at h; cases h
  | some L =>
    rw [hn] at h
    obtain ⟨⟨hr, _⟩, rfl⟩ := getSSNode_eq_some.mp hn
    simp only [Option.pure_def, Option.bind_eq_bind, Option.some_bind, SSNode.getNodeID] at h
    split at h
    · rename_i heq
      cases h
      exact Or.inl ⟨heq, rfl⟩
    · rename_i hne
      cases hd : SSNode.deleteRightArc ⟨it.nodeID.natAbs, it.nodeID⟩ g b with
      | mk ok g2 =>
        rw [hd] at h
        cases ok
        · cases h
        · simp only [if_true, Option.some.injEq] at h
          subst h
          exact Or.inr ⟨hne, deleteRightArc_adj hr hd⟩

/-- One round of the second detaching loop of `connectNodes` only removes arcs. -/
theorem detachRight_sublist {g g' : DBGraph} {second : SSNode} {it : Arc}
    (h : detachRight second g it = some g') (x : Int) : (g'.adj x).Sublist (g.adj x) := by
  unfold detachRight at h
  cases hn : g.getSSNode it.nodeID with
  | none => rw [hn] at h; cases h
  | some R =>
    rw [hn] at h
    obtain ⟨⟨hr, _⟩, rfl⟩ := getSSNode_eq_some.mp hn
    simp only [Option.pure_def, Option.bind_eq_bind, Option.some_bind] at h
    split at h
    · cases h; exact List.Sublist.refl _
    · have hs := deleteLeftArc_sublist g hr second.getNodeID x
      cases hd : SSNode.deleteLeftArc ⟨it.nodeID.natAbs, it.nodeID⟩ g second.getNodeID with
      | mk ok g2 =>
        rw [hd] at h hs
        cases ok
        · cases h
        · simp only [if_true, Option.some.injEq] at h
          subst h
          exact hs

/-- An invariant of a loop that depends on the elements still to visit. -/
theorem foldlM_inv {σ β : Type} (f : σ → β → Option σ) (I : σ → List β → Prop)
    (hstep : ∀ s x rest s', I s (x :: rest) → f s x = some s' → I s' rest) :
    ∀ (l : List β) (s s' : σ), I s l → l.foldlM f s = some s' → I s' []
  | [], s, s', hI, h => by
    simp only [List.foldlM_nil, Option.pure_def, Option.some.injEq] at h
    subst h; exact hI
  | x :: l, s, s', hI, h => by
    simp only [List.foldlM_cons, Option.bind_eq_bind] at h
    cases hx : f s x with
    | none => rw [hx] at h; cases h
    | some s1 =>
      rw [hx] at h
      exact foldlM_inv f I hstep l s1 s' (hstep s x l s1 hI hx) h

/-- What `inheritRightArcs` does to the adjacency: `g1` is the graph after the re-pointing
loop. No oriented node other than `-b` keeps an arc to `-b`, the arcs to `b` are untouched,
the arcs of `-b` that lead elsewhere stay, and a self-loop of `b` makes `-b` lead to `-a`. -/
theorem inheritRightArcs_adj {g0 g2 : DBGraph} {a b : Int} (ha : a ≠ 0) (hb : b ≠ 0)
    (hab : a ≠ b) (hab' : a ≠ -b) (N : Nat)
    (hnd : ∀ x : Int, x ≠ -b → x ≠ 0 → x.natAbs ≤ N → refs (-b) (g0.adj x) ≤ 1)
    (hsym : ∀ x : Int, x ≠ -b → x ≠ 0 → x.natAbs ≤ N → 0 < refs (-b) (g0.adj x) →
      0 < refs (-x) (g0.adj b))
    (h : SSNode.inheritRightArcs ⟨a.natAbs, a⟩ g0 ⟨b.natAbs, b⟩ = some g2) :
    ∃ g1 : DBGraph,
      (∀ x : Int, g2.adj x = if x = b then [] else if x = a then g1.adj b else g1.adj x) ∧
      (∀ x : Int, x ≠ -b → x ≠ 0 → x.natAbs ≤ N → refs (-b) (g1.adj x) = 0) ∧
      (∀ x : Int, refs b (g1.adj x) = refs b (g0.adj x)) ∧
      (∀ t : Int, t ≠ -b → 0 < refs t (g0.adj (-b)) → 0 < refs t (g1.adj (-b))) ∧
      (0 < refs b (g0.adj b) → 0 < refs (-a) (g1.adj (-b))) := by
  unfold SSNode.inheritRightArcs at h
  simp only [Option.pure_def, Option.bind_eq_bind, rightArcs_eq_adj] at h
  cases h1 : (g0.adj b).foldlM (fun (g : DBGraph) (it : Arc) =>
      (g.getSSNode it.nodeID).bind fun rightNode =>
        rightNode.replaceLeftArc g b a) g0 with
  | none => rw [h1] at h; cases h
  | some g1 =>
    rw [h1] at h
    simp only [Option.some_bind, Option.some.injEq] at h
    subst h
    have hinv := foldlM_inv
      (fun (g : DBGraph) (it : Arc) =>
        (g.getSSNode it.nodeID).bind fun rightNode => rightNode.replaceLeftArc g b a)
      (fun (s : DBGraph) (rest : List Arc) =>
        (∀ x : Int, x ≠ -b → x ≠ 0 → x.natAbs ≤ N →
          refs (-b) (s.adj x) ≤ 1 ∧ (0 < refs (-b) (s.adj x) → 0 < refs (-x) rest)) ∧
        (∀ x : Int, refs b (s.adj x) = refs b (g0.adj x)) ∧
        (∀ t : Int, t ≠ -b → 0 < refs t (g0.adj (-b)) → 0 < refs t (s.adj (-b))) ∧
        (0 < refs b (g0.adj b) → 0 < refs b rest ∨ 0 < refs (-a) (s.adj (-b))))
      (by
        intro s it rest s' hI hstep
        obtain ⟨hI1, hI2, hI3, hI4⟩ := hI
        obtain ⟨hfound, hadj⟩ := repointStep_adj hstep
        have hbnb : b ≠ -b := by omega
        have hbna : b ≠ -a := by omega
        have hnanb : -a ≠ -b := by omega
        refine ⟨?_, ?_, ?_, ?_⟩
        · intro x hx hx0 hxN
          obtain ⟨h1, h2⟩ := hI1 x hx hx0 hxN
          rw [hadj x]
          by_cases hxr : x = -it.nodeID
          · rw [if_pos hxr, refs_repoint_self hnanb]
            rw [hxr] at h1
            constructor
            · omega
            · intro hpos; omega
          · rw [if_neg hxr]
            refine ⟨h1, fun hpos => ?_⟩
            have := h2 hpos
            have hne : ¬ it.nodeID = -x := fun h' => hxr (by rw [h', neg_neg])
            rw [refs_cons, if_neg hne] at this
            exact this
        · intro x
          rw [hadj x, ← hI2 x]
          split
          · rename_i hxr
            rw [hxr, refs_repoint_ne hbnb hbna]
          · rfl
        · intro t ht hpos
          have := hI3 t ht hpos
          rw [hadj (-b)]
          split
          · rename_i hbr
            rw [← hbr]
            exact lt_of_lt_of_le this (refs_repoint_mono ht _)
          · exact this
        · intro hpos
          by_cases hr : it.nodeID = b
          · right
            rw [hadj (-b), if_pos (by rw [hr])]
            rw [hr] at hfound
            rw [hr]
            exact refs_repoint_new hfound
          · rcases hI4 hpos with h4 | h4
            · left
              rw [refs_cons, if_neg hr] at h4
              exact h4
            · right
              have hne : ¬ -b = -it.nodeID := fun h' => hr (neg_injective h').symm
              rw [hadj (-b), if_neg hne]
              exact h4)
      (g0.adj b) g0 g1
      ⟨fun x hx hx0 hxN => ⟨hnd x hx hx0 hxN, hsym x hx hx0 hxN⟩, fun _ => rfl,
        fun _ _ hpos => hpos, fun hpos => Or.inl hpos⟩ h1
    obtain ⟨hJ1, hJ2, hJ3, hJ4⟩ := hinv
    refine ⟨g1, ?_, ?_, hJ2, hJ3, ?_⟩
    · intro x
      unfold SSNode.deleteAllRightArcs
      rw [adj_setRightArcs _ hb, adj_setRightArcs _ ha]
    · intro x hx hx0 hxN
      obtain ⟨h1, h2⟩ := hJ1 x hx hx0 hxN
      by_contra hne
      have := h2 (Nat.pos_of_ne_zero hne)
      simp [refs_nil] at this
    · intro hpos
      rcases hJ4 hpos with h4 | h4
      · simp [refs_nil] at h4
      · exact h4

theorem getSSNode_mk {g : DBGraph} {x : Int} (hx : x ≠ 0) (hxN : x.natAbs ≤ g.numNodes) :
    g.getSSNode x = some ⟨x.natAbs, x⟩ :=
  getSSNode_eq_some.mpr ⟨⟨hx, hxN⟩, rfl⟩

/-- Arc symmetry on the adjacency: an arc from `x` to `y` comes with an arc from `-y` to `-x`. -/
theorem refs_of_arcSymmetric {g : DBGraph} (hsym : ArcSymmetric g) {x y : Int}
    (hx : x ≠ 0) (hxN : x.natAbs ≤ g.numNodes) (hy : y ≠ 0) (hyN : y.natAbs ≤ g.numNodes)
    (h : 0 < refs y (g.adj x)) : 0 < refs (-x) (g.adj (-y)) := by
  obtain ⟨arc, harc, hid⟩ := refs_pos_iff.mp h
  have hY : g.getSSNode arc.nodeID = some ⟨y.natAbs, y⟩ := by
    rw [hid]; exact getSSNode_mk hy hyN
  have := hsym x _ (getSSNode_mk hx hxN) arc harc _ hY
  rw [leftArcs_eq_adj g hy, List.mem_map] at this
  obtain ⟨e, he, hex⟩ := this
  refine refs_pos_iff.mpr ⟨e, he, ?_⟩
  have := congrArg Arc.nodeID hex
  exact (negate_nodeID_eq e x).mp this

theorem refs_le_one_of_noParallel {g : DBGraph} (hnp : NoParallelArcs g) {x : Int}
    (hx : x ≠ 0) (hxN : x.natAbs ≤ g.numNodes) (t : Int) : refs t (g.adj x) ≤ 1 :=
  refs_le_one_of_nodup (hnp x _ (getSSNode_mk hx hxN))

theorem natAbs_ne_cases {x b : Int} (h : x.natAbs ≠ b.natAbs) : x ≠ b ∧ x ≠ -b := by
  constructor
  · intro e; exact h (by rw [e])
  · intro e; exact h (by rw [e, Int.natAbs_neg])

/-- The first detaching loop of `connectNodes` on the adjacency: when every node that still
leads to `b` is among the left neighbours to visit, no node leads to `b` after the loop. -/
theorem detachLeft_loop {g3 g4 : DBGraph} {b : Int} (hb : b ≠ 0) (N : Nat) (T : List Arc)
    (hinit : ∀ x : Int, x.natAbs ≠ b.natAbs → x ≠ 0 → x.natAbs ≤ N →
      refs (-b) (g3.adj x) = 0 ∧ refs b (g3.adj x) ≤ 1 ∧
        (0 < refs b (g3.adj x) → 0 < refs x T))
    (h : T.foldlM (detachLeft ⟨b.natAbs, b⟩) g3 = some g4) :
    ∀ x : Int, x.natAbs ≠ b.natAbs → x ≠ 0 → x.natAbs ≤ N →
      refs (-b) (g4.adj x) = 0 ∧ refs b (g4.adj x) = 0 := by
  have hinv := foldlM_inv (detachLeft ⟨b.natAbs, b⟩)
    (fun (s : DBGraph) (rest : List Arc) =>
      ∀ x : Int, x.natAbs ≠ b.natAbs → x ≠ 0 → x.natAbs ≤ N →
        refs (-b) (s.adj x) = 0 ∧ refs b (s.adj x) ≤ 1 ∧
          (0 < refs b (s.adj x) → 0 < refs x rest))
    (by
      intro s it rest s' hI hstep x hx hx0 hxN
      obtain ⟨h1, h2, h3⟩ := hI x hx hx0 hxN
      obtain ⟨hxb, hxnb⟩ := natAbs_ne_cases hx
      have hnbb : -b ≠ b := by omega
      rcases detachLeft_adj hstep with ⟨hskip, rfl⟩ | ⟨_, hfound, hadj⟩
      · refine ⟨h1, h2, fun hpos => ?_⟩
        have := h3 hpos
        rw [refs_cons, if_neg (fun h' => hxnb (h'.symm.trans hskip))] at this
        exact this
      · rw [hadj x]
        by_cases hxi : x = it.nodeID
        · rw [if_pos hxi, refs_eraseP_ne hnbb, refs_eraseP_self, ← hxi]
          refine ⟨h1, by omega, fun hpos => ?_⟩
          omega
        · rw [if_neg hxi]
          refine ⟨h1, h2, fun hpos => ?_⟩
          have := h3 hpos
          rw [refs_cons, if_neg (fun h' => hxi h'.symm)] at this
          exact this)
    T g3 g4 hinit h
  intro x hx hx0 hxN
  obtain ⟨h1, h2, h3⟩ := hinv x hx hx0 hxN
  refine ⟨h1, ?_⟩
  by_contra hne
  have := h3 (Nat.pos_of_ne_zero hne)
  simp [refs_nil] at this

/-- The second detaching loop of `connectNodes` only removes arcs. -/
theorem detachRight_loop {g4 g5 : DBGraph} {second : SSNode} (T : List Arc)
    (h : T.foldlM (detachRight second) g4 = some g5) (x : Int) :
    (g5.adj x).Sublist (g4.adj x) :=
  foldlM_rel (fun s s' : DBGraph => ∀ x : Int, (s'.adj x).Sublist (s.adj x))
    (fun _ _ => List.Sublist.refl _) (fun _ _ _ h1 h2 x => (h2 x).trans (h1 x))
    (detachRight second) (fun _ _ _ hs => detachRight_sublist hs) T g4 g5 h x

/-- After the commit of a merge of two distinct nodes of an arc-symmetric graph without
parallel arcs, no oriented node other than `b` and `-b` has an arc that leads to `b` or
to `-b`. -/
theorem connectNodesCommit_detached {g g' : DBGraph} {a b : Int} {cons : List Nucleotide}
    (ha : a ≠ 0) (hb : b ≠ 0) (hbN : b.natAbs ≤ g.numNodes) (hne : a.natAbs ≠ b.natAbs)
    (hsym : ArcSymmetric g) (hnp : NoParallelArcs g)
    (h : connectNodesCommit g ⟨a.natAbs, a⟩ ⟨b.natAbs, b⟩ cons = some g') :
    ∀ x : Int, x.natAbs ≠ b.natAbs → x ≠ 0 → x.natAbs ≤ g.numNodes →
      refs b (g'.adj x) = 0 ∧ refs (-b) (g'.adj x) = 0 := by
  obtain ⟨hab, hanb⟩ := natAbs_ne_cases hne
  have hnb0 : -b ≠ 0 := by omega
  have hnbN : (-b).natAbs ≤ g.numNodes := by rw [Int.natAbs_neg]; exact hbN
  have hnba : -b ≠ a := fun e => hanb e.symm
  have hba : b ≠ a := fun e => hab e.symm
  have hnbb : -b ≠ b := by omega
  unfold connectNodesCommit at h
  simp only [Option.pure_def, Option.bind_eq_bind] at h
  cases h2 : SSNode.inheritRightArcs ⟨a.natAbs, a⟩
      (SSNode.deleteAllRightArcs ⟨a.natAbs, a⟩ g) ⟨b.natAbs, b⟩ with
  | none => rw [h2] at h; cases h
  | some g2 =>
    rw [h2] at h
    simp only [Option.some_bind] at h
    cases h4 : (SSNode.leftArcs ⟨b.natAbs, b⟩ (SSNode.setSequence ⟨a.natAbs, a⟩ g2 cons)).foldlM
        (detachLeft ⟨b.natAbs, b⟩) (SSNode.setSequence ⟨a.natAbs, a⟩ g2 cons) with
    | none => rw [h4] at h; cases h
    | some g4 =>
      rw [h4] at h
      simp only [Option.some_bind] at h
      cases h5 : (SSNode.rightArcs ⟨b.natAbs, b⟩ g4).foldlM (detachRight ⟨b.natAbs, b⟩) g4 with
      | none => rw [h5] at h; cases h
      | some g5 =>
        rw [h5] at h
        simp only [Option.some_bind, Option.some.injEq] at h
        subst h
        -- the adjacency after `first.deleteAllRightArcs()`
        have hadj0 : ∀ x : Int, (SSNode.deleteAllRightArcs ⟨a.natAbs, a⟩ g).adj x
            = if x = a then [] else g.adj x := fun x => adj_setRightArcs g ha [] x
        obtain ⟨g1, hadj2, hz1, hb1, hl1, hs1⟩ := inheritRightArcs_adj ha hb hab hanb g.numNodes
          (by
            intro x _ hx0 hxN
            rw [hadj0 x]
            split
            · simp [refs_nil]
            · exact refs_le_one_of_noParallel hnp hx0 hxN _)
          (by
            intro x _ hx0 hxN hpos
            rw [hadj0 x] at hpos
            rw [hadj0 b, if_neg hba]
            split at hpos
            · simp [refs_nil] at hpos
            · have := refs_of_arcSymmetric hsym hx0 hxN hnb0 hnbN hpos
              rwa [neg_neg] at this)
          h2
        -- the first loop
        have hz4 := detachLeft_loop hb g.numNodes _
          (by
            intro x hx hx0 hxN
            obtain ⟨hxb, hxnb⟩ := natAbs_ne_cases hx
            rw [leftArcs_eq_adj _ hb, refs_map_negate, adj_setSequence, adj_setSequence,
              hadj2 x, hadj2 (-b), if_neg hxb, if_neg hnbb, if_neg hnba]
            by_cases hxa : x = a
            · rw [if_pos hxa, hb1 b, hadj0 b, if_neg hba]
              refine ⟨hz1 b (fun e => hnbb e.symm) hb hbN,
                refs_le_one_of_noParallel hnp hb hbN _, fun hpos => ?_⟩
              rw [hxa]
              apply hs1
              rw [hadj0 b, if_neg hba]
              exact hpos
            · rw [if_neg hxa, hb1 x, hadj0 x, if_neg hxa]
              refine ⟨hz1 x hxnb hx0 hxN, refs_le_one_of_noParallel hnp hx0 hxN _,
                fun hpos => ?_⟩
              apply hl1 (-x) (fun e => hxb (neg_injective e))
              rw [hadj0 (-b), if_neg hnba]
              exact refs_of_arcSymmetric hsym hx0 hxN hb hbN hpos)
          h4
        -- the second loop and the last writes
        intro x hx hx0 hxN
        obtain ⟨hxb, hxnb⟩ := natAbs_ne_cases hx
        obtain ⟨e1, e2⟩ := hz4 x hx hx0 hxN
        have hsub := detachRight_loop _ h5 x
        have hfin : (SSNode.invalidate ⟨b.natAbs, b⟩ (SSNode.deleteAllRightArcs ⟨b.natAbs, b⟩
            (SSNode.deleteAllLeftArcs ⟨b.natAbs, b⟩
              (SSNode.setReadStartCov ⟨a.natAbs, a⟩
                (SSNode.setKmerCov ⟨a.natAbs, a⟩ g5
                  (SSNode.getKmerCov ⟨a.natAbs, a⟩ g5 + SSNode.getKmerCov ⟨b.natAbs, b⟩ g5))
                (SSNode.getReadStartCov ⟨a.natAbs, a⟩ g5
                  + SSNode.getReadStartCov ⟨b.natAbs, b⟩ g5))))).adj x = g5.adj x := by
          unfold SSNode.deleteAllRightArcs SSNode.deleteAllLeftArcs
          rw [adj_invalidate, adj_setRightArcs _ hb, if_neg hxb, adj_setLeftArcs _ hb,
            if_neg hxnb, adj_setReadStartCov, adj_setKmerCov]
        rw [hfin]
        have l1 := refs_le_of_sublist (t := b) hsub
        have l2 := refs_le_of_sublist (t := -b) hsub
        omega

theorem exGraph_views {x : Int} (hx0 : x ≠ 0) (hxN : x.natAbs ≤ 4) :
    x = 1 ∨ x = -1 ∨ x = 2 ∨ x = -2 ∨ x = 3 ∨ x = -3 ∨ x = 4 ∨ x = -4 := by
  omega

theorem exGraph_arcSymmetric : ArcSymmetric exGraph := by
  intro x X hx arc harc Y hY
  obtain ⟨⟨hx0, hxN⟩, rfl⟩ := getSSNode_eq_some.mp hx
  obtain ⟨⟨_, _⟩, rfl⟩ := getSSNode_eq_some.mp hY
  rcases exGraph_views hx0 hxN with h | h | h | h | h | h | h | h <;> subst h <;>
    simp [SSNode.rightArcs, exGraph, exNodes, Arc.negate] at harc <;>
    subst harc <;> decide

theorem exGraph_noParallelArcs : NoParallelArcs exGraph := by
  intro x X hx
  obtain ⟨⟨hx0, hxN⟩, rfl⟩ := getSSNode_eq_some.mp hx
  rcases exGraph_views hx0 hxN with h | h | h | h | h | h | h | h <;> subst h <;> decide

/-- C6: whenever `connectNodes(A, B)` returns true, node B is invalid afterwards and has
zero left arcs and zero right arcs; and, for two distinct nodes of a graph whose arc lists are
symmetric and free of parallel arcs (the invariants of the data model), no other node, in
either orientation, still has an arc that leads to B or to its reverse complement. -/
theorem connectNodes_second_detached (fg : FindGap) (g g' : DBGraph) (a b : NodeID)
    (first second : SSNode)
    (hf : g.getSSNode a = some first) (hs : g.getSSNode b = some second)
    (hne : a.natAbs ≠ b.natAbs) (hsym : ArcSymmetric g) (hnp : NoParallelArcs g)
    (h : fg.connectNodes g a b = some (true, g')) :
    second.isValid g' = false ∧ second.getNumLeftArcs g' = 0 ∧
    second.getNumRightArcs g' = 0 ∧
    ∀ (y : NodeID) (Y : SSNode), g'.getSSNode y = some Y → y.natAbs ≠ b.natAbs →
      ∀ arc ∈ Y.leftArcs g' ++ Y.rightArcs g', arc.nodeID.natAbs ≠ b.natAbs := by
  obtain ⟨first', second', cons, hf', hs', _, _, hm⟩ := connectNodes_true h
  rw [hf] at hf'; rw [hs] at hs'
  cases hf'; cases hs'
  obtain ⟨⟨ha0, _⟩, rfl⟩ := getSSNode_eq_some.mp hf
  obtain ⟨⟨hb0, hbN⟩, rfl⟩ := getSSNode_eq_some.mp hs
  obtain ⟨hnum, _, _, _, _, hinv, hl, hr⟩ := connectNodesCommit_fields hm
  have hdet := connectNodesCommit_detached ha0 hb0 hbN hne hsym hnp hm
  refine ⟨?_, ?_, ?_, ?_⟩
  · unfold SSNode.isValid
    rw [hinv, if_pos rfl]
    rfl
  · unfold SSNode.getNumLeftArcs SSNode.leftArcs
    simp only at hl hr ⊢
    split <;> simp [hl, hr]
  · unfold SSNode.getNumRightArcs SSNode.rightArcs
    simp only at hl hr ⊢
    split <;> simp [hl, hr]
  · intro y Y hY hyb arc harc
    obtain ⟨⟨hy0, hyN⟩, rfl⟩ := getSSNode_eq_some.mp hY
    rw [hnum] at hyN
    have key : ∀ x : Int, x.natAbs ≠ b.natAbs → x ≠ 0 → x.natAbs ≤ g.numNodes →
        ∀ e ∈ g'.adj x, e.nodeID.natAbs ≠ b.natAbs := by
      intro x hx hx0 hxN e he habs
      obtain ⟨z1, z2⟩ := hdet x hx hx0 hxN
      rcases Int.natAbs_eq_natAbs_iff.mp habs with h1 | h1
      · have := refs_pos_iff.mpr ⟨e, he, h1⟩
        omega
      · have := refs_pos_iff.mpr ⟨e, he, h1⟩
        omega
    rcases List.mem_append.mp harc with hmem | hmem
    · rw [leftArcs_eq_adj g' hy0, List.mem_map] at hmem
      obtain ⟨e, he, rfl⟩ := hmem
      have := key (-y) (by rw [Int.natAbs_neg]; exact hyb) (by omega)
        (by rw [Int.natAbs_neg]; exact hyN) e he
      simpa [Arc.negate] using this
    · rw [rightArcs_eq_adj] at hmem
      exact key y hyb hy0 hyN arc hmem

theorem connectNodes_second_detached_witness :
    ∃ g', exFindGap.connectNodes exGraph 1 2 = some (true, g') ∧
      SSNode.isValid ⟨2, 2⟩ g' = false ∧ SSNode.getNumLeftArcs ⟨2, 2⟩ g' = 0 ∧
      SSNode.getNumRightArcs ⟨2, 2⟩ g' = 0 ∧
      ∀ (y : NodeID) (Y : SSNode), g'.getSSNode y = some Y → y.natAbs ≠ 2 →
        ∀ arc ∈ Y.leftArcs g' ++ Y.rightArcs g', arc.nodeID.natAbs ≠ 2 := by
  obtain ⟨g', h⟩ := exGraph_connect_1_2
  exact ⟨g', h, connectNodes_second_detached exFindGap exGraph g' 1 2 ⟨1, 1⟩ ⟨2, 2⟩ rfl rfl
    (by decide) exGraph_arcSymmetric exGraph_noParallelArcs h⟩

/-! ## Tips -/

theorem findTipsRound_eq (g : DBGraph) (tipNodes : Finset Int) (n : Nat) (h1 : 1 ≤ n)
    (h2 : n ≤ g.numNodes) :
    findTipsRound g tipNodes (n : Int)
      = some (if IsTip g n then insert (n : Int) tipNodes else tipNodes) := by
  have hn : ((n : Int)) ≠ 0 := by omega
  have hv : g.getSSNode (n : Int) = some ⟨n, (n : Int)⟩ := by
    have := getSSNode_mk (g := g) (x := (n : Int)) hn (by simpa using h2)
    simpa using this
  have hpos : ((n : Int)) > 0 := by omega
  unfold findTipsRound
  rw [hv]
  simp only [Option.bind_eq_bind, Option.some_bind, SSNode.isValid, SSNode.getNumLeftArcs,
    SSNode.getNumRightArcs, SSNode.leftArcs, SSNode.rightArcs, SSNode.getNodeID, hpos, if_true,
    IsTip]
  by_cases hi : (g.nodes n).invalid = true
  · simp [hi]
  · have hi' : (g.nodes n).invalid = false := by simpa using hi
    by_cases hl : (g.nodes n).leftArcs = [] <;> by_cases hr : (g.nodes n).rightArcs = [] <;>
      simp [hi', hl, hr]

theorem findTips_range (g : DBGraph) (s : Finset Int) :
    ∀ N, N ≤ g.numNodes → ∃ tips,
      (List.range N).foldlM (fun tipNodes i => findTipsRound g tipNodes ((i + 1 : Nat) : Int)) s
        = some tips ∧
      ∀ x : Int, x ∈ tips ↔ x ∈ s ∨ ∃ n : Nat, 1 ≤ n ∧ n ≤ N ∧ x = (n : Int) ∧ IsTip g n := by
  intro N
  induction N with
  | zero =>
    intro _
    refine ⟨s, by simp, ?_⟩
    intro x
    constructor
    · intro h; exact Or.inl h
    · rintro (h | ⟨n, h1, h2, -⟩)
      · exact h
      · omega
  | succ N ih =>
    intro hN
    obtain ⟨tips, hrun, hmem⟩ := ih (by omega)
    rw [List.range_succ, List.foldlM_append, hrun]
    simp only [Option.bind_eq_bind, Option.some_bind, List.foldlM_cons, List.foldlM_nil]
    rw [findTipsRound_eq g tips (N + 1) (by omega) hN]
    refine ⟨_, rfl, ?_⟩
    intro x
    by_cases ht : IsTip g (N + 1)
    · rw [if_pos ht, Finset.mem_insert, hmem]
      constructor
      · rintro (h | h | ⟨n, h1, h2, h3, h4⟩)
        · exact Or.inr ⟨N + 1, by omega, le_refl _, h, ht⟩
        · exact Or.inl h
        · exact Or.inr ⟨n, h1, by omega, h3, h4⟩
      · rintro (h | ⟨n, h1, h2, h3, h4⟩)
        · exact Or.inr (Or.inl h)
        · by_cases hn : n = N + 1
          · subst hn; exact Or.inl h3
          · exact Or.inr (Or.inr ⟨n, h1, by omega, h3, h4⟩)
    · rw [if_neg ht, hmem]
      constructor
      · rintro (h | ⟨n, h1, h2, h3, h4⟩)
        · exact Or.inl h
        · exact Or.inr ⟨n, h1, by omega, h3, h4⟩
      · rintro (h | ⟨n, h1, h2, h3, h4⟩)
        · exact Or.inl h
        · by_cases hn : n = N + 1
          · subst hn; exact absurd h4 ht
          · exact Or.inr ⟨n, h1, by omega, h3, h4⟩

/-- Claim C19: `findTips`, called on an empty set, returns, and the set it leaves holds an
entry for the physical node `n` exactly when `n` is a node of the graph, in `[1, numNodes]`,
that is valid and has no left arc or no right arc; invalid nodes and nodes with arcs on both
sides are not in it. -/
theorem findTips_exact (g : DBGraph) :
    ∃ tips, FindGap.findTips g ∅ = some tips ∧
      ∀ n : Nat, (∃ x ∈ tips, x.natAbs = n) ↔ 1 ≤ n ∧ n ≤ g.numNodes ∧ IsTip g n := by
  obtain ⟨tips, hrun, hmem⟩ := findTips_range g ∅ g.numNodes (le_refl _)
  refine ⟨tips, hrun, ?_⟩
  intro n
  constructor
  · rintro ⟨x, hx, rfl⟩
    rcases (hmem x).mp hx with h | ⟨m, h1, h2, rfl, h4⟩
    · simp at h
    · exact ⟨by simpa using h1, by simpa using h2, by simpa using h4⟩
  · rintro ⟨h1, h2, h3⟩
    exact ⟨(n : Int), (hmem _).mpr (Or.inr ⟨n, h1, h2, rfl, h3⟩), by simp⟩

/-- Claim C20, refuted on the example graph: node 1 is open only on its right, node 2 only
on its left, and `findTips` stores both under a positive identifier. -/
theorem findTips_sign_counterexample :
    ∃ tips, FindGap.findTips exGraph ∅ = some tips ∧ ¬ SignRecordsOpenSide exGraph tips := by
  obtain ⟨tips, hrun, hmem⟩ := findTips_range exGraph ∅ exGraph.numNodes (le_refl _)
  refine ⟨tips, hrun, ?_⟩
  intro h
  have h1 : (1 : Int) ∈ tips := (hmem 1).mpr (Or.inr ⟨1, by decide, by decide, rfl, by decide⟩)
  have h2 : (2 : Int) ∈ tips := (hmem 2).mpr (Or.inr ⟨2, by decide, by decide, rfl, by decide⟩)
  have := h 1 h1 2 h2 (by decide) (by decide)
  exact absurd (this.mp (by decide)) (by decide)

/-- Claim C20, amended: every identifier stored by `findTips`, called on an empty set, is the
positive identifier of a tip, whichever side of the tip is open. -/
theorem findTips_positive (g : DBGraph) :
    ∃ tips, FindGap.findTips g ∅ = some tips ∧ ∀ x ∈ tips, 0 < x ∧ IsTip g x.natAbs := by
  obtain ⟨tips, hrun, hmem⟩ := findTips_range g ∅ g.numNodes (le_refl _)
  refine ⟨tips, hrun, ?_⟩
  intro x hx
  rcases (hmem x).mp hx with h | ⟨n, h1, -, rfl, h4⟩
  · simp at h
  · exact ⟨by omega, by simpa using h4⟩

/-! ## The maps of `streamReads` -/

theorem TipPair.lt_irrefl (a : TipPair) : ¬ TipPair.lt a a := by
  unfold TipPair.lt; omega

theorem TipPair.lt_trans {a b c : TipPair} (h1 : TipPair.lt a b) (h2 : TipPair.lt b c) :
    TipPair.lt a c := by
  unfold TipPair.lt at *; omega

theorem TipPair.lt_of_not {a b : TipPair} (h1 : b ≠ a) (h2 : ¬ TipPair.lt a b) :
    TipPair.lt b a := by
  have : b.1 ≠ a.1 ∨ b.2 ≠ a.2 := by
    by_contra hc
    push_neg at hc
    exact h1 (Prod.ext hc.1 hc.2)
  unfold TipPair.lt at *; omega

theorem JoinMap.find_assign (m : JoinMap) (key key' : TipPair) (value : Nat) :
    JoinMap.find (JoinMap.assign m key value) key'
      = if key = key' then some value else JoinMap.find m key' := by
  induction m with
  | nil => simp [JoinMap.assign, JoinMap.find]
  | cons e rest ih =>
    obtain ⟨k, v⟩ := e
    unfold JoinMap.assign
    by_cases h1 : k = key
    · subst h1
      simp only [if_true, JoinMap.find]
      by_cases h3 : k = key' <;> simp [h3]
    · simp only [if_neg h1]
      by_cases h2 : TipPair.lt key k
      · simp only [if_pos h2, JoinMap.find]
      · simp only [if_neg h2, JoinMap.find, ih]
        by_cases h3 : k = key'
        · have : key ≠ key' := fun e => h1 (h3.trans e.symm)
          simp [h3, this]
        · simp [h3]

theorem JoinMap.keys_assign (m : JoinMap) (key : TipPair) (value : Nat) (x : TipPair) :
    x ∈ (JoinMap.assign m key value).map Prod.fst ↔ x = key ∨ x ∈ m.map Prod.fst := by
  induction m with
  | nil => simp [JoinMap.assign]
  | cons e rest ih =>
    obtain ⟨k, v⟩ := e
    unfold JoinMap.assign
    by_cases h1 : k = key
    · subst h1; simp
    · simp only [if_neg h1]
      by_cases h2 : TipPair.lt key k
      · simp [if_pos h2]
      · simp only [if_neg h2, List.map_cons, List.mem_cons, ih]
        tauto

theorem JoinMap.wf_assign (m : JoinMap) (key : TipPair) (value : Nat) (h : JoinMap.WF m) :
    JoinMap.WF (JoinMap.assign m key value) := by
  induction m with
  | nil => simp [JoinMap.assign, JoinMap.WF]
  | cons e rest ih =>
    obtain ⟨k, v⟩ := e
    unfold JoinMap.WF at h ih ⊢
    simp only [List.map_cons, List.pairwise_cons] at h
    unfold JoinMap.assign
    by_cases h1 : k = key
    · subst h1
      simpa using h
    · simp only [if_neg h1]
      by_cases h2 : TipPair.lt key k
      · simp only [if_pos h2, List.map_cons, List.pairwise_cons, List.mem_cons]
        refine ⟨?_, h⟩
        rintro a (rfl | ha)
        · exact h2
        · exact TipPair.lt_trans h2 (h.1 a ha)
      · simp only [if_neg h2, List.map_cons, List.pairwise_cons]
        refine ⟨?_, ih h.2⟩
        intro a ha
        rcases (JoinMap.keys_assign rest key value a).mp ha with rfl | ha
        · exact TipPair.lt_of_not h1 h2
        · exact h.1 a ha

theorem JoinMap.find_eq_none (m : JoinMap) (key : TipPair) :
    JoinMap.find m key = none ↔ key ∉ m.map Prod.fst := by
  induction m with
  | nil => simp [JoinMap.find]
  | cons e rest ih =>
    obtain ⟨k, v⟩ := e
    unfold JoinMap.find
    by_cases h1 : k = key
    · simp [h1]
    · simp only [if_neg h1, ih, List.map_cons, List.mem_cons, not_or]
      constructor
      · intro h; exact ⟨fun e => h1 e.symm, h⟩
      · intro h; exact h.2

theorem JoinMap.mem_iff_find (m : JoinMap) (h : JoinMap.WF m) (key : TipPair) (v : Nat) :
    (key, v) ∈ m ↔ JoinMap.find m key = some v := by
  induction m with
  | nil => simp [JoinMap.find]
  | cons e rest ih =>
    obtain ⟨k, w⟩ := e
    unfold JoinMap.WF at h ih
    simp only [List.map_cons, List.pairwise_cons] at h
    unfold JoinMap.find
    by_cases h1 : k = key
    · subst h1
      simp only [List.mem_cons, Prod.mk.injEq, true_and, if_true, Option.some.injEq]
      constructor
      · rintro (e | hm)
        · exact e.symm
        · exact absurd (h.1 k (List.mem_map.mpr ⟨(k, v), hm, rfl⟩)) (TipPair.lt_irrefl k)
      · intro e; exact Or.inl e.symm
    · simp only [if_neg h1, List.mem_cons, Prod.mk.injEq, ← ih h.2]
      constructor
      · rintro (⟨e, -⟩ | hm)
        · exact absurd e.symm h1
        · exact hm
      · intro hm; exact Or.inr hm

theorem JoinMap.keys_nodup (m : JoinMap) (h : JoinMap.WF m) : (m.map Prod.fst).Nodup := by
  unfold JoinMap.WF at h
  refine List.Pairwise.imp ?_ h
  intro a b hab e
  subst e
  exact TipPair.lt_irrefl a hab

theorem JoinMap.assign_last (m : JoinMap) (key : TipPair) (value : Nat)
    (h : ∀ k ∈ m.map Prod.fst, TipPair.lt k key) :
    JoinMap.assign m key value = m ++ [(key, value)] := by
  induction m with
  | nil => rfl
  | cons e rest ih =>
    obtain ⟨k, v⟩ := e
    have hk : TipPair.lt k key := h k (by simp)
    have h1 : k ≠ key := fun e => TipPair.lt_irrefl key (e ▸ hk)
    have h2 : ¬ TipPair.lt key k := fun h' => TipPair.lt_irrefl k (TipPair.lt_trans hk h')
    unfold JoinMap.assign
    rw [if_neg h1, if_neg h2, ih (fun a ha => h a (by simp [List.mem_map] at ha ⊢; tauto))]
    rfl

theorem sumDirections_round (fg : FindGap) (temp joins : JoinMap) (it : TipPair × Nat) :
    (if it.1.1.natAbs < it.1.2.natAbs then
      let reverseJoin : TipPair := (-it.1.2, -it.1.1)
      let frequency := it.2
      let frequency :=
        match JoinMap.find temp reverseJoin with
        | some r => frequency + r
        | none => frequency
      if frequency > fg.minNumbOfPairs then JoinMap.assign joins it.1 frequency
      else joins
    else joins)
    = match keptCount fg temp it with
      | some f => JoinMap.assign joins it.1 f
      | none => joins := by
  have hv : (match JoinMap.find temp (-it.1.2, -it.1.1) with
      | some r => it.2 + r
      | none => it.2) = it.2 + votes temp (-it.1.2, -it.1.1) := by
    unfold votes
    cases JoinMap.find temp (-it.1.2, -it.1.1) <;> simp
  simp only [hv, keptCount]
  by_cases h1 : it.1.1.natAbs < it.1.2.natAbs
  · by_cases h2 : it.2 + votes temp (-it.1.2, -it.1.1) > fg.minNumbOfPairs
    · simp [h1, h2]
    · simp [h1, h2]
  · simp [h1]

theorem sumDirections_fold (fg : FindGap) (temp : JoinMap) :
    ∀ (l joins : JoinMap), JoinMap.WF l →
      (∀ a ∈ joins.map Prod.fst, ∀ b ∈ l.map Prod.fst, TipPair.lt a b) →
      l.foldl (fun joins it =>
        match keptCount fg temp it with
        | some f => JoinMap.assign joins it.1 f
        | none => joins) joins
      = joins ++ l.filterMap fun it => (keptCount fg temp it).map fun f => (it.1, f)
  | [], joins, _, _ => by simp
  | it :: l, joins, hwf, hlt => by
    unfold JoinMap.WF at hwf
    simp only [List.map_cons, List.pairwise_cons] at hwf
    simp only [List.foldl_cons]
    cases hk : keptCount fg temp it with
    | none =>
      simp only [List.filterMap_cons, hk, Option.map_none']
      exact sumDirections_fold fg temp l joins hwf.2
        (fun a ha b hb => hlt a ha b (by simp only [List.map_cons, List.mem_cons]; exact Or.inr hb))
    | some f =>
      simp only [List.filterMap_cons, hk, Option.map_some']
      rw [JoinMap.assign_last joins it.1 f (fun a ha => hlt a ha it.1 (by simp))]
      rw [sumDirections_fold fg temp l _ hwf.2]
      · simp
      · intro a ha b hb
        simp only [List.map_append, List.map_cons, List.map_nil, List.mem_append,
          List.mem_singleton] at ha
        rcases ha with ha | rfl
        · exact hlt a ha b (by simp only [List.map_cons, List.mem_cons]; exact Or.inr hb)
        · exact hwf.1 b hb

/-- The map `pairedEndJoins`: the entries of the votes that are kept, in their order. -/
theorem sumDirections_eq (fg : FindGap) (temp : JoinMap) (hwf : JoinMap.WF temp) :
    fg.sumDirections temp
      = temp.filterMap fun it => (keptCount fg temp it).map fun f => (it.1, f) := by
  unfold FindGap.sumDirections
  have := sumDirections_fold fg temp temp [] hwf (by simp)
  simp only [List.nil_append] at this
  rw [← this]
  congr 1
  funext joins it
  exact sumDirections_round fg temp joins it

theorem sumDirections_mem (fg : FindGap) (temp : JoinMap) (hwf : JoinMap.WF temp)
    (key : TipPair) (c : Nat) :
    (key, c) ∈ fg.sumDirections temp ↔
      ∃ v, JoinMap.find temp key = some v ∧ key.1.natAbs < key.2.natAbs ∧
        c = v + votes temp (-key.2, -key.1) ∧ fg.minNumbOfPairs < c := by
  rw [sumDirections_eq fg temp hwf, List.mem_filterMap]
  constructor
  · rintro ⟨⟨k, v⟩, hmem, hk⟩
    unfold keptCount at hk
    split at hk
    · rename_i hc
      simp only [Option.map_some', Option.some.injEq, Prod.mk.injEq] at hk
      obtain ⟨rfl, rfl⟩ := hk
      exact ⟨v, (JoinMap.mem_iff_find temp hwf k v).mp hmem, hc.1, rfl, hc.2⟩
    · simp at hk
  · rintro ⟨v, hf, h1, rfl, h2⟩
    refine ⟨(key, v), (JoinMap.mem_iff_find temp hwf key v).mpr hf, ?_⟩
    unfold keptCount
    rw [if_pos ⟨h1, h2⟩]
    rfl

theorem sumDirections_keys_nodup (fg : FindGap) (temp : JoinMap) (hwf : JoinMap.WF temp) :
    ((fg.sumDirections temp).map Prod.fst).Nodup := by
  rw [sumDirections_eq fg temp hwf]
  have hsub : ∀ l : JoinMap,
      ((l.filterMap fun it => (keptCount fg temp it).map fun f => (it.1, f)).map Prod.fst).Sublist
        (l.map Prod.fst) := by
    intro l
    induction l with
    | nil => simp
    | cons it l ih =>
      cases hk : keptCount fg temp it with
      | none =>
        simp only [List.filterMap_cons, hk, Option.map_none', List.map_cons]
        exact ih.cons _
      | some f =>
        simp only [List.filterMap_cons, hk, Option.map_some', List.map_cons]
        exact ih.cons₂ _
  exact (JoinMap.keys_nodup temp hwf).sublist (hsub temp)

theorem JoinMap.find_vote (m : JoinMap) (join key : TipPair) :
    JoinMap.find (JoinMap.vote m join) key
      = if join = key then some (votes m join + 1) else JoinMap.find m key := by
  unfold JoinMap.vote votes
  cases h : JoinMap.find m join <;> simp [JoinMap.find_assign]

theorem votes_vote (m : JoinMap) (join key : TipPair) :
    votes (JoinMap.vote m join) key = votes m key + if join = key then 1 else 0 := by
  unfold votes
  rw [JoinMap.find_vote]
  by_cases h : join = key
  · subst h; simp [votes]
  · simp [h]

theorem JoinMap.wf_vote (m : JoinMap) (join : TipPair) (h : JoinMap.WF m) :
    JoinMap.WF (JoinMap.vote m join) := by
  unfold JoinMap.vote
  cases JoinMap.find m join <;> exact JoinMap.wf_assign _ _ _ h

theorem JoinMap.positive_vote (m : JoinMap) (join : TipPair) (h : JoinMap.Positive m) :
    JoinMap.Positive (JoinMap.vote m join) := by
  intro key v hv
  rw [JoinMap.find_vote] at hv
  by_cases hj : join = key
  · rw [if_pos hj] at hv
    simp only [Option.some.injEq] at hv
    omega
  · rw [if_neg hj] at hv
    exact h key v hv

theorem votes_pos_iff (m : JoinMap) (h : JoinMap.Positive m) (key : TipPair) :
    0 < votes m key ↔ ∃ v, JoinMap.find m key = some v := by
  unfold votes
  cases hf : JoinMap.find m key with
  | none => simp
  | some v => simpa using h key v hf

theorem countVote_cases (g : DBGraph) (tipNodes : Finset Int)
    (nppvFirst nppvSecond : List NodePosPair) (temp temp' : JoinMap)
    (h : countVote g tipNodes nppvFirst nppvSecond temp = some temp') :
    temp' = temp ∨ ∃ join, temp' = JoinMap.vote temp join := by
  unfold countVote at h
  simp only [Option.bind_eq_bind, Option.bind_eq_some] at h
  obtain ⟨⟨t1, f1⟩, -, ⟨t2, f2⟩, -, h⟩ := h
  simp only [Option.pure_def] at h
  split at h
  · split at h
    · simp only [Option.some.injEq] at h
      exact Or.inr ⟨_, h.symm⟩
    · simp only [Option.some.injEq] at h
      exact Or.inl h.symm
  · simp only [Option.some.injEq] at h
    exact Or.inl h.symm

theorem streamLine_inv (fg : FindGap) (g : DBGraph) (tipNodes : Finset Int)
    (st st' : StreamState) (line : List Nucleotide)
    (hI : JoinMap.WF st.pairedEndJoinsTemp ∧ JoinMap.Positive st.pairedEndJoinsTemp)
    (h : fg.streamLine g tipNodes st line = some st') :
    JoinMap.WF st'.pairedEndJoinsTemp ∧ JoinMap.Positive st'.pairedEndJoinsTemp := by
  unfold FindGap.streamLine at h
  simp only [Option.bind_eq_bind, Option.bind_eq_some, Option.pure_def, Option.some.injEq] at h
  obtain ⟨temp', htemp, rfl⟩ := h
  simp only
  split at htemp
  · rename_i h6
    unfold FindGap.countPair at htemp
    simp only [Option.bind_eq_bind, Option.bind_eq_some] at htemp
    obtain ⟨_, -, n1, -, _, -, n2, -, hv⟩ := htemp
    rcases countVote_cases g tipNodes n1 n2 _ _ hv with rfl | ⟨join, rfl⟩
    · exact hI
    · exact ⟨JoinMap.wf_vote _ _ hI.1, JoinMap.positive_vote _ _ hI.2⟩
  · simp only [Option.some.injEq] at htemp
    subst htemp
    exact hI

/-- The votes collected by the loop form a map with increasing keys and positive counts. -/
theorem collectVotes_inv (fg : FindGap) (g : DBGraph) (tipNodes : Finset Int)
    (lines : List (List Nucleotide)) (temp : JoinMap)
    (h : fg.collectVotes g tipNodes lines = some temp) :
    JoinMap.WF temp ∧ JoinMap.Positive temp := by
  unfold FindGap.collectVotes at h
  simp only [Option.map_eq_some'] at h
  obtain ⟨st, hst, rfl⟩ := h
  refine foldlM_inv (fg.streamLine g tipNodes)
    (fun st _ => JoinMap.WF st.pairedEndJoinsTemp ∧ JoinMap.Positive st.pairedEndJoinsTemp)
    ?_ lines ⟨0, [], [], []⟩ st ?_ hst
  · intro s x rest s' hI hs
    exact streamLine_inv fg g tipNodes s s' x hI hs
  · refine ⟨by simp [JoinMap.WF], ?_⟩
    intro key v hv
    simp [JoinMap.find] at hv

/-- The vector left by `streamReads` called with an empty `potentialPairs`: a sorted
rearrangement of the map `pairedEndJoins`. -/
theorem streamReads_eq (fg : FindGap) (g : DBGraph)
    (stdSort : List (TipPair × Nat) → List (TipPair × Nat))
    (lines : List (List Nucleotide)) (tipNodes : Finset Int) (out : List (TipPair × Nat))
    (h : fg.streamReads g stdSort (some lines) tipNodes [] = some out) :
    ∃ temp, fg.collectVotes g tipNodes lines = some temp ∧
      out = stdSort (fg.sumDirections temp) := by
  unfold FindGap.streamReads at h
  simp only [Option.bind_eq_bind, Option.bind_eq_some, Option.pure_def, Option.some.injEq,
    List.nil_append] at h
  obtain ⟨temp, htemp, rfl⟩ := h
  exact ⟨temp, htemp, rfl⟩

/-- Membership in the vector left by `streamReads`, in terms of the votes. -/
theorem streamReads_mem (fg : FindGap) (g : DBGraph)
    (stdSort : List (TipPair × Nat) → List (TipPair × Nat)) (hsort : SortsPairs stdSort)
    (lines : List (List Nucleotide)) (tipNodes : Finset Int) (out : List (TipPair × Nat))
    (temp : JoinMap) (htemp : fg.collectVotes g tipNodes lines = some temp)
    (h : fg.streamReads g stdSort (some lines) tipNodes [] = some out)
    (key : TipPair) (c : Nat) :
    (key, c) ∈ out ↔ 0 < votes temp key ∧ key.1.natAbs < key.2.natAbs ∧
      c = combinedSupport temp key ∧ fg.minNumbOfPairs < c := by
  obtain ⟨temp', htemp', rfl⟩ := streamReads_eq fg g stdSort lines tipNodes out h
  rw [htemp] at htemp'
  simp only [Option.some.injEq] at htemp'
  subst htemp'
  obtain ⟨hwf, hpos⟩ := collectVotes_inv fg g tipNodes lines temp htemp
  rw [(hsort _).1.mem_iff, sumDirections_mem fg temp hwf, votes_pos_iff temp hpos]
  unfold combinedSupport
  constructor
  · rintro ⟨v, hv, h1, h2, h3⟩
    refine ⟨⟨v, hv⟩, h1, ?_, h3⟩
    rw [h2]; simp [votes, hv]
  · rintro ⟨⟨v, hv⟩, h1, h2, h3⟩
    refine ⟨v, hv, h1, ?_, h3⟩
    rw [h2]; simp [votes, hv]

theorem exSort_sortsPairs : SortsPairs exSort := by
  intro l
  unfold exSort
  haveI : IsTotal (TipPair × Nat) (fun left right => right.2 ≤ left.2) :=
    ⟨fun a b => Nat.le_total b.2 a.2⟩
  haveI : IsTrans (TipPair × Nat) (fun left right => right.2 ≤ left.2) :=
    ⟨fun a b c hab hbc => Nat.le_trans hbc hab⟩
  refine ⟨List.perm_insertionSort _ l, ?_⟩
  have := List.sorted_insertionSort (fun (left right : TipPair × Nat) => right.2 ≤ left.2) l
  exact this.imp fun hab => Nat.not_lt.mpr hab

/-- Claim C11, the input on which the code departs from it: on the two isolated tips `ACG`
(node 1) and `GTT` (node 2), eleven read pairs that all vote for `(-2, -1)` give the pair a
combined support of 11, above the default threshold of 10, and `streamReads` emits no
candidate; the same eleven votes given to the equivalent form `(1, 2)` are emitted with
count 11. -/
theorem streamReads_one_direction :
    exFindGap.collectVotes exTips {1, 2} (exReads 11 [.A, .A, .C] [.A, .C, .G])
        = some [((-2, -1), 11)] ∧
      combinedSupport [((-2, -1), 11)] (-2, -1) = 11 ∧
      combinedSupport [((-2, -1), 11)] (1, 2) = 11 ∧
      exFindGap.minNumbOfPairs = 10 ∧
      exFindGap.streamReads exTips exSort (some (exReads 11 [.A, .A, .C] [.A, .C, .G])) {1, 2} []
        = some [] ∧
      exFindGap.streamReads exTips exSort (some (exReads 11 [.A, .C, .G] [.A, .A, .C])) {1, 2} []
        = some [((1, 2), 11)] := by
  decide

/-- Claim C12, refuted on the two isolated tips: ten read pairs vote for `(1, 2)`, so its
combined support equals the default `minNumbOfPairs`, and `streamReads` discards the pair. -/
theorem streamReads_threshold_counterexample :
    exFindGap.collectVotes exTips {1, 2} (exReads 10 [.A, .C, .G] [.A, .A, .C])
        = some [((1, 2), 10)] ∧
      0 < votes [((1, 2), 10)] (1, 2) ∧
      combinedSupport [((1, 2), 10)] (1, 2) = exFindGap.minNumbOfPairs ∧
      exFindGap.streamReads exTips exSort (some (exReads 10 [.A, .C, .G] [.A, .A, .C])) {1, 2} []
        = some [] := by
  decide

/-- Claim C12, amended: when `streamReads` returns after a call with an empty
`potentialPairs`, a pair `(t1, t2)` with `|t1| < |t2|` that was observed at least once in
that direction is kept exactly when its combined support is strictly greater than
`minNumbOfPairs`; with a combined support equal to `minNumbOfPairs` it is discarded. -/
theorem streamReads_threshold (fg : FindGap) (g : DBGraph)
    (stdSort : List (TipPair × Nat) → List (TipPair × Nat)) (hsort : SortsPairs stdSort)
    (lines : List (List Nucleotide)) (tipNodes : Finset Int) (out : List (TipPair × Nat))
    (temp : JoinMap) (htemp : fg.collectVotes g tipNodes lines = some temp)
    (h : fg.streamReads g stdSort (some lines) tipNodes [] = some out)
    (t1 t2 : Int) (hlt : t1.natAbs < t2.natAbs) (hobs : 0 < votes temp (t1, t2)) :
    ((∃ c, ((t1, t2), c) ∈ out) ↔ fg.minNumbOfPairs < combinedSupport temp (t1, t2)) ∧
      (combinedSupport temp (t1, t2) = fg.minNumbOfPairs → ∀ c, ((t1, t2), c) ∉ out) := by
  have hmem := streamReads_mem fg g stdSort hsort lines tipNodes out temp htemp h (t1, t2)
  constructor
  · constructor
    · rintro ⟨c, hc⟩
      obtain ⟨-, -, h3, h4⟩ := (hmem c).mp hc
      rw [← h3]; exact h4
    · intro hgt
      exact ⟨_, (hmem _).mpr ⟨hobs, hlt, rfl, hgt⟩⟩
  · intro heq c hc
    obtain ⟨-, -, h3, h4⟩ := (hmem c).mp hc
    omega

theorem streamReads_threshold_witness :
    ((∃ c, (((1 : Int), (2 : Int)), c) ∈ ([((1, 2), 11)] : List (TipPair × Nat))) ↔
        exFindGap.minNumbOfPairs < combinedSupport [((1, 2), 11)] (1, 2)) ∧
      (combinedSupport [((1, 2), 11)] (1, 2) = exFindGap.minNumbOfPairs →
        ∀ c, (((1 : Int), (2 : Int)), c) ∉ ([((1, 2), 11)] : List (TipPair × Nat))) :=
  streamReads_threshold exFindGap exTips exSort exSort_sortsPairs
    (exReads 11 [.A, .C, .G] [.A, .A, .C]) {1, 2} [((1, 2), 11)] [((1, 2), 11)]
    (by decide) (by decide) 1 2 (by decide) (by decide)

/-- Claim C13: when `streamReads` returns after a call with an empty `potentialPairs`, the
vector it leaves is sorted by non-increasing support, it is a rearrangement of the map of the
candidates that passed the threshold, no candidate and no pair occurs in it twice, and it
holds `(pair, count)` exactly when the pair has `|t1| < |t2|`, was observed in that
direction, `count` is its combined support and `count` is above the threshold. -/
theorem streamReads_ranked (fg : FindGap) (g : DBGraph)
    (stdSort : List (TipPair × Nat) → List (TipPair × Nat)) (hsort : SortsPairs stdSort)
    (lines : List (List Nucleotide)) (tipNodes : Finset Int) (out : List (TipPair × Nat))
    (h : fg.streamReads g stdSort (some lines) tipNodes [] = some out) :
    out.Pairwise (fun left right => right.2 ≤ left.2) ∧ (out.map Prod.fst).Nodup ∧
      ∃ temp, fg.collectVotes g tipNodes lines = some temp ∧
        out.Perm (fg.sumDirections temp) ∧
        ∀ key c, (key, c) ∈ out ↔ 0 < votes temp key ∧ key.1.natAbs < key.2.natAbs ∧
          c = combinedSupport temp key ∧ fg.minNumbOfPairs < c := by
  obtain ⟨temp, htemp, hout⟩ := streamReads_eq fg g stdSort lines tipNodes out h
  obtain ⟨hwf, -⟩ := collectVotes_inv fg g tipNodes lines temp htemp
  have hperm : out.Perm (fg.sumDirections temp) := hout ▸ (hsort _).1
  refine ⟨?_, ?_, temp, htemp, hperm, ?_⟩
  · rw [hout]
    exact (hsort _).2.imp fun hab => Nat.not_lt.mp hab
  · exact ((hperm.map Prod.fst).nodup_iff).mpr (sumDirections_keys_nodup fg temp hwf)
  · exact streamReads_mem fg g stdSort hsort lines tipNodes out temp htemp h

theorem streamReads_ranked_witness :
    ([((1, 2), 11)] : List (TipPair × Nat)).Pairwise (fun left right => right.2 ≤ left.2) ∧
      (([((1, 2), 11)] : List (TipPair × Nat)).map Prod.fst).Nodup ∧
      ∃ temp, exFindGap.collectVotes exTips {1, 2} (exReads 11 [.A, .C, .G] [.A, .A, .C])
          = some temp ∧
        ([((1, 2), 11)] : List (TipPair × Nat)).Perm (exFindGap.sumDirections temp) ∧
        ∀ key c, (key, c) ∈ ([((1, 2), 11)] : List (TipPair × Nat)) ↔
          0 < votes temp key ∧ key.1.natAbs < key.2.natAbs ∧
            c = combinedSupport temp key ∧ exFindGap.minNumbOfPairs < c :=
  streamReads_ranked exFindGap exTips exSort exSort_sortsPairs
    (exReads 11 [.A, .C, .G] [.A, .A, .C]) {1, 2} [((1, 2), 11)] (by decide)

/-! ## The vote of a read pair -/

theorem scanFirstMate_eq (g : DBGraph) (tipNodes : Finset Int)
    (htips : ∀ x ∈ tipNodes, x.natAbs ≤ g.numNodes) :
    ∀ (l : List NodePosPair) (t0 : Int),
      ∃ r, scanFirstMate g tipNodes l t0 = some r ∧
        (firstMateTip g tipNodes l = none → r.2 = false) ∧
        (∀ t, firstMateTip g tipNodes l = some t → r = (t, true))
  | [], t0 => ⟨(t0, false), rfl, fun _ => rfl, fun t h => by simp [firstMateTip] at h⟩
  | npp :: rest, t0 => by
    unfold scanFirstMate firstMateTip
    rw [List.find?_cons]
    by_cases hv : npp.isValid = true
    · by_cases hm : (npp.nodeID.natAbs : Int) ∈ tipNodes
      · have hne : npp.nodeID ≠ 0 := by simpa [NodePosPair.isValid] using hv
        have hN : npp.nodeID.natAbs ≤ g.numNodes := by
          have := htips _ hm
          rwa [Int.natAbs_ofNat] at this
        have hget := getSSNode_mk (g := g) (x := npp.nodeID) hne hN
        simp only [hv, hm, if_true, hget, Option.bind_eq_bind, Option.some_bind,
          Bool.true_and, decide_True]
        by_cases hr : SSNode.getNumRightArcs ⟨npp.nodeID.natAbs, npp.nodeID⟩ g = 0
        · simp [hr]
        · simp only [hr, if_false, decide_False]
          exact scanFirstMate_eq g tipNodes htips rest npp.nodeID
      · simp only [hv, hm, if_true, if_false, decide_False, Bool.and_false, Bool.false_and]
        exact scanFirstMate_eq g tipNodes htips rest t0
    · have hv' : npp.isValid = false := by simpa using hv
      simp only [hv', Bool.false_eq_true, if_false, Bool.false_and]
      exact scanFirstMate_eq g tipNodes htips rest t0

theorem scanSecondMate_eq (g : DBGraph) (tipNodes : Finset Int)
    (htips : ∀ x ∈ tipNodes, x.natAbs ≤ g.numNodes) :
    ∀ (l : List NodePosPair) (t0 : Int),
      ∃ r, scanSecondMate g tipNodes l t0 = some r ∧
        (secondMateTip g tipNodes l = none → r.2 = false) ∧
        (∀ t, secondMateTip g tipNodes l = some t → r = (t, true))
  | [], t0 => ⟨(t0, false), rfl, fun _ => rfl, fun t h => by simp [secondMateTip] at h⟩
  | npp :: rest, t0 => by
    unfold scanSecondMate secondMateTip
    rw [List.find?_cons]
    by_cases hv : npp.isValid = true
    · by_cases hm : (npp.nodeID.natAbs : Int) ∈ tipNodes
      · have hne : -npp.nodeID ≠ 0 := by
          have : npp.nodeID ≠ 0 := by simpa [NodePosPair.isValid] using hv
          simpa using this
        have hN : (-npp.nodeID).natAbs ≤ g.numNodes := by
          have := htips _ hm
          rwa [Int.natAbs_ofNat, ← Int.natAbs_neg] at this
        have hget := getSSNode_mk (g := g) (x := -npp.nodeID) hne hN
        rw [Int.natAbs_neg] at hget
        simp only [hv, hm, if_true, hget, Option.bind_eq_bind, Option.some_bind,
          Bool.true_and, decide_True]
        by_cases hr : SSNode.getNumLeftArcs ⟨npp.nodeID.natAbs, -npp.nodeID⟩ g = 0
        · simp [hr]
        · simp only [hr, if_false, decide_False]
          exact scanSecondMate_eq g tipNodes htips rest (-npp.nodeID)
      · simp only [hv, hm, if_true, if_false, decide_False, Bool.and_false, Bool.false_and]
        exact scanSecondMate_eq g tipNodes htips rest t0
    · have hv' : npp.isValid = false := by simpa using hv
      simp only [hv', Bool.false_eq_true, if_false, Bool.false_and]
      exact scanSecondMate_eq g tipNodes htips rest t0

/-- The vote of one read pair follows the vote rule. -/
theorem countVote_eq (g : DBGraph) (tipNodes : Finset Int)
    (htips : ∀ x ∈ tipNodes, x.natAbs ≤ g.numNodes)
    (nppvFirst nppvSecond : List NodePosPair) (temp : JoinMap) :
    countVote g tipNodes nppvFirst nppvSecond temp
      = some (match voteRule g tipNodes nppvFirst nppvSecond with
          | some join => JoinMap.vote temp join
          | none => temp) := by
  obtain ⟨⟨t1, f1⟩, h1, h1n, h1s⟩ := scanFirstMate_eq g tipNodes htips nppvFirst 0
  obtain ⟨⟨t2, f2⟩, h2, h2n, h2s⟩ := scanSecondMate_eq g tipNodes htips nppvSecond 0
  unfold countVote voteRule
  rw [h1, h2]
  simp only [Option.bind_eq_bind, Option.some_bind, Option.pure_def]
  cases hf : firstMateTip g tipNodes nppvFirst with
  | none =>
    have : f1 = false := h1n hf
    subst this
    simp
  | some a =>
    have := h1s a hf
    simp only [Prod.mk.injEq] at this
    obtain ⟨rfl, rfl⟩ := this
    cases hs : secondMateTip g tipNodes nppvSecond with
    | none =>
      have : f2 = false := h2n hs
      subst this
      simp
    | some b =>
      have := h2s b hs
      simp only [Prod.mk.injEq] at this
      obtain ⟨rfl, rfl⟩ := this
      by_cases hab : t1.natAbs = t2.natAbs <;> simp [hab]

theorem countPair_eq (fg : FindGap) (g : DBGraph) (tipNodes : Finset Int)
    (firstPair secondPair : List Nucleotide) (temp : JoinMap)
    (nppvFirst nppvSecond : List NodePosPair)
    (h1 : fg.anchors g firstPair = some nppvFirst)
    (h2 : fg.anchors g secondPair = some nppvSecond) :
    fg.countPair g tipNodes firstPair secondPair temp
      = countVote g tipNodes nppvFirst nppvSecond temp := by
  unfold FindGap.anchors at h1 h2
  simp only [Option.bind_eq_bind, Option.bind_eq_some] at h1 h2
  obtain ⟨a, ha, ha'⟩ := h1
  obtain ⟨b, hb, hb'⟩ := h2
  unfold FindGap.countPair
  simp only [Option.bind_eq_bind, ha, ha', hb, hb', Option.some_bind]

theorem streamLine_skip (fg : FindGap) (g : DBGraph) (tipNodes : Finset Int) (st : StreamState)
    (line : List Nucleotide) (h : st.i % 8 ≠ 6) :
    fg.streamLine g tipNodes st line
      = some ⟨st.i + 1, if st.i % 8 = 1 then line else st.firstPair,
          if st.i % 8 = 5 then line else st.secondPair, st.pairedEndJoinsTemp⟩ := by
  unfold FindGap.streamLine
  simp only [if_neg h, Option.pure_def, Option.bind_eq_bind, Option.some_bind]

theorem streamLine_count (fg : FindGap) (g : DBGraph) (tipNodes : Finset Int) (st : StreamState)
    (line : List Nucleotide) (h : st.i % 8 = 6) :
    fg.streamLine g tipNodes st line
      = (fg.countPair g tipNodes st.firstPair st.secondPair st.pairedEndJoinsTemp).map
          fun temp => ⟨st.i + 1, st.firstPair, st.secondPair, temp⟩ := by
  unfold FindGap.streamLine
  have h1 : ¬ st.i % 8 = 1 := by omega
  have h5 : ¬ st.i % 8 = 5 := by omega
  simp only [if_pos h, if_neg h1, if_neg h5, Option.pure_def, Option.bind_eq_bind]
  cases fg.countPair g tipNodes st.firstPair st.secondPair st.pairedEndJoinsTemp <;> rfl

/-- Claim C14: for every read pair, that is for the eight lines of a record read from a line
count that is a multiple of 8, whose two mates have the anchor vectors `nppvFirst` and
`nppvSecond`, the loop of `streamReads` goes on and records exactly one vote for `(t1, t2)`
when the vote rule of the spec gives that pair, and no vote otherwise. The tip set holds
identifiers of nodes of the graph. -/
theorem streamReads_vote_rule (fg : FindGap) (g : DBGraph) (tipNodes : Finset Int)
    (htips : ∀ x ∈ tipNodes, x.natAbs ≤ g.numNodes) (st : StreamState) (hi : st.i % 8 = 0)
    (l0 firstPair l2 l3 l4 secondPair l6 l7 : List Nucleotide)
    (nppvFirst nppvSecond : List NodePosPair)
    (h1 : fg.anchors g firstPair = some nppvFirst)
    (h2 : fg.anchors g secondPair = some nppvSecond) :
    ∃ st', [l0, firstPair, l2, l3, l4, secondPair, l6, l7].foldlM (fg.streamLine g tipNodes) st
        = some st' ∧ st'.i = st.i + 8 ∧
      ∀ key, votes st'.pairedEndJoinsTemp key
        = votes st.pairedEndJoinsTemp key
          + if voteRule g tipNodes nppvFirst nppvSecond = some key then 1 else 0 := by
  simp only [List.foldlM_cons, List.foldlM_nil, Option.bind_eq_bind]
  rw [streamLine_skip fg g tipNodes st l0 (by omega)]
  simp only [Option.some_bind]
  rw [streamLine_skip fg g tipNodes _ firstPair (by simp only; omega)]
  simp only [Option.some_bind]
  rw [streamLine_skip fg g tipNodes _ l2 (by simp only; omega)]
  simp only [Option.some_bind]
  rw [streamLine_skip fg g tipNodes _ l3 (by simp only; omega)]
  simp only [Option.some_bind]
  rw [streamLine_skip fg g tipNodes _ l4 (by simp only; omega)]
  simp only [Option.some_bind]
  rw [streamLine_skip fg g tipNodes _ secondPair (by simp only; omega)]
  simp only [Option.some_bind]
  rw [streamLine_count fg g tipNodes _ l6 (by simp only; omega)]
  have e1 : (st.i + 1) % 8 = 1 := by omega
  have e5 : (st.i + 1 + 1 + 1 + 1 + 1) % 8 = 5 := by omega
  have n0 : ¬ st.i % 8 = 1 := by omega
  have n0' : ¬ st.i % 8 = 5 := by omega
  have n1 : ¬ (st.i + 1) % 8 = 5 := by omega
  have n2 : ¬ (st.i + 1 + 1) % 8 = 1 := by omega
  have n2' : ¬ (st.i + 1 + 1) % 8 = 5 := by omega
  have n3 : ¬ (st.i + 1 + 1 + 1) % 8 = 1 := by omega
  have n3' : ¬ (st.i + 1 + 1 + 1) % 8 = 5 := by omega
  have n4 : ¬ (st.i + 1 + 1 + 1 + 1) % 8 = 1 := by omega
  have n4' : ¬ (st.i + 1 + 1 + 1 + 1) % 8 = 5 := by omega
  have n5 : ¬ (st.i + 1 + 1 + 1 + 1 + 1) % 8 = 1 := by omega
  have n51 : ¬ (5 : Nat) = 1 := by decide
  have n15 : ¬ (1 : Nat) = 5 := by decide
  simp only [e1, e5, n0, n0', n1, n2, n2', n3, n3', n4, n4', n5, n51, n15, if_true, if_false]
  rw [countPair_eq fg g tipNodes firstPair secondPair _ nppvFirst nppvSecond h1 h2,
    countVote_eq g tipNodes htips]
  simp only [Option.map_some', Option.some_bind]
  rw [streamLine_skip fg g tipNodes _ l7 (by simp only; omega)]
  refine ⟨_, rfl, by simp only, ?_⟩
  intro key
  simp only
  cases hr : voteRule g tipNodes nppvFirst nppvSecond with
  | none => simp
  | some join =>
    simp only [votes_vote, Option.some.injEq]

theorem streamReads_vote_rule_witness :
    ∃ st', [[], [.A, .C, .G], [], [], [], [.A, .A, .C], [], []].foldlM
          (exFindGap.streamLine exTips {1, 2}) ⟨0, [], [], []⟩ = some st' ∧
        st'.i = 0 + 8 ∧
      ∀ key, votes st'.pairedEndJoinsTemp key
        = votes [] key
          + if voteRule exTips {1, 2} [⟨1, 0⟩] [⟨-2, 0⟩] = some key then 1 else 0 :=
  streamReads_vote_rule exFindGap exTips {1, 2} (by decide) ⟨0, [], [], []⟩ (by decide)
    [] [.A, .C, .G] [] [] [] [.A, .A, .C] [] [] [⟨1, 0⟩] [⟨-2, 0⟩] (by decide) (by decide)

/-! ## `alignTips` and `reorderTips` -/

/-- When `extendRead` returns `true`, the overlap ends at the end of `first` and starts at
the start of `second`. -/
theorem extendRead_flag (fg : FindGap) (g : DBGraph) (first second : SSNode) (r out : ReadRefs)
    (h : fg.extendRead g first second r = some (true, out)) :
    out.firstEndInex = (first.getSequence g).length ∧ out.secondStartIndex = 0 := by
  obtain ⟨c, i, j, hlcs, -⟩ := getLongestCommonSubStr_spec
    (fg.trailingWindow (first.getSequence g)) (fg.leadingWindow (second.getSequence g))
  by_cases hlen : c.length < fg.minExactMatchSize
  · rw [extendRead_reject fg g first second r hlcs hlen] at h
    simp at h
  · obtain ⟨out', he, -⟩ := extendRead_accept fg g first second r hlcs hlen
    rw [he] at h
    simp only [Option.some.injEq, Prod.mk.injEq, decide_eq_true_eq] at h
    obtain ⟨hd, rfl⟩ := h
    exact hd

/-- The two guards of lines 218 and 222 of `alignTips` never hold after `extendRead` has
returned `true`: `alignTips` returns the flag and the two reads of `extendRead`. -/
theorem alignTips_eq (fg : FindGap) (g : DBGraph)
    (align : List Nucleotide → List Nucleotide → Int) (fuel : Nat)
    (firstNodeId secondNodeId : Int) (firstRead secondRead : List Nucleotide) :
    fg.alignTips g align fuel firstNodeId secondNodeId firstRead secondRead
      = (g.getSSNode firstNodeId).bind fun first =>
          (g.getSSNode secondNodeId).bind fun second =>
            (fg.extendRead g first second ⟨0, 0, 0, 0, firstRead, secondRead⟩).map
              fun p => (p.1, p.2.firstRead, p.2.secondRead) := by
  unfold FindGap.alignTips
  cases h1 : g.getSSNode firstNodeId with
  | none => rfl
  | some first =>
    cases h2 : g.getSSNode secondNodeId with
    | none => rfl
    | some second =>
      simp only [Option.bind_eq_bind, Option.some_bind]
      cases h3 : fg.extendRead g first second ⟨0, 0, 0, 0, firstRead, secondRead⟩ with
      | none => rfl
      | some p =>
        obtain ⟨ok, r⟩ := p
        cases ok with
        | false => simp
        | true =>
          obtain ⟨he, hs⟩ := extendRead_flag fg g first second _ r h3
          have hg1 : ¬ (second.getNumRightArcs g ≠ 0 ∧
              (first.getSequence g).length > r.firstEndInex) := by
            rw [he]; intro hc; exact absurd hc.2 (lt_irrefl _)
          have hg2 : ¬ (first.getNumLeftArcs g ≠ 0 ∧ r.secondStartIndex > 0) := by
            rw [hs]; intro hc; exact absurd hc.2 (lt_irrefl _)
          simp only [Option.some_bind, Bool.not_true, Bool.false_eq_true, if_false, if_neg hg1,
            Option.pure_def, if_neg hg2, Option.map_some']

/-- Claim C18, the input on which the claim fails: node 1 (`TTACGGTCA`) and node 2
(`ACGGTCAGG`) overlap in `ACGGTCA`, overlap discovery succeeds, node 2 has the two bases `GG`
beyond the overlap, and the right neighbour of node 1 spells them: the expansion over the
right arcs of node 1 gives the bridge `GG`. `alignTips(1, 2)` performs no expansion, whatever
the bound on the search: it returns the two reads of `extendRead`, without a bridge. -/
theorem alignTips_no_bridge :
    exFindGap.extendRead exBridge ⟨1, 1⟩ ⟨2, 2⟩ ReadRefs.init
        = some (true, ⟨2, 0, 9, 7, [.A, .C, .G, .G, .T, .C, .A], [.A, .C, .G, .G, .T, .C, .A]⟩) ∧
      (7 < SSNode.getLength ⟨2, 2⟩ exBridge ∧ SSNode.getNumRightArcs ⟨1, 1⟩ exBridge ≠ 0) ∧
      exFindGap.expandReadByGraphToRight exBridge exAlign 10 ⟨1, 1⟩ ⟨2, 2⟩ 9 7
          [.A, .C, .G, .G, .T, .C, .A] [.A, .C, .G, .G, .T, .C, .A]
        = some (11, 9, [.A, .C, .G, .G, .T, .C, .A, .G, .G],
            [.A, .C, .G, .G, .T, .C, .A, .G, .G]) ∧
      ∀ fuel, exFindGap.alignTips exBridge exAlign fuel 1 2 [] []
        = some (true, [.A, .C, .G, .G, .T, .C, .A], [.A, .C, .G, .G, .T, .C, .A]) := by
  refine ⟨by decide, by decide, by decide, ?_⟩
  intro fuel
  rw [alignTips_eq]
  decide

/-- Claim C16, the input on which the code departs from it: node 1 and node 2 are isolated
and overlap in 16 bases as they are stored, so of the four trial orientations only
`(1, 2)` aligns (similarity 100 against -100 for the three others). `reorderTips` leaves
`(1, -2)`, and `checkForTipConnection` then finds no overlap and never calls
`connectNodes`. -/
theorem reorderTips_flips_second :
    exFindGap.trialSim exLong exAlign 10 1 2 = some 100 ∧
      exFindGap.trialSim exLong exAlign 10 (-1) 2 = some (-100) ∧
      exFindGap.trialSim exLong exAlign 10 1 (-2) = some (-100) ∧
      exFindGap.trialSim exLong exAlign 10 (-1) (-2) = some (-100) ∧
      (SSNode.getNumLeftArcs ⟨1, 1⟩ exLong = 0 ∧ SSNode.getNumRightArcs ⟨1, 1⟩ exLong = 0 ∧
        SSNode.getNumLeftArcs ⟨2, 2⟩ exLong = 0 ∧ SSNode.getNumRightArcs ⟨2, 2⟩ exLong = 0) ∧
      exFindGap.reorderTips exLong exAlign 10 ⟨1, 1⟩ ⟨2, 2⟩ = some (⟨1, 1⟩, ⟨2, -2⟩) ∧
      (exFindGap.checkForTipConnection exLong exAlign 10 [((1, 2), 11)]).map
          (fun res => (res.numberOfNewConnection, res.calls.length)) = some (0, 0) := by
  refine ⟨by decide, by decide, by decide, by decide, by decide, by decide, by decide⟩

theorem numRightArcs_neg (g : DBGraph) (n : Nat) (x : Int) (hx : x ≠ 0) :
    SSNode.getNumRightArcs ⟨n, -x⟩ g = SSNode.getNumLeftArcs ⟨n, x⟩ g := by
  unfold SSNode.getNumRightArcs SSNode.getNumLeftArcs SSNode.rightArcs SSNode.leftArcs
  simp only
  by_cases h : x > 0
  · have h' : ¬ (-x > 0) := by omega
    rw [if_neg h', if_pos h, List.length_map]
  · have h' : -x > 0 := by omega
    rw [if_pos h', if_neg h, List.length_map]

theorem numLeftArcs_neg (g : DBGraph) (n : Nat) (x : Int) (hx : x ≠ 0) :
    SSNode.getNumLeftArcs ⟨n, -x⟩ g = SSNode.getNumRightArcs ⟨n, x⟩ g := by
  unfold SSNode.getNumRightArcs SSNode.getNumLeftArcs SSNode.rightArcs SSNode.leftArcs
  simp only
  by_cases h : x > 0
  · have h' : ¬ (-x > 0) := by omega
    rw [if_neg h', if_pos h, List.length_map]
  · have h' : -x > 0 := by omega
    rw [if_pos h', if_neg h, List.length_map]

theorem flipBoth_eq (g : DBGraph) (a b : Int) (ha : a ≠ 0) (haN : a.natAbs ≤ g.numNodes)
    (hb : b ≠ 0) (hbN : b.natAbs ≤ g.numNodes) :
    flipBoth g ⟨a.natAbs, a⟩ ⟨b.natAbs, b⟩ = some (⟨a.natAbs, -a⟩, ⟨b.natAbs, -b⟩) := by
  have h1 := getSSNode_mk (g := g) (x := -a) (by omega) (by rw [Int.natAbs_neg]; exact haN)
  have h2 := getSSNode_mk (g := g) (x := -b) (by omega) (by rw [Int.natAbs_neg]; exact hbN)
  rw [Int.natAbs_neg] at h1 h2
  unfold flipBoth
  simp only [SSNode.getNodeID, h1, h2, Option.bind_eq_bind, Option.some_bind, Option.pure_def]

/-- Claim C17: when `first` has right arcs but no left arcs and `second` has left arcs but no
right arcs, or one of the two is isolated and the other has arcs only on that wrong side,
`reorderTips` returns, both views are replaced by their reverse complements, no later
branch changes them, and afterwards `first` has no right arcs and `second` no left arcs. -/
theorem reorderTips_degree (fg : FindGap) (g : DBGraph)
    (align : List Nucleotide → List Nucleotide → Int) (fuel : Nat) (a b : Int)
    (first second : SSNode) (hf : g.getSSNode a = some first) (hs : g.getSSNode b = some second)
    (hpat :
      (first.getNumRightArcs g ≠ 0 ∧ first.getNumLeftArcs g = 0 ∧
        second.getNumLeftArcs g ≠ 0 ∧ second.getNumRightArcs g = 0) ∨
      (first.getNumRightArcs g ≠ 0 ∧ first.getNumLeftArcs g = 0 ∧
        second.getNumLeftArcs g = 0 ∧ second.getNumRightArcs g = 0) ∨
      (first.getNumRightArcs g = 0 ∧ first.getNumLeftArcs g = 0 ∧
        second.getNumLeftArcs g ≠ 0 ∧ second.getNumRightArcs g = 0)) :
    ∃ first' second', g.getSSNode (-a) = some first' ∧ g.getSSNode (-b) = some second' ∧
      fg.reorderTips g align fuel first second = some (first', second') ∧
      first'.getNumRightArcs g = 0 ∧ second'.getNumLeftArcs g = 0 := by
  obtain ⟨⟨ha, haN⟩, rfl⟩ := getSSNode_eq_some.mp hf
  obtain ⟨⟨hb, hbN⟩, rfl⟩ := getSSNode_eq_some.mp hs
  have h1 := getSSNode_mk (g := g) (x := -a) (by omega) (by rw [Int.natAbs_neg]; exact haN)
  have h2 := getSSNode_mk (g := g) (x := -b) (by omega) (by rw [Int.natAbs_neg]; exact hbN)
  rw [Int.natAbs_neg] at h1 h2
  have hflip := flipBoth_eq g a b ha haN hb hbN
  have eR1 := numRightArcs_neg g a.natAbs a ha
  have eL1 := numLeftArcs_neg g a.natAbs a ha
  have eR2 := numRightArcs_neg g b.natAbs b hb
  have eL2 := numLeftArcs_neg g b.natAbs b hb
  refine ⟨⟨a.natAbs, -a⟩, ⟨b.natAbs, -b⟩, h1, h2, ?_⟩
  unfold FindGap.reorderTips
  rcases hpat with ⟨p1, p2, p3, p4⟩ | ⟨p1, p2, p3, p4⟩ | ⟨p1, p2, p3, p4⟩
  · refine ⟨?_, by rw [eR1]; exact p2, by rw [eL2]; exact p4⟩
    simp [hflip, p1, p2, p3, p4, eR1, eL1, eR2, eL2]
  · refine ⟨?_, by rw [eR1]; exact p2, by rw [eL2]; exact p4⟩
    simp [hflip, p1, p2, p3, p4, eR1, eL1, eR2, eL2]
  · refine ⟨?_, by rw [eR1]; exact p2, by rw [eL2]; exact p4⟩
    simp [hflip, p1, p2, p3, p4, eR1, eL1, eR2, eL2]

theorem reorderTips_degree_witness :
    ∃ first' second', exGraph.getSSNode (-2) = some first' ∧
      exGraph.getSSNode (-1) = some second' ∧
      exFindGap.reorderTips exGraph exAlign 10 ⟨2, 2⟩ ⟨1, 1⟩ = some (first', second') ∧
      first'.getNumRightArcs exGraph = 0 ∧ second'.getNumLeftArcs exGraph = 0 :=
  reorderTips_degree exFindGap exGraph exAlign 10 2 1 ⟨2, 2⟩ ⟨1, 1⟩ (by decide) (by decide)
    (Or.inl (by decide))

/-! ## `checkForTipConnection` -/

theorem getSSNode_natAbs {g : DBGraph} {x : Int} {X : SSNode} (h : g.getSSNode x = some X) :
    X.nodeID.natAbs = x.natAbs ∧ X.dsNode = x.natAbs := by
  obtain ⟨-, rfl⟩ := getSSNode_eq_some.mp h
  exact ⟨rfl, rfl⟩

theorem flipBoth_natAbs {g : DBGraph} {first second first' second' : SSNode}
    (h : flipBoth g first second = some (first', second')) :
    first'.nodeID.natAbs = first.nodeID.natAbs ∧
      second'.nodeID.natAbs = second.nodeID.natAbs := by
  unfold flipBoth at h
  simp only [Option.bind_eq_bind, Option.bind_eq_some, Option.pure_def, Option.some.injEq,
    Prod.mk.injEq] at h
  obtain ⟨f, hf, s, hs, rfl, rfl⟩ := h
  have h1 := (getSSNode_natAbs hf).1
  have h2 := (getSSNode_natAbs hs).1
  simp only [SSNode.getNodeID, Int.natAbs_neg] at h1 h2
  exact ⟨h1, h2⟩

theorem flipIf_natAbs {g : DBGraph} (c : Prop) [Decidable c]
    {first second first' second' : SSNode}
    (h : (if c then flipBoth g first second else pure (first, second))
      = some (first', second')) :
    first'.nodeID.natAbs = first.nodeID.natAbs ∧
      second'.nodeID.natAbs = second.nodeID.natAbs := by
  split at h
  · exact flipBoth_natAbs h
  · simp only [Option.pure_def, Option.some.injEq, Prod.mk.injEq] at h
    obtain ⟨rfl, rfl⟩ := h
    exact ⟨rfl, rfl⟩

theorem reorderIsolated_natAbs {fg : FindGap} {g : DBGraph}
    {align : List Nucleotide → List Nucleotide → Int} {fuel : Nat}
    {first second first' second' : SSNode}
    (h : fg.reorderIsolated g align fuel first second = some (first', second')) :
    first'.nodeID.natAbs = first.nodeID.natAbs ∧
      second'.nodeID.natAbs = second.nodeID.natAbs := by
  unfold FindGap.reorderIsolated at h
  simp only [Option.bind_eq_bind, Option.bind_eq_some, Option.pure_def, Option.some.injEq,
    Prod.mk.injEq] at h
  obtain ⟨sim1, -, sim2, -, sim3, -, sim4, -, ⟨f, s⟩, hchain, s', hs', rfl, rfl⟩ := h
  have hs2 := (getSSNode_natAbs hs').1
  simp only [SSNode.getNodeID, Int.natAbs_neg] at hs2
  have hc : f.nodeID.natAbs = first.nodeID.natAbs ∧ s.nodeID.natAbs = second.nodeID.natAbs := by
    split at hchain
    · simp only [Option.bind_eq_some, Option.some.injEq, Prod.mk.injEq] at hchain
      obtain ⟨x, hx, rfl, rfl⟩ := hchain
      have := (getSSNode_natAbs hx).1
      simp only [SSNode.getNodeID, Int.natAbs_neg] at this
      exact ⟨this, rfl⟩
    · split at hchain
      · simp only [Option.bind_eq_some, Option.some.injEq, Prod.mk.injEq] at hchain
        obtain ⟨x, hx, rfl, rfl⟩ := hchain
        have := (getSSNode_natAbs hx).1
        simp only [SSNode.getNodeID, Int.natAbs_neg] at this
        exact ⟨rfl, this⟩
      · split at hchain
        · simp only [Option.bind_eq_some, Option.some.injEq, Prod.mk.injEq] at hchain
          obtain ⟨x, hx, rfl, rfl⟩ := hchain
          have := (getSSNode_natAbs hx).1
          simp only [SSNode.getNodeID, Int.natAbs_neg] at this
          exact ⟨this, rfl⟩
        · simp only [Option.some.injEq, Prod.mk.injEq] at hchain
          obtain ⟨rfl, rfl⟩ := hchain
          exact ⟨rfl, rfl⟩
  exact ⟨hc.1, hs2.trans hc.2⟩

/-- The views left by `reorderTips` are views of the same two physical nodes. -/
theorem reorderTips_natAbs {fg : FindGap} {g : DBGraph}
    {align : List Nucleotide → List Nucleotide → Int} {fuel : Nat}
    {first second first' second' : SSNode}
    (h : fg.reorderTips g align fuel first second = some (first', second')) :
    first'.nodeID.natAbs = first.nodeID.natAbs ∧
      second'.nodeID.natAbs = second.nodeID.natAbs := by
  unfold FindGap.reorderTips at h
  simp only [Option.bind_eq_bind, Option.bind_eq_some] at h
  obtain ⟨⟨f1, s1⟩, h1, ⟨f2, s2⟩, h2, ⟨f3, s3⟩, h3, h4⟩ := h
  have e1 := flipIf_natAbs _ h1
  have e2 := flipIf_natAbs _ h2
  have e3 := flipIf_natAbs _ h3
  have e4 : first'.nodeID.natAbs = f3.nodeID.natAbs ∧
      second'.nodeID.natAbs = s3.nodeID.natAbs := by
    split at h4
    · exact reorderIsolated_natAbs h4
    · simp only [Option.pure_def, Option.some.injEq, Prod.mk.injEq] at h4
      obtain ⟨rfl, rfl⟩ := h4
      exact ⟨rfl, rfl⟩
  exact ⟨e4.1.trans (e3.1.trans (e2.1.trans e1.1)), e4.2.trans (e3.2.trans (e2.2.trans e1.2))⟩

theorem connectTips_inv (fg : FindGap) (st st' : TipConnection) (first second : SSNode)
    (hI : st.Inv fg)
    (h1 : (first.nodeID.natAbs : Int) ∉ st.nodesHandled)
    (h2 : (second.nodeID.natAbs : Int) ∉ st.nodesHandled)
    (v1 : (st.g.nodes first.nodeID.natAbs).invalid = false)
    (v2 : (st.g.nodes second.nodeID.natAbs).invalid = false)
    (h : fg.connectTips st first second = some st') : st'.Inv fg := by
  unfold FindGap.connectTips at h
  generalize hab : (if first.getAvgKmerCov st.g fg.kmerSize ≥ second.getAvgKmerCov st.g fg.kmerSize
      then (first.getNodeID, second.getNodeID)
      else (-second.getNodeID, -first.getNodeID)) = ab at h
  obtain ⟨a, b⟩ := ab
  have hphys : (a.natAbs = first.nodeID.natAbs ∧ b.natAbs = second.nodeID.natAbs) ∨
      (a.natAbs = second.nodeID.natAbs ∧ b.natAbs = first.nodeID.natAbs) := by
    split at hab
    · simp only [Prod.mk.injEq, SSNode.getNodeID] at hab
      obtain ⟨rfl, rfl⟩ := hab
      exact Or.inl ⟨rfl, rfl⟩
    · simp only [Prod.mk.injEq, SSNode.getNodeID] at hab
      obtain ⟨rfl, rfl⟩ := hab
      exact Or.inr ⟨Int.natAbs_neg _, Int.natAbs_neg _⟩
  have ha : (a.natAbs : Int) ∉ st.nodesHandled := by
    rcases hphys with ⟨e, -⟩ | ⟨e, -⟩ <;> rw [e] <;> assumption
  have hb : (b.natAbs : Int) ∉ st.nodesHandled := by
    rcases hphys with ⟨-, e⟩ | ⟨-, e⟩ <;> rw [e] <;> assumption
  have hva : (st.g.nodes a.natAbs).invalid = false := by
    rcases hphys with ⟨e, -⟩ | ⟨e, -⟩ <;> rw [e] <;> assumption
  have hvb : (st.g.nodes b.natAbs).invalid = false := by
    rcases hphys with ⟨-, e⟩ | ⟨-, e⟩ <;> rw [e] <;> assumption
  simp only [Option.bind_eq_bind, Option.bind_eq_some, Option.pure_def] at h
  obtain ⟨⟨found, g'⟩, hcall, h⟩ := h
  simp only at h
  have hreal : ∀ c ∈ st.calls ++ [(⟨st.g, a, b, found⟩ : ConnectCall)], c.IsCall fg := by
    intro c hc
    rcases List.mem_append.mp hc with hc | hc
    · exact hI.real c hc
    · rw [List.mem_singleton] at hc
      subst hc
      exact ⟨g', hcall⟩
  have hdisj : ∀ c ∈ st.calls, c.found = true →
      c.Disjoint ⟨st.g, a, b, found⟩ := by
    intro c hc hfound
    obtain ⟨m1, m2⟩ := hI.handled c hc hfound
    refine ⟨?_, ?_, ?_, ?_⟩ <;> intro e <;> simp only at e
    · exact ha (e ▸ m1)
    · exact hb (e ▸ m1)
    · exact ha (e ▸ m2)
    · exact hb (e ▸ m2)
  have hvalid : ∀ c ∈ st.calls ++ [(⟨st.g, a, b, found⟩ : ConnectCall)], c.OnValid := by
    intro c hc
    rcases List.mem_append.mp hc with hc | hc
    · exact hI.valid c hc
    · rw [List.mem_singleton] at hc
      subst hc
      exact ⟨hva, hvb⟩
  have honce : (st.calls ++ [(⟨st.g, a, b, found⟩ : ConnectCall)]).Pairwise
      fun c d => c.found = true → c.Disjoint d := by
    rw [List.pairwise_append]
    refine ⟨hI.once, List.pairwise_singleton _ _, ?_⟩
    intro c hc d hd
    rw [List.mem_singleton] at hd
    subst hd
    exact hdisj c hc
  cases found with
  | true =>
    simp only [if_true, Option.some.injEq] at h
    subst h
    refine ⟨hreal, hvalid, honce, ?_⟩
    intro c hc hfound
    simp only at hc ⊢
    rcases List.mem_append.mp hc with hc | hc
    · obtain ⟨m1, m2⟩ := hI.handled c hc hfound
      exact ⟨Finset.mem_insert_of_mem (Finset.mem_insert_of_mem m1),
        Finset.mem_insert_of_mem (Finset.mem_insert_of_mem m2)⟩
    · rw [List.mem_singleton] at hc
      subst hc
      simp only [SSNode.getNodeID, Finset.mem_insert]
      rcases hphys with ⟨e1, e2⟩ | ⟨e1, e2⟩
      · rw [e1, e2]; exact ⟨Or.inr (Or.inl rfl), Or.inl rfl⟩
      · rw [e1, e2]; exact ⟨Or.inl rfl, Or.inr (Or.inl rfl)⟩
  | false =>
    simp only [Bool.false_eq_true, if_false, Option.some.injEq] at h
    subst h
    refine ⟨hreal, hvalid, honce, ?_⟩
    intro c hc hfound
    simp only at hc ⊢
    rcases List.mem_append.mp hc with hc | hc
    · exact hI.handled c hc hfound
    · rw [List.mem_singleton] at hc
      subst hc
      simp at hfound

theorem checkCandidate_inv (fg : FindGap) (align : List Nucleotide → List Nucleotide → Int)
    (fuel : Nat) (st st' : TipConnection) (it : TipPair × Nat) (hI : st.Inv fg)
    (h : fg.checkCandidate align fuel st it = some st') : st'.Inv fg := by
  unfold FindGap.checkCandidate at h
  simp only [Option.bind_eq_bind, Option.bind_eq_some] at h
  obtain ⟨first, hf, second, hs, h⟩ := h
  obtain ⟨hf1, hf2⟩ := getSSNode_natAbs hf
  obtain ⟨hs1, hs2⟩ := getSSNode_natAbs hs
  split at h
  · simp only [Option.pure_def, Option.some.injEq] at h
    subst h; exact hI
  · rename_i n1
    split at h
    · simp only [Option.pure_def, Option.some.injEq] at h
      subst h; exact hI
    · rename_i n2
      split at h
      · simp only [Option.pure_def, Option.some.injEq] at h
        subst h; exact hI
      · rename_i hv
        simp only [Bool.or_eq_true, Bool.not_eq_true', not_or, Bool.not_eq_false,
          SSNode.isValid, Bool.not_eq_true'] at hv
        simp only [Option.bind_eq_some] at h
        obtain ⟨⟨first', second'⟩, hre, ⟨ok, firstRead, secondRead⟩, -, h⟩ := h
        obtain ⟨e1, e2⟩ := reorderTips_natAbs hre
        simp only at h
        split at h
        · simp only [Option.bind_eq_some] at h
          obtain ⟨sim, -, h⟩ := h
          split at h
          · refine connectTips_inv fg st st' first' second' hI ?_ ?_ ?_ ?_ h
            · rw [e1]; exact n1
            · rw [e2]; exact n2
            · rw [e1, hf1, ← hf2]; exact hv.1
            · rw [e2, hs1, ← hs2]; exact hv.2
          · simp only [Option.pure_def, Option.some.injEq] at h
            subst h; exact hI
        · simp only [Option.pure_def, Option.some.injEq] at h
          subst h; exact hI

/-- Claim C15: when `checkForTipConnection` returns, every call of `connectNodes` it made
was made on two nodes that were valid at that time, and a call shares no physical node with
an earlier call that succeeded: no node takes part in two successful calls, and no call is
attempted on a node consumed by an earlier successful connection. The calls are those of
the record `calls`, each with the graph it was made on and the flag it returned. -/
theorem checkForTipConnection_once (fg : FindGap) (g : DBGraph)
    (align : List Nucleotide → List Nucleotide → Int) (fuel : Nat)
    (potentialPairs : List (TipPair × Nat)) (res : TipConnection)
    (h : fg.checkForTipConnection g align fuel potentialPairs = some res) :
    (∀ c ∈ res.calls, c.IsCall fg ∧ c.OnValid) ∧
      res.calls.Pairwise fun c d => c.found = true → c.Disjoint d := by
  have hI : res.Inv fg := by
    refine foldlM_inv (fg.checkCandidate align fuel) (fun st _ => st.Inv fg) ?_ potentialPairs
      ⟨g, ∅, 0, 0, []⟩ res ?_ h
    · intro s x rest s' hI hs
      exact checkCandidate_inv fg align fuel s s' x hI hs
    · exact ⟨by simp, by simp, by simp, by simp⟩
  exact ⟨fun c hc => ⟨hI.real c hc, hI.valid c hc⟩, hI.once⟩

theorem checkForTipConnection_once_witness :
    ∃ res, exFindGap.checkForTipConnection exLong exAlign 10 [((2, 1), 12), ((-1, -2), 11)]
        = some res ∧
      (∀ c ∈ res.calls, c.IsCall exFindGap ∧ c.OnValid) ∧
      res.calls.Pairwise fun c d => c.found = true → c.Disjoint d := by
  have hs : (exFindGap.checkForTipConnection exLong exAlign 10
      [((2, 1), 12), ((-1, -2), 11)]).isSome = true := by decide!
  obtain ⟨res, hres⟩ := Option.isSome_iff_exists.mp hs
  exact ⟨res, hres, checkForTipConnection_once exFindGap exLong exAlign 10 _ res hres⟩

/-- On the two overlapping isolated nodes the first candidate is connected by one call of
`connectNodes(1, 2)`, and the second candidate, on the same two nodes, is skipped. -/
theorem exLong_connected :
    (exFindGap.checkForTipConnection exLong exAlign 10 [((2, 1), 12), ((-1, -2), 11)]).map
        (fun res => (res.numberOfNewConnection, res.violateGraphStructure,
          res.calls.map fun c => (c.firstNodeID, c.secondNodeID, c.found)))
      = some (1, 0, [(1, 2, true)]) := by
  decide!

/-! ## Addressing and default parameters -/

/-- Claim C28: after `parameterInitialization` the word size is the one supplied, and
`maxSearchSize = k + 20`, `minNumbOfPairs = 10`, `minExactMatchSize = 7`,
`minOverlapSize = 15` and `minSim = 50`, whatever the five fields held before. -/
theorem parameterInitialization_defaults (fg : FindGap) :
    fg.parameterInitialization.kmerSize = fg.kmerSize ∧
      fg.parameterInitialization.maxSearchSize = fg.kmerSize + 20 ∧
      fg.parameterInitialization.minNumbOfPairs = 10 ∧
      fg.parameterInitialization.minExactMatchSize = 7 ∧
      fg.parameterInitialization.minOverlapSize = 15 ∧
      fg.parameterInitialization.minSim = 50 :=
  ⟨rfl, rfl, rfl, rfl, rfl, rfl⟩

/-- Claim C22: for an identifier `n` with `1 ≤ |n| ≤ numNodes`, `getSSNode(-(-n))` is the view
`getSSNode(n)`, and `getSSNode(n)` and `getSSNode(-n)` are views of the same record
`nodes[|n|]` with opposite identifiers: the sequence of one is the reverse complement of the
sequence of the other, and the right (left) arcs of one are the left (right) arcs of the
other with each endpoint negated. -/
theorem getSSNode_involution (g : DBGraph) (n : Int) (h1 : 1 ≤ n.natAbs)
    (h2 : n.natAbs ≤ g.numNodes) :
    g.getSSNode (-(-n)) = g.getSSNode n ∧
      ∃ v w, g.getSSNode n = some v ∧ g.getSSNode (-n) = some w ∧
        v.dsNode = n.natAbs ∧ w.dsNode = n.natAbs ∧ v.nodeID = n ∧ w.nodeID = -n ∧
        w.getSequence g = revCompl (v.getSequence g) ∧
        w.rightArcs g = (v.leftArcs g).map Arc.negate ∧
        w.leftArcs g = (v.rightArcs g).map Arc.negate := by
  have hn : n ≠ 0 := by omega
  have hv := getSSNode_mk (g := g) (x := n) hn h2
  have hw := getSSNode_mk (g := g) (x := -n) (by omega) (by rw [Int.natAbs_neg]; exact h2)
  rw [Int.natAbs_neg] at hw
  refine ⟨by rw [neg_neg], ⟨n.natAbs, n⟩, ⟨n.natAbs, -n⟩, hv, hw, rfl, rfl, rfl, rfl, ?_, ?_, ?_⟩
  · unfold SSNode.getSequence
    simp only
    by_cases h : n > 0
    · have h' : ¬ (-n > 0) := by omega
      rw [if_neg h', if_pos h]
    · have h' : -n > 0 := by omega
      rw [if_pos h', if_neg h, revCompl_revCompl]
  · unfold SSNode.rightArcs SSNode.leftArcs
    simp only
    by_cases h : n > 0
    · have h' : ¬ (-n > 0) := by omega
      rw [if_neg h', if_pos h]
    · have h' : -n > 0 := by omega
      rw [if_pos h', if_neg h, map_negate_negate]
  · unfold SSNode.rightArcs SSNode.leftArcs
    simp only
    by_cases h : n > 0
    · have h' : ¬ (-n > 0) := by omega
      rw [if_neg h', if_pos h]
    · have h' : -n > 0 := by omega
      rw [if_pos h', if_neg h, map_negate_negate]

theorem getSSNode_involution_witness :
    exGraph.getSSNode (-(-(-2))) = exGraph.getSSNode (-2) ∧
      ∃ v w, exGraph.getSSNode (-2) = some v ∧ exGraph.getSSNode (-(-2)) = some w ∧
        v.dsNode = (-2 : Int).natAbs ∧ w.dsNode = (-2 : Int).natAbs ∧ v.nodeID = -2 ∧
        w.nodeID = -(-2) ∧
        w.getSequence exGraph = revCompl (v.getSequence exGraph) ∧
        w.rightArcs exGraph = (v.leftArcs exGraph).map Arc.negate ∧
        w.leftArcs exGraph = (v.rightArcs exGraph).map Arc.negate :=
  getSSNode_involution exGraph (-2) (by decide) (by decide)

/-- Claim C23: `getSSNode(id)` passes its assertion exactly when `id ≠ 0` and
`|id| ≤ numNodes`, and the view it returns is the record `nodes[|id|]` with the identifier
`id`; `getDSNode(id)` passes its assertion exactly when `1 ≤ id ≤ numNodes`, and returns
`nodes[id]`; the identifier 0 addresses no node. -/
theorem getSSNode_range (g : DBGraph) (id : Int) :
    ((g.getSSNode id).isSome ↔ id ≠ 0 ∧ id.natAbs ≤ g.numNodes) ∧
      (∀ v, g.getSSNode id = some v → v = ⟨id.natAbs, id⟩) ∧
      ((g.getDSNode id).isSome ↔ 1 ≤ id ∧ id ≤ (g.numNodes : Int)) ∧
      (∀ d, g.getDSNode id = some d → d = g.nodes id.natAbs) ∧
      g.getSSNode 0 = none ∧ g.getDSNode 0 = none := by
  refine ⟨?_, ?_, ?_, ?_, ?_, ?_⟩
  · unfold DBGraph.getSSNode
    simp only [ne_eq, Int.natAbs_eq_zero]
    split <;> simp_all
  · intro v hv
    exact (getSSNode_eq_some.mp hv).2
  · unfold DBGraph.getDSNode
    split
    · rename_i h
      have h' : (0 : Int) < id ∧ id ≤ (g.numNodes : Int) := h
      simp only [Option.isSome_some, true_iff]
      omega
    · rename_i h
      have h' : ¬ ((0 : Int) < id ∧ id ≤ (g.numNodes : Int)) := h
      simp only [Option.isSome_none, Bool.false_eq_true, false_iff]
      omega
  · intro d hd
    unfold DBGraph.getDSNode at hd
    split at hd
    · simp only [Option.some.injEq] at hd
      exact hd.symm
    · cases hd
  · unfold DBGraph.getSSNode
    simp
  · unfold DBGraph.getDSNode
    simp

/-! ## `alignTips` is `extendRead` -/

/-- The function `extendRead` looks at the two sequences only. -/
theorem extendRead_congr (fg : FindGap) (g g' : DBGraph) (first second first' second' : SSNode)
    (r : ReadRefs) (h1 : first'.getSequence g' = first.getSequence g)
    (h2 : second'.getSequence g' = second.getSequence g) :
    fg.extendRead g' first' second' r = fg.extendRead g first second r := by
  unfold FindGap.extendRead
  rw [h1, h2]

/-- Claim C30: `alignTips(A, B)` returns the flag of `extendRead(A, B)` and leaves in
`firstRead` and `secondRead` the strings left by `extendRead`; the expansions are never
invoked, so the result is the same for every scorer and every bound on the search, and on
every graph in which the two nodes have the same sequences, whatever its arcs. -/
theorem alignTips_extendRead (fg : FindGap) (g : DBGraph)
    (align : List Nucleotide → List Nucleotide → Int) (fuel : Nat) (a b : Int)
    (firstRead secondRead : List Nucleotide) (A B : SSNode)
    (hA : g.getSSNode a = some A) (hB : g.getSSNode b = some B) :
    (∃ ok r, fg.extendRead g A B ⟨0, 0, 0, 0, firstRead, secondRead⟩ = some (ok, r) ∧
        fg.alignTips g align fuel a b firstRead secondRead
          = some (ok, r.firstRead, r.secondRead) ∧
        (ok = true → r.firstEndInex = (A.getSequence g).length ∧ r.secondStartIndex = 0)) ∧
      ∀ (g' : DBGraph) (align' : List Nucleotide → List Nucleotide → Int) (fuel' : Nat)
        (A' B' : SSNode), g'.getSSNode a = some A' → g'.getSSNode b = some B' →
        A'.getSequence g' = A.getSequence g → B'.getSequence g' = B.getSequence g →
        fg.alignTips g' align' fuel' a b firstRead secondRead
          = fg.alignTips g align fuel a b firstRead secondRead := by
  constructor
  · obtain ⟨c, i, j, hlcs, -⟩ := getLongestCommonSubStr_spec
      (fg.trailingWindow (A.getSequence g)) (fg.leadingWindow (B.getSequence g))
    have hsome : ∃ ok r, fg.extendRead g A B ⟨0, 0, 0, 0, firstRead, secondRead⟩
        = some (ok, r) := by
      by_cases hlen : c.length < fg.minExactMatchSize
      · exact ⟨_, _, extendRead_reject fg g A B _ hlcs hlen⟩
      · obtain ⟨out, he, -⟩ := extendRead_accept fg g A B
          ⟨0, 0, 0, 0, firstRead, secondRead⟩ hlcs hlen
        exact ⟨_, _, he⟩
    obtain ⟨ok, r, he⟩ := hsome
    refine ⟨ok, r, he, ?_, ?_⟩
    · rw [alignTips_eq, hA, hB]
      simp only [Option.some_bind, he, Option.map_some']
    · intro hok
      subst hok
      exact extendRead_flag fg g A B _ r he
  · intro g' align' fuel' A' B' hA' hB' h1 h2
    rw [alignTips_eq, alignTips_eq, hA, hB, hA', hB']
    simp only [Option.some_bind]
    rw [extendRead_congr fg g g' A B A' B' _ h1 h2]

theorem alignTips_extendRead_witness :
    (∃ ok r, exFindGap.extendRead exBridge ⟨1, 1⟩ ⟨2, 2⟩ ⟨0, 0, 0, 0, [], []⟩ = some (ok, r) ∧
        exFindGap.alignTips exBridge exAlign 10 1 2 [] []
          = some (ok, r.firstRead, r.secondRead) ∧
        (ok = true → r.firstEndInex = (SSNode.getSequence ⟨1, 1⟩ exBridge).length
          ∧ r.secondStartIndex = 0)) ∧
      ∀ (g' : DBGraph) (align' : List Nucleotide → List Nucleotide → Int) (fuel' : Nat)
        (A' B' : SSNode), g'.getSSNode 1 = some A' → g'.getSSNode 2 = some B' →
        A'.getSequence g' = SSNode.getSequence ⟨1, 1⟩ exBridge →
        B'.getSequence g' = SSNode.getSequence ⟨2, 2⟩ exBridge →
        exFindGap.alignTips g' align' fuel' 1 2 [] []
          = exFindGap.alignTips exBridge exAlign 10 1 2 [] [] :=
  alignTips_extendRead exFindGap exBridge exAlign 10 1 2 [] [] ⟨1, 1⟩ ⟨2, 2⟩ (by decide)
    (by decide)

/-! ## `findNPPFast` -/

theorem take_drop_succ_eq {α : Type} (s t : List α) (a b k : Nat) (c : α)
    (h : (s.drop a).take k = (t.drop b).take k) (hs : s[a + k]? = some c)
    (ht : t[b + k]? = some c) :
    (s.drop (a + 1)).take k = (t.drop (b + 1)).take k := by
  have hsl : a + k < s.length := by
    rcases Nat.lt_or_ge (a + k) s.length with h' | h'
    · exact h'
    · rw [List.getElem?_eq_none h'] at hs; cases hs
  have htl : b + k < t.length := by
    rcases Nat.lt_or_ge (b + k) t.length with h' | h'
    · exact h'
    · rw [List.getElem?_eq_none h'] at ht; cases ht
  have e1 : (s.drop a).take (k + 1) = (t.drop b).take (k + 1) := by
    rw [List.take_succ, List.take_succ, h, List.getElem?_drop, List.getElem?_drop, hs, ht]
  have e2 : ∀ (u : List α) (x : Nat), ((u.drop x).take (k + 1)).drop 1 = (u.drop (x + 1)).take k := by
    intro u x
    rw [List.drop_take, List.drop_drop]
    simp [Nat.add_comm]
  rw [← e2 s a, ← e2 t b, e1]

theorem vectorSet_lookedUp (g : DBGraph) (k : Nat) (read : List Nucleotide) (o : Nat)
    (nppv : List NodePosPair) (h : LookedUp g k read o nppv) (ho : o + k ≤ read.length) :
    ∃ out, vectorSet nppv o (g.findNPP ((read.drop o).take k)) = some out ∧
      LookedUp g k read (o + 1) out := by
  have hlt : o < nppv.length := by rw [h.1]; omega
  refine ⟨nppv.set o (g.findNPP ((read.drop o).take k)), ?_, ?_, ?_⟩
  · unfold vectorSet; rw [if_pos hlt]
  · rw [List.length_set]; exact h.1
  · intro i hi hik
    by_cases hio : i = o
    · subst hio
      rw [List.getElem?_set_self hlt]
    · rw [List.getElem?_set_ne (fun e => hio e.symm)]
      exact h.2 i (by omega) hik

/-- The `while` loop of `findNPPFast` under a consistent table: it returns, and every entry
that it writes is the direct lookup of its window. -/
theorem findNPPFastRun_lookedUp (g : DBGraph) (k : Nat) (hcons : IndexConsistent g k)
    (read : List Nucleotide) (nodeID : NodeID) (node : SSNode)
    (hnode : g.getSSNode nodeID = some node) (hvalid : node.isValid g = true) :
    ∀ (left offset readPos nodePos : Nat) (nppv : List NodePosPair),
      readPos = offset + k → left = read.length - readPos → offset + k ≤ read.length →
      k ≤ nodePos →
      HoldsKmer g k node (nodePos - k) ((read.drop offset).take k) →
      LookedUp g k read (offset + 1) nppv →
      ∃ o' out, findNPPFastRun k g read nodeID node left offset readPos nodePos nppv
          = some (o', out) ∧ offset ≤ o' ∧ o' + k ≤ read.length ∧
        LookedUp g k read (o' + 1) out := by
  intro left
  induction left with
  | zero =>
    intro offset readPos nodePos nppv _ _ ho _ _ hl
    exact ⟨offset, nppv, rfl, le_refl _, ho, hl⟩
  | succ left ih =>
    intro offset readPos nodePos nppv hrp hleft ho hk hholds hl
    unfold findNPPFastRun
    by_cases hc : readPos < read.length ∧ nodePos < node.getLength g
    · rw [if_pos hc]
      have hlt : readPos < read.length := hc.1
      have hr : read[readPos]? = some read[readPos] := List.getElem?_eq_getElem hlt
      have hn' : nodePos < (node.getSequence g).length := hc.2
      have hn : node.getNucleotide g nodePos = some (node.getSequence g)[nodePos] := by
        unfold SSNode.getNucleotide
        exact List.getElem?_eq_getElem hn'
      simp only [hr, hn, Option.bind_eq_bind, Option.some_bind]
      by_cases heq : read[readPos] = (node.getSequence g)[nodePos]
      · rw [if_pos heq]
        -- the window at `offset + 1` is the k-mer of the node at `nodePos - k + 1`
        have hwin : ((node.getSequence g).drop (nodePos - k + 1)).take k
            = (read.drop (offset + 1)).take k := by
          refine take_drop_succ_eq _ _ _ _ k read[readPos] hholds.2 ?_ ?_
          · rw [Nat.sub_add_cancel hk, heq]
            exact List.getElem?_eq_getElem hn'
          · rw [← hrp]; exact hr
        have hholds' : HoldsKmer g k node (nodePos - k + 1) ((read.drop (offset + 1)).take k) := by
          refine ⟨?_, hwin⟩
          unfold SSNode.getLength
          omega
        have hwlen : ((read.drop (offset + 1)).take k).length = k := by
          rw [List.length_take, List.length_drop]; omega
        have hval := hcons.complete nodeID node _ _ hnode hvalid hholds'
        obtain ⟨node2, hnode2, hvalid2, hholds2⟩ := hcons.sound _ hwlen hval
        obtain ⟨e1, e2⟩ := hcons.unique _ _ _ _ _ _ _ hnode2 hvalid2 hnode hvalid hholds2 hholds'
        have hentry : (⟨nodeID, nodePos - k + 1⟩ : NodePosPair)
            = g.findNPP ((read.drop (offset + 1)).take k) := by
          cases hf : g.findNPP ((read.drop (offset + 1)).take k) with
          | mk a b =>
            rw [hf] at e1 e2
            simp only at e1 e2
            rw [e1, e2]
        rw [hentry]
        obtain ⟨v1, hv1, hl1⟩ := vectorSet_lookedUp g k read (offset + 1) nppv hl (by omega)
        rw [hv1]
        simp only [Option.some_bind]
        obtain ⟨o', out, hrun, h1, h2, h3⟩ := ih (offset + 1) (readPos + 1) (nodePos + 1) v1
          (by omega) (by omega) (by omega) (by omega)
          (by rw [show nodePos + 1 - k = nodePos - k + 1 by omega]; exact hholds') hl1
        exact ⟨o', out, hrun, by omega, h2, h3⟩
      · rw [if_neg heq]
        exact ⟨offset, nppv, rfl, le_refl _, ho, hl⟩
    · rw [if_neg hc]
      exact ⟨offset, nppv, rfl, le_refl _, ho, hl⟩

/-- The `for` loop of `findNPPFast` under a consistent table, with enough rounds. -/
theorem findNPPFastLoop_lookedUp (g : DBGraph) (k : Nat) (hcons : IndexConsistent g k)
    (read : List Nucleotide) :
    ∀ (fuel offset : Nat) (nppv : List NodePosPair),
      read.length + 1 ≤ fuel + offset → LookedUp g k read offset nppv →
      ∃ out, findNPPFastLoop k g read fuel offset nppv = some out ∧
        LookedUp g k read (read.length + 1) out := by
  intro fuel
  induction fuel with
  | zero =>
    intro offset nppv hf hl
    unfold findNPPFastLoop
    rw [if_neg (by omega)]
    exact ⟨nppv, rfl, hl.1, fun i _ hik => hl.2 i (by omega) hik⟩
  | succ fuel ih =>
    intro offset nppv hf hl
    unfold findNPPFastLoop
    by_cases ho : offset + k ≤ read.length
    · rw [if_pos ho]
      obtain ⟨v1, hv1, hl1⟩ := vectorSet_lookedUp g k read offset nppv hl ho
      simp only [Option.bind_eq_bind, hv1, Option.some_bind]
      have hwlen : ((read.drop offset).take k).length = k := by
        rw [List.length_take, List.length_drop]; omega
      by_cases hv : (g.findNPP ((read.drop offset).take k)).isValid = true
      · obtain ⟨node, hnode, hvalid, hholds⟩ := hcons.sound _ hwlen hv
        simp only [hv, Bool.not_true, Bool.false_eq_true, if_false, hnode, Option.some_bind]
        obtain ⟨o', out, hrun, h1, h2, h3⟩ := findNPPFastRun_lookedUp g k hcons read _ node
          hnode hvalid (read.length - (offset + k)) offset (offset + k)
          ((g.findNPP ((read.drop offset).take k)).position + k) v1 rfl rfl ho (by omega)
          (by rw [Nat.add_sub_cancel]; exact hholds) hl1
        rw [hrun]
        simp only [Option.some_bind]
        exact ih (o' + 1) out (by omega) h3
      · have hv' : (g.findNPP ((read.drop offset).take k)).isValid = false := by
          simpa using hv
        simp only [hv', Bool.not_false, if_true]
        exact ih (offset + 1) v1 (by omega) hl1
    · rw [if_neg ho]
      exact ⟨nppv, rfl, hl.1, fun i _ hik => hl.2 i (by omega) hik⟩

theorem exRun_views {n : Int} {node : SSNode} (h : exRun.getSSNode n = some node) :
    (n = 1 ∧ node = ⟨1, 1⟩) ∨ (n = -1 ∧ node = ⟨1, -1⟩) := by
  obtain ⟨⟨h0, h1⟩, rfl⟩ := getSSNode_eq_some.mp h
  have h1' : n.natAbs ≤ 1 := h1
  have : n = 1 ∨ n = -1 := by omega
  rcases this with rfl | rfl
  · exact Or.inl ⟨rfl, rfl⟩
  · exact Or.inr ⟨rfl, rfl⟩

theorem exRun_holds {node : SSNode} {p : Nat} {w : List Nucleotide}
    (hn : node = ⟨1, 1⟩ ∨ node = ⟨1, -1⟩) (h : HoldsKmer exRun 3 node p w) :
    (node = ⟨1, 1⟩ ∧ p = 0 ∧ w = [.A, .C, .G]) ∨ (node = ⟨1, 1⟩ ∧ p = 1 ∧ w = [.C, .G, .G]) ∨
    (node = ⟨1, 1⟩ ∧ p = 2 ∧ w = [.G, .G, .T]) ∨ (node = ⟨1, -1⟩ ∧ p = 0 ∧ w = [.A, .C, .C]) ∨
    (node = ⟨1, -1⟩ ∧ p = 1 ∧ w = [.C, .C, .G]) ∨ (node = ⟨1, -1⟩ ∧ p = 2 ∧ w = [.C, .G, .T]) := by
  obtain ⟨hp, hw⟩ := h
  rcases hn with rfl | rfl
  · have hp' : p + 3 ≤ 5 := hp
    have : p = 0 ∨ p = 1 ∨ p = 2 := by omega
    rcases this with rfl | rfl | rfl
    · exact Or.inl ⟨rfl, rfl, hw.symm⟩
    · exact Or.inr (Or.inl ⟨rfl, rfl, hw.symm⟩)
    · exact Or.inr (Or.inr (Or.inl ⟨rfl, rfl, hw.symm⟩))
  · have hp' : p + 3 ≤ 5 := hp
    have : p = 0 ∨ p = 1 ∨ p = 2 := by omega
    rcases this with rfl | rfl | rfl
    · exact Or.inr (Or.inr (Or.inr (Or.inl ⟨rfl, rfl, hw.symm⟩)))
    · exact Or.inr (Or.inr (Or.inr (Or.inr (Or.inl ⟨rfl, rfl, hw.symm⟩))))
    · exact Or.inr (Or.inr (Or.inr (Or.inr (Or.inr ⟨rfl, rfl, hw.symm⟩))))

/-- The table of the example is consistent with its graph. -/
theorem exRun_consistent : IndexConsistent exRun 3 := by
  refine ⟨?_, ?_, ?_⟩
  · intro w _ hv
    have hcases : w = [.A, .C, .G] ∨ w = [.C, .G, .G] ∨ w = [.G, .G, .T] ∨ w = [.A, .C, .C] ∨
        w = [.C, .C, .G] ∨ w = [.C, .G, .T] := by
      by_contra hc
      simp only [not_or] at hc
      obtain ⟨c1, c2, c3, c4, c5, c6⟩ := hc
      have : exRun.findNPP w = ⟨0, 0⟩ := by
        show exRunTable w = ⟨0, 0⟩
        unfold exRunTable
        split <;> first | rfl | (exfalso; simp_all)
      rw [this] at hv
      exact absurd hv (by decide)
    rcases hcases with rfl | rfl | rfl | rfl | rfl | rfl
    · exact ⟨⟨1, 1⟩, by decide, by decide, by decide, by decide⟩
    · exact ⟨⟨1, 1⟩, by decide, by decide, by decide, by decide⟩
    · exact ⟨⟨1, 1⟩, by decide, by decide, by decide, by decide⟩
    · exact ⟨⟨1, -1⟩, by decide, by decide, by decide, by decide⟩
    · exact ⟨⟨1, -1⟩, by decide, by decide, by decide, by decide⟩
    · exact ⟨⟨1, -1⟩, by decide, by decide, by decide, by decide⟩
  · intro n node p w hn _ hh
    have hnode : node = ⟨1, 1⟩ ∨ node = ⟨1, -1⟩ := by
      rcases exRun_views hn with ⟨-, h⟩ | ⟨-, h⟩
      · exact Or.inl h
      · exact Or.inr h
    rcases exRun_holds hnode hh with ⟨-, -, rfl⟩ | ⟨-, -, rfl⟩ | ⟨-, -, rfl⟩ | ⟨-, -, rfl⟩ |
      ⟨-, -, rfl⟩ | ⟨-, -, rfl⟩ <;> decide
  · intro n n' node node' p p' w hn _ hn' _ hh hh'
    have hnode : node = ⟨1, 1⟩ ∨ node = ⟨1, -1⟩ := by
      rcases exRun_views hn with ⟨-, h⟩ | ⟨-, h⟩
      · exact Or.inl h
      · exact Or.inr h
    have hnode' : node' = ⟨1, 1⟩ ∨ node' = ⟨1, -1⟩ := by
      rcases exRun_views hn' with ⟨-, h⟩ | ⟨-, h⟩
      · exact Or.inl h
      · exact Or.inr h
    have e1 := (getSSNode_eq_some.mp hn).2
    have e2 := (getSSNode_eq_some.mp hn').2
    have key : node = node' ∧ p = p' := by
      rcases exRun_holds hnode hh with ⟨a, b, c⟩ | ⟨a, b, c⟩ | ⟨a, b, c⟩ | ⟨a, b, c⟩ |
        ⟨a, b, c⟩ | ⟨a, b, c⟩ <;>
      rcases exRun_holds hnode' hh' with ⟨a', b', c'⟩ | ⟨a', b', c'⟩ | ⟨a', b', c'⟩ |
        ⟨a', b', c'⟩ | ⟨a', b', c'⟩ | ⟨a', b', c'⟩ <;>
      first
        | exact ⟨a.trans a'.symm, b.trans b'.symm⟩
        | (exfalso; rw [c] at c'; exact absurd c' (by decide))
    refine ⟨?_, key.2⟩
    have := key.1
    rw [e1, e2] at this
    simp only [SSNode.mk.injEq] at this
    exact this.2

/-- Claim C29: when the k-mer table is consistent with the graph, then for every read, of
length at least `k` or not, and a vector of one entry for each k-mer offset, `findNPPFast`
returns,
and it leaves at every k-mer offset `o` the pair that the direct lookup `findNPP` of
`read[o..o+k)` returns; in particular every valid entry `(n, p)`, written by a lookup or by
the extension of a run, addresses a node `n` whose sequence holds `read[o..o+k)` at `p`. -/
theorem findNPPFast_lookup (fg : FindGap) (g : DBGraph)
    (hcons : IndexConsistent g fg.kmerSize) (read : List Nucleotide)
    (nppv : List NodePosPair)
    (hsize : nppv.length = read.length + 1 - fg.kmerSize) :
    ∃ out, fg.findNPPFast g read nppv = some out ∧
      out.length = read.length + 1 - fg.kmerSize ∧
      ∀ o, o + fg.kmerSize ≤ read.length →
        out[o]? = some (g.findNPP ((read.drop o).take fg.kmerSize)) ∧
        ((g.findNPP ((read.drop o).take fg.kmerSize)).isValid = true →
          ∃ node, g.getSSNode (g.findNPP ((read.drop o).take fg.kmerSize)).nodeID = some node ∧
            HoldsKmer g fg.kmerSize node
              (g.findNPP ((read.drop o).take fg.kmerSize)).position
              ((read.drop o).take fg.kmerSize)) := by
  obtain ⟨out, hrun, hl⟩ := findNPPFastLoop_lookedUp g fg.kmerSize hcons read
    (read.length + 1) 0 nppv (by omega) ⟨hsize, fun i hi _ => absurd hi (Nat.not_lt_zero i)⟩
  refine ⟨out, hrun, hl.1, ?_⟩
  intro o ho
  refine ⟨hl.2 o (by omega) ho, ?_⟩
  intro hv
  have hwlen : ((read.drop o).take fg.kmerSize).length = fg.kmerSize := by
    rw [List.length_take, List.length_drop]; omega
  obtain ⟨node, hnode, -, hholds⟩ := hcons.sound _ hwlen hv
  exact ⟨node, hnode, hholds⟩

theorem findNPPFast_lookup_witness :
    ∃ out, exFindGap.findNPPFast exRun [.A, .C, .G, .G, .T] [⟨0, 0⟩, ⟨0, 0⟩, ⟨0, 0⟩] = some out ∧
      out.length = [Nucleotide.A, .C, .G, .G, .T].length + 1 - exFindGap.kmerSize ∧
      ∀ o, o + exFindGap.kmerSize ≤ [Nucleotide.A, .C, .G, .G, .T].length →
        out[o]? = some (exRun.findNPP
          (([Nucleotide.A, .C, .G, .G, .T].drop o).take exFindGap.kmerSize)) ∧
        ((exRun.findNPP (([Nucleotide.A, .C, .G, .G, .T].drop o).take
            exFindGap.kmerSize)).isValid = true →
          ∃ node, exRun.getSSNode (exRun.findNPP
              (([Nucleotide.A, .C, .G, .G, .T].drop o).take exFindGap.kmerSize)).nodeID
              = some node ∧
            HoldsKmer exRun exFindGap.kmerSize node
              (exRun.findNPP (([Nucleotide.A, .C, .G, .G, .T].drop o).take
                exFindGap.kmerSize)).position
              (([Nucleotide.A, .C, .G, .G, .T].drop o).take exFindGap.kmerSize)) :=
  findNPPFast_lookup exFindGap exRun exRun_consistent [.A, .C, .G, .G, .T]
    [⟨0, 0⟩, ⟨0, 0⟩, ⟨0, 0⟩] (by decide)

/-! ## `expandNode` -/

theorem expandNodeArc_eq (g : DBGraph) (k : Nat) (hk1 : 1 ≤ k) (hk2 : k < 2 ^ 64)
    (hm : MarginalAtLeastOne g k) (path : SearchPath) (mustVisit : List SearchPath) (arc : Arc)
    (h0 : arc.nodeID ≠ 0) (hN : arc.nodeID.natAbs ≤ g.numNodes) :
    expandNodeArc k g path mustVisit arc = some (mustVisit ++ [extendPath g k path arc]) := by
  have hget := getSSNode_mk (g := g) h0 hN
  have hmarg := hm _ _ hget
  unfold SSNode.getMarginalLength SSNode.getLength at hmarg
  have hs : sizeSub k 1 = k - 1 := by unfold sizeSub; omega
  unfold expandNodeArc
  simp only [hget, Option.bind_eq_bind, Option.some_bind, SSNode.substr, hs, substr]
  rw [if_pos (by omega)]
  simp only [Option.some_bind, Option.pure_def, extendPath, SSNode.getMarginalLength,
    SSNode.getLength]
  rw [List.take_of_length_le (by rw [List.length_drop])]

theorem expandNodeArcs_eq (g : DBGraph) (k : Nat) (hk1 : 1 ≤ k) (hk2 : k < 2 ^ 64)
    (hm : MarginalAtLeastOne g k) (path : SearchPath) :
    ∀ (arcs : List Arc) (mustVisit : List SearchPath),
      (∀ arc ∈ arcs, arc.nodeID ≠ 0 ∧ arc.nodeID.natAbs ≤ g.numNodes) →
      arcs.foldlM (expandNodeArc k g path) mustVisit
        = some (mustVisit ++ arcs.map (extendPath g k path))
  | [], mustVisit, _ => by simp
  | arc :: arcs, mustVisit, h => by
    have ha := h arc (List.mem_cons_self _ _)
    rw [List.foldlM_cons, expandNodeArc_eq g k hk1 hk2 hm path mustVisit arc ha.1 ha.2]
    simp only [Option.bind_eq_bind, Option.some_bind]
    rw [expandNodeArcs_eq g k hk1 hk2 hm path arcs _
      (fun a ha' => h a (List.mem_cons_of_mem _ ha'))]
    simp

theorem expandNodeRound_eq (g : DBGraph) (k : Nat) (hk1 : 1 ≤ k) (hk2 : k < 2 ^ 64)
    (hm : MarginalAtLeastOne g k) (hr : ArcsInRange g) (length : Nat)
    (mustVisit result : List SearchPath) (p : SearchPath) (hp : PathInRange g p) :
    expandNodeRound k g length (mustVisit, result) p
      = some (mustVisit ++ children g k length p,
          if p.1.length < length then result else result ++ [p]) := by
  obtain ⟨v, hv, h0, hN⟩ := hp
  have hget := getSSNode_mk (g := g) h0 hN
  unfold expandNodeRound children
  simp only [hv, Option.bind_eq_bind, Option.some_bind, hget]
  by_cases hs : p.1.length < length
  · simp only [if_pos hs]
    by_cases hz : SSNode.getNumRightArcs ⟨v.natAbs, v⟩ g ≠ 0
    · simp only [if_pos hz]
      rw [expandNodeArcs_eq g k hk1 hk2 hm p _ mustVisit (hr v _ hget)]
      rfl
    · simp only [if_neg hz]
      have : SSNode.rightArcs ⟨v.natAbs, v⟩ g = [] := by
        unfold SSNode.getNumRightArcs at hz
        simpa using hz
      rw [this]
      simp
  · simp only [if_neg hs, List.append_nil]
    rfl

theorem expandNodeLevel_eq (g : DBGraph) (k : Nat) (hk1 : 1 ≤ k) (hk2 : k < 2 ^ 64)
    (hm : MarginalAtLeastOne g k) (hr : ArcsInRange g) (length : Nat) :
    ∀ (bfs mustVisit result : List SearchPath), (∀ p ∈ bfs, PathInRange g p) →
      bfs.foldlM (expandNodeRound k g length) (mustVisit, result)
        = some (mustVisit ++ bfs.flatMap (children g k length),
            result ++ bfs.filter fun p => decide (¬ p.1.length < length))
  | [], mustVisit, result, _ => by simp
  | p :: bfs, mustVisit, result, h => by
    rw [List.foldlM_cons, expandNodeRound_eq g k hk1 hk2 hm hr length mustVisit result p
      (h p (List.mem_cons_self _ _))]
    simp only [Option.bind_eq_bind, Option.some_bind]
    rw [expandNodeLevel_eq g k hk1 hk2 hm hr length bfs _ _
      (fun q hq => h q (List.mem_cons_of_mem _ hq))]
    by_cases hs : p.1.length < length
    · simp [hs, List.flatMap_cons]
    · have hs' : length ≤ p.1.length := by omega
      simp [hs, hs', List.flatMap_cons, List.filter_cons]

theorem children_inRange (g : DBGraph) (k length : Nat) (hr : ArcsInRange g) (p c : SearchPath)
    (hp : PathInRange g p) (hc : c ∈ children g k length p) : PathInRange g c := by
  obtain ⟨v, hv, h0, hN⟩ := hp
  unfold children at hc
  split at hc
  · rw [hv] at hc
    simp only [List.mem_map] at hc
    obtain ⟨arc, harc, rfl⟩ := hc
    obtain ⟨a0, aN⟩ := hr v _ (getSSNode_mk h0 hN) arc harc
    exact ⟨arc.nodeID, by simp [extendPath], a0, aN⟩
  · simp at hc

theorem children_length (g : DBGraph) (k length : Nat) (hm : MarginalAtLeastOne g k)
    (hr : ArcsInRange g) (p c : SearchPath) (hp : PathInRange g p)
    (hc : c ∈ children g k length p) : p.1.length + 1 ≤ c.1.length := by
  obtain ⟨v, hv, h0, hN⟩ := hp
  unfold children at hc
  split at hc
  · rw [hv] at hc
    simp only [List.mem_map] at hc
    obtain ⟨arc, harc, rfl⟩ := hc
    obtain ⟨a0, aN⟩ := hr v _ (getSSNode_mk h0 hN) arc harc
    have := hm _ _ (getSSNode_mk (g := g) a0 aN)
    unfold SSNode.getMarginalLength SSNode.getLength at this
    simp only [extendPath, List.length_append, List.length_drop]
    omega
  · simp at hc

/-- A walk from `p` is `p` itself, if `p` is long enough, or a walk from one of its
children. -/
theorem walk_iff (g : DBGraph) (k length : Nat) (p r : SearchPath) (hp : PathInRange g p) :
    Walk g k length p r ↔
      (length ≤ p.1.length ∧ r = p) ∨ ∃ c ∈ children g k length p, Walk g k length c r := by
  obtain ⟨v, hv, h0, hN⟩ := hp
  constructor
  · intro h
    cases h with
    | stop _ hl => exact Or.inl ⟨hl, rfl⟩
    | step _ _ v' node arc hs hv' hnode harc hw =>
      rw [hv] at hv'
      simp only [Option.some.injEq] at hv'
      subst hv'
      obtain ⟨-, rfl⟩ := getSSNode_eq_some.mp hnode
      refine Or.inr ⟨_, ?_, hw⟩
      unfold children
      rw [if_pos hs, hv]
      exact List.mem_map.mpr ⟨arc, harc, rfl⟩
  · rintro (⟨hl, rfl⟩ | ⟨c, hc, hw⟩)
    · exact Walk.stop _ hl
    · unfold children at hc
      split at hc
      · rename_i hs
        rw [hv] at hc
        simp only [List.mem_map] at hc
        obtain ⟨arc, harc, rfl⟩ := hc
        exact Walk.step _ _ v _ arc hs hv (getSSNode_mk h0 hN) harc hw
      · simp at hc

/-- The recursion of `expandNode`, with a bound on its depth that is large enough for the
walks at hand: it returns, and the result is the old result and the ends of the walks. -/
theorem expandNode_walks (fg : FindGap) (g : DBGraph) (hk1 : 1 ≤ fg.kmerSize)
    (hk2 : fg.kmerSize < 2 ^ 64) (hm : MarginalAtLeastOne g fg.kmerSize) (hr : ArcsInRange g)
    (length : Nat) :
    ∀ (fuel : Nat) (bfs result : List SearchPath),
      (∀ p ∈ bfs, PathInRange g p ∧ length ≤ p.1.length + fuel) →
      ∃ res, fg.expandNode g length (fuel + 1) bfs result = some res ∧
        ∀ r, r ∈ res ↔ r ∈ result ∨ ∃ p ∈ bfs, Walk g fg.kmerSize length p r := by
  intro fuel
  induction fuel with
  | zero =>
    intro bfs result h
    unfold FindGap.expandNode
    rw [expandNodeLevel_eq g fg.kmerSize hk1 hk2 hm hr length bfs [] result
      (fun p hp => (h p hp).1)]
    have hnil : bfs.flatMap (children g fg.kmerSize length) = [] := by
      rw [List.flatMap_eq_nil_iff]
      intro p hp
      unfold children
      rw [if_neg (by have := (h p hp).2; omega)]
    simp only [Option.bind_eq_bind, Option.some_bind, List.nil_append, hnil, List.length_nil,
      gt_iff_lt, Nat.lt_irrefl, if_false, Option.pure_def]
    refine ⟨_, rfl, ?_⟩
    intro r
    simp only [List.mem_append, List.mem_filter, decide_eq_true_eq]
    constructor
    · rintro (hr' | ⟨hr', hl⟩)
      · exact Or.inl hr'
      · exact Or.inr ⟨r, hr', Walk.stop _ (by omega)⟩
    · rintro (hr' | ⟨p, hp, hw⟩)
      · exact Or.inl hr'
      · rcases (walk_iff g fg.kmerSize length p r (h p hp).1).mp hw with ⟨hl, rfl⟩ | ⟨c, hc, -⟩
        · exact Or.inr ⟨hp, by omega⟩
        · have : c ∈ bfs.flatMap (children g fg.kmerSize length) :=
            List.mem_flatMap.mpr ⟨p, hp, hc⟩
          rw [hnil] at this
          cases this
  | succ fuel ih =>
    intro bfs result h
    unfold FindGap.expandNode
    rw [expandNodeLevel_eq g fg.kmerSize hk1 hk2 hm hr length bfs [] result
      (fun p hp => (h p hp).1)]
    simp only [Option.bind_eq_bind, Option.some_bind, List.nil_append]
    have hwalk : ∀ r, (∃ p ∈ bfs, Walk g fg.kmerSize length p r) ↔
        (r ∈ bfs.filter fun p => decide (¬ p.1.length < length)) ∨
          ∃ c ∈ bfs.flatMap (children g fg.kmerSize length), Walk g fg.kmerSize length c r := by
      intro r
      simp only [List.mem_filter, decide_eq_true_eq, List.mem_flatMap]
      constructor
      · rintro ⟨p, hp, hw⟩
        rcases (walk_iff g fg.kmerSize length p r (h p hp).1).mp hw with ⟨hl, rfl⟩ | ⟨c, hc, hw'⟩
        · exact Or.inl ⟨hp, by omega⟩
        · exact Or.inr ⟨c, ⟨p, hp, hc⟩, hw'⟩
      · rintro (⟨hr', hl⟩ | ⟨c, ⟨p, hp, hc⟩, hw⟩)
        · exact ⟨r, hr', Walk.stop _ (by omega)⟩
        · exact ⟨p, hp, (walk_iff g fg.kmerSize length p r (h p hp).1).mpr (Or.inr ⟨c, hc, hw⟩)⟩
    by_cases hmv : (bfs.flatMap (children g fg.kmerSize length)).length > 0
    · rw [if_pos hmv]
      obtain ⟨res, hres, hmem⟩ := ih (bfs.flatMap (children g fg.kmerSize length))
        (result ++ bfs.filter fun p => decide (¬ p.1.length < length)) (by
          intro c hc
          obtain ⟨p, hp, hc'⟩ := List.mem_flatMap.mp hc
          refine ⟨children_inRange g _ _ hr p c (h p hp).1 hc', ?_⟩
          have := children_length g _ _ hm hr p c (h p hp).1 hc'
          have := (h p hp).2
          omega)
      refine ⟨res, hres, ?_⟩
      intro r
      rw [hmem, hwalk, List.mem_append]
      tauto
    · rw [if_neg hmv]
      have hnil : bfs.flatMap (children g fg.kmerSize length) = [] := by
        apply List.eq_nil_of_length_eq_zero
        omega
      refine ⟨_, rfl, ?_⟩
      intro r
      rw [hwalk, List.mem_append, hnil]
      simp

theorem walk_length (g : DBGraph) (k length : Nat) (p r : SearchPath)
    (h : Walk g k length p r) : length ≤ r.1.length := by
  induction h with
  | stop _ hl => exact hl
  | step _ _ _ _ _ _ _ _ _ _ ih => exact ih

/-- Claim C21: on a graph whose nodes all have marginal length at least 1 and whose arcs lead
to nodes of the graph, for every target length and every seed (a string `s`, a node list
ending in a node `v` of the graph), `expandNode` returns as soon as the bound on the depth of
its recursion exceeds the target length, and `result` then holds exactly the walks of the
spec from the seed: each of them is present, a walk that dead-ends too early is not, and
every string in `result` has at least the target length. -/
theorem expandNode_enumerates (fg : FindGap) (g : DBGraph) (hk1 : 1 ≤ fg.kmerSize)
    (hk2 : fg.kmerSize < 2 ^ 64) (hm : MarginalAtLeastOne g fg.kmerSize) (hr : ArcsInRange g)
    (length : Nat) (s : List Nucleotide) (nodes : List NodeID) (v : NodeID) (hv0 : v ≠ 0)
    (hvN : v.natAbs ≤ g.numNodes) (fuel : Nat) (hfuel : length + 1 ≤ fuel) :
    ∃ res, fg.expandNode g length fuel [(s, nodes ++ [v])] [] = some res ∧
      (∀ r, r ∈ res ↔ Walk g fg.kmerSize length (s, nodes ++ [v]) r) ∧
      ∀ r ∈ res, length ≤ r.1.length := by
  obtain ⟨f, rfl⟩ : ∃ f, fuel = f + 1 := ⟨fuel - 1, by omega⟩
  obtain ⟨res, hres, hmem⟩ := expandNode_walks fg g hk1 hk2 hm hr length f
    [(s, nodes ++ [v])] [] (by
      intro p hp
      rw [List.mem_singleton] at hp
      subst hp
      exact ⟨⟨v, by simp, hv0, hvN⟩, by simp only; omega⟩)
  have hmem' : ∀ r, r ∈ res ↔ Walk g fg.kmerSize length (s, nodes ++ [v]) r := by
    intro r
    rw [hmem]
    simp
  exact ⟨res, hres, hmem', fun r hr' => walk_length g _ _ _ r ((hmem' r).mp hr')⟩

theorem exBridge_views {x : Int} {X : SSNode} (h : exBridge.getSSNode x = some X) :
    X = ⟨1, 1⟩ ∨ X = ⟨1, -1⟩ ∨ X = ⟨2, 2⟩ ∨ X = ⟨2, -2⟩ ∨ X = ⟨3, 3⟩ ∨ X = ⟨3, -3⟩ := by
  obtain ⟨⟨h0, h1⟩, rfl⟩ := getSSNode_eq_some.mp h
  have h1' : x.natAbs ≤ 3 := h1
  have : x = 1 ∨ x = -1 ∨ x = 2 ∨ x = -2 ∨ x = 3 ∨ x = -3 := by omega
  rcases this with rfl | rfl | rfl | rfl | rfl | rfl <;> simp

theorem exBridge_marginal : MarginalAtLeastOne exBridge 3 := by
  intro x X h
  rcases exBridge_views h with rfl | rfl | rfl | rfl | rfl | rfl <;> decide

theorem exBridge_arcsInRange : ArcsInRange exBridge := by
  intro x X h
  rcases exBridge_views h with rfl | rfl | rfl | rfl | rfl | rfl <;> decide

theorem expandNode_enumerates_witness :
    ∃ res, exFindGap.expandNode exBridge 4 5 [([.C, .A], [] ++ [1])] [] = some res ∧
      (∀ r, r ∈ res ↔ Walk exBridge exFindGap.kmerSize 4 ([.C, .A], [] ++ [1]) r) ∧
      ∀ r ∈ res, 4 ≤ r.1.length :=
  expandNode_enumerates exFindGap exBridge (by decide) (by decide) exBridge_marginal
    exBridge_arcsInRange 4 [.C, .A] [] 1 (by decide) (by decide) 5 (by decide)

/-- On the example the only walk from node 1 that reaches 4 bases goes to node 3. -/
theorem exBridge_expandNode :
    exFindGap.expandNode exBridge 4 5 [([.C, .A], [1])] []
      = some [([.C, .A, .G, .G], [1, 3])] := by
  decide

/-! ## `findComponentsInGraph` -/

theorem DepthMap.mem_insert (m : DepthMap) (e e' : Nat × NodeID) :
    e' ∈ DepthMap.insert m e ↔ e' = e ∨ e' ∈ m := by
  induction m with
  | nil => simp [DepthMap.insert]
  | cons a rest ih =>
    obtain ⟨d, x⟩ := a
    unfold DepthMap.insert
    split
    · simp
    · simp only [List.mem_cons, ih]
      tauto

theorem phys_of_mem {s : Finset Int} {x : Int} (h : x ∈ s) : Phys s x.natAbs := by
  rcases Int.natAbs_eq x with e | e
  · left; rw [← e]; exact h
  · right
    have : -(x.natAbs : Int) = x := by omega
    rw [this]; exact h

theorem phys_iff {s : Finset Int} {n : Nat} : Phys s n ↔ ∃ x ∈ s, x.natAbs = n := by
  constructor
  · rintro (h | h)
    · exact ⟨_, h, by simp⟩
    · exact ⟨_, h, by simp⟩
  · rintro ⟨x, hx, rfl⟩
    exact phys_of_mem hx

theorem phys_mono {s t : Finset Int} (hst : ∀ x ∈ s, x ∈ t) {n : Nat} (h : Phys s n) :
    Phys t n := by
  rcases h with h | h
  · exact Or.inl (hst _ h)
  · exact Or.inr (hst _ h)

/-- The arcs of an oriented view lead to the same physical nodes as the arcs of its
record. -/
theorem view_arcs_natAbs (g : DBGraph) (n : Nat) (x : Int) (m : Nat) :
    (∃ arc ∈ (g.nodes n).leftArcs ++ (g.nodes n).rightArcs, arc.nodeID.natAbs = m) ↔
      ∃ a ∈ SSNode.rightArcs ⟨n, x⟩ g ++ SSNode.leftArcs ⟨n, x⟩ g, a.nodeID.natAbs = m := by
  unfold SSNode.rightArcs SSNode.leftArcs
  simp only
  by_cases hx : x > 0
  · simp only [if_pos hx, List.mem_append]
    constructor
    · rintro ⟨arc, h | h, e⟩
      · exact ⟨arc, Or.inr h, e⟩
      · exact ⟨arc, Or.inl h, e⟩
    · rintro ⟨arc, h | h, e⟩
      · exact ⟨arc, Or.inr h, e⟩
      · exact ⟨arc, Or.inl h, e⟩
  · simp only [if_neg hx, List.mem_append, List.mem_map]
    constructor
    · rintro ⟨arc, h | h, e⟩
      · exact ⟨arc.negate, Or.inl ⟨arc, h, rfl⟩, by simpa [Arc.negate] using e⟩
      · exact ⟨arc.negate, Or.inr ⟨arc, h, rfl⟩, by simpa [Arc.negate] using e⟩
    · rintro ⟨a, ⟨arc, h, rfl⟩ | ⟨arc, h, rfl⟩, e⟩
      · exact ⟨arc, Or.inl h, by simpa [Arc.negate] using e⟩
      · exact ⟨arc, Or.inr h, by simpa [Arc.negate] using e⟩

/-- The neighbours queued by one of the two arc loops. -/
theorem pushNeighbour_fold (g : DBGraph) (h : Finset Int) (depth : Nat) :
    ∀ (arcs : List Arc) (q q' : DepthMap),
      arcs.foldlM (pushNeighbour g h depth) q = some q' →
      (∀ e ∈ q, e ∈ q') ∧
      (∀ e ∈ q', e ∈ q ∨ ∃ arc ∈ arcs, e.2 = arc.nodeID ∧
        (g.nodes arc.nodeID.natAbs).invalid = false) ∧
      (∀ arc ∈ arcs, (arc.nodeID ≠ 0 ∧ arc.nodeID.natAbs ≤ g.numNodes) ∧
        ((g.nodes arc.nodeID.natAbs).invalid = false →
          arc.nodeID ∈ h ∨ ∃ e ∈ q', e.2 = arc.nodeID))
  | [], q, q', hrun => by
    simp only [List.foldlM_nil, Option.pure_def, Option.some.injEq] at hrun
    subst hrun
    exact ⟨fun e he => he, fun e he => Or.inl he, fun arc ha => by cases ha⟩
  | it :: arcs, q, q', hrun => by
    simp only [List.foldlM_cons, Option.bind_eq_bind, Option.bind_eq_some] at hrun
    obtain ⟨q1, h1, hrest⟩ := hrun
    obtain ⟨ih1, ih2, ih3⟩ := pushNeighbour_fold g h depth arcs q1 q' hrest
    unfold pushNeighbour at h1
    simp only [Option.bind_eq_bind, Option.bind_eq_some] at h1
    obtain ⟨rNode, hget, h1⟩ := h1
    obtain ⟨hrange, rfl⟩ := getSSNode_eq_some.mp hget
    simp only [SSNode.isValid, Option.pure_def] at h1
    have hq1 : (∀ e ∈ q, e ∈ q1) ∧
        (∀ e ∈ q1, e ∈ q ∨ (e.2 = it.nodeID ∧ (g.nodes it.nodeID.natAbs).invalid = false)) ∧
        ((g.nodes it.nodeID.natAbs).invalid = false →
          it.nodeID ∈ h ∨ ∃ e ∈ q1, e.2 = it.nodeID) := by
      by_cases hv : (g.nodes it.nodeID.natAbs).invalid = true
      · simp only [hv, Bool.not_true, Bool.not_false, if_true, Option.some.injEq] at h1
        subst h1
        exact ⟨fun e he => he, fun e he => Or.inl he, fun hc => by rw [hv] at hc; cases hc⟩
      · have hv' : (g.nodes it.nodeID.natAbs).invalid = false := by simpa using hv
        simp only [hv', Bool.not_false, Bool.not_true, Bool.false_eq_true, if_false] at h1
        by_cases hh : it.nodeID ∈ h
        · simp only [hh, if_true, Option.some.injEq] at h1
          subst h1
          exact ⟨fun e he => he, fun e he => Or.inl he, fun _ => Or.inl hh⟩
        · simp only [hh, if_false, Option.some.injEq] at h1
          subst h1
          refine ⟨fun e he => (DepthMap.mem_insert _ _ _).mpr (Or.inr he), ?_, ?_⟩
          · intro e he
            rcases (DepthMap.mem_insert _ _ _).mp he with rfl | he
            · exact Or.inr ⟨rfl, hv'⟩
            · exact Or.inl he
          · intro _
            exact Or.inr ⟨(depth, it.nodeID), (DepthMap.mem_insert _ _ _).mpr (Or.inl rfl), rfl⟩
    refine ⟨fun e he => ih1 e (hq1.1 e he), ?_, ?_⟩
    · intro e he
      rcases ih2 e he with he1 | ⟨arc, ha, e1, e2⟩
      · rcases hq1.2.1 e he1 with he0 | ⟨e1, e2⟩
        · exact Or.inl he0
        · exact Or.inr ⟨it, List.mem_cons_self _ _, e1, e2⟩
      · exact Or.inr ⟨arc, List.mem_cons_of_mem _ ha, e1, e2⟩
    · intro arc ha
      rcases List.mem_cons.mp ha with rfl | ha
      · refine ⟨hrange, ?_⟩
        intro hv
        rcases hq1.2.2 hv with hh | ⟨e, he, ee⟩
        · exact Or.inl hh
        · exact Or.inr ⟨e, ih1 e he, ee⟩
      · exact ih3 arc ha

theorem reach_link {g : DBGraph} {src a b : Nat} (h1 : Reach g src a) (h2 : Link g a b) :
    Reach g src b :=
  Relation.ReflTransGen.tail h1 h2

/-- Marking the node at the head of the queue, and queueing its neighbours, keeps the
invariant of the traversal. -/
theorem walkInv_mark (g : DBGraph) (h0 : Finset Int) (src : Int) (d : Nat) (t : Int)
    (q q1 q2 : DepthMap) (h c : Finset Int) (depth : Nat)
    (hI : WalkInv g h0 src ((d, t) :: q) h c) (ht : t ∉ h) (ht' : -t ∉ h)
    (h1 : (SSNode.rightArcs ⟨t.natAbs, t⟩ g).foldlM (pushNeighbour g (insert t h) depth) q
      = some q1)
    (h2 : (SSNode.leftArcs ⟨t.natAbs, t⟩ g).foldlM (pushNeighbour g (insert t h) depth) q1
      = some q2) :
    WalkInv g h0 src q2 (insert t h) (insert t c) := by
  obtain ⟨t0, tN, tv, tr⟩ := hI.queued (d, t) (List.mem_cons_self _ _)
  simp only at t0 tN tv tr
  have t0i : (t : Int) ≠ (0 : Int) := t0
  obtain ⟨r1, r2, r3⟩ := pushNeighbour_fold g _ depth _ q q1 h1
  obtain ⟨l1, l2, l3⟩ := pushNeighbour_fold g _ depth _ q1 q2 h2
  have hc_h : ∀ x ∈ c, x ∈ h := fun x hx => (hI.handled x).mpr (Or.inr hx)
  have hlink : ∀ (a : Arc), a ∈ SSNode.rightArcs ⟨t.natAbs, t⟩ g
      ++ SSNode.leftArcs ⟨t.natAbs, t⟩ g → (g.nodes a.nodeID.natAbs).invalid = false →
      Link g t.natAbs a.nodeID.natAbs := by
    intro a ha hv
    exact ⟨(view_arcs_natAbs g t.natAbs t _).mpr ⟨a, ha, rfl⟩, hv⟩
  refine ⟨?_, ?_, ?_, ?_, ?_⟩
  · intro x
    simp only [Finset.mem_insert, hI.handled x]
    tauto
  · intro x hx
    rcases Finset.mem_insert.mp hx with rfl | hx
    · refine ⟨t0, tN, tv, tr, ?_, ?_⟩
      · intro hp
        obtain ⟨y, hy, hye⟩ := phys_iff.mp hp
        have hyh : y ∈ h := (hI.handled y).mpr (Or.inl hy)
        have : y = x ∨ y = -x := by omega
        rcases this with rfl | rfl
        · exact ht hyh
        · exact ht' hyh
      · intro hn
        rcases Finset.mem_insert.mp hn with e | hn
        · omega
        · exact ht' (hc_h _ hn)
    · obtain ⟨a1, a2, a3, a4, a5, a6⟩ := hI.marked x hx
      refine ⟨a1, a2, a3, a4, a5, ?_⟩
      intro hn
      rcases Finset.mem_insert.mp hn with e | hn
      · have : x = -t := by omega
        rw [this] at hx
        exact ht' (hc_h _ hx)
      · exact a6 hn
  · intro e he
    rcases l2 e he with he1 | ⟨arc, ha, e1, e2⟩
    · rcases r2 e he1 with he0 | ⟨arc, ha, e1, e2⟩
      · exact hI.queued e (List.mem_cons_of_mem _ he0)
      · obtain ⟨⟨b0, bN⟩, -⟩ := r3 arc ha
        rw [e1]
        exact ⟨b0, bN, e2, reach_link tr (hlink arc (List.mem_append_left _ ha) e2)⟩
    · obtain ⟨⟨b0, bN⟩, -⟩ := l3 arc ha
      rw [e1]
      exact ⟨b0, bN, e2, reach_link tr (hlink arc (List.mem_append_right _ ha) e2)⟩
  · intro x hx m hm
    rcases Finset.mem_insert.mp hx with rfl | hx
    · obtain ⟨a, ha, hae⟩ := (view_arcs_natAbs g x.natAbs x m).mp hm.1
      have hv : (g.nodes a.nodeID.natAbs).invalid = false := by rw [hae]; exact hm.2
      rcases List.mem_append.mp ha with ha | ha
      · rcases (r3 a ha).2 hv with hh | ⟨e, he, ee⟩
        · left; rw [← hae]; exact phys_of_mem hh
        · right; exact ⟨e, l1 e he, by rw [ee]; exact hae⟩
      · rcases (l3 a ha).2 hv with hh | ⟨e, he, ee⟩
        · left; rw [← hae]; exact phys_of_mem hh
        · right; exact ⟨e, he, by rw [ee]; exact hae⟩
    · rcases hI.closed x hx m hm with hp | ⟨e, he, ee⟩
      · left; exact phys_mono (fun y hy => Finset.mem_insert_of_mem hy) hp
      · rcases List.mem_cons.mp he with rfl | he
        · left
          rw [← ee]
          exact phys_of_mem (Finset.mem_insert_self _ _)
        · right; exact ⟨e, l1 e (r1 e he), ee⟩
  · left
    rcases hI.source with hs | ⟨-, hs⟩
    · exact Finset.mem_insert_of_mem hs
    · have := hs (d, t) (List.mem_cons_self _ _)
      simp only at this
      rw [this]
      exact Finset.mem_insert_self _ _

/-- Dropping a queued node that is already handled keeps the invariant of the traversal. -/
theorem walkInv_skip (g : DBGraph) (h0 : Finset Int) (src : Int) (d : Nat) (t : Int)
    (q : DepthMap) (h c : Finset Int) (hI : WalkInv g h0 src ((d, t) :: q) h c)
    (ht : t ∈ h ∨ -t ∈ h) : WalkInv g h0 src q h c := by
  have hp : Phys h t.natAbs := by
    rcases ht with ht | ht
    · exact phys_of_mem ht
    · have := phys_of_mem ht
      rwa [Int.natAbs_neg] at this
  refine ⟨hI.handled, hI.marked, fun e he => hI.queued e (List.mem_cons_of_mem _ he), ?_, ?_⟩
  · intro x hx m hm
    rcases hI.closed x hx m hm with hp' | ⟨e, he, ee⟩
    · exact Or.inl hp'
    · rcases List.mem_cons.mp he with rfl | he
      · left; rw [← ee]; exact hp
      · exact Or.inr ⟨e, he, ee⟩
  · rcases hI.source with hs | ⟨hc, hs⟩
    · exact Or.inl hs
    · exact Or.inr ⟨hc, fun e he => hs e (List.mem_cons_of_mem _ he)⟩

/-- The `while` loop keeps its invariant up to its end, where the queue is empty. -/
theorem componentWalk_inv (g : DBGraph) (k : Nat) (h0 : Finset Int) (src : Int) :
    ∀ (fuel : Nat) (q : DepthMap) (h c h' c' : Finset Int), WalkInv g h0 src q h c →
      componentWalk g k fuel q h c = some (h', c') → WalkInv g h0 src [] h' c' := by
  intro fuel
  induction fuel with
  | zero =>
    intro q h c h' c' hI hrun
    unfold componentWalk at hrun
    split at hrun
    · rename_i he
      simp only [Option.some.injEq, Prod.mk.injEq] at hrun
      obtain ⟨rfl, rfl⟩ := hrun
      have : q = [] := by simpa using he
      subst this
      exact hI
    · cases hrun
  | succ fuel ih =>
    intro q h c h' c' hI hrun
    cases q with
    | nil =>
      unfold componentWalk at hrun
      simp only [Option.some.injEq, Prod.mk.injEq] at hrun
      obtain ⟨rfl, rfl⟩ := hrun
      exact hI
    | cons e q =>
      obtain ⟨d, t⟩ := e
      unfold componentWalk at hrun
      by_cases ht : t ∈ h
      · rw [if_pos ht] at hrun
        exact ih q h c h' c' (walkInv_skip g h0 src d t q h c hI (Or.inl ht)) hrun
      · rw [if_neg ht] at hrun
        by_cases ht' : -t ∈ h
        · rw [if_pos ht'] at hrun
          exact ih q h c h' c' (walkInv_skip g h0 src d t q h c hI (Or.inr ht')) hrun
        · rw [if_neg ht'] at hrun
          simp only [Option.bind_eq_bind, Option.bind_eq_some] at hrun
          obtain ⟨thisNode, hget, q1, h1, q2, h2, hrun⟩ := hrun
          obtain ⟨-, rfl⟩ := getSSNode_eq_some.mp hget
          exact ih q2 _ _ h' c' (walkInv_mark g h0 src d t q q1 q2 h c _ hI ht ht' h1 h2) hrun

/-- On a graph with symmetric arc lists the relation `Link` between valid nodes of the graph
is symmetric. -/
theorem link_symm (g : DBGraph) (hsym : ArcSymmetric g) (a b : Nat) (ha1 : 1 ≤ a)
    (haN : a ≤ g.numNodes) (hva : (g.nodes a).invalid = false) (hb1 : 1 ≤ b)
    (hbN : b ≤ g.numNodes) (h : Link g a b) : Link g b a := by
  obtain ⟨⟨arc, harc, hab⟩, -⟩ := h
  refine ⟨?_, hva⟩
  have harc0 : (arc.nodeID : Int) ≠ 0 := by
    intro e
    rw [e] at hab
    simp at hab
    omega
  rcases List.mem_append.mp harc with hl | hr
  · -- a left arc of the record: a right arc of the view `-a`
    have hX : g.getSSNode (-(a : Int)) = some ⟨a, -(a : Int)⟩ := by
      have := getSSNode_mk (g := g) (x := -(a : Int)) (by omega) (by simpa using haN)
      simpa using this
    have hY : g.getSSNode (-arc.nodeID) = some ⟨b, -arc.nodeID⟩ := by
      have := getSSNode_mk (g := g) (x := -arc.nodeID) (by simpa using harc0)
        (by rw [Int.natAbs_neg, hab]; exact hbN)
      rwa [Int.natAbs_neg, hab] at this
    have hmem : arc.negate ∈ SSNode.rightArcs ⟨a, -(a : Int)⟩ g := by
      unfold SSNode.rightArcs
      have : ¬ (-(a : Int) > 0) := by omega
      simp only [if_neg this]
      exact List.mem_map.mpr ⟨arc, hl, rfl⟩
    have := hsym _ _ hX arc.negate hmem _ hY
    exact (view_arcs_natAbs g b (-arc.nodeID) a).mpr
      ⟨_, List.mem_append_right _ this, by simp⟩
  · have hX : g.getSSNode (a : Int) = some ⟨a, (a : Int)⟩ := by
      have := getSSNode_mk (g := g) (x := (a : Int)) (by omega) (by simpa using haN)
      simpa using this
    have hY : g.getSSNode arc.nodeID = some ⟨b, arc.nodeID⟩ := by
      have := getSSNode_mk (g := g) (x := arc.nodeID) harc0 (by rw [hab]; exact hbN)
      rwa [hab] at this
    have hmem : arc ∈ SSNode.rightArcs ⟨a, (a : Int)⟩ g := by
      unfold SSNode.rightArcs
      have : (a : Int) > 0 := by omega
      simp only [if_pos this]
      exact hr
    have := hsym _ _ hX arc hmem _ hY
    exact (view_arcs_natAbs g b arc.nodeID a).mpr
      ⟨_, List.mem_append_right _ this, by simp⟩

/-- One round of the `for` loop keeps the invariant of `findComponentsInGraph`. -/
theorem componentRound_inv (fg : FindGap) (g : DBGraph) (hsym : ArcSymmetric g) (fuel : Nat)
    (st st' : ComponentState) (n : Nat) (hI : CompInv g st)
    (hrun : fg.componentRound g fuel st (n : Int) = some st') : CompInv g st' := by
  unfold FindGap.componentRound at hrun
  simp only [Option.bind_eq_bind, Option.bind_eq_some] at hrun
  obtain ⟨node, hget, hrun⟩ := hrun
  obtain ⟨⟨hn0, hnN⟩, rfl⟩ := getSSNode_eq_some.mp hget
  simp only [Int.natAbs_ofNat] at hnN
  split at hrun
  · simp only [Option.pure_def, Option.some.injEq] at hrun
    subst hrun; exact hI
  · rename_i hv
    have hvalid : (g.nodes n).invalid = false := by
      simpa [SSNode.isValid] using hv
    split at hrun
    · simp only [Option.pure_def, Option.some.injEq] at hrun
      subst hrun; exact hI
    · rename_i hnh
      simp only [Option.bind_eq_some] at hrun
      obtain ⟨⟨h', c'⟩, hwalk, hrun⟩ := hrun
      have hW0 : WalkInv g st.nodesHandled (n : Int) [(0, (n : Int))] st.nodesHandled ∅ := by
        refine ⟨by simp, by simp, ?_, by simp, ?_⟩
        · intro e he
          rw [List.mem_singleton] at he
          subst he
          exact ⟨hn0, by simpa using hnN, by simpa using hvalid, Relation.ReflTransGen.refl⟩
        · right
          refine ⟨rfl, ?_⟩
          intro e he
          rw [List.mem_singleton] at he
          subst he; rfl
      have hW := componentWalk_inv g fg.kmerSize st.nodesHandled (n : Int) fuel _ _ _ h' c'
        hW0 hwalk
      simp only [Int.natAbs_ofNat] at hW
      have hsub0 : ∀ x ∈ st.nodesHandled, x ∈ h' := fun x hx => (hW.handled x).mpr (Or.inl hx)
      have hsubc : ∀ x ∈ c', x ∈ h' := fun x hx => (hW.handled x).mpr (Or.inr hx)
      have hsound : ∀ x ∈ h', x ≠ 0 ∧ x.natAbs ≤ g.numNodes ∧
          (g.nodes x.natAbs).invalid = false ∧ -x ∉ h' := by
        intro x hx
        rcases (hW.handled x).mp hx with hx0 | hxc
        · obtain ⟨a1, a2, a3, a4⟩ := hI.sound x hx0
          refine ⟨a1, a2, a3, ?_⟩
          intro hn
          rcases (hW.handled _).mp hn with hn0' | hnc
          · exact a4 hn0'
          · have := (hW.marked _ hnc).2.2.2.2.1
            rw [Int.natAbs_neg] at this
            exact this (phys_of_mem hx0)
        · obtain ⟨a1, a2, a3, -, a5, a6⟩ := hW.marked x hxc
          refine ⟨a1, a2, a3, ?_⟩
          intro hn
          rcases (hW.handled _).mp hn with hn0' | hnc
          · have := phys_of_mem hn0'
            rw [Int.natAbs_neg] at this
            exact a5 this
          · exact a6 hnc
      have hclosed : ∀ x ∈ h', ∀ m, Link g x.natAbs m → Phys h' m := by
        intro x hx m hm
        rcases (hW.handled x).mp hx with hx0 | hxc
        · exact phys_mono hsub0 (hI.closed x hx0 m hm)
        · rcases hW.closed x hxc m hm with hp | ⟨e, he, -⟩
          · exact hp
          · cases he
      have hold : ∀ c ∈ st.components, c ⊆ h' ∧ 2 ≤ c.card ∧
          ∃ src : Nat, (src : Int) ∈ c ∧ ∀ m, Phys c m ↔ Reach g src m := by
        intro c hc
        obtain ⟨b1, b2, b3⟩ := hI.comps c hc
        exact ⟨fun x hx => hsub0 x (b1 hx), b2, b3⟩
      split at hrun
      · rename_i hcard
        simp only [Option.pure_def, Option.some.injEq] at hrun
        subst hrun
        have hne : c' ≠ ∅ := by
          intro e
          rw [e] at hcard
          simp at hcard
        have hsrc : (n : Int) ∈ c' := by
          rcases hW.source with hs | ⟨he, -⟩
          · exact hs
          · exact absurd he hne
        have hreach : ∀ m, Phys c' m ↔ Reach g n m := by
          intro m
          constructor
          · intro hp
            obtain ⟨x, hx, rfl⟩ := phys_iff.mp hp
            exact (hW.marked x hx).2.2.2.1
          · intro hr
            induction hr with
            | refl => exact Or.inl hsrc
            | tail hab hbc ih =>
              rename_i a b
              obtain ⟨x, hx, rfl⟩ := phys_iff.mp ih
              obtain ⟨a1, a2, a3, -, a5, -⟩ := hW.marked x hx
              rcases hW.closed x hx b hbc with hp | ⟨e, he, -⟩
              · obtain ⟨y, hy, rfl⟩ := phys_iff.mp hp
                rcases (hW.handled y).mp hy with hy0 | hyc
                · exfalso
                  obtain ⟨y1, y2, y3, -⟩ := hI.sound y hy0
                  have hx1 : 1 ≤ x.natAbs := by omega
                  have hy1 : 1 ≤ y.natAbs := by omega
                  have hback := link_symm g hsym x.natAbs y.natAbs hx1 a2 a3 hy1 y2 hbc
                  exact a5 (hI.closed y hy0 _ hback)
                · exact phys_of_mem hyc
              · cases he
        refine ⟨hsound, hclosed, ?_, ?_⟩
        · intro c hc
          rcases List.mem_append.mp hc with hc | hc
          · exact hold c hc
          · rw [List.mem_singleton] at hc
            subst hc
            exact ⟨fun x hx => hsubc x hx, hcard, n, hsrc, hreach⟩
        · rw [List.pairwise_append]
          refine ⟨hI.disjoint, List.pairwise_singleton _ _, ?_⟩
          intro c hc d hd m hm
          rw [List.mem_singleton] at hd
          subst hd
          obtain ⟨x, hx, rfl⟩ := phys_iff.mp hm.2
          exact (hW.marked x hx).2.2.2.2.1 (phys_mono (fun y hy => (hI.comps c hc).1 hy) hm.1)
      · simp only [Option.pure_def, Option.some.injEq] at hrun
        subst hrun
        exact ⟨hsound, hclosed, hold, hI.disjoint⟩

/-- The invariant holds of the components that `findComponentsInGraph` returns. -/
theorem findComponentsInGraph_inv (fg : FindGap) (g : DBGraph) (hsym : ArcSymmetric g)
    (fuel : Nat) (comps : List (Finset Int))
    (hrun : fg.findComponentsInGraph g fuel [] = some comps) :
    ∃ st, CompInv g st ∧ st.components = comps := by
  unfold FindGap.findComponentsInGraph at hrun
  simp only [Option.map_eq_some'] at hrun
  obtain ⟨st, hst, rfl⟩ := hrun
  refine ⟨st, ?_, rfl⟩
  refine foldlM_inv (fun st i => fg.componentRound g fuel st ((i + 1 : Nat) : Int))
    (fun st _ => CompInv g st) ?_ (List.range g.numNodes) ⟨∅, []⟩ st ?_ hst
  · intro s x rest s' hI hs
    exact componentRound_inv fg g hsym fuel s s' (x + 1) hI hs
  · exact ⟨by simp, by simp, by simp, by simp⟩

/-! ## `findComponentsInGraph` returns -/

theorem DepthMap.length_insert (m : DepthMap) (e : Nat × NodeID) :
    (DepthMap.insert m e).length = m.length + 1 := by
  induction m with
  | nil => simp [DepthMap.insert]
  | cons a rest ih =>
    obtain ⟨d, x⟩ := a
    unfold DepthMap.insert
    split
    · simp
    · simp [ih]

/-- Each of the two arc loops returns when the arcs lead to nodes of the graph, and queues at
most one entry for each arc. -/
theorem pushNeighbour_fold_returns (g : DBGraph) (h : Finset Int) (depth : Nat) :
    ∀ (arcs : List Arc) (q : DepthMap),
      (∀ arc ∈ arcs, arc.nodeID ≠ 0 ∧ arc.nodeID.natAbs ≤ g.numNodes) →
      ∃ q', arcs.foldlM (pushNeighbour g h depth) q = some q' ∧
        q'.length ≤ q.length + arcs.length
  | [], q, _ => ⟨q, rfl, by simp⟩
  | it :: arcs, q, hr => by
    have hit := hr it (List.mem_cons_self _ _)
    have hget := getSSNode_mk hit.1 hit.2
    obtain ⟨q1, h1, hl1⟩ : ∃ q1, pushNeighbour g h depth q it = some q1 ∧
        q1.length ≤ q.length + 1 := by
      unfold pushNeighbour
      rw [hget]
      simp only [Option.bind_eq_bind, Option.some_bind, Option.pure_def]
      split
      · exact ⟨q, rfl, by omega⟩
      · split
        · exact ⟨q, rfl, by omega⟩
        · exact ⟨_, rfl, by rw [DepthMap.length_insert]⟩
    obtain ⟨q', h2, hl2⟩ := pushNeighbour_fold_returns g h depth arcs q1
      (fun arc ha => hr arc (List.mem_cons_of_mem _ ha))
    refine ⟨q', ?_, ?_⟩
    · simp only [List.foldlM_cons, Option.bind_eq_bind, h1, Option.some_bind, h2]
    · simp only [List.length_cons]
      omega

theorem sum_range_eq_list (f : Nat → Nat) :
    ∀ n : Nat, Finset.sum (Finset.range n) f = ((List.range n).map f).sum
  | 0 => by simp
  | n + 1 => by
    rw [Finset.sum_range_succ, List.range_succ, List.map_append, List.sum_append,
      sum_range_eq_list f n]
    simp

theorem arcsLeft_le (g : DBGraph) (h : Finset Int) : arcsLeft g h ≤ totalArcs g := by
  unfold arcsLeft totalArcs unhandled
  rw [← sum_range_eq_list]
  exact Finset.sum_le_sum_of_subset (Finset.filter_subset _ _)

/-- Marking a node takes its arcs out of the arcs left to follow. -/
theorem arcsLeft_mark (g : DBGraph) (h : Finset Int) (x : Int) (hx0 : x ≠ 0)
    (hxN : x.natAbs ≤ g.numNodes) (h1 : x ∉ h) (h2 : -x ∉ h) :
    arcsLeft g (insert x h) + degree g x.natAbs ≤ arcsLeft g h := by
  have hpos : 1 ≤ x.natAbs := by omega
  have hcast : ((x.natAbs - 1 + 1 : Nat) : Int) = x ∨ ((x.natAbs - 1 + 1 : Nat) : Int) = -x := by
    omega
  have hi : x.natAbs - 1 ∈ unhandled g h := by
    unfold unhandled
    rw [Finset.mem_filter, Finset.mem_range]
    refine ⟨by omega, ?_⟩
    rcases hcast with e | e
    · rw [e]; exact ⟨h1, h2⟩
    · rw [e, neg_neg]; exact ⟨h2, h1⟩
  have hsub : unhandled g (insert x h) ⊆ (unhandled g h).erase (x.natAbs - 1) := by
    intro i hi'
    unfold unhandled at hi' ⊢
    rw [Finset.mem_filter, Finset.mem_insert, Finset.mem_insert] at hi'
    rw [Finset.mem_erase, Finset.mem_filter]
    obtain ⟨hr, ha, hb⟩ := hi'
    refine ⟨?_, hr, fun hc => ha (Or.inr hc), fun hc => hb (Or.inr hc)⟩
    intro e
    rw [e] at ha hb
    rcases hcast with e' | e'
    · exact ha (Or.inl e')
    · exact hb (Or.inl (by rw [e', neg_neg]))
  have hdeg : degree g x.natAbs = degree g (x.natAbs - 1 + 1) := by
    congr 1
    omega
  unfold arcsLeft
  rw [hdeg, add_comm, ← Finset.add_sum_erase _ _ hi]
  exact Nat.add_le_add_left (Finset.sum_le_sum_of_subset hsub) _

/-- The two arc lists of a view together hold the arcs of its record. -/
theorem view_degree (g : DBGraph) (n : Nat) (x : Int) :
    (SSNode.rightArcs ⟨n, x⟩ g).length + (SSNode.leftArcs ⟨n, x⟩ g).length = degree g n := by
  unfold SSNode.rightArcs SSNode.leftArcs degree
  simp only
  split
  · omega
  · simp only [List.length_map]

/-- The arcs on the left of a view lead to nodes of the graph, as those on its right do. -/
theorem leftArcs_inRange {g : DBGraph} (hr : ArcsInRange g) {x : Int} (hx0 : x ≠ 0)
    (hxN : x.natAbs ≤ g.numNodes) :
    ∀ arc ∈ SSNode.leftArcs ⟨x.natAbs, x⟩ g, arc.nodeID ≠ 0 ∧ arc.nodeID.natAbs ≤ g.numNodes := by
  intro arc harc
  rw [leftArcs_eq_adj g hx0, List.mem_map] at harc
  obtain ⟨e, he, rfl⟩ := harc
  have := hr (-x) _ (getSSNode_mk (by omega) (by rw [Int.natAbs_neg]; exact hxN)) e he
  have h1 : (e.nodeID : Int) ≠ 0 := this.1
  refine ⟨?_, ?_⟩
  · show -(e.nodeID : Int) ≠ 0
    exact neg_ne_zero.mpr h1
  · show (-(e.nodeID : Int)).natAbs ≤ g.numNodes
    rw [Int.natAbs_neg]
    exact this.2

/-- The `while` loop of `findComponentsInGraph` returns when its bound is at least the
length of the queue plus the number of arcs of the nodes not handled yet. -/
theorem componentWalk_returns (g : DBGraph) (k : Nat) (hr : ArcsInRange g) :
    ∀ (fuel : Nat) (q : DepthMap) (h c : Finset Int),
      (∀ e ∈ q, e.2 ≠ 0 ∧ e.2.natAbs ≤ g.numNodes) → q.length + arcsLeft g h ≤ fuel →
      ∃ r, componentWalk g k fuel q h c = some r := by
  intro fuel
  induction fuel with
  | zero =>
    intro q h c _ hle
    have : q = [] := List.eq_nil_of_length_eq_zero (by omega)
    subst this
    refine ⟨(h, c), ?_⟩
    unfold componentWalk
    simp
  | succ fuel ih =>
    intro q h c hq hle
    cases q with
    | nil =>
      refine ⟨(h, c), ?_⟩
      unfold componentWalk
      rfl
    | cons e q =>
      obtain ⟨d, t⟩ := e
      have hq' : ∀ e ∈ q, e.2 ≠ 0 ∧ e.2.natAbs ≤ g.numNodes :=
        fun e he => hq e (List.mem_cons_of_mem _ he)
      simp only [List.length_cons] at hle
      unfold componentWalk
      by_cases ht : t ∈ h
      · rw [if_pos ht]
        exact ih q h c hq' (by omega)
      · rw [if_neg ht]
        by_cases ht' : -t ∈ h
        · rw [if_pos ht']
          exact ih q h c hq' (by omega)
        · rw [if_neg ht']
          obtain ⟨ht0, htN⟩ := hq (d, t) (List.mem_cons_self _ _)
          have ht0 : t ≠ 0 := ht0
          have htN : t.natAbs ≤ g.numNodes := htN
          have hget := getSSNode_mk (g := g) ht0 htN
          obtain ⟨q1, h1, hl1⟩ := pushNeighbour_fold_returns g (insert t h)
            (sizeAdd d (SSNode.getMarginalLength ⟨t.natAbs, t⟩ g k))
            (SSNode.rightArcs ⟨t.natAbs, t⟩ g) q (hr t _ hget)
          obtain ⟨q2, h2, hl2⟩ := pushNeighbour_fold_returns g (insert t h)
            (sizeAdd d (SSNode.getMarginalLength ⟨t.natAbs, t⟩ g k))
            (SSNode.leftArcs ⟨t.natAbs, t⟩ g) q1 (leftArcs_inRange hr ht0 htN)
          have hq2 : ∀ e ∈ q2, e.2 ≠ 0 ∧ e.2.natAbs ≤ g.numNodes := by
            intro e he
            rcases (pushNeighbour_fold g _ _ _ _ _ h2).2.1 e he with he1 | ⟨arc, ha, e1, -⟩
            · rcases (pushNeighbour_fold g _ _ _ _ _ h1).2.1 e he1 with he0 | ⟨arc, ha, e1, -⟩
              · exact hq' e he0
              · rw [e1]; exact hr t _ hget arc ha
            · rw [e1]; exact leftArcs_inRange hr ht0 htN arc ha
          have hmark := arcsLeft_mark g h t ht0 htN ht ht'
          have hdeg := view_degree g t.natAbs t
          obtain ⟨r, hrun⟩ := ih q2 (insert t h) (insert t c) hq2 (by omega)
          refine ⟨r, ?_⟩
          simp only [Option.bind_eq_bind, hget, Option.some_bind, h1, h2]
          exact hrun

theorem foldlM_returns {σ β : Type} (f : σ → β → Option σ) :
    ∀ (l : List β) (s : σ), (∀ s, ∀ x ∈ l, ∃ s', f s x = some s') →
      ∃ s', l.foldlM f s = some s'
  | [], s, _ => ⟨s, rfl⟩
  | x :: l, s, hf => by
    obtain ⟨s1, h1⟩ := hf s x (List.mem_cons_self _ _)
    obtain ⟨s', h2⟩ := foldlM_returns f l s1 (fun s y hy => hf s y (List.mem_cons_of_mem _ hy))
    exact ⟨s', by simp only [List.foldlM_cons, Option.bind_eq_bind, h1, Option.some_bind, h2]⟩

/-- The function `findComponentsInGraph` returns on a graph whose arcs lead to nodes of the
graph, when the bound on the rounds of a traversal exceeds the number of arcs. -/
theorem findComponentsInGraph_returns (fg : FindGap) (g : DBGraph) (hr : ArcsInRange g)
    (fuel : Nat) (hfuel : totalArcs g + 1 ≤ fuel) (components : List (Finset Int)) :
    ∃ comps, fg.findComponentsInGraph g fuel components = some comps := by
  unfold FindGap.findComponentsInGraph
  obtain ⟨st, hst⟩ := foldlM_returns
    (fun st i => fg.componentRound g fuel st ((i + 1 : Nat) : Int))
    (List.range g.numNodes) ⟨∅, components⟩ (by
      intro s i hi
      rw [List.mem_range] at hi
      have hi0 : ((i + 1 : Nat) : Int) ≠ 0 := by omega
      have hiN : ((i + 1 : Nat) : Int).natAbs ≤ g.numNodes := by omega
      have hget := getSSNode_mk (g := g) hi0 hiN
      unfold FindGap.componentRound
      simp only [Option.bind_eq_bind, hget, Option.some_bind, Option.pure_def]
      split
      · exact ⟨_, rfl⟩
      · split
        · exact ⟨_, rfl⟩
        · obtain ⟨r, hrun⟩ := componentWalk_returns g fg.kmerSize hr fuel
            [(0, ((i + 1 : Nat) : Int))] s.nodesHandled ∅
            (by
              intro e he
              rw [List.mem_singleton] at he
              subst he
              exact ⟨hi0, hiN⟩)
            (by
              have := arcsLeft_le g s.nodesHandled
              simp only [List.length_singleton]
              omega)
          rw [hrun]
          simp only [Option.some_bind]
          split <;> exact ⟨_, rfl⟩)
  exact ⟨st.components, by rw [hst]; rfl⟩

/-- Claim C26: on a graph with symmetric arc lists, `findComponentsInGraph` returns when the
arcs lead to nodes of the graph and the bound on the rounds of a traversal exceeds the number
of arcs; and every component that it reports is, as a set of physical nodes, the set of the
valid nodes reached from its source node by following arcs in either direction, whatever the
strands; no physical node is in it under both signs, and no physical node is in two
components. -/
theorem findComponentsInGraph_reachable (fg : FindGap) (g : DBGraph) (hsym : ArcSymmetric g)
    (fuel : Nat) :
    (ArcsInRange g → totalArcs g + 1 ≤ fuel →
        ∃ comps, fg.findComponentsInGraph g fuel [] = some comps) ∧
      ∀ comps, fg.findComponentsInGraph g fuel [] = some comps →
        (∀ c ∈ comps, ∃ src : Nat, (src : Int) ∈ c ∧ ∀ m, Phys c m ↔ Reach g src m) ∧
          (∀ c ∈ comps, ∀ x ∈ c, x ≠ 0 ∧ -x ∉ c) ∧
          comps.Pairwise fun c d => ∀ m, ¬ (Phys c m ∧ Phys d m) := by
  refine ⟨fun hr hfuel => findComponentsInGraph_returns fg g hr fuel hfuel [], ?_⟩
  intro comps hrun
  obtain ⟨st, hI, rfl⟩ := findComponentsInGraph_inv fg g hsym fuel comps hrun
  refine ⟨fun c hc => (hI.comps c hc).2.2, ?_, hI.disjoint⟩
  intro c hc x hx
  obtain ⟨hsub, -, -⟩ := hI.comps c hc
  obtain ⟨a1, -, -, a4⟩ := hI.sound x (hsub hx)
  exact ⟨a1, fun hn => a4 (hsub hn)⟩

theorem exGraph_arcsInRange : ArcsInRange exGraph := by
  intro x X hx
  obtain ⟨⟨hx0, hxN⟩, rfl⟩ := getSSNode_eq_some.mp hx
  rcases exGraph_views hx0 hxN with h | h | h | h | h | h | h | h <;> subst h <;> decide

theorem exGraph_components :
    exFindGap.findComponentsInGraph exGraph 20 [] = some [{4, 1}, {-3, 2}] := by
  decide

theorem findComponentsInGraph_reachable_witness :
    (∃ comps, exFindGap.findComponentsInGraph exGraph 20 [] = some comps) ∧
      (∀ c ∈ ([{4, 1}, {-3, 2}] : List (Finset Int)),
        ∃ src : Nat, (src : Int) ∈ c ∧ ∀ m, Phys c m ↔ Reach exGraph src m) ∧
      (∀ c ∈ ([{4, 1}, {-3, 2}] : List (Finset Int)), ∀ x ∈ c, x ≠ 0 ∧ -x ∉ c) ∧
      ([{4, 1}, {-3, 2}] : List (Finset Int)).Pairwise
        fun c d => ∀ m, ¬ (Phys c m ∧ Phys d m) :=
  ⟨(findComponentsInGraph_reachable exFindGap exGraph exGraph_arcSymmetric 20).1
      exGraph_arcsInRange (by decide),
    (findComponentsInGraph_reachable exFindGap exGraph exGraph_arcSymmetric 20).2 _
      exGraph_components⟩

theorem componentRound_card (fg : FindGap) (g : DBGraph) (fuel : Nat)
    (st st' : ComponentState) (i : Int) (hI : ∀ c ∈ st.components, 2 ≤ c.card)
    (hrun : fg.componentRound g fuel st i = some st') : ∀ c ∈ st'.components, 2 ≤ c.card := by
  unfold FindGap.componentRound at hrun
  simp only [Option.bind_eq_bind, Option.bind_eq_some] at hrun
  obtain ⟨node, -, hrun⟩ := hrun
  split at hrun
  · simp only [Option.pure_def, Option.some.injEq] at hrun
    subst hrun; exact hI
  · split at hrun
    · simp only [Option.pure_def, Option.some.injEq] at hrun
      subst hrun; exact hI
    · simp only [Option.bind_eq_some] at hrun
      obtain ⟨⟨h', c'⟩, -, hrun⟩ := hrun
      split at hrun
      · rename_i hcard
        simp only [Option.pure_def, Option.some.injEq] at hrun
        subst hrun
        intro c hc
        rcases List.mem_append.mp hc with hc | hc
        · exact hI c hc
        · rw [List.mem_singleton] at hc
          subst hc
          exact hcard
      · simp only [Option.pure_def, Option.some.injEq] at hrun
        subst hrun; exact hI

/-- Claim C27: `findComponentsInGraph` returns when the arcs lead to nodes of the graph and
the bound on the rounds of a traversal exceeds the number of arcs; every set that it hands to
`addComponent` has at least two elements; and when the arc lists are symmetric, a valid node
of the graph none of whose arcs leads to another valid node is in no reported component. -/
theorem findComponentsInGraph_nontrivial (fg : FindGap) (g : DBGraph) (fuel : Nat) :
    (ArcsInRange g → totalArcs g + 1 ≤ fuel →
        ∃ comps, fg.findComponentsInGraph g fuel [] = some comps) ∧
      ∀ comps, fg.findComponentsInGraph g fuel [] = some comps →
        (∀ c ∈ comps, 2 ≤ c.card) ∧
          (ArcSymmetric g → ∀ n : Nat, 1 ≤ n → n ≤ g.numNodes →
            (g.nodes n).invalid = false →
            (∀ m, Link g n m → m = n) → ∀ c ∈ comps, ¬ Phys c n) := by
  refine ⟨fun hr hfuel => findComponentsInGraph_returns fg g hr fuel hfuel [], ?_⟩
  intro comps hrun
  constructor
  · unfold FindGap.findComponentsInGraph at hrun
    simp only [Option.map_eq_some'] at hrun
    obtain ⟨st, hst, rfl⟩ := hrun
    refine foldlM_inv (fun st i => fg.componentRound g fuel st ((i + 1 : Nat) : Int))
      (fun st _ => ∀ c ∈ st.components, 2 ≤ c.card) ?_ (List.range g.numNodes) ⟨∅, []⟩ st
      (by simp) hst
    intro s x rest s' hI hs
    exact componentRound_card fg g fuel s s' _ hI hs
  · intro hsym n hn1 hnN hnv hlonely c hc hp
    obtain ⟨st, hI, rfl⟩ := findComponentsInGraph_inv fg g hsym fuel comps hrun
    obtain ⟨hsub, hcard, src, hsrc, hreach⟩ := hI.comps c hc
    -- every node reached from `src` from which `n` is reached in one step is `n`
    have hback : ∀ m, Reach g src m → m = n → src = n := by
      intro m hr
      induction hr with
      | refl => exact fun e => e
      | tail hab hbc ih =>
        rename_i a b
        intro e
        subst e
        obtain ⟨x, hx, rfl⟩ := phys_iff.mp ((hreach _).mpr hab)
        obtain ⟨x0, xN, xv, -⟩ := hI.sound x (hsub hx)
        have hx1 : 1 ≤ x.natAbs := by omega
        exact ih (hlonely _ (link_symm g hsym x.natAbs b hx1 xN xv hn1 hnN hbc))
    have hsn : src = n := hback n ((hreach n).mp hp) rfl
    subst hsn
    have hall : ∀ m, Reach g src m → m = src := by
      intro m hr
      induction hr with
      | refl => rfl
      | tail _ hbc ih => rw [ih] at hbc; exact hlonely _ hbc
    obtain ⟨x, hx, y, hy, hxy⟩ := Finset.one_lt_card.mp hcard
    have ex : x.natAbs = src := hall _ ((hreach _).mp (phys_of_mem hx))
    have ey : y.natAbs = src := hall _ ((hreach _).mp (phys_of_mem hy))
    have : y = -x := by omega
    subst this
    exact (hI.sound x (hsub hx)).2.2.2 (hsub hy)

theorem findComponentsInGraph_nontrivial_witness :
    (∃ comps, exFindGap.findComponentsInGraph exBridge 20 [] = some comps) ∧
      (∀ c ∈ ([{3, 1}] : List (Finset Int)), 2 ≤ c.card) ∧
      (ArcSymmetric exBridge → ∀ n : Nat, 1 ≤ n → n ≤ exBridge.numNodes →
        (exBridge.nodes n).invalid = false →
        (∀ m, Link exBridge n m → m = n) → ∀ c ∈ ([{3, 1}] : List (Finset Int)), ¬ Phys c n) :=
  ⟨(findComponentsInGraph_nontrivial exFindGap exBridge 20).1 exBridge_arcsInRange (by decide),
    (findComponentsInGraph_nontrivial exFindGap exBridge 20).2 [{3, 1}] (by decide)⟩

/-! ## Two merges of one run that share a junction k-mer -/

/-- Claim C25, the input on which the code departs from it: four isolated nodes of which no
two share a k-mer, and a table built over them. The run commits `connectNodes(1, 2)` and then
`connectNodes(3, 4)`. The junction k-mer of the second merge is absent from the table built
before the run, so the validation lets it pass; but the first merge has put the same k-mer
into node 1. In a table built afresh over the resulting graph, the window at offset 2 of the
merged node 3 resolves to node 1, a third node. -/
theorem checkForTipConnection_chimera :
    ((List.range 4).all fun i =>
        (kmerWindows 18 (exChimeraNodes (i + 1)).sequence).all fun w =>
          (exChimera.findNPP w).nodeID = ((i + 1 : Nat) : Int)) = true ∧
      exChimera.findNPP exJunction = ⟨0, 0⟩ ∧
      (exFindGap18.checkForTipConnection exChimera exAlign 10
          [((-1, -2), 12), ((-3, -4), 11)]).map
        (fun res => res.calls.map fun c => (c.firstNodeID, c.secondNodeID, c.found))
        = some [(1, 2, true), (3, 4, true)] ∧
      (exFindGap18.checkForTipConnection exChimera exAlign 10
          [((-1, -2), 12), ((-3, -4), 11)]).map
        (fun res => ((res.g.nodes 1).invalid, (res.g.nodes 1).sequence))
        = some (false, [.T, .A, .G] ++ exOverlap ++ [.T, .A, .C]) ∧
      (exFindGap18.checkForTipConnection exChimera exAlign 10
          [((-1, -2), 12), ((-3, -4), 11)]).map
        (fun res => ((res.g.nodes 3).invalid, (res.g.nodes 3).sequence))
        = some (false, [.C, .C, .G] ++ exOverlap ++ [.T, .C, .A]) ∧
      (exFindGap18.checkForTipConnection exChimera exAlign 10
          [((-1, -2), 12), ((-3, -4), 11)]).map
        (fun res => ((kmerWindows 18 (res.g.nodes 3).sequence)[2]?,
          (kmerWindows 18 (res.g.nodes 1).sequence)[2]?))
        = some (some exJunction, some exJunction) ∧
      (exFindGap18.checkForTipConnection exChimera exAlign 10
          [((-1, -2), 12), ((-3, -4), 11)]).map
        (fun res => freshTableOf res.g.nodes 4 exJunction) = some ⟨1, 2⟩ := by
  refine ⟨by decide!, by decide!, by decide!, by decide!, by decide!, by decide!, by decide!⟩

/-! ## Arc symmetry across a merge -/

theorem negate_mk (x : Int) (c : Nat) : Arc.negate ⟨x, c⟩ = ⟨-x, c⟩ := rfl

/-- Arc symmetry on the adjacency, with the coverage: an arc from `x` to `y` comes with an
arc from `-y` to `-x` of the same coverage. -/
theorem mem_of_arcSymmetric {g : DBGraph} (hsym : ArcSymmetric g) {x y : Int} {c : Nat}
    (hx : x ≠ 0) (hxN : x.natAbs ≤ g.numNodes) (hy : y ≠ 0) (hyN : y.natAbs ≤ g.numNodes)
    (h : (⟨y, c⟩ : Arc) ∈ g.adj x) : (⟨-x, c⟩ : Arc) ∈ g.adj (-y) := by
  have := hsym x _ (getSSNode_mk hx hxN) ⟨y, c⟩ h _ (getSSNode_mk hy hyN)
  rw [leftArcs_eq_adj g hy, List.mem_map] at this
  obtain ⟨e, he, hex⟩ := this
  have hee : e = ⟨-x, c⟩ := by
    have := congrArg Arc.negate hex
    rwa [negate_negate, negate_mk] at this
  rw [← hee]
  exact he

/-- Arc symmetry follows from its form on the adjacency. -/
theorem arcSymmetric_of_mem {g : DBGraph}
    (h : ∀ (x y : Int) (c : Nat), x ≠ 0 → x.natAbs ≤ g.numNodes → y ≠ 0 →
      y.natAbs ≤ g.numNodes → (⟨y, c⟩ : Arc) ∈ g.adj x → (⟨-x, c⟩ : Arc) ∈ g.adj (-y)) :
    ArcSymmetric g := by
  intro x X hx arc harc Y hY
  obtain ⟨⟨hx0, hxN⟩, rfl⟩ := getSSNode_eq_some.mp hx
  obtain ⟨⟨hy0, hyN⟩, rfl⟩ := getSSNode_eq_some.mp hY
  rw [rightArcs_eq_adj] at harc
  rw [leftArcs_eq_adj g hy0, List.mem_map]
  refine ⟨⟨-x, arc.coverage⟩, h x arc.nodeID arc.coverage hx0 hxN hy0 hyN harc, ?_⟩
  rw [negate_mk, neg_neg]

/-- An arc of a re-pointed list is an arc of the list, or the re-pointed arc. -/
theorem mem_repoint {o n : Int} : ∀ {l : List Arc} {m : Arc}, m ∈ SSNode.repoint o n l →
    m ∈ l ∨ (m.nodeID = n ∧ (⟨o, m.coverage⟩ : Arc) ∈ l)
  | [], m, h => by simp [SSNode.repoint] at h
  | a :: l, m, h => by
    unfold SSNode.repoint at h
    by_cases ha : a.nodeID = o
    · rw [if_pos ha] at h
      rcases List.mem_cons.mp h with h | h
      · right
        subst h
        refine ⟨rfl, ?_⟩
        have : (⟨o, a.coverage⟩ : Arc) = a := by rw [← ha]
        simp [this]
      · left; exact List.mem_cons_of_mem _ h
    · rw [if_neg ha] at h
      rcases List.mem_cons.mp h with h | h
      · left; rw [h]; exact List.mem_cons_self _ _
      · rcases mem_repoint h with h' | ⟨h1, h2⟩
        · left; exact List.mem_cons_of_mem _ h'
        · right; exact ⟨h1, List.mem_cons_of_mem _ h2⟩

/-- Re-pointing keeps every arc that does not lead to the old endpoint. -/
theorem mem_repoint_of_ne {o n : Int} : ∀ {l : List Arc} {m : Arc}, m ∈ l → m.nodeID ≠ o →
    m ∈ SSNode.repoint o n l
  | [], m, h, _ => by simp at h
  | a :: l, m, h, hm => by
    unfold SSNode.repoint
    by_cases ha : a.nodeID = o
    · rw [if_pos ha]
      rcases List.mem_cons.mp h with h | h
      · subst h; exact absurd ha hm
      · exact List.mem_cons_of_mem _ h
    · rw [if_neg ha]
      rcases List.mem_cons.mp h with h | h
      · rw [h]; exact List.mem_cons_self _ _
      · exact List.mem_cons_of_mem _ (mem_repoint_of_ne h hm)

/-- Re-pointing the only arc to `o`: it now leads to `n`, with its coverage. -/
theorem mem_repoint_new {o n : Int} {c : Nat} : ∀ {l : List Arc}, refs o l ≤ 1 →
    (⟨o, c⟩ : Arc) ∈ l → (⟨n, c⟩ : Arc) ∈ SSNode.repoint o n l
  | [], _, h => by simp at h
  | a :: l, hle, h => by
    unfold SSNode.repoint
    rw [refs_cons] at hle
    by_cases ha : a.nodeID = o
    · rw [if_pos ha]
      rw [if_pos ha] at hle
      rcases List.mem_cons.mp h with h | h
      · rw [← h]; exact List.mem_cons_self _ _
      · have : 0 < refs o l := refs_pos_iff.mpr ⟨_, h, rfl⟩
        omega
    · rw [if_neg ha]
      rw [if_neg ha] at hle
      rcases List.mem_cons.mp h with h | h
      · rw [← h] at ha; exact absurd rfl ha
      · exact List.mem_cons_of_mem _ (mem_repoint_new (by omega) h)

/-- The re-pointing loop of `inheritRightArcs` on the arcs with their coverages: an arc after
the loop is an arc from before it or a re-pointed one, the arcs that do not lead to `-b` are
kept, and a visited node whose only arc to `-b` has coverage `c` now has an arc to `-a` of
coverage `c`. -/
theorem repointLoop_mem {g0 g1 : DBGraph} {a b : Int} (hab : a ≠ b) (T : List Arc)
    (h : T.foldlM (fun (g : DBGraph) (it : Arc) =>
      (g.getSSNode it.nodeID).bind fun rightNode => rightNode.replaceLeftArc g b a) g0
        = some g1) :
    (∀ (x : Int) (m : Arc), m ∈ g1.adj x →
      m ∈ g0.adj x ∨ (m.nodeID = -a ∧ (⟨-b, m.coverage⟩ : Arc) ∈ g0.adj x)) ∧
    (∀ (x : Int) (m : Arc), m ∈ g0.adj x → m.nodeID ≠ -b → m ∈ g1.adj x) ∧
    (∀ (x : Int) (c : Nat), (⟨-b, c⟩ : Arc) ∈ g0.adj x → refs (-b) (g0.adj x) ≤ 1 →
      0 < refs (-x) T → (⟨-a, c⟩ : Arc) ∈ g1.adj x) := by
  have hnab : (-a : Int) ≠ -b := fun e => hab (neg_injective e)
  have hinv := foldlM_inv
    (fun (g : DBGraph) (it : Arc) =>
      (g.getSSNode it.nodeID).bind fun rightNode => rightNode.replaceLeftArc g b a)
    (fun (s : DBGraph) (rest : List Arc) =>
      (∀ (x : Int) (m : Arc), m ∈ s.adj x →
        m ∈ g0.adj x ∨ (m.nodeID = -a ∧ (⟨-b, m.coverage⟩ : Arc) ∈ g0.adj x)) ∧
      (∀ (x : Int) (m : Arc), m ∈ g0.adj x → m.nodeID ≠ -b → m ∈ s.adj x) ∧
      (∀ x : Int, refs (-b) (s.adj x) ≤ refs (-b) (g0.adj x)) ∧
      (∀ (x : Int) (c : Nat), (⟨-b, c⟩ : Arc) ∈ g0.adj x → refs (-b) (g0.adj x) ≤ 1 →
        0 < refs (-x) T →
          (⟨-a, c⟩ : Arc) ∈ s.adj x ∨ ((⟨-b, c⟩ : Arc) ∈ s.adj x ∧ 0 < refs (-x) rest)))
    (by
      intro s it rest s' hI hstep
      obtain ⟨hI1, hI2, hI3, hI4⟩ := hI
      obtain ⟨-, hadj⟩ := repointStep_adj hstep
      refine ⟨?_, ?_, ?_, ?_⟩
      · intro x m hm
        rw [hadj x] at hm
        split at hm
        · rename_i hx
          rw [← hx] at hm
          rcases mem_repoint hm with h1 | ⟨h1, h2⟩
          · exact hI1 x m h1
          · rcases hI1 x _ h2 with h3 | ⟨h3, -⟩
            · exact Or.inr ⟨h1, h3⟩
            · exact absurd h3.symm hnab
        · exact hI1 x m hm
      · intro x m hm hne
        rw [hadj x]
        split
        · rename_i hx
          rw [← hx]
          exact mem_repoint_of_ne (hI2 x m hm hne) hne
        · exact hI2 x m hm hne
      · intro x
        rw [hadj x]
        split
        · rename_i hx
          rw [← hx, refs_repoint_self hnab]
          have := hI3 x
          omega
        · exact hI3 x
      · intro x c hm hle hT
        rw [hadj x]
        by_cases hx : x = -it.nodeID
        · rw [if_pos hx, ← hx]
          left
          rcases hI4 x c hm hle hT with h1 | ⟨h1, -⟩
          · exact mem_repoint_of_ne h1 hnab
          · exact mem_repoint_new (le_trans (hI3 x) hle) h1
        · rw [if_neg hx]
          rcases hI4 x c hm hle hT with h1 | ⟨h1, h2⟩
          · exact Or.inl h1
          · refine Or.inr ⟨h1, ?_⟩
            have hne : ¬ it.nodeID = -x := fun e => hx (by rw [e, neg_neg])
            rw [refs_cons, if_neg hne] at h2
            exact h2)
    T g0 g1
    ⟨fun _ _ hm => Or.inl hm, fun _ _ hm _ => hm, fun _ => Nat.le_refl _,
      fun _ _ hm _ hT => Or.inr ⟨hm, hT⟩⟩ h
  obtain ⟨hJ1, hJ2, -, hJ4⟩ := hinv
  refine ⟨hJ1, hJ2, fun x c hm hle hT => ?_⟩
  rcases hJ4 x c hm hle hT with h1 | ⟨-, h2⟩
  · exact h1
  · simp [refs_nil] at h2

/-- The first detaching loop of `connectNodes` on the arcs with their coverages: it only
removes arcs, and only arcs that lead to `b`. -/
theorem detachLeft_loop_mem {g3 g4 : DBGraph} {b : Int} (T : List Arc)
    (h : T.foldlM (detachLeft ⟨b.natAbs, b⟩) g3 = some g4) (x : Int) :
    (g4.adj x).Sublist (g3.adj x) ∧
      ∀ m : Arc, m.nodeID ≠ b → m ∈ g3.adj x → m ∈ g4.adj x :=
  foldlM_rel
    (fun s s' : DBGraph => ∀ x : Int, (s'.adj x).Sublist (s.adj x) ∧
      ∀ m : Arc, m.nodeID ≠ b → m ∈ s.adj x → m ∈ s'.adj x)
    (fun _ _ => ⟨List.Sublist.refl _, fun _ _ hm => hm⟩)
    (fun _ _ _ h1 h2 x => ⟨(h2 x).1.trans (h1 x).1,
      fun m hne hm => (h2 x).2 m hne ((h1 x).2 m hne hm)⟩)
    (detachLeft ⟨b.natAbs, b⟩)
    (by
      intro s it s' hs x
      rcases detachLeft_adj hs with ⟨-, rfl⟩ | ⟨-, -, hadj⟩
      · exact ⟨List.Sublist.refl _, fun _ _ hm => hm⟩
      · rw [hadj x]
        split
        · rename_i hx
          rw [← hx]
          refine ⟨List.eraseP_sublist _, fun m hne hm => ?_⟩
          exact (List.mem_eraseP_of_neg (by simpa using hne)).mpr hm
        · exact ⟨List.Sublist.refl _, fun _ _ hm => hm⟩)
    T g3 g4 h x

/-- What `inheritRightArcs` does to the arcs with their coverages: `g1` is the graph after
the re-pointing loop. -/
theorem inheritRightArcs_mem {g0 g2 : DBGraph} {a b : Int} (ha : a ≠ 0) (hb : b ≠ 0)
    (hab : a ≠ b)
    (h : SSNode.inheritRightArcs ⟨a.natAbs, a⟩ g0 ⟨b.natAbs, b⟩ = some g2) :
    ∃ g1 : DBGraph,
      (∀ x : Int, g2.adj x = if x = b then [] else if x = a then g1.adj b else g1.adj x) ∧
      (∀ (x : Int) (m : Arc), m ∈ g1.adj x →
        m ∈ g0.adj x ∨ (m.nodeID = -a ∧ (⟨-b, m.coverage⟩ : Arc) ∈ g0.adj x)) ∧
      (∀ (x : Int) (m : Arc), m ∈ g0.adj x → m.nodeID ≠ -b → m ∈ g1.adj x) ∧
      (∀ (x : Int) (c : Nat), (⟨-b, c⟩ : Arc) ∈ g0.adj x → refs (-b) (g0.adj x) ≤ 1 →
        0 < refs (-x) (g0.adj b) → (⟨-a, c⟩ : Arc) ∈ g1.adj x) := by
  unfold SSNode.inheritRightArcs at h
  simp only [Option.pure_def, Option.bind_eq_bind, rightArcs_eq_adj] at h
  cases h1 : (g0.adj b).foldlM (fun (g : DBGraph) (it : Arc) =>
      (g.getSSNode it.nodeID).bind fun rightNode =>
        rightNode.replaceLeftArc g b a) g0 with
  | none => rw [h1] at h; cases h
  | some g1 =>
    rw [h1] at h
    simp only [Option.some_bind, Option.some.injEq] at h
    subst h
    obtain ⟨k1, k2, k3⟩ := repointLoop_mem hab (g0.adj b) h1
    refine ⟨g1, fun x => ?_, k1, k2, k3⟩
    unfold SSNode.deleteAllRightArcs
    rw [adj_setRightArcs _ hb, adj_setRightArcs _ ha]

/-- The commit of a merge of two distinct nodes keeps the arc lists symmetric, coverages
included, when the surviving node has no right arcs of its own and the graph has no parallel
arcs. -/
theorem connectNodesCommit_arcSymmetric {g g' : DBGraph} {a b : Int} {cons : List Nucleotide}
    (ha : a ≠ 0) (hb : b ≠ 0) (hbN : b.natAbs ≤ g.numNodes)
    (hne : a.natAbs ≠ b.natAbs)
    (hsym : ArcSymmetric g) (hnp : NoParallelArcs g) (hA : g.adj a = [])
    (h : connectNodesCommit g ⟨a.natAbs, a⟩ ⟨b.natAbs, b⟩ cons = some g') :
    ArcSymmetric g' ∧
      ∀ (x : Int) (m : Arc), m ∈ g'.adj x →
        m ∈ g.adj (if x = a then b else x) ∨
          (m.nodeID = -a ∧ (⟨-b, m.coverage⟩ : Arc) ∈ g.adj (if x = a then b else x)) := by
  have hdet := connectNodesCommit_detached ha hb hbN hne hsym hnp h
  obtain ⟨hnum, -, -, -, -, -, hl, hr⟩ := connectNodesCommit_fields h
  obtain ⟨hab, hanb⟩ := natAbs_ne_cases hne
  have hnb0 : -b ≠ 0 := by omega
  have hnbN : (-b).natAbs ≤ g.numNodes := by rw [Int.natAbs_neg]; exact hbN
  have hba : b ≠ a := fun e => hab e.symm
  have hnbb : -b ≠ b := by omega
  -- the node `b` has no arcs at the end
  have hbe : g'.adj b = [] ∧ g'.adj (-b) = [] := by
    simp only at hl hr
    unfold DBGraph.adj SSNode.rightArcs
    simp only [Int.natAbs_neg]
    constructor <;> split <;> simp [hl, hr]
  unfold connectNodesCommit at h
  simp only [Option.pure_def, Option.bind_eq_bind] at h
  cases h2 : SSNode.inheritRightArcs ⟨a.natAbs, a⟩
      (SSNode.deleteAllRightArcs ⟨a.natAbs, a⟩ g) ⟨b.natAbs, b⟩ with
  | none => rw [h2] at h; cases h
  | some g2 =>
    rw [h2] at h
    simp only [Option.some_bind] at h
    cases h4 : (SSNode.leftArcs ⟨b.natAbs, b⟩ (SSNode.setSequence ⟨a.natAbs, a⟩ g2 cons)).foldlM
        (detachLeft ⟨b.natAbs, b⟩) (SSNode.setSequence ⟨a.natAbs, a⟩ g2 cons) with
    | none => rw [h4] at h; cases h
    | some g4 =>
      rw [h4] at h
      simp only [Option.some_bind] at h
      cases h5 : (SSNode.rightArcs ⟨b.natAbs, b⟩ g4).foldlM (detachRight ⟨b.natAbs, b⟩) g4 with
      | none => rw [h5] at h; cases h
      | some g5 =>
        rw [h5] at h
        simp only [Option.some_bind, Option.some.injEq] at h
        -- the adjacency after `first.deleteAllRightArcs()`: nothing changes
        have hadj0 : ∀ x : Int, (SSNode.deleteAllRightArcs ⟨a.natAbs, a⟩ g).adj x = g.adj x := by
          intro x
          unfold SSNode.deleteAllRightArcs
          rw [adj_setRightArcs g ha]
          split
          · rename_i hx; rw [hx, hA]
          · rfl
        obtain ⟨g1, hadj2, F1, F2, F3⟩ := inheritRightArcs_mem ha hb hab h2
        simp only [hadj0] at F1 F2 F3
        -- the first loop
        have L4 := detachLeft_loop_mem _ h4
        simp only [adj_setSequence] at L4
        -- the second loop has nothing to visit
        have hT5 : SSNode.rightArcs ⟨b.natAbs, b⟩ g4 = [] := by
          rw [rightArcs_eq_adj]
          have := (L4 b).1
          rw [hadj2 b, if_pos rfl] at this
          exact List.eq_nil_of_sublist_nil this
        rw [hT5] at h5
        simp only [List.foldlM_nil, Option.pure_def, Option.some.injEq] at h5
        subst h5
        have hfin : ∀ x : Int, x ≠ b → x ≠ -b → g'.adj x = g4.adj x := by
          intro x hxb hxnb
          rw [← h]
          unfold SSNode.deleteAllRightArcs SSNode.deleteAllLeftArcs
          rw [adj_invalidate, adj_setRightArcs _ hb, if_neg hxb, adj_setLeftArcs _ hb,
            if_neg hxnb, adj_setReadStartCov, adj_setKmerCov]
        refine ⟨?_, ?_⟩
        swap
        · intro x m hm
          by_cases hxb : x = b
          · rw [hxb, hbe.1] at hm; simp at hm
          by_cases hxnb : x = -b
          · rw [hxnb, hbe.2] at hm; simp at hm
          rw [hfin x hxb hxnb] at hm
          have hm2 := (L4 x).1.subset hm
          rw [hadj2 x, if_neg hxb] at hm2
          by_cases hxa : x = a
          · rw [if_pos hxa] at hm2 ⊢
            exact F1 b m hm2
          · rw [if_neg hxa] at hm2 ⊢
            exact F1 x m hm2
        apply arcSymmetric_of_mem
        rw [hnum]
        intro x y c hx0 hxN hy0 hyN hm
        have hxabs : x.natAbs ≠ b.natAbs := by
          intro e
          rcases Int.natAbs_eq_natAbs_iff.mp e with e | e
          · rw [e, hbe.1] at hm; simp at hm
          · rw [e, hbe.2] at hm; simp at hm
        obtain ⟨hxb, hxnb⟩ := natAbs_ne_cases hxabs
        obtain ⟨z1, z2⟩ := hdet x hxabs hx0 hxN
        have hyb : y ≠ b := by
          intro e
          have : 0 < refs b (g'.adj x) := refs_pos_iff.mpr ⟨_, hm, e⟩
          omega
        have hynb : y ≠ -b := by
          intro e
          have : 0 < refs (-b) (g'.adj x) := refs_pos_iff.mpr ⟨_, hm, e⟩
          omega
        have hnyb : -y ≠ b := fun e => hynb (by rw [← e, neg_neg])
        have hnynb : -y ≠ -b := fun e => hyb (neg_injective e)
        have hnxb : -x ≠ b := fun e => hxnb (by rw [← e, neg_neg])
        have hnxnb : -x ≠ -b := fun e => hxb (neg_injective e)
        have hny0 : -y ≠ 0 := by omega
        have hnyN : (-y).natAbs ≤ g.numNodes := by rw [Int.natAbs_neg]; exact hyN
        -- back to the graph after `inheritRightArcs`
        have hm2 : (⟨y, c⟩ : Arc) ∈ g2.adj x := by
          rw [hfin x hxb hxnb] at hm
          exact (L4 x).1.subset hm
        rw [hfin (-y) hnyb hnynb]
        apply (L4 (-y)).2 _ hnxb
        rw [hadj2 x, if_neg hxb] at hm2
        rw [hadj2 (-y), if_neg hnyb]
        by_cases hxa : x = a
        · rw [if_pos hxa] at hm2
          rw [hxa]
          rcases F1 b _ hm2 with h1 | ⟨h1, -⟩
          · have hya : -y ≠ a := by
              intro e
              have := mem_of_arcSymmetric hsym hb hbN hy0 hyN h1
              rw [e, hA] at this
              simp at this
            rw [if_neg hya]
            refine F3 (-y) c (mem_of_arcSymmetric hsym hb hbN hy0 hyN h1)
              (refs_le_one_of_noParallel hnp hny0 hnyN _) ?_
            rw [neg_neg]
            exact refs_pos_iff.mpr ⟨_, h1, rfl⟩
          · have hya : -y = a := by
              have h1' : y = -a := h1
              rw [h1', neg_neg]
            rw [if_pos hya]
            have h1' : y = -a := h1
            rw [h1'] at hm2
            exact hm2
        · rw [if_neg hxa] at hm2
          rcases F1 x _ hm2 with h1 | ⟨h1, h3⟩
          · have hs := mem_of_arcSymmetric hsym hx0 hxN hy0 hyN h1
            have hya : -y ≠ a := by
              intro e
              rw [e, hA] at hs
              simp at hs
            rw [if_neg hya]
            exact F2 (-y) _ hs hnxnb
          · have hya : -y = a := by
              have h1' : y = -a := h1
              rw [h1', neg_neg]
            rw [if_pos hya]
            have hs := mem_of_arcSymmetric hsym hx0 hxN hnb0 hnbN h3
            rw [neg_neg] at hs
            exact F2 b _ hs hnxnb

theorem exBridge_arcSymmetric : ArcSymmetric exBridge := by
  intro x X hx arc harc Y hY
  obtain ⟨⟨hx0, hxN⟩, rfl⟩ := getSSNode_eq_some.mp hx
  obtain ⟨-, rfl⟩ := getSSNode_eq_some.mp hY
  have hx6 : ∀ z : Int, z ≠ 0 → z.natAbs ≤ 3 →
      z = 1 ∨ z = -1 ∨ z = 2 ∨ z = -2 ∨ z = 3 ∨ z = -3 := by
    intro z h0 h3
    omega
  rcases hx6 x hx0 hxN with h | h | h | h | h | h <;> subst h <;>
    simp [SSNode.rightArcs, exBridge, exBridgeNodes, Arc.negate] at harc <;>
    subst harc <;> decide

theorem exBridge_noParallelArcs : NoParallelArcs exBridge := by
  intro x X hx
  rcases exBridge_views hx with rfl | rfl | rfl | rfl | rfl | rfl <;> decide

/-- Claim C24, the input on which the claim fails: node 1 of the example has a right arc to
node 3, and node 3 the left arc back, with coverage 2. The graph is symmetric and has no
parallel arcs. `connectNodes(1, 2)` commits; afterwards the nodes 1 and 3 are valid, node 3
still has its left arc to node 1, and node 1 has no right arc: the arc lists are not
symmetric any more. -/
theorem connectNodes_arcSymmetric_counterexample :
    ArcSymmetric exBridge ∧ NoParallelArcs exBridge ∧
      ∃ g', exFindGap.connectNodes exBridge 1 2 = some (true, g') ∧
        (g'.nodes 1).invalid = false ∧ (g'.nodes 3).invalid = false ∧
        (⟨1, 2⟩ : Arc) ∈ SSNode.leftArcs ⟨3, 3⟩ g' ∧ SSNode.rightArcs ⟨1, 1⟩ g' = [] ∧
        ¬ ArcSymmetric g' := by
  refine ⟨exBridge_arcSymmetric, exBridge_noParallelArcs, ?_⟩
  have hrun : (exFindGap.connectNodes exBridge 1 2).map
      (fun r => (r.1, r.2.numNodes, (r.2.nodes 1).invalid, (r.2.nodes 3).invalid))
      = some (true, 3, false, false) := by decide
  have hrun2 : (exFindGap.connectNodes exBridge 1 2).map
      (fun r => ((r.2.nodes 3).leftArcs, (r.2.nodes 1).rightArcs))
      = some ([⟨1, 2⟩], []) := by decide
  obtain ⟨⟨ok, g'⟩, hg, he⟩ := Option.map_eq_some'.mp hrun
  rw [hg] at hrun2
  simp only [Option.map_some', Option.some.injEq, Prod.mk.injEq] at hrun2
  simp only [Prod.mk.injEq] at he
  obtain ⟨rfl, hn, h1, h3⟩ := he
  obtain ⟨hl, hr⟩ := hrun2
  refine ⟨g', hg, h1, h3, ?_, ?_, ?_⟩
  · simp [SSNode.leftArcs, hl]
  · simp [SSNode.rightArcs, hr]
  · intro hsym
    have h3v : g'.getSSNode (-3) = some ⟨3, -3⟩ := by
      rw [getSSNode_eq_some]; simp [hn]
    have h1v : g'.getSSNode (-1) = some ⟨1, -1⟩ := by
      rw [getSSNode_eq_some]; simp [hn]
    have := hsym (-3) _ h3v ⟨-1, 2⟩ (by simp [SSNode.rightArcs, hl, Arc.negate]) _ h1v
    simp [SSNode.leftArcs, hr] at this

/-- Claim C24, amended: for two distinct physical nodes A and B of a graph whose arc lists
are symmetric and hold no parallel arcs, such that A has no right arcs, after a committed
`connectNodes(A, B)` the arc lists are again symmetric, with the same coverages: every arc of
the result is an arc of the graph before the merge with its coverage, where the right arcs of
A are those that B had and an arc that led to `-B` leads to `-A`. -/
theorem connectNodes_arcSymmetric (fg : FindGap) (g g' : DBGraph) (a b : NodeID)
    (first : SSNode) (hf : g.getSSNode a = some first) (hA : first.getNumRightArcs g = 0)
    (hne : a.natAbs ≠ b.natAbs) (hsym : ArcSymmetric g) (hnp : NoParallelArcs g)
    (h : fg.connectNodes g a b = some (true, g')) :
    ArcSymmetric g' ∧
      ∀ (x : NodeID) (m : Arc), m ∈ g'.adj x →
        m ∈ g.adj (if x = a then b else x) ∨
          (m.nodeID = -a ∧ (⟨-b, m.coverage⟩ : Arc) ∈ g.adj (if x = a then b else x)) := by
  obtain ⟨first', second', cons, hf', hs', -, -, hm⟩ := connectNodes_true h
  rw [hf] at hf'
  cases hf'
  obtain ⟨⟨ha0, -⟩, rfl⟩ := getSSNode_eq_some.mp hf
  obtain ⟨⟨hb0, hbN⟩, rfl⟩ := getSSNode_eq_some.mp hs'
  have hA' : g.adj a = [] := by
    unfold SSNode.getNumRightArcs at hA
    rw [rightArcs_eq_adj] at hA
    exact List.length_eq_zero.mp hA
  exact connectNodesCommit_arcSymmetric ha0 hb0 hbN hne hsym hnp hA' hm

theorem connectNodes_arcSymmetric_witness :
    ∃ g', exFindGap.connectNodes exGraph 1 2 = some (true, g') ∧ ArcSymmetric g' ∧
      ∀ (x : NodeID) (m : Arc), m ∈ g'.adj x →
        m ∈ exGraph.adj (if x = 1 then 2 else x) ∨
          (m.nodeID = -1 ∧ (⟨-2, m.coverage⟩ : Arc) ∈ exGraph.adj (if x = 1 then 2 else x)) := by
  obtain ⟨g', h⟩ := exGraph_connect_1_2
  exact ⟨g', h, connectNodes_arcSymmetric exFindGap exGraph g' 1 2 ⟨1, 1⟩ rfl (by decide)
    (by decide) exGraph_arcSymmetric exGraph_noParallelArcs h⟩

/-! ## `PathDFSComp` -/

/-- Claim C40, where the code departs from it: `PathDFSComp` compares with `>=`, so
`comp(p, p)` is true for every path `p`, for instance for the path of length 5 to node 1, and
`comp(p, q)` and `comp(q, p)` both hold for any two paths of the same length: the comparison
is neither irreflexive nor asymmetric. What it is: reflexive, transitive and total. -/
theorem PathDFSComp_reflexive :
    PathDFSComp ⟨1, 5⟩ ⟨1, 5⟩ = true ∧
      (PathDFSComp ⟨1, 5⟩ ⟨2, 5⟩ = true ∧ PathDFSComp ⟨2, 5⟩ ⟨1, 5⟩ = true) ∧
      (∀ p : PathDFS, PathDFSComp p p = true) ∧
      (∀ p q : PathDFS, p.length = q.length →
        PathDFSComp p q = true ∧ PathDFSComp q p = true) ∧
      (∀ p q r : PathDFS, PathDFSComp p q = true → PathDFSComp q r = true →
        PathDFSComp p r = true) ∧
      (∀ p q : PathDFS, PathDFSComp p q = true ∨ PathDFSComp q p = true) := by
  refine ⟨by decide, ⟨by decide, by decide⟩, ?_, ?_, ?_, ?_⟩
  · intro p
    simp [PathDFSComp]
  · intro p q h
    simp [PathDFSComp, h]
  · intro p q r h1 h2
    simp only [PathDFSComp, ge_iff_le, decide_eq_true_eq] at h1 h2 ⊢
    omega
  · intro p q
    simp only [PathDFSComp, ge_iff_le, decide_eq_true_eq]
    omega

/-! ## The tie-break of `getLongestCommonSubStr` -/

section LCS
variable {α : Type} [DecidableEq α]

/-- Two equal blocks of length `L`, at `p` in `str1` and at `q` in `str2`, agree base by
base. -/
theorem getElem?_of_take_eq (str1 str2 : List α) (p q L : Nat)
    (h : (str1.drop p).take L = (str2.drop q).take L) :
    ∀ t, t < L → str1[p + t]? = str2[q + t]? := by
  intro t ht
  have h1 : ((str1.drop p).take L)[t]? = str1[p + t]? := by
    rw [List.getElem?_take_of_lt ht, List.getElem?_drop]
  have h2 : ((str2.drop q).take L)[t]? = str2[q + t]? := by
    rw [List.getElem?_take_of_lt ht, List.getElem?_drop]
  rw [← h1, ← h2, h]

/-- The occurrence returned by `getLongestCommonSubStr` is the first of the occurrences of
maximal length: it ends earliest in `str1` and, among those, earliest in `str2`. -/
theorem getLongestCommonSubStr_first (str1 str2 : List α) :
    ∃ c i j, getLongestCommonSubStr str1 str2 = some (c, i, j) ∧
      ∀ p q, p + c.length ≤ str1.length → q + c.length ≤ str2.length →
        (str1.drop p).take c.length = (str2.drop q).take c.length →
        i < p ∨ (i = p ∧ j ≤ q) := by
  obtain ⟨c, i, j, h, -, -, -, -, -, -, hfirst⟩ := getLongestCommonSubStr_spec str1 str2
  refine ⟨c, i, j, h, ?_⟩
  intro p q hp hq heq
  have hge := lcSuffix_ge_of_common str1 str2 p q c.length
    (getElem?_of_take_eq str1 str2 p q c.length heq)
  by_contra hcon
  have hlex : p + c.length < i + c.length ∨ (p + c.length = i + c.length ∧
      q + c.length < j + c.length) := by omega
  have := hfirst (p + c.length) (q + c.length) hq hlex
  omega

/-- The length returned by `getLongestCommonSubStr` does not depend on the order of the two
strings. -/
theorem getLongestCommonSubStr_length_comm (str1 str2 : List α) :
    ∃ c i j c' i' j', getLongestCommonSubStr str1 str2 = some (c, i, j) ∧
      getLongestCommonSubStr str2 str1 = some (c', i', j') ∧ c'.length = c.length := by
  obtain ⟨c, i, j, h, h1, h2, -⟩ := getLongestCommonSubStr_spec str1 str2
  obtain ⟨c', i', j', h', h1', h2', -⟩ := getLongestCommonSubStr_spec str2 str1
  refine ⟨c, i, j, c', i', j', h, h', ?_⟩
  have hc1 : c <:+: str1 := by rw [← h1]; exact infix_take_drop _ _ _
  have hc2 : c <:+: str2 := by rw [← h2]; exact infix_take_drop _ _ _
  have hc1' : c' <:+: str2 := by rw [← h1']; exact infix_take_drop _ _ _
  have hc2' : c' <:+: str1 := by rw [← h2']; exact infix_take_drop _ _ _
  have a := getLongestCommonSubStr_longest h c' hc2' hc1'
  have b := getLongestCommonSubStr_longest h' c hc2 hc1
  omega

end LCS

/-- Claim C39: for all strings `str1`, `str2`, `getLongestCommonSubStr` returns, and among
the common blocks of the returned (maximal) length the returned occurrence is the one that
ends earliest in `str1` and, among those, earliest in `str2`: every occurrence `(p, q)` of a
common block of that length has `i < p`, or `i = p` and `j ≤ q`. The call with the two
strings exchanged returns a block of the same length. `ABXAB` and `ABYAB` share `AB` at four
pairs of offsets, and `(0, 0)` is returned; `XAB` and `ABY` return the block at `(1, 0)` and,
exchanged, the block at `(0, 1)`. -/
theorem getLongestCommonSubStr_tie_break :
    (∀ str1 str2 : List Char, ∃ c i j, getLongestCommonSubStr str1 str2 = some (c, i, j) ∧
      (∀ p q, p + c.length ≤ str1.length → q + c.length ≤ str2.length →
        (str1.drop p).take c.length = (str2.drop q).take c.length →
        i < p ∨ (i = p ∧ j ≤ q)) ∧
      ∃ c' i' j', getLongestCommonSubStr str2 str1 = some (c', i', j') ∧
        c'.length = c.length) ∧
    getLongestCommonSubStr ['A', 'B', 'X', 'A', 'B'] ['A', 'B', 'Y', 'A', 'B']
      = some (['A', 'B'], 0, 0) ∧
    getLongestCommonSubStr ['X', 'A', 'B'] ['A', 'B', 'Y'] = some (['A', 'B'], 1, 0) ∧
    getLongestCommonSubStr ['A', 'B', 'Y'] ['X', 'A', 'B'] = some (['A', 'B'], 0, 1) := by
  refine ⟨fun str1 str2 => ?_, by decide, by decide, by decide⟩
  obtain ⟨c, i, j, h, hfirst⟩ := getLongestCommonSubStr_first str1 str2
  obtain ⟨c1, i1, j1, c', i', j', h1, h', hlen⟩ := getLongestCommonSubStr_length_comm str1 str2
  rw [h] at h1
  simp only [Option.some.injEq, Prod.mk.injEq] at h1
  obtain ⟨rfl, -, -⟩ := h1
  exact ⟨c, i, j, h, hfirst, c', i', j', h', hlen⟩

/-! ## The consensus of a merge -/

/-- Claim C31: when `extendRead(A, B)` returns true with the overlap `firstRead` of length
`n`, then `n` is at most the length of either sequence, `firstRead` is the last `n` bases of
A and `secondRead` the first `n` bases of B, and the consensus built by `connectNodes` is the
whole sequence of A followed by the sequence of B without its first `n` bases; its length is
`|A| + |B| - n`, and the overlap in it is the copy of A. -/
theorem consensusStr_formula (fg : FindGap) (g : DBGraph) (first second : SSNode)
    (out : ReadRefs)
    (h : fg.extendRead g first second ReadRefs.init = some (true, out)) :
    out.firstRead.length ≤ (first.getSequence g).length ∧
      out.firstRead.length ≤ (second.getSequence g).length ∧
      out.firstRead = (first.getSequence g).drop
        ((first.getSequence g).length - out.firstRead.length) ∧
      out.secondRead = (second.getSequence g).take out.firstRead.length ∧
      fg.consensusStr g first second
        = some (first.getSequence g ++ (second.getSequence g).drop out.firstRead.length) ∧
      (first.getSequence g ++ (second.getSequence g).drop out.firstRead.length).length
        = (first.getSequence g).length + (second.getSequence g).length
          - out.firstRead.length ∧
      ((first.getSequence g ++ (second.getSequence g).drop out.firstRead.length).drop
        ((first.getSequence g).length - out.firstRead.length)).take out.firstRead.length
        = out.firstRead := by
  have hcons := consensusStr_of_extendRead h
  obtain ⟨c, i, j, hlcs, -⟩ := getLongestCommonSubStr_spec
    (fg.trailingWindow (first.getSequence g)) (fg.leadingWindow (second.getSequence g))
  by_cases hlen : c.length < fg.minExactMatchSize
  · rw [extendRead_reject fg g first second _ hlcs hlen] at h
    simp at h
  · obtain ⟨out', hrun, a1, a2, a3, a4, a5, -, -, -, a9, a10⟩ :=
      extendRead_accept fg g first second ReadRefs.init hlcs hlen
    rw [hrun] at h
    simp only [Option.some.injEq, Prod.mk.injEq, decide_eq_true_eq] at h
    obtain ⟨⟨hfe, hss⟩, rfl⟩ := h
    rw [hcons]
    generalize first.getSequence g = A at *
    generalize second.getSequence g = B at *
    obtain ⟨fs, ss, fe, se, fr, sr⟩ := out'
    simp only at a1 a2 a3 a4 a5 a9 a10 hfe hss ⊢
    subst hfe hss
    have hse : se = A.length - fs := by omega
    have hfr : fr = A.drop fs := by
      rw [a9, List.take_of_length_le (by rw [List.length_drop])]
    have hn : fr.length = A.length - fs := by rw [hfr, List.length_drop]
    have hsr : sr = B.take (A.length - fs) := by
      rw [a10, List.drop_zero]
      congr 1
    rw [hn, hse]
    have hfs : A.length - (A.length - fs) = fs := by omega
    refine ⟨by omega, by omega, ?_, hsr, ?_, ?_, ?_⟩
    · rw [hfs, hfr]
    · rw [hfr, List.take_append_drop]
    · rw [List.length_append, List.length_drop]; omega
    · rw [hfs, List.drop_append_of_le_length a1, List.take_append_of_le_length
        (by rw [List.length_drop]), List.take_of_length_le (by rw [List.length_drop]), hfr]

theorem consensusStr_formula_witness :
    ∃ out, exFindGap.extendRead exBridge ⟨1, 1⟩ ⟨2, 2⟩ ReadRefs.init = some (true, out) ∧
      out.firstRead.length ≤ (SSNode.getSequence ⟨1, 1⟩ exBridge).length ∧
      out.firstRead.length ≤ (SSNode.getSequence ⟨2, 2⟩ exBridge).length ∧
      out.firstRead = (SSNode.getSequence ⟨1, 1⟩ exBridge).drop
        ((SSNode.getSequence ⟨1, 1⟩ exBridge).length - out.firstRead.length) ∧
      out.secondRead = (SSNode.getSequence ⟨2, 2⟩ exBridge).take out.firstRead.length ∧
      exFindGap.consensusStr exBridge ⟨1, 1⟩ ⟨2, 2⟩
        = some (SSNode.getSequence ⟨1, 1⟩ exBridge
            ++ (SSNode.getSequence ⟨2, 2⟩ exBridge).drop out.firstRead.length) ∧
      (SSNode.getSequence ⟨1, 1⟩ exBridge
          ++ (SSNode.getSequence ⟨2, 2⟩ exBridge).drop out.firstRead.length).length
        = (SSNode.getSequence ⟨1, 1⟩ exBridge).length
          + (SSNode.getSequence ⟨2, 2⟩ exBridge).length - out.firstRead.length ∧
      ((SSNode.getSequence ⟨1, 1⟩ exBridge
          ++ (SSNode.getSequence ⟨2, 2⟩ exBridge).drop out.firstRead.length).drop
        ((SSNode.getSequence ⟨1, 1⟩ exBridge).length - out.firstRead.length)).take
          out.firstRead.length = out.firstRead := by
  have hrun : (exFindGap.extendRead exBridge ⟨1, 1⟩ ⟨2, 2⟩ ReadRefs.init).map Prod.fst
      = some true := by decide
  obtain ⟨⟨ok, out⟩, hg, he⟩ := Option.map_eq_some'.mp hrun
  simp only at he
  subst he
  exact ⟨out, hg, consensusStr_formula exFindGap exBridge ⟨1, 1⟩ ⟨2, 2⟩ out hg⟩

/-- On the example the consensus of the nodes 1 and 2, which overlap in 7 bases, is
`TTACGGTCA` followed by `GG`. -/
theorem exBridge_consensus :
    exFindGap.consensusStr exBridge ⟨1, 1⟩ ⟨2, 2⟩
      = some [.T, .T, .A, .C, .G, .G, .T, .C, .A, .G, .G] := by
  decide

/-! ## Termination of `expandNode` -/

/-- Claim C37: on a graph whose nodes all have marginal length at least 1 (and whose arcs
lead to nodes of the graph, so that no `getSSNode` aborts), cycles and self-loops included,
`expandNode` returns for every target length and every vector `bfs` of seeds: when every seed
string has at least `m` bases, a recursion of depth `(length - m) + 1` is enough, because
each level lengthens every pending string by at least one base. -/
theorem expandNode_terminates (fg : FindGap) (g : DBGraph) (hk1 : 1 ≤ fg.kmerSize)
    (hk2 : fg.kmerSize < 2 ^ 64) (hm : MarginalAtLeastOne g fg.kmerSize) (hr : ArcsInRange g)
    (length m : Nat) (bfs result : List SearchPath)
    (hseed : ∀ p ∈ bfs, PathInRange g p ∧ m ≤ p.1.length) :
    (∃ res, fg.expandNode g length (length - m + 1) bfs result = some res) ∧
      ∀ p ∈ bfs, ∀ c ∈ children g fg.kmerSize length p, p.1.length + 1 ≤ c.1.length := by
  constructor
  · obtain ⟨res, hres, -⟩ := expandNode_walks fg g hk1 hk2 hm hr length (length - m) bfs result
      (fun p hp => ⟨(hseed p hp).1, by have := (hseed p hp).2; omega⟩)
    exact ⟨res, hres⟩
  · intro p hp c hc
    exact children_length g fg.kmerSize length hm hr p c (hseed p hp).1 hc

theorem exLoop_views {x : Int} {X : SSNode} (h : exLoop.getSSNode x = some X) :
    X = ⟨1, 1⟩ ∨ X = ⟨1, -1⟩ := by
  obtain ⟨⟨h0, h1⟩, rfl⟩ := getSSNode_eq_some.mp h
  have h1' : x.natAbs ≤ 1 := h1
  have : x = 1 ∨ x = -1 := by omega
  rcases this with rfl | rfl <;> simp

theorem exLoop_marginal : MarginalAtLeastOne exLoop exFindGap.kmerSize := by
  intro x X h
  rcases exLoop_views h with rfl | rfl <;> decide

theorem exLoop_arcsInRange : ArcsInRange exLoop := by
  intro x X h
  rcases exLoop_views h with rfl | rfl <;> decide

theorem expandNode_terminates_witness :
    (∃ res, exFindGap.expandNode exLoop 6 (6 - 2 + 1) [([.A, .A], [1])] [] = some res) ∧
      ∀ p ∈ [(([.A, .A], [1]) : SearchPath)],
        ∀ c ∈ children exLoop exFindGap.kmerSize 6 p, p.1.length + 1 ≤ c.1.length :=
  expandNode_terminates exFindGap exLoop (by decide) (by decide) exLoop_marginal
    exLoop_arcsInRange 6 2 [([.A, .A], [1])] [] (by
      intro p hp
      rw [List.mem_singleton] at hp
      subst hp
      exact ⟨⟨1, rfl, by decide, by decide⟩, by decide⟩)

/-- On the node that is its own right neighbour the search for 6 bases from a seed of 2
bases follows the loop four times; a recursion of depth 5 returns, one of depth 4 does
not. -/
theorem exLoop_expandNode :
    exFindGap.expandNode exLoop 6 5 [([.A, .A], [1])] []
        = some [([.A, .A, .A, .A, .A, .A], [1, 1, 1, 1, 1])] ∧
      exFindGap.expandNode exLoop 6 4 [([.A, .A], [1])] [] = none := by
  constructor <;> decide

/-! ## `findNPPFast` stays inside its vector -/

theorem vectorSet_isSome (nppv : List NodePosPair) (index : Nat) (npp : NodePosPair) :
    (vectorSet nppv index npp).isSome = true ↔ index < nppv.length := by
  unfold vectorSet
  split <;> simp [*]

theorem vectorSet_length {nppv nppv' : List NodePosPair} {index : Nat} {npp : NodePosPair}
    (h : vectorSet nppv index npp = some nppv') : nppv'.length = nppv.length := by
  unfold vectorSet at h
  split at h
  · simp only [Option.some.injEq] at h
    rw [← h, List.length_set]
  · cases h

/-- The `while` loop of `findNPPFast` returns: every write of a run is inside the vector,
and the k-mer iterator ends on a k-mer of the read. -/
theorem findNPPFastRun_safe (k : Nat) (g : DBGraph) (read : List Nucleotide) (nodeID : NodeID)
    (node : SSNode) :
    ∀ (left offset readPos nodePos : Nat) (nppv : List NodePosPair),
      readPos = offset + k → offset + k ≤ read.length →
      nppv.length = read.length + 1 - k →
      ∃ offset' nppv', findNPPFastRun k g read nodeID node left offset readPos nodePos nppv
          = some (offset', nppv') ∧
        nppv'.length = nppv.length ∧ offset ≤ offset' ∧ offset' + k ≤ read.length
  | 0, offset, readPos, nodePos, nppv, _, ho, _ => ⟨offset, nppv, rfl, rfl, le_refl _, ho⟩
  | left + 1, offset, readPos, nodePos, nppv, hrp, ho, hl => by
    unfold findNPPFastRun
    by_cases hc : readPos < read.length ∧ nodePos < node.getLength g
    · rw [if_pos hc]
      have hlt : readPos < read.length := hc.1
      have hr : read[readPos]? = some read[readPos] := List.getElem?_eq_getElem hlt
      have hn' : nodePos < (node.getSequence g).length := hc.2
      have hn : node.getNucleotide g nodePos = some (node.getSequence g)[nodePos] := by
        unfold SSNode.getNucleotide
        exact List.getElem?_eq_getElem hn'
      simp only [hr, hn, Option.bind_eq_bind, Option.some_bind]
      by_cases heq : read[readPos] = (node.getSequence g)[nodePos]
      · rw [if_pos heq]
        have hidx : offset + 1 < nppv.length := by omega
        have hset : vectorSet nppv (offset + 1) ⟨nodeID, nodePos - k + 1⟩
            = some (nppv.set (offset + 1) ⟨nodeID, nodePos - k + 1⟩) := by
          unfold vectorSet; rw [if_pos hidx]
        rw [hset]
        simp only [Option.some_bind]
        obtain ⟨o', v', hrun, hlen, hle, hend⟩ := findNPPFastRun_safe k g read nodeID node left
          (offset + 1) (readPos + 1) (nodePos + 1)
          (nppv.set (offset + 1) ⟨nodeID, nodePos - k + 1⟩) (by omega) (by omega)
          (by rw [List.length_set]; exact hl)
        exact ⟨o', v', hrun, by rw [hlen, List.length_set], by omega, hend⟩
      · rw [if_neg heq]
        exact ⟨offset, nppv, rfl, rfl, le_refl _, ho⟩
    · rw [if_neg hc]
      exact ⟨offset, nppv, rfl, rfl, le_refl _, ho⟩

/-- The `for` loop of `findNPPFast` returns with the vector at its size, unless the table
holds, for a k-mer of the read, a valid pair that addresses no node of the graph (then
`getSSNode` aborts the run). -/
theorem findNPPFastLoop_safe (k : Nat) (g : DBGraph) (read : List Nucleotide) :
    ∀ (fuel offset : Nat) (nppv : List NodePosPair),
      read.length + 1 ≤ fuel + offset → nppv.length = read.length + 1 - k →
      (∃ out, findNPPFastLoop k g read fuel offset nppv = some out ∧
          out.length = nppv.length) ∨
        ∃ o, o + k ≤ read.length ∧ (g.findNPP ((read.drop o).take k)).isValid = true ∧
          g.getSSNode (g.findNPP ((read.drop o).take k)).nodeID = none
  | 0, offset, nppv, hf, _ => by
    left
    unfold findNPPFastLoop
    rw [if_neg (by omega)]
    exact ⟨nppv, rfl, rfl⟩
  | fuel + 1, offset, nppv, hf, hl => by
    unfold findNPPFastLoop
    by_cases ho : offset + k ≤ read.length
    · rw [if_pos ho]
      have hidx : offset < nppv.length := by omega
      have hset : vectorSet nppv offset (g.findNPP ((read.drop offset).take k))
          = some (nppv.set offset (g.findNPP ((read.drop offset).take k))) := by
        unfold vectorSet; rw [if_pos hidx]
      simp only [hset, Option.bind_eq_bind, Option.some_bind]
      have hl' : (nppv.set offset (g.findNPP ((read.drop offset).take k))).length
          = read.length + 1 - k := by rw [List.length_set]; exact hl
      by_cases hv : (g.findNPP ((read.drop offset).take k)).isValid = true
      · simp only [hv, Bool.not_true, Bool.false_eq_true, if_false]
        cases hget : g.getSSNode (g.findNPP ((read.drop offset).take k)).nodeID with
        | none => exact Or.inr ⟨offset, ho, hv, hget⟩
        | some node =>
          simp only [Option.some_bind]
          obtain ⟨o', v', hrun, hlen, hle, hend⟩ := findNPPFastRun_safe k g read
            (g.findNPP ((read.drop offset).take k)).nodeID node (read.length - (offset + k))
            offset (offset + k) ((g.findNPP ((read.drop offset).take k)).position + k)
            (nppv.set offset (g.findNPP ((read.drop offset).take k))) rfl ho hl'
          rw [hrun]
          simp only [Option.some_bind]
          rcases findNPPFastLoop_safe k g read fuel (o' + 1) v' (by omega)
            (by rw [hlen]; exact hl') with ⟨out, hout, hol⟩ | hbad
          · exact Or.inl ⟨out, hout, by rw [hol, hlen, List.length_set]⟩
          · exact Or.inr hbad
      · have hv' : (g.findNPP ((read.drop offset).take k)).isValid = false := by
          simpa using hv
        simp only [hv', Bool.not_false, if_true]
        rcases findNPPFastLoop_safe k g read fuel (offset + 1)
          (nppv.set offset (g.findNPP ((read.drop offset).take k))) (by omega) hl'
          with ⟨out, hout, hol⟩ | hbad
        · exact Or.inl ⟨out, hout, by rw [hol, List.length_set]⟩
        · exact Or.inr hbad
    · rw [if_neg ho]
      exact Or.inl ⟨nppv, rfl, rfl⟩

/-- Claim C38: a write `nppv[index] = npp` is inside the vector exactly when
`index < nppv.size()`, that is, for a vector of size `|read| + 1 - k`, when `index` is at
most `|read| - k`, and `getNucleotide(pos)` reads a base exactly when `pos` is below the
length of the node; every write and every read of a base made by `findNPPFast` on a read of
length at least `k` and a vector of size `|read| + 1 - k` is of that kind: the function
returns and leaves a vector of that size, for every k-mer table, unless the table holds a
valid pair that addresses no node of the graph, on which `getSSNode` aborts the run. The
vector that `streamReads` builds for a mate has that size. -/
theorem findNPPFast_in_bounds (fg : FindGap) (g : DBGraph) (read : List Nucleotide)
    (hk : fg.kmerSize ≤ read.length) (nppv : List NodePosPair)
    (hsize : nppv.length = read.length + 1 - fg.kmerSize) :
    (∀ (v : List NodePosPair) (index : Nat) (npp : NodePosPair),
        (vectorSet v index npp).isSome = true ↔ index < v.length) ∧
      (∀ (index : Nat), index < nppv.length ↔ index ≤ read.length - fg.kmerSize) ∧
      (∀ (node : SSNode) (pos : Nat),
        (node.getNucleotide g pos).isSome = true ↔ pos < node.getLength g) ∧
      ((∃ out, fg.findNPPFast g read nppv = some out ∧ out.length = nppv.length) ∨
        ∃ o, o + fg.kmerSize ≤ read.length ∧
          (g.findNPP ((read.drop o).take fg.kmerSize)).isValid = true ∧
          g.getSSNode (g.findNPP ((read.drop o).take fg.kmerSize)).nodeID = none) ∧
      newNppv fg.kmerSize read.length
        = some (List.replicate (read.length + 1 - fg.kmerSize) ⟨0, 0⟩) := by
  refine ⟨vectorSet_isSome, fun index => by omega, ?_, ?_, ?_⟩
  · intro node pos
    unfold SSNode.getNucleotide SSNode.getLength
    rw [Option.isSome_iff_exists]
    constructor
    · rintro ⟨a, ha⟩
      exact (List.getElem?_eq_some_iff.mp ha).1
    · intro h
      exact ⟨_, List.getElem?_eq_getElem h⟩
  · exact findNPPFastLoop_safe fg.kmerSize g read (read.length + 1) 0 nppv (by omega) hsize
  · unfold newNppv
    rw [if_neg (by omega)]

theorem findNPPFast_in_bounds_witness :
    (∀ (v : List NodePosPair) (index : Nat) (npp : NodePosPair),
        (vectorSet v index npp).isSome = true ↔ index < v.length) ∧
      (∀ (index : Nat), index < [(⟨0, 0⟩ : NodePosPair), ⟨0, 0⟩, ⟨0, 0⟩].length ↔
        index ≤ [Nucleotide.A, .C, .G, .G, .T].length - exFindGap.kmerSize) ∧
      (∀ (node : SSNode) (pos : Nat),
        (node.getNucleotide exRun pos).isSome = true ↔ pos < node.getLength exRun) ∧
      ((∃ out, exFindGap.findNPPFast exRun [.A, .C, .G, .G, .T] [⟨0, 0⟩, ⟨0, 0⟩, ⟨0, 0⟩]
            = some out ∧ out.length = [(⟨0, 0⟩ : NodePosPair), ⟨0, 0⟩, ⟨0, 0⟩].length) ∨
        ∃ o, o + exFindGap.kmerSize ≤ [Nucleotide.A, .C, .G, .G, .T].length ∧
          (exRun.findNPP (([Nucleotide.A, .C, .G, .G, .T].drop o).take
            exFindGap.kmerSize)).isValid = true ∧
          exRun.getSSNode (exRun.findNPP (([Nucleotide.A, .C, .G, .G, .T].drop o).take
            exFindGap.kmerSize)).nodeID = none) ∧
      newNppv exFindGap.kmerSize [Nucleotide.A, .C, .G, .G, .T].length
        = some (List.replicate ([Nucleotide.A, .C, .G, .G, .T].length + 1
            - exFindGap.kmerSize) ⟨0, 0⟩) :=
  findNPPFast_in_bounds exFindGap exRun [.A, .C, .G, .G, .T] (by decide)
    [⟨0, 0⟩, ⟨0, 0⟩, ⟨0, 0⟩] (by decide)

/-! ## The indices of `extendRead` -/

theorem sizeSub_of_le {a b : Nat} (h : b ≤ a) (ha : a < 2 ^ 64) : sizeSub a b = a - b := by
  unfold sizeSub
  omega

theorem sizeAdd_of_lt {a b : Nat} (h : a + b < 2 ^ 64) : sizeAdd a b = a + b := by
  unfold sizeAdd
  omega

theorem shiftStartSize_eq {x y : Nat} (hx : x < 2 ^ 64) (hy : y < 2 ^ 64) :
    shiftStartSize x y = shiftStart x y := by
  unfold shiftStartSize shiftStart
  split
  · rw [sizeSub_of_le (by omega) hy]
  · rw [sizeSub_of_le (by omega) hx]

theorem shiftEndSize_eq {la lb fe se : Nat} (h1 : fe ≤ la) (h2 : se ≤ lb)
    (ha : la < 2 ^ 63) (hb : lb < 2 ^ 63) :
    shiftEndSize la lb fe se = shiftEnd la lb fe se := by
  unfold shiftEndSize shiftEnd
  rw [sizeSub_of_le h1 (by omega), sizeSub_of_le h2 (by omega),
    sizeAdd_of_lt (a := se) (b := la) (by omega), sizeAdd_of_lt (a := fe) (b := lb) (by omega),
    sizeSub_of_le (a := se + la) (by omega) (by omega),
    sizeSub_of_le (a := fe + lb) (by omega) (by omega)]

/-- On sequences of fewer than `2^63` bases the `size_t` arithmetic of `extendRead` never
wraps: the function computes what it computes with exact arithmetic. -/
theorem extendReadSize_eq (fg : FindGap) (g : DBGraph) (first second : SSNode) (r : ReadRefs)
    (hA : (first.getSequence g).length < 2 ^ 63)
    (hB : (second.getSequence g).length < 2 ^ 63) :
    fg.extendReadSize g first second r = fg.extendRead g first second r := by
  obtain ⟨c, i, j, hlcs, -, -, hi, hj, -⟩ := getLongestCommonSubStr_spec
    (fg.trailingWindow (first.getSequence g)) (fg.leadingWindow (second.getSequence g))
  rw [trailingWindow_length] at hi
  rw [leadingWindow_length] at hj
  have hw1 := windowLen_le fg (first.getSequence g).length
  have hw2 := windowLen_le fg (second.getSequence g).length
  rw [extendRead_windows fg g first second r hlcs]
  unfold FindGap.trailingWindow FindGap.leadingWindow at hlcs
  unfold FindGap.extendReadSize
  have es : sizeSub (first.getSequence g).length (fg.windowLen (first.getSequence g).length)
      = (first.getSequence g).length - fg.windowLen (first.getSequence g).length :=
    sizeSub_of_le hw1 (by omega)
  simp only [es, substr_of_le _ _ (Nat.sub_le _ _), substr_of_le _ _ (Nat.zero_le _),
    Option.pure_def, Option.bind_eq_bind, Option.some_bind, List.drop_zero, hlcs]
  by_cases hlen : c.length < fg.minExactMatchSize
  · rw [if_pos hlen, if_pos hlen]
  · rw [if_neg hlen, if_neg hlen]
    generalize (first.getSequence g) = A at *
    generalize (second.getSequence g) = B at *
    generalize fg.windowLen A.length = m1 at *
    generalize fg.windowLen B.length = m2 at *
    have e0 : sizeAdd i A.length = i + A.length := sizeAdd_of_lt (by omega)
    have e1 : sizeSub (i + A.length) m1 = i + A.length - m1 :=
      sizeSub_of_le (by omega) (by omega)
    have e2 : sizeAdd (i + A.length - m1) c.length = i + A.length - m1 + c.length :=
      sizeAdd_of_lt (by omega)
    have e3 : sizeAdd j c.length = j + c.length := sizeAdd_of_lt (by omega)
    have e4 : shiftStartSize (i + A.length - m1) j = shiftStart (i + A.length - m1) j :=
      shiftStartSize_eq (by omega) (by omega)
    have e5 : shiftEndSize A.length B.length (i + A.length - m1 + c.length) (j + c.length)
        = shiftEnd A.length B.length (i + A.length - m1 + c.length) (j + c.length) :=
      shiftEndSize_eq (by omega) (by omega) hA hB
    simp only [e0, e1, e2, e3, e4, e5]
    have hS : shiftStart (i + A.length - m1) j
        = (i + A.length - m1 - j, j - (i + A.length - m1)) := by
      unfold shiftStart; split <;> simp <;> omega
    have hE : shiftEnd A.length B.length (i + A.length - m1 + c.length) (j + c.length)
        = (i + A.length - m1 + c.length
            + min (A.length - (i + A.length - m1 + c.length)) (B.length - (j + c.length)),
           j + c.length
            + min (A.length - (i + A.length - m1 + c.length)) (B.length - (j + c.length))) := by
      unfold shiftEnd; split <;> simp <;> omega
    simp only [hS, hE]
    rw [sizeSub_of_le (by omega) (by omega), sizeSub_of_le (by omega) (by omega)]

/-- Claim C32: on two sequences of fewer than `2^63` bases, whenever the seed found by
`getLongestCommonSubStr` on the two windows is accepted (whatever the flag that is returned
in the end), `extendRead` returns, no `substr` is out of range, and the values left in the
reference parameters satisfy `firstStartIndex ≤ firstEndIndex ≤ |A|`,
`secondStartIndex ≤ secondEndIndex ≤ |B|`,
`firstEndIndex - firstStartIndex = secondEndIndex - secondStartIndex = |firstRead| =
|secondRead| ≥ minExactMatchSize`, `min(firstStartIndex, secondStartIndex) = 0`, and
`firstEndIndex = |A|` or `secondEndIndex = |B|`. No difference of `size_t` values wraps: the
function with the arithmetic modulo `2^64` returns the same values, and the operands of the
differences of lines 397, 408 and 421 are in the right order (those of lines 414-430 are
ordered by the tests of lines 413 and 421 and by the inequalities above). -/
theorem extendRead_indices (fg : FindGap) (g : DBGraph) (first second : SSNode) (r : ReadRefs)
    (hA : (first.getSequence g).length < 2 ^ 63)
    (hB : (second.getSequence g).length < 2 ^ 63) :
    ∃ c i j, getLongestCommonSubStr (fg.trailingWindow (first.getSequence g))
        (fg.leadingWindow (second.getSequence g)) = some (c, i, j) ∧
      (¬ c.length < fg.minExactMatchSize →
        ∃ ok out, fg.extendRead g first second r = some (ok, out) ∧
          fg.extendReadSize g first second r = some (ok, out) ∧
          out.firstStartIndex ≤ out.firstEndInex ∧
          out.firstEndInex ≤ (first.getSequence g).length ∧
          out.secondStartIndex ≤ out.secondEndIndex ∧
          out.secondEndIndex ≤ (second.getSequence g).length ∧
          out.firstEndInex - out.firstStartIndex = out.secondEndIndex - out.secondStartIndex ∧
          out.firstRead.length = out.firstEndInex - out.firstStartIndex ∧
          out.secondRead.length = out.firstRead.length ∧
          fg.minExactMatchSize ≤ out.firstRead.length ∧
          min out.firstStartIndex out.secondStartIndex = 0 ∧
          (out.firstEndInex = (first.getSequence g).length
            ∨ out.secondEndIndex = (second.getSequence g).length) ∧
          fg.windowLen (first.getSequence g).length ≤ (first.getSequence g).length ∧
          fg.windowLen (first.getSequence g).length ≤ i + (first.getSequence g).length ∧
          i + (first.getSequence g).length - fg.windowLen (first.getSequence g).length
            + c.length ≤ (first.getSequence g).length ∧
          j + c.length ≤ (second.getSequence g).length) := by
  obtain ⟨c, i, j, hlcs, -, -, hi, hj, -⟩ := getLongestCommonSubStr_spec
    (fg.trailingWindow (first.getSequence g)) (fg.leadingWindow (second.getSequence g))
  rw [trailingWindow_length] at hi
  rw [leadingWindow_length] at hj
  have hw1 := windowLen_le fg (first.getSequence g).length
  have hw2 := windowLen_le fg (second.getSequence g).length
  refine ⟨c, i, j, hlcs, fun hlen => ?_⟩
  obtain ⟨out, hrun, a1, a2, a3, a4, a5, a6, a7, a8, a9, a10⟩ :=
    extendRead_accept fg g first second r hlcs hlen
  have hl1 : out.firstRead.length = out.firstEndInex - out.firstStartIndex := by
    rw [a9, List.length_take, List.length_drop]; omega
  have hl2 : out.secondRead.length = out.secondEndIndex - out.secondStartIndex := by
    rw [a10, List.length_take, List.length_drop]; omega
  refine ⟨_, out, hrun, ?_, a1, a2, a3, a4, a5, hl1, by omega, by omega, ?_, a8, hw1,
    by omega, by omega, by omega⟩
  · rw [extendReadSize_eq fg g first second r hA hB]
    exact hrun
  · rcases a7 with h | h <;> simp [h]

theorem extendRead_indices_witness :
    ∃ c i j, getLongestCommonSubStr
        (exFindGap.trailingWindow (SSNode.getSequence ⟨1, 1⟩ exBridge))
        (exFindGap.leadingWindow (SSNode.getSequence ⟨2, 2⟩ exBridge)) = some (c, i, j) ∧
      (¬ c.length < exFindGap.minExactMatchSize →
        ∃ ok out, exFindGap.extendRead exBridge ⟨1, 1⟩ ⟨2, 2⟩ ReadRefs.init = some (ok, out) ∧
          exFindGap.extendReadSize exBridge ⟨1, 1⟩ ⟨2, 2⟩ ReadRefs.init = some (ok, out) ∧
          out.firstStartIndex ≤ out.firstEndInex ∧
          out.firstEndInex ≤ (SSNode.getSequence ⟨1, 1⟩ exBridge).length ∧
          out.secondStartIndex ≤ out.secondEndIndex ∧
          out.secondEndIndex ≤ (SSNode.getSequence ⟨2, 2⟩ exBridge).length ∧
          out.firstEndInex - out.firstStartIndex = out.secondEndIndex - out.secondStartIndex ∧
          out.firstRead.length = out.firstEndInex - out.firstStartIndex ∧
          out.secondRead.length = out.firstRead.length ∧
          exFindGap.minExactMatchSize ≤ out.firstRead.length ∧
          min out.firstStartIndex out.secondStartIndex = 0 ∧
          (out.firstEndInex = (SSNode.getSequence ⟨1, 1⟩ exBridge).length
            ∨ out.secondEndIndex = (SSNode.getSequence ⟨2, 2⟩ exBridge).length) ∧
          exFindGap.windowLen (SSNode.getSequence ⟨1, 1⟩ exBridge).length
            ≤ (SSNode.getSequence ⟨1, 1⟩ exBridge).length ∧
          exFindGap.windowLen (SSNode.getSequence ⟨1, 1⟩ exBridge).length
            ≤ i + (SSNode.getSequence ⟨1, 1⟩ exBridge).length ∧
          i + (SSNode.getSequence ⟨1, 1⟩ exBridge).length
            - exFindGap.windowLen (SSNode.getSequence ⟨1, 1⟩ exBridge).length
            + c.length ≤ (SSNode.getSequence ⟨1, 1⟩ exBridge).length ∧
          j + c.length ≤ (SSNode.getSequence ⟨2, 2⟩ exBridge).length) :=
  extendRead_indices exFindGap exBridge ⟨1, 1⟩ ⟨2, 2⟩ ReadRefs.init
    (by
      have : (SSNode.getSequence ⟨1, 1⟩ exBridge).length = 9 := by decide
      rw [this]; norm_num)
    (by
      have : (SSNode.getSequence ⟨2, 2⟩ exBridge).length = 9 := by decide
      rw [this]; norm_num)

/-- On the example the seed `ACGGTCA` of 7 bases is accepted, and `extendRead(1, 2)` leaves
the indices 2, 0, 9, 7 and the overlap in both strings. -/
theorem exBridge_extendRead :
    getLongestCommonSubStr (exFindGap.trailingWindow (SSNode.getSequence ⟨1, 1⟩ exBridge))
        (exFindGap.leadingWindow (SSNode.getSequence ⟨2, 2⟩ exBridge))
      = some ([.A, .C, .G, .G, .T, .C, .A], 2, 0) ∧
    exFindGap.extendRead exBridge ⟨1, 1⟩ ⟨2, 2⟩ ReadRefs.init
      = some (true, ⟨2, 0, 9, 7, [.A, .C, .G, .G, .T, .C, .A], [.A, .C, .G, .G, .T, .C, .A]⟩) ∧
    exFindGap.extendReadSize exBridge ⟨1, 1⟩ ⟨2, 2⟩ ReadRefs.init
      = some (true, ⟨2, 0, 9, 7, [.A, .C, .G, .G, .T, .C, .A], [.A, .C, .G, .G, .T, .C, .A]⟩) := by
  refine ⟨by decide, by decide, by decide⟩

/-! ## The candidates of `streamReads` are canonical -/

/-- When the first loop of the vote finds a tip, the tip is on a node of the tip set and has
no right arcs. -/
theorem scanFirstMate_found (g : DBGraph) (tipNodes : Finset Int) :
    ∀ (l : List NodePosPair) (t0 t : Int), scanFirstMate g tipNodes l t0 = some (t, true) →
      (t.natAbs : Int) ∈ tipNodes ∧ SSNode.getNumRightArcs ⟨t.natAbs, t⟩ g = 0
  | [], t0, t, h => by simp [scanFirstMate] at h
  | npp :: rest, t0, t, h => by
    unfold scanFirstMate at h
    split at h
    · split at h
      · rename_i hm
        simp only [Option.bind_eq_bind, Option.bind_eq_some] at h
        obtain ⟨node, hget, h⟩ := h
        obtain ⟨-, rfl⟩ := getSSNode_eq_some.mp hget
        split at h
        · rename_i hr
          simp only [Option.pure_def, Option.some.injEq, Prod.mk.injEq, and_true] at h
          subst h
          exact ⟨hm, hr⟩
        · exact scanFirstMate_found g tipNodes rest _ t h
      · exact scanFirstMate_found g tipNodes rest _ t h
    · exact scanFirstMate_found g tipNodes rest _ t h

/-- When the second loop of the vote finds a tip, the tip is on a node of the tip set and
has no left arcs. -/
theorem scanSecondMate_found (g : DBGraph) (tipNodes : Finset Int) :
    ∀ (l : List NodePosPair) (t0 t : Int), scanSecondMate g tipNodes l t0 = some (t, true) →
      (t.natAbs : Int) ∈ tipNodes ∧ SSNode.getNumLeftArcs ⟨t.natAbs, t⟩ g = 0
  | [], t0, t, h => by simp [scanSecondMate] at h
  | npp :: rest, t0, t, h => by
    unfold scanSecondMate at h
    split at h
    · split at h
      · rename_i hm
        simp only [Option.bind_eq_bind, Option.bind_eq_some] at h
        obtain ⟨node, hget, h⟩ := h
        obtain ⟨-, rfl⟩ := getSSNode_eq_some.mp hget
        split at h
        · rename_i hr
          simp only [Option.pure_def, Option.some.injEq, Prod.mk.injEq, and_true] at h
          subst h
          refine ⟨?_, hr⟩
          rw [Int.natAbs_neg]
          exact hm
        · exact scanSecondMate_found g tipNodes rest _ t h
      · exact scanSecondMate_found g tipNodes rest _ t h
    · exact scanSecondMate_found g tipNodes rest _ t h

/-- A vote is a vote for a pair of tips that can be joined. -/
theorem countVote_joinsTips (g : DBGraph) (tipNodes : Finset Int)
    (nppvFirst nppvSecond : List NodePosPair) (temp temp' : JoinMap)
    (h : countVote g tipNodes nppvFirst nppvSecond temp = some temp') :
    temp' = temp ∨ ∃ join, temp' = JoinMap.vote temp join ∧ JoinsTips g tipNodes join := by
  unfold countVote at h
  simp only [Option.bind_eq_bind, Option.bind_eq_some] at h
  obtain ⟨⟨t1, f1⟩, h1, ⟨t2, f2⟩, h2, h⟩ := h
  simp only [Option.pure_def] at h
  split at h
  · rename_i hf
    simp only [Bool.and_eq_true] at hf
    obtain ⟨rfl, rfl⟩ := hf
    split at h
    · rename_i hne
      simp only [Option.some.injEq] at h
      obtain ⟨a1, a2⟩ := scanFirstMate_found g tipNodes nppvFirst 0 t1 h1
      obtain ⟨b1, b2⟩ := scanSecondMate_found g tipNodes nppvSecond 0 t2 h2
      exact Or.inr ⟨(t1, t2), h.symm, a1, b1, hne, a2, b2⟩
    · simp only [Option.some.injEq] at h
      exact Or.inl h.symm
  · simp only [Option.some.injEq] at h
    exact Or.inl h.symm

/-- Every key of the map of votes is a pair of tips that can be joined. -/
theorem collectVotes_joinsTips (fg : FindGap) (g : DBGraph) (tipNodes : Finset Int)
    (lines : List (List Nucleotide)) (temp : JoinMap)
    (h : fg.collectVotes g tipNodes lines = some temp) :
    ∀ key v, JoinMap.find temp key = some v → JoinsTips g tipNodes key := by
  unfold FindGap.collectVotes at h
  simp only [Option.map_eq_some'] at h
  obtain ⟨st, hst, rfl⟩ := h
  refine foldlM_inv (fg.streamLine g tipNodes)
    (fun st _ => ∀ key v, JoinMap.find st.pairedEndJoinsTemp key = some v →
      JoinsTips g tipNodes key)
    ?_ lines ⟨0, [], [], []⟩ st ?_ hst
  · intro s x rest s' hI hs
    unfold FindGap.streamLine at hs
    simp only [Option.bind_eq_bind, Option.bind_eq_some, Option.pure_def,
      Option.some.injEq] at hs
    obtain ⟨temp', htemp, rfl⟩ := hs
    simp only
    split at htemp
    · unfold FindGap.countPair at htemp
      simp only [Option.bind_eq_bind, Option.bind_eq_some] at htemp
      obtain ⟨_, -, n1, -, _, -, n2, -, hv⟩ := htemp
      rcases countVote_joinsTips g tipNodes n1 n2 _ _ hv with rfl | ⟨join, rfl, hj⟩
      · exact hI
      · intro key v hkey
        rw [JoinMap.find_vote] at hkey
        by_cases hjk : join = key
        · rw [← hjk]; exact hj
        · rw [if_neg hjk] at hkey
          exact hI key v hkey
    · simp only [Option.some.injEq] at htemp
      subst htemp
      exact hI
  · intro key v hv
    simp [JoinMap.find] at hv

/-- Claim C33: when `streamReads` returns after a call with an empty `potentialPairs`, every
candidate `(t1, t2)` of the vector it leaves has `|t1| < |t2|`, both `|t1|` and `|t2|` are
in the tip set, the oriented node `t1` has no right arcs and the oriented node `t2` has no
left arcs; so the vector never holds both `(a, b)` and `(-b, -a)`, and no candidate pairs a
node with itself. -/
theorem streamReads_canonical (fg : FindGap) (g : DBGraph)
    (stdSort : List (TipPair × Nat) → List (TipPair × Nat)) (hsort : SortsPairs stdSort)
    (input : Option (List (List Nucleotide))) (tipNodes : Finset Int)
    (out : List (TipPair × Nat))
    (h : fg.streamReads g stdSort input tipNodes [] = some out) :
    (∀ e ∈ out, e.1.1.natAbs < e.1.2.natAbs ∧
        (e.1.1.natAbs : Int) ∈ tipNodes ∧ (e.1.2.natAbs : Int) ∈ tipNodes ∧
        SSNode.getNumRightArcs ⟨e.1.1.natAbs, e.1.1⟩ g = 0 ∧
        SSNode.getNumLeftArcs ⟨e.1.2.natAbs, e.1.2⟩ g = 0) ∧
      (∀ (a b : Int) (c c' : Nat), ((a, b), c) ∈ out → ((-b, -a), c') ∉ out) ∧
      ∀ e ∈ out, e.1.1.natAbs ≠ e.1.2.natAbs := by
  have key : ∀ e ∈ out, e.1.1.natAbs < e.1.2.natAbs ∧ JoinsTips g tipNodes e.1 := by
    cases input with
    | none =>
      simp only [FindGap.streamReads, Option.some.injEq] at h
      subst h
      intro e he
      cases he
    | some lines =>
      obtain ⟨temp, htemp, -⟩ := streamReads_eq fg g stdSort lines tipNodes out h
      obtain ⟨-, hpos⟩ := collectVotes_inv fg g tipNodes lines temp htemp
      intro e he
      obtain ⟨k, c⟩ := e
      obtain ⟨hv, hlt, -, -⟩ :=
        (streamReads_mem fg g stdSort hsort lines tipNodes out temp htemp h k c).mp he
      obtain ⟨v, hfind⟩ := (votes_pos_iff temp hpos k).mp hv
      exact ⟨hlt, collectVotes_joinsTips fg g tipNodes lines temp htemp k v hfind⟩
  refine ⟨?_, ?_, ?_⟩
  · intro e he
    obtain ⟨hlt, h1, h2, -, h4, h5⟩ := key e he
    exact ⟨hlt, h1, h2, h4, h5⟩
  · intro a b c c' h1 h2
    have l1 := (key _ h1).1
    have l2 := (key _ h2).1
    simp only [Int.natAbs_neg] at l1 l2
    omega
  · intro e he
    have := (key e he).1
    omega

theorem streamReads_canonical_witness :
    (∀ e ∈ ([((1, 2), 11)] : List (TipPair × Nat)), e.1.1.natAbs < e.1.2.natAbs ∧
        (e.1.1.natAbs : Int) ∈ ({1, 2} : Finset Int) ∧
        (e.1.2.natAbs : Int) ∈ ({1, 2} : Finset Int) ∧
        SSNode.getNumRightArcs ⟨e.1.1.natAbs, e.1.1⟩ exTips = 0 ∧
        SSNode.getNumLeftArcs ⟨e.1.2.natAbs, e.1.2⟩ exTips = 0) ∧
      (∀ (a b : Int) (c c' : Nat), ((a, b), c) ∈ ([((1, 2), 11)] : List (TipPair × Nat)) →
        ((-b, -a), c') ∉ ([((1, 2), 11)] : List (TipPair × Nat))) ∧
      ∀ e ∈ ([((1, 2), 11)] : List (TipPair × Nat)), e.1.1.natAbs ≠ e.1.2.natAbs :=
  streamReads_canonical exFindGap exTips exSort exSort_sortsPairs
    (some (exReads 11 [.A, .C, .G] [.A, .A, .C])) {1, 2} [((1, 2), 11)] (by decide)

/-! ## The gate of a merge and the choice of the surviving node -/

/-- The average k-mer coverage is that of the physical node, whatever the orientation. -/
theorem getAvgKmerCov_of_dsNode (g : DBGraph) (k : Nat) (v w : SSNode)
    (h : v.dsNode = w.dsNode) : v.getAvgKmerCov g k = w.getAvgKmerCov g k := by
  have hl : v.getLength g = w.getLength g := by
    unfold SSNode.getLength SSNode.getSequence
    rw [h]
    split <;> split <;> simp [revCompl_length]
  unfold SSNode.getAvgKmerCov SSNode.getMarginalLength SSNode.getKmerCov
  rw [hl, h]

theorem getSSNode_wf {g : DBGraph} {x : Int} {X : SSNode} (h : g.getSSNode x = some X) :
    X.dsNode = X.nodeID.natAbs := by
  obtain ⟨-, rfl⟩ := getSSNode_eq_some.mp h
  rfl

theorem flipIf_wf {g : DBGraph} (c : Prop) [Decidable c]
    {first second first' second' : SSNode}
    (h1 : first.dsNode = first.nodeID.natAbs) (h2 : second.dsNode = second.nodeID.natAbs)
    (h : (if c then flipBoth g first second else pure (first, second))
      = some (first', second')) :
    first'.dsNode = first'.nodeID.natAbs ∧ second'.dsNode = second'.nodeID.natAbs := by
  split at h
  · unfold flipBoth at h
    simp only [Option.bind_eq_bind, Option.bind_eq_some, Option.pure_def, Option.some.injEq,
      Prod.mk.injEq] at h
    obtain ⟨f, hf, s, hs, rfl, rfl⟩ := h
    exact ⟨getSSNode_wf hf, getSSNode_wf hs⟩
  · simp only [Option.pure_def, Option.some.injEq, Prod.mk.injEq] at h
    obtain ⟨rfl, rfl⟩ := h
    exact ⟨h1, h2⟩

theorem reorderIsolated_wf {fg : FindGap} {g : DBGraph}
    {align : List Nucleotide → List Nucleotide → Int} {fuel : Nat}
    {first second first' second' : SSNode}
    (h1 : first.dsNode = first.nodeID.natAbs)
    (h : fg.reorderIsolated g align fuel first second = some (first', second')) :
    first'.dsNode = first'.nodeID.natAbs ∧ second'.dsNode = second'.nodeID.natAbs := by
  unfold FindGap.reorderIsolated at h
  simp only [Option.bind_eq_bind, Option.bind_eq_some, Option.pure_def, Option.some.injEq,
    Prod.mk.injEq] at h
  obtain ⟨sim1, -, sim2, -, sim3, -, sim4, -, ⟨f, s⟩, hchain, s', hs', rfl, rfl⟩ := h
  refine ⟨?_, getSSNode_wf hs'⟩
  split at hchain
  · simp only [Option.bind_eq_some, Option.some.injEq, Prod.mk.injEq] at hchain
    obtain ⟨x, hx, rfl, rfl⟩ := hchain
    exact getSSNode_wf hx
  · split at hchain
    · simp only [Option.bind_eq_some, Option.some.injEq, Prod.mk.injEq] at hchain
      obtain ⟨x, hx, rfl, rfl⟩ := hchain
      exact h1
    · split at hchain
      · simp only [Option.bind_eq_some, Option.some.injEq, Prod.mk.injEq] at hchain
        obtain ⟨x, hx, rfl, rfl⟩ := hchain
        exact getSSNode_wf hx
      · simp only [Option.some.injEq, Prod.mk.injEq] at hchain
        obtain ⟨rfl, rfl⟩ := hchain
        exact h1

/-- The views left by `reorderTips` address the physical nodes of their identifiers. -/
theorem reorderTips_wf {fg : FindGap} {g : DBGraph}
    {align : List Nucleotide → List Nucleotide → Int} {fuel : Nat}
    {first second first' second' : SSNode}
    (h1 : first.dsNode = first.nodeID.natAbs) (h2 : second.dsNode = second.nodeID.natAbs)
    (h : fg.reorderTips g align fuel first second = some (first', second')) :
    first'.dsNode = first'.nodeID.natAbs ∧ second'.dsNode = second'.nodeID.natAbs := by
  unfold FindGap.reorderTips at h
  simp only [Option.bind_eq_bind, Option.bind_eq_some] at h
  obtain ⟨⟨f1, s1⟩, e1, ⟨f2, s2⟩, e2, ⟨f3, s3⟩, e3, e4⟩ := h
  have w1 := flipIf_wf _ h1 h2 e1
  have w2 := flipIf_wf _ w1.1 w1.2 e2
  have w3 := flipIf_wf _ w2.1 w2.2 e3
  split at e4
  · exact reorderIsolated_wf w3.1 e4
  · simp only [Option.pure_def, Option.some.injEq, Prod.mk.injEq] at e4
    obtain ⟨rfl, rfl⟩ := e4
    exact w3

/-- The call made by `connectTips`, and what it does to the counters. -/
theorem connectTips_attempted (fg : FindGap) (st st' : TipConnection) (first second : SSNode)
    (h : fg.connectTips st first second = some st') :
    ∃ c : ConnectCall, c.IsCall fg ∧ st.Attempted st' c ∧
      (c.firstNodeID, c.secondNodeID) =
        if first.getAvgKmerCov st.g fg.kmerSize ≥ second.getAvgKmerCov st.g fg.kmerSize
        then (first.getNodeID, second.getNodeID) else (-second.getNodeID, -first.getNodeID) := by
  unfold FindGap.connectTips at h
  generalize hab : (if first.getAvgKmerCov st.g fg.kmerSize ≥ second.getAvgKmerCov st.g fg.kmerSize
      then (first.getNodeID, second.getNodeID)
      else (-second.getNodeID, -first.getNodeID)) = ab at h
  obtain ⟨a, b⟩ := ab
  simp only [Option.bind_eq_bind, Option.bind_eq_some, Option.pure_def] at h
  obtain ⟨⟨found, g'⟩, hcall, h⟩ := h
  simp only at h
  refine ⟨⟨st.g, a, b, found⟩, ⟨g', hcall⟩, ?_, rfl⟩
  cases found with
  | true =>
    simp only [if_true, Option.some.injEq] at h
    subst h
    exact ⟨rfl, rfl, by simp, by simp⟩
  | false =>
    simp only [Bool.false_eq_true, if_false, Option.some.injEq] at h
    subst h
    exact ⟨rfl, rfl, by simp, by simp⟩

/-- One round of the loop of `checkForTipConnection`: it leaves the variables as they are,
or it attempts a merge of the reordered pair, which has passed the gate. -/
theorem checkCandidate_cases (fg : FindGap)
    (align : List Nucleotide → List Nucleotide → Int) (fuel : Nat)
    (st st' : TipConnection) (it : TipPair × Nat)
    (h : fg.checkCandidate align fuel st it = some st') :
    st' = st ∨ ∃ (c : ConnectCall) (first second : SSNode)
      (firstRead secondRead : List Nucleotide) (sim : Int),
      c.IsCall fg ∧ st.Attempted st' c ∧
      c.Attempt fg align fuel first second firstRead secondRead sim ∧
      ∃ f0 s0, st.g.getSSNode it.1.1 = some f0 ∧ st.g.getSSNode it.1.2 = some s0 ∧
        fg.reorderTips st.g align fuel f0 s0 = some (first, second) := by
  unfold FindGap.checkCandidate at h
  simp only [Option.bind_eq_bind, Option.bind_eq_some] at h
  obtain ⟨f0, hf, s0, hs, h⟩ := h
  split at h
  · simp only [Option.pure_def, Option.some.injEq] at h
    exact Or.inl h.symm
  · split at h
    · simp only [Option.pure_def, Option.some.injEq] at h
      exact Or.inl h.symm
    · split at h
      · simp only [Option.pure_def, Option.some.injEq] at h
        exact Or.inl h.symm
      · simp only [Option.bind_eq_some] at h
        obtain ⟨⟨first, second⟩, hre, ⟨ok, fr, sr⟩, hal, h⟩ := h
        simp only at h
        split at h
        · rename_i hok
          subst hok
          simp only [Option.bind_eq_some] at h
          obtain ⟨sim, hsim, h⟩ := h
          split at h
          · rename_i hgate
            obtain ⟨c, hcall, hatt, hdir⟩ := connectTips_attempted fg st st' first second h
            have hw := reorderTips_wf (getSSNode_wf hf) (getSSNode_wf hs) hre
            refine Or.inr ⟨c, first, second, fr, sr, sim, hcall, hatt, ?_,
              f0, s0, hf, hs, hre⟩
            refine ⟨hw, ?_, hsim, hgate.1, hgate.2, ?_⟩
            · rw [hatt.before]; exact hal
            · rw [hatt.before]; exact hdir
          · simp only [Option.pure_def, Option.some.injEq] at h
            exact Or.inl h.symm
        · simp only [Option.pure_def, Option.some.injEq] at h
          exact Or.inl h.symm

/-- The calls added by the rounds of the loop of `checkForTipConnection`: each one is the
attempt made for the reordered pair of a candidate of the list. -/
theorem foldlM_checkCandidate_calls (fg : FindGap)
    (align : List Nucleotide → List Nucleotide → Int) (fuel : Nat) :
    ∀ (l : List (TipPair × Nat)) (st res : TipConnection),
      l.foldlM (fg.checkCandidate align fuel) st = some res →
      ∀ c ∈ res.calls, c ∈ st.calls ∨ ∃ it ∈ l, ∃ (first second : SSNode)
        (firstRead secondRead : List Nucleotide) (sim : Int),
        c.Attempt fg align fuel first second firstRead secondRead sim ∧
        ∃ f0 s0, c.before.getSSNode it.1.1 = some f0 ∧ c.before.getSSNode it.1.2 = some s0 ∧
          fg.reorderTips c.before align fuel f0 s0 = some (first, second)
  | [], st, res, h, c, hc => by
    simp only [List.foldlM_nil, Option.pure_def, Option.some.injEq] at h
    subst h
    exact Or.inl hc
  | x :: l, st, res, h, c, hc => by
    simp only [List.foldlM_cons, Option.bind_eq_bind, Option.bind_eq_some] at h
    obtain ⟨s1, hx, h⟩ := h
    rcases foldlM_checkCandidate_calls fg align fuel l s1 res h c hc with h1 | ⟨it, hit, hq⟩
    · rcases checkCandidate_cases fg align fuel st s1 x hx with rfl |
        ⟨d, first, second, fr, sr, sim, -, hatt, hA, f0, s0, hf, hs, hre⟩
      · exact Or.inl h1
      · rw [hatt.calls, List.mem_append, List.mem_singleton] at h1
        rcases h1 with h1 | rfl
        · exact Or.inl h1
        · refine Or.inr ⟨x, List.mem_cons_self _ _, first, second, fr, sr, sim, hA,
            f0, s0, ?_, ?_, ?_⟩
          · rw [hatt.before]; exact hf
          · rw [hatt.before]; exact hs
          · rw [hatt.before]; exact hre
    · exact Or.inr ⟨it, List.mem_cons_of_mem _ hit, hq⟩

theorem countFound_cons (b : Bool) (c : ConnectCall) (l : List ConnectCall) :
    countFound b (c :: l) = (if c.found = b then 1 else 0) + countFound b l := by
  unfold countFound
  cases hc : c.found <;> cases b <;> simp [List.filter, hc] <;> omega

theorem countFound_append (b : Bool) (l : List ConnectCall) (c : ConnectCall) :
    countFound b (l ++ [c]) = countFound b l + if c.found = b then 1 else 0 := by
  induction l with
  | nil => rw [List.nil_append, countFound_cons]; omega
  | cons d l ih => rw [List.cons_append, countFound_cons, countFound_cons, ih]; omega

theorem countFound_add (l : List ConnectCall) :
    countFound true l + countFound false l = l.length := by
  induction l with
  | nil => rfl
  | cons c l ih =>
    rw [countFound_cons, countFound_cons, List.length_cons]
    cases c.found <;> simp <;> omega

/-- The two counters of `checkForTipConnection` count the calls of `connectNodes` that
returned true and those that returned false. -/
theorem checkForTipConnection_counters (fg : FindGap) (g : DBGraph)
    (align : List Nucleotide → List Nucleotide → Int) (fuel : Nat)
    (potentialPairs : List (TipPair × Nat)) (res : TipConnection)
    (h : fg.checkForTipConnection g align fuel potentialPairs = some res) :
    res.numberOfNewConnection = countFound true res.calls ∧
      res.violateGraphStructure = countFound false res.calls := by
  refine foldlM_inv (fg.checkCandidate align fuel)
    (fun st _ => st.numberOfNewConnection = countFound true st.calls ∧
      st.violateGraphStructure = countFound false st.calls) ?_ potentialPairs
    ⟨g, ∅, 0, 0, []⟩ res ⟨rfl, rfl⟩ h
  intro s x rest s' hI hs
  rcases checkCandidate_cases fg align fuel s s' x hs with rfl |
    ⟨d, first, second, fr, sr, sim, -, hatt, -⟩
  · exact hI
  · rw [hatt.calls, countFound_append, countFound_append, hatt.connections, hatt.skips,
      hI.1, hI.2]
    cases d.found <;> simp

/-- The node that absorbs in an attempt has at least the average k-mer coverage of the
node that is absorbed. -/
theorem ConnectCall.Attempt.coverage {fg : FindGap}
    {align : List Nucleotide → List Nucleotide → Int} {fuel : Nat} {c : ConnectCall}
    {first second : SSNode} {firstRead secondRead : List Nucleotide} {sim : Int}
    (h : c.Attempt fg align fuel first second firstRead secondRead sim) :
    SSNode.getAvgKmerCov ⟨c.firstNodeID.natAbs, c.firstNodeID⟩ c.before fg.kmerSize ≥
      SSNode.getAvgKmerCov ⟨c.secondNodeID.natAbs, c.secondNodeID⟩ c.before fg.kmerSize := by
  have hd := h.direction
  have hv := h.views
  by_cases hc : first.getAvgKmerCov c.before fg.kmerSize
      ≥ second.getAvgKmerCov c.before fg.kmerSize
  · rw [if_pos hc] at hd
    simp only [Prod.mk.injEq] at hd
    rw [hd.1, hd.2,
      getAvgKmerCov_of_dsNode c.before fg.kmerSize ⟨first.getNodeID.natAbs, first.getNodeID⟩
        first hv.1.symm,
      getAvgKmerCov_of_dsNode c.before fg.kmerSize ⟨second.getNodeID.natAbs, second.getNodeID⟩
        second hv.2.symm]
    exact hc
  · rw [if_neg hc] at hd
    simp only [Prod.mk.injEq] at hd
    rw [hd.1, hd.2,
      getAvgKmerCov_of_dsNode c.before fg.kmerSize
        ⟨(-second.getNodeID).natAbs, -second.getNodeID⟩ second
        (by simp only [Int.natAbs_neg]; exact hv.2.symm),
      getAvgKmerCov_of_dsNode c.before fg.kmerSize
        ⟨(-first.getNodeID).natAbs, -first.getNodeID⟩ first
        (by simp only [Int.natAbs_neg]; exact hv.1.symm)]
    exact le_of_lt (not_le.mp hc)

/-- Claim C34: in a run of `checkForTipConnection` every call of `connectNodes` is the
attempt made for the reordered pair `(first, second)` of a candidate of the list; its
arguments are `(first, second)` when the average k-mer coverage of `first` is at least that
of `second`, and `(-second, -first)` otherwise; and the first argument of the call, the node
that absorbs, never has a lower average k-mer coverage than the second, the node that is
absorbed, on the graph the call is made on. -/
theorem checkForTipConnection_coverage (fg : FindGap) (g : DBGraph)
    (align : List Nucleotide → List Nucleotide → Int) (fuel : Nat)
    (potentialPairs : List (TipPair × Nat)) (res : TipConnection)
    (h : fg.checkForTipConnection g align fuel potentialPairs = some res) :
    ∀ c ∈ res.calls,
      (∃ it ∈ potentialPairs, ∃ f0 s0 first second,
        c.before.getSSNode it.1.1 = some f0 ∧ c.before.getSSNode it.1.2 = some s0 ∧
        fg.reorderTips c.before align fuel f0 s0 = some (first, second) ∧
        (first.getAvgKmerCov c.before fg.kmerSize ≥ second.getAvgKmerCov c.before fg.kmerSize →
          c.firstNodeID = first.getNodeID ∧ c.secondNodeID = second.getNodeID) ∧
        (first.getAvgKmerCov c.before fg.kmerSize < second.getAvgKmerCov c.before fg.kmerSize →
          c.firstNodeID = -second.getNodeID ∧ c.secondNodeID = -first.getNodeID)) ∧
      SSNode.getAvgKmerCov ⟨c.firstNodeID.natAbs, c.firstNodeID⟩ c.before fg.kmerSize ≥
        SSNode.getAvgKmerCov ⟨c.secondNodeID.natAbs, c.secondNodeID⟩ c.before fg.kmerSize := by
  intro c hc
  rcases foldlM_checkCandidate_calls fg align fuel potentialPairs _ res h c hc with h0 |
    ⟨it, hit, first, second, fr, sr, sim, hA, f0, s0, hf, hs, hre⟩
  · simp at h0
  · refine ⟨⟨it, hit, f0, s0, first, second, hf, hs, hre, fun hge => ?_, fun hlt => ?_⟩,
      hA.coverage⟩
    · have hd := hA.direction
      rw [if_pos hge] at hd
      simpa only [Prod.mk.injEq] using hd
    · have hd := hA.direction
      rw [if_neg (not_le.mpr hlt)] at hd
      simpa only [Prod.mk.injEq] using hd

theorem checkForTipConnection_coverage_witness :
    ∃ res, exFindGap.checkForTipConnection exLong exAlign 10 [((2, 1), 12), ((-1, -2), 11)]
        = some res ∧
      ∀ c ∈ res.calls,
        (∃ it ∈ [(((2 : Int), (1 : Int)), 12), ((-1, -2), 11)], ∃ f0 s0 first second,
          c.before.getSSNode it.1.1 = some f0 ∧ c.before.getSSNode it.1.2 = some s0 ∧
          exFindGap.reorderTips c.before exAlign 10 f0 s0 = some (first, second) ∧
          (first.getAvgKmerCov c.before exFindGap.kmerSize
              ≥ second.getAvgKmerCov c.before exFindGap.kmerSize →
            c.firstNodeID = first.getNodeID ∧ c.secondNodeID = second.getNodeID) ∧
          (first.getAvgKmerCov c.before exFindGap.kmerSize
              < second.getAvgKmerCov c.before exFindGap.kmerSize →
            c.firstNodeID = -second.getNodeID ∧ c.secondNodeID = -first.getNodeID)) ∧
        SSNode.getAvgKmerCov ⟨c.firstNodeID.natAbs, c.firstNodeID⟩ c.before
            exFindGap.kmerSize ≥
          SSNode.getAvgKmerCov ⟨c.secondNodeID.natAbs, c.secondNodeID⟩ c.before
            exFindGap.kmerSize := by
  have hs : (exFindGap.checkForTipConnection exLong exAlign 10
      [((2, 1), 12), ((-1, -2), 11)]).isSome = true := by decide!
  obtain ⟨res, hres⟩ := Option.isSome_iff_exists.mp hs
  exact ⟨res, hres, checkForTipConnection_coverage exFindGap exLong exAlign 10 _ res hres⟩

/-- Claim C35: in a run of `checkForTipConnection` every call of `connectNodes` was made for
a candidate whose reordered pair passed the gate: `alignTips` returned true, the overlap
`firstRead` is longer than `minOverlapSize`, and the similarity
`align(firstRead, secondRead) * 100 / |firstRead|` is above `minSim`. A round of the loop
whose candidate fails the gate, because `alignTips` returns false, the overlap is not longer
than `minOverlapSize` or the similarity is not above `minSim`, leaves the two counters, the
record of the calls and the graph as they were. At the end the two counters count the calls
that returned true and those that returned false, so that their sum is the number of calls
of `connectNodes`. -/
theorem checkForTipConnection_gate (fg : FindGap) (g : DBGraph)
    (align : List Nucleotide → List Nucleotide → Int) (fuel : Nat)
    (potentialPairs : List (TipPair × Nat)) (res : TipConnection)
    (h : fg.checkForTipConnection g align fuel potentialPairs = some res) :
    (∀ c ∈ res.calls, ∃ it ∈ potentialPairs, ∃ f0 s0 first second firstRead secondRead,
        c.before.getSSNode it.1.1 = some f0 ∧ c.before.getSSNode it.1.2 = some s0 ∧
        fg.reorderTips c.before align fuel f0 s0 = some (first, second) ∧
        fg.alignTips c.before align fuel first.getNodeID second.getNodeID [] []
          = some (true, firstRead, secondRead) ∧
        firstRead.length > fg.minOverlapSize ∧
        (align firstRead secondRead * 100).tdiv (firstRead.length : Int) > (fg.minSim : Int)) ∧
      (∀ (st st' : TipConnection) (it : TipPair × Nat),
        fg.checkCandidate align fuel st it = some st' →
        ∀ f0 s0 first second ok firstRead secondRead,
          st.g.getSSNode it.1.1 = some f0 → st.g.getSSNode it.1.2 = some s0 →
          fg.reorderTips st.g align fuel f0 s0 = some (first, second) →
          fg.alignTips st.g align fuel first.getNodeID second.getNodeID [] []
            = some (ok, firstRead, secondRead) →
          ¬ (ok = true ∧ firstRead.length > fg.minOverlapSize ∧
            (align firstRead secondRead * 100).tdiv (firstRead.length : Int)
              > (fg.minSim : Int)) →
          st' = st) ∧
      res.numberOfNewConnection = countFound true res.calls ∧
      res.violateGraphStructure = countFound false res.calls ∧
      res.numberOfNewConnection + res.violateGraphStructure = res.calls.length := by
  have hsim : ∀ (fr sr : List Nucleotide) (sim : Int), similarity align fr sr = some sim →
      sim = (align fr sr * 100).tdiv (fr.length : Int) := by
    intro fr sr sim hs
    unfold similarity at hs
    split at hs
    · cases hs
    · simpa using hs.symm
  refine ⟨fun c hc => ?_, ?_, ?_⟩
  · rcases foldlM_checkCandidate_calls fg align fuel potentialPairs _ res h c hc with h0 |
      ⟨it, hit, first, second, fr, sr, sim, hA, f0, s0, hf, hs, hre⟩
    · simp at h0
    · refine ⟨it, hit, f0, s0, first, second, fr, sr, hf, hs, hre, hA.aligned, hA.overlap, ?_⟩
      rw [← hsim fr sr sim hA.score]
      exact hA.similar
  · intro st st' it hstep f0 s0 first second ok fr sr hf hs hre hal hgate
    rcases checkCandidate_cases fg align fuel st st' it hstep with h1 |
      ⟨c, first', second', fr', sr', sim, -, hatt, hA, f0', s0', hf', hs', hre'⟩
    · exact h1
    · exfalso
      rw [hf] at hf'
      rw [hs] at hs'
      cases hf'
      cases hs'
      rw [hre] at hre'
      cases hre'
      have := hA.aligned
      rw [hatt.before, hal] at this
      simp only [Option.some.injEq, Prod.mk.injEq] at this
      obtain ⟨rfl, rfl, rfl⟩ := this
      refine hgate ⟨rfl, hA.overlap, ?_⟩
      rw [← hsim _ _ sim hA.score]
      exact hA.similar
  · obtain ⟨h1, h2⟩ := checkForTipConnection_counters fg g align fuel potentialPairs res h
    exact ⟨h1, h2, by rw [h1, h2]; exact countFound_add _⟩

theorem checkForTipConnection_gate_witness :
    ∃ res, exFindGap.checkForTipConnection exLong exAlign 10 [((2, 1), 12), ((-1, -2), 11)]
        = some res ∧
      (∀ c ∈ res.calls, ∃ it ∈ [(((2 : Int), (1 : Int)), 12), ((-1, -2), 11)],
        ∃ f0 s0 first second firstRead secondRead,
          c.before.getSSNode it.1.1 = some f0 ∧ c.before.getSSNode it.1.2 = some s0 ∧
          exFindGap.reorderTips c.before exAlign 10 f0 s0 = some (first, second) ∧
          exFindGap.alignTips c.before exAlign 10 first.getNodeID second.getNodeID [] []
            = some (true, firstRead, secondRead) ∧
          firstRead.length > exFindGap.minOverlapSize ∧
          (exAlign firstRead secondRead * 100).tdiv (firstRead.length : Int)
            > (exFindGap.minSim : Int)) ∧
      res.numberOfNewConnection + res.violateGraphStructure = res.calls.length := by
  have hs : (exFindGap.checkForTipConnection exLong exAlign 10
      [((2, 1), 12), ((-1, -2), 11)]).isSome = true := by decide!
  obtain ⟨res, hres⟩ := Option.isSome_iff_exists.mp hs
  have := checkForTipConnection_gate exFindGap exLong exAlign 10 _ res hres
  exact ⟨res, hres, this.1, this.2.2.2.2⟩

/-! ## The frame of a committed merge -/

theorem negate_natAbs (m : Arc) : m.negate.nodeID.natAbs = m.nodeID.natAbs := by
  simp [Arc.negate]

theorem Within.modify {N : Nat → Prop} {bb : Nat} {g s : DBGraph} (hW : Within N bb g s)
    {idx : Nat} (hN : N idx) (f : DSNode → DSNode)
    (hf : idx = bb → ∀ m ∈ (f (s.nodes bb)).leftArcs ++ (f (s.nodes bb)).rightArcs,
      N m.nodeID.natAbs) :
    Within N bb g (s.modify idx f) := by
  refine ⟨fun i hi => ?_, ?_⟩
  · have hne : i ≠ idx := fun e => hi (by rw [e]; exact hN)
    rw [modify_nodes, if_neg hne]
    exact hW.1 i hi
  · rw [modify_nodes]
    split
    · rename_i e
      exact hf e.symm
    · exact hW.2

theorem Within.leftArcs {N : Nat → Prop} {bb : Nat} {g s : DBGraph} (hW : Within N bb g s)
    (v : SSNode) (hv : v.dsNode = bb) : ∀ m ∈ v.leftArcs s, N m.nodeID.natAbs := by
  intro m hm
  unfold SSNode.leftArcs at hm
  rw [hv] at hm
  split at hm
  · exact hW.2 m (List.mem_append_left _ hm)
  · obtain ⟨e, he, rfl⟩ := List.mem_map.mp hm
    rw [negate_natAbs]
    exact hW.2 e (List.mem_append_right _ he)

theorem Within.rightArcs {N : Nat → Prop} {bb : Nat} {g s : DBGraph} (hW : Within N bb g s)
    (v : SSNode) (hv : v.dsNode = bb) : ∀ m ∈ v.rightArcs s, N m.nodeID.natAbs := by
  intro m hm
  unfold SSNode.rightArcs at hm
  rw [hv] at hm
  split at hm
  · exact hW.2 m (List.mem_append_right _ hm)
  · obtain ⟨e, he, rfl⟩ := List.mem_map.mp hm
    rw [negate_natAbs]
    exact hW.2 e (List.mem_append_left _ he)

theorem Within.setLeftArcs {N : Nat → Prop} {bb : Nat} {g s : DBGraph} (hW : Within N bb g s)
    (v : SSNode) (hN : N v.dsNode) (arcs : List Arc)
    (ha : v.dsNode = bb → ∀ m ∈ arcs, N m.nodeID.natAbs) :
    Within N bb g (v.setLeftArcs s arcs) := by
  unfold SSNode.setLeftArcs
  refine hW.modify hN _ fun e m hm => ?_
  split at hm
  · rcases List.mem_append.mp hm with h | h
    · exact ha e m h
    · exact hW.2 m (List.mem_append_right _ h)
  · rcases List.mem_append.mp hm with h | h
    · exact hW.2 m (List.mem_append_left _ h)
    · obtain ⟨x, hx, rfl⟩ := List.mem_map.mp h
      rw [negate_natAbs]
      exact ha e x hx

theorem Within.setRightArcs {N : Nat → Prop} {bb : Nat} {g s : DBGraph} (hW : Within N bb g s)
    (v : SSNode) (hN : N v.dsNode) (arcs : List Arc)
    (ha : v.dsNode = bb → ∀ m ∈ arcs, N m.nodeID.natAbs) :
    Within N bb g (v.setRightArcs s arcs) := by
  unfold SSNode.setRightArcs
  refine hW.modify hN _ fun e m hm => ?_
  split at hm
  · rcases List.mem_append.mp hm with h | h
    · exact hW.2 m (List.mem_append_left _ h)
    · exact ha e m h
  · rcases List.mem_append.mp hm with h | h
    · obtain ⟨x, hx, rfl⟩ := List.mem_map.mp h
      rw [negate_natAbs]
      exact ha e x hx
    · exact hW.2 m (List.mem_append_right _ h)

/-- One round of the re-pointing loop of `inheritRightArcs` stays within the footprint. -/
theorem Within.repointStep {N : Nat → Prop} {bb : Nat} {g s s' : DBGraph}
    (hW : Within N bb g s) {a b : NodeID} {it : Arc} (ha : N a.natAbs)
    (hit : N it.nodeID.natAbs)
    (h : ((s.getSSNode it.nodeID).bind fun rightNode => rightNode.replaceLeftArc s b a)
      = some s') : Within N bb g s' := by
  simp only [Option.bind_eq_some] at h
  obtain ⟨v, hv, h⟩ := h
  obtain ⟨-, rfl⟩ := getSSNode_eq_some.mp hv
  unfold SSNode.replaceLeftArc at h
  split at h
  · simp only [Option.some.injEq] at h
    subst h
    refine hW.setLeftArcs _ hit _ fun e m hm => ?_
    rcases mem_repoint hm with h1 | ⟨h1, -⟩
    · exact hW.leftArcs _ e m h1
    · rw [h1]; exact ha
  · cases h

/-- One round of the first detaching loop of `connectNodes` stays within the footprint. -/
theorem Within.detachLeft {N : Nat → Prop} {bb : Nat} {g s s' : DBGraph}
    (hW : Within N bb g s) {second : SSNode} {it : Arc} (hit : N it.nodeID.natAbs)
    (h : Brownie.detachLeft second s it = some s') : Within N bb g s' := by
  unfold Brownie.detachLeft at h
  simp only [Option.bind_eq_bind, Option.bind_eq_some, Option.pure_def] at h
  obtain ⟨v, hv, h⟩ := h
  obtain ⟨-, rfl⟩ := getSSNode_eq_some.mp hv
  split at h
  · simp only [Option.some.injEq] at h
    subst h; exact hW
  · unfold SSNode.deleteRightArc at h
    split at h
    · simp only [if_true, Option.some.injEq] at h
      subst h
      refine hW.setRightArcs _ hit _ fun e m hm => ?_
      exact hW.rightArcs _ e m (List.mem_of_mem_eraseP hm)
    · simp at h

/-- One round of the second detaching loop of `connectNodes` stays within the footprint. -/
theorem Within.detachRight {N : Nat → Prop} {bb : Nat} {g s s' : DBGraph}
    (hW : Within N bb g s) {second : SSNode} {it : Arc} (hit : N it.nodeID.natAbs)
    (h : Brownie.detachRight second s it = some s') : Within N bb g s' := by
  unfold Brownie.detachRight at h
  simp only [Option.bind_eq_bind, Option.bind_eq_some, Option.pure_def] at h
  obtain ⟨v, hv, h⟩ := h
  obtain ⟨-, rfl⟩ := getSSNode_eq_some.mp hv
  split at h
  · simp only [Option.some.injEq] at h
    subst h; exact hW
  · unfold SSNode.deleteLeftArc at h
    split at h
    · simp only [if_true, Option.some.injEq] at h
      subst h
      refine hW.setLeftArcs _ hit _ fun e m hm => ?_
      exact hW.leftArcs _ e m (List.mem_of_mem_eraseP hm)
    · simp at h

/-- A loop over arcs that lead into the footprint, each round of which stays within the
footprint, stays within the footprint. -/
theorem Within.loop {N : Nat → Prop} {bb : Nat} {g : DBGraph} (f : DBGraph → Arc → Option DBGraph)
    (hf : ∀ (s s' : DBGraph) (it : Arc), Within N bb g s → N it.nodeID.natAbs →
      f s it = some s' → Within N bb g s')
    (l : List Arc) (hl : ∀ m ∈ l, N m.nodeID.natAbs) {s s' : DBGraph}
    (hW : Within N bb g s) (h : l.foldlM f s = some s') : Within N bb g s' := by
  have := foldlM_inv f (fun s rest => Within N bb g s ∧ ∀ m ∈ rest, N m.nodeID.natAbs)
    (fun s x rest s' hI hs =>
      ⟨hf s s' x hI.1 (hI.2 x (List.mem_cons_self _ _)) hs,
        fun m hm => hI.2 m (List.mem_cons_of_mem _ hm)⟩)
    l s s' ⟨hW, hl⟩ h
  exact this.1

/-- The commit of `connectNodes` writes only on the two nodes and on the nodes that the
arcs of `second` lead to. -/
theorem connectNodesCommit_within {N : Nat → Prop} {g g' : DBGraph} {first second : SSNode}
    {cons : List Nucleotide} (hW : Within N second.dsNode g g)
    (hA : N first.dsNode) (hA' : N first.nodeID.natAbs) (hB : N second.dsNode)
    (h : connectNodesCommit g first second cons = some g') :
    Within N second.dsNode g g' := by
  unfold connectNodesCommit at h
  simp only [Option.pure_def, Option.bind_eq_bind, Option.bind_eq_some,
    Option.some.injEq] at h
  obtain ⟨g2, h2, g4, h4, g5, h5, rfl⟩ := h
  have w1 : Within N second.dsNode g (first.deleteAllRightArcs g) :=
    hW.setRightArcs first hA [] (fun _ m hm => by simp at hm)
  have w2 : Within N second.dsNode g g2 := by
    unfold SSNode.inheritRightArcs at h2
    simp only [Option.pure_def, Option.bind_eq_bind, Option.bind_eq_some,
      Option.some.injEq] at h2
    obtain ⟨g1, h1, rfl⟩ := h2
    have v1 : Within N second.dsNode g g1 :=
      Within.loop _ (fun s s' it hs hit hstep => hs.repointStep hA' hit hstep) _
        (w1.rightArcs second rfl) w1 h1
    have v2 := v1.setRightArcs first hA (second.rightArcs g1)
      (fun _ => v1.rightArcs second rfl)
    exact v2.setRightArcs second hB [] (fun _ m hm => by simp at hm)
  have w3 : Within N second.dsNode g (first.setSequence g2 cons) :=
    w2.modify hA _ (fun _ => w2.2)
  have w4 : Within N second.dsNode g g4 :=
    Within.loop _ (fun s s' it hs hit hstep => hs.detachLeft hit hstep) _
      (w3.leftArcs second rfl) w3 h4
  have w5 : Within N second.dsNode g g5 :=
    Within.loop _ (fun s s' it hs hit hstep => hs.detachRight hit hstep) _
      (w4.rightArcs second rfl) w4 h5
  have w6 : Within N second.dsNode g
      (first.setKmerCov g5 (first.getKmerCov g5 + second.getKmerCov g5)) :=
    w5.modify hA _ (fun _ => w5.2)
  have w7 := Within.modify w6 hA
    (fun d => { d with readStartCov := first.getReadStartCov g5 + second.getReadStartCov g5 })
    (fun _ => w6.2)
  have w8 := w7.setLeftArcs second hB [] (fun _ m hm => by simp at hm)
  have w9 := w8.setRightArcs second hB [] (fun _ m hm => by simp at hm)
  exact w9.modify hB _ (fun _ => w9.2)

/-- The arcs of the record of `b` lead to the neighbours of `b`. -/
theorem isNeighbour_of_record (g : DBGraph) (b : NodeID) (m : Arc)
    (hm : m ∈ (g.nodes b.natAbs).leftArcs ++ (g.nodes b.natAbs).rightArcs) :
    IsNeighbour g b m.nodeID.natAbs := by
  unfold IsNeighbour SSNode.leftArcs SSNode.rightArcs
  simp only
  by_cases hb : b > 0
  · simp only [if_pos hb]
    rcases List.mem_append.mp hm with h | h
    · exact Or.inl ⟨m, h, rfl⟩
    · exact Or.inr ⟨m, h, rfl⟩
  · simp only [if_neg hb]
    rcases List.mem_append.mp hm with h | h
    · exact Or.inr ⟨m.negate, List.mem_map_of_mem _ h, negate_natAbs m⟩
    · exact Or.inl ⟨m.negate, List.mem_map_of_mem _ h, negate_natAbs m⟩

/-- Claim C36: when `connectNodes(A, B)` returns true, every node other than `A` keeps its
sequence, its k-mer coverage and its read-start coverage; every node other than `B` keeps
its validity flag, and `B` is invalid afterwards; and a node that is neither `A`, nor `B`,
nor a neighbour of `B` (a node that a left or a right arc of `B` leads to) keeps its whole
record, in particular its two arc lists. The size of the graph and the k-mer table are kept
as well. -/
theorem connectNodes_frame (fg : FindGap) (g g' : DBGraph) (a b : NodeID)
    (h : fg.connectNodes g a b = some (true, g')) :
    (∀ i, i ≠ a.natAbs → (g'.nodes i).sequence = (g.nodes i).sequence ∧
      (g'.nodes i).kmerCov = (g.nodes i).kmerCov ∧
      (g'.nodes i).readStartCov = (g.nodes i).readStartCov) ∧
    (∀ i, i ≠ b.natAbs → (g'.nodes i).invalid = (g.nodes i).invalid) ∧
    (g'.nodes b.natAbs).invalid = true ∧
    (∀ i, i ≠ a.natAbs → i ≠ b.natAbs → ¬ IsNeighbour g b i →
      (g'.nodes i).leftArcs = (g.nodes i).leftArcs ∧
      (g'.nodes i).rightArcs = (g.nodes i).rightArcs ∧ g'.nodes i = g.nodes i) ∧
    g'.numNodes = g.numNodes ∧ g'.findNPP = g.findNPP := by
  obtain ⟨first, second, cons, hf, hs, -, -, hc⟩ := connectNodes_true h
  obtain ⟨-, rfl⟩ := getSSNode_eq_some.mp hf
  obtain ⟨-, rfl⟩ := getSSNode_eq_some.mp hs
  obtain ⟨hn, hnpp, hseq, hk, hr, hinv, -, -⟩ := connectNodesCommit_fields hc
  have hW : Within (fun i => i = a.natAbs ∨ i = b.natAbs ∨ IsNeighbour g b i) b.natAbs g g' :=
    connectNodesCommit_within
      ⟨fun _ _ => rfl, fun m hm => Or.inr (Or.inr (isNeighbour_of_record g b m hm))⟩
      (Or.inl rfl) (Or.inl rfl) (Or.inr (Or.inl rfl)) hc
  refine ⟨fun i hi => ⟨?_, ?_, ?_⟩, fun i hi => ?_, ?_, fun i hia hib hnb => ?_, hn, hnpp⟩
  · rw [hseq i, if_neg hi]
  · rw [hk i, if_neg hi]
  · rw [hr i, if_neg hi]
  · rw [hinv i, if_neg hi]
  · rw [hinv, if_pos rfl]
  · have := hW.1 i (fun hN => by
      rcases hN with h1 | h1 | h1
      · exact hia h1
      · exact hib h1
      · exact hnb h1)
    exact ⟨by rw [this], by rw [this], this⟩

theorem connectNodes_frame_witness :
    ∃ g', exFindGap.connectNodes exGraph 1 2 = some (true, g') ∧
      (∀ i, i ≠ (1 : Int).natAbs → (g'.nodes i).sequence = (exGraph.nodes i).sequence ∧
        (g'.nodes i).kmerCov = (exGraph.nodes i).kmerCov ∧
        (g'.nodes i).readStartCov = (exGraph.nodes i).readStartCov) ∧
      (∀ i, i ≠ (2 : Int).natAbs → (g'.nodes i).invalid = (exGraph.nodes i).invalid) ∧
      (g'.nodes (2 : Int).natAbs).invalid = true ∧
      (∀ i, i ≠ (1 : Int).natAbs → i ≠ (2 : Int).natAbs → ¬ IsNeighbour exGraph 2 i →
        (g'.nodes i).leftArcs = (exGraph.nodes i).leftArcs ∧
        (g'.nodes i).rightArcs = (exGraph.nodes i).rightArcs ∧
        g'.nodes i = exGraph.nodes i) ∧
      g'.numNodes = exGraph.numNodes ∧ g'.findNPP = exGraph.findNPP := by
  obtain ⟨g', h⟩ := exGraph_connect_1_2
  exact ⟨g', h, connectNodes_frame exFindGap exGraph g' 1 2 h⟩

/-- On the example graph the merge of the nodes 1 and 2 leaves node 4, which is neither of
the two nor a neighbour of node 2, as it was, and it re-points the arc of node 3, the
neighbour of node 2. -/
theorem exGraph_frame :
    ¬ IsNeighbour exGraph 2 4 ∧ IsNeighbour exGraph 2 3 ∧
      (exFindGap.connectNodes exGraph 1 2).map (fun r => (r.1, r.2.nodes 4, r.2.nodes 3))
        = some (true, exGraph.nodes 4, ⟨[.A, .A, .A, .C, .C], 9, 1, [], [⟨-1, 5⟩], false⟩) := by
  refine ⟨?_, ?_, by decide⟩
  · unfold IsNeighbour
    simp only [not_or, not_exists, not_and]
    exact ⟨by decide, by decide⟩
  · exact Or.inr ⟨⟨-3, 5⟩, by decide, by decide⟩

/-! ## The bridge of a first node without right arcs -/

/-- The search of `expandNode` from a single seed that ends in a node without right arcs,
for a target length above the length of the seed string: it finds no path. -/
theorem expandNode_of_tip (fg : FindGap) (g : DBGraph) (length fuel : Nat) (a : Int)
    (A : SSNode) (p : List Nucleotide) (hA : g.getSSNode a = some A)
    (htip : A.getNumRightArcs g = 0) (hp : p.length < length) :
    fg.expandNode g length (fuel + 1) [(p, [a])] [] = some [] := by
  unfold FindGap.expandNode
  have hround : expandNodeRound fg.kmerSize g length ([], []) (p, [a]) = some ([], []) := by
    unfold expandNodeRound
    simp only [List.getLast?_singleton, Option.pure_def, Option.bind_eq_bind, Option.some_bind,
      hA, if_pos hp, htip, ne_eq, not_true_eq_false, if_false]
  simp only [List.foldlM_cons, List.foldlM_nil, hround, Option.pure_def, Option.bind_eq_bind,
    Option.some_bind, List.length_nil, gt_iff_lt, lt_self_iff_false, if_false]

/-- The function `expandReadByGraphToRight` on a first node without right arcs, when the
second node has sequence left beyond `secondEndIndex`: the best path is empty, and the four
reference parameters are left as they were. -/
theorem expandReadByGraphToRight_of_tip (fg : FindGap) (g : DBGraph)
    (align : List Nucleotide → List Nucleotide → Int) (fuel : Nat) (a : Int) (A B : SSNode)
    (hk1 : 1 ≤ fg.kmerSize) (hk2 : fg.kmerSize < 2 ^ 63)
    (hA : g.getSSNode a = some A)
    (hlenA : fg.kmerSize ≤ (A.getSequence g).length + 1)
    (hszA : (A.getSequence g).length < 2 ^ 63) (hszB : (B.getSequence g).length < 2 ^ 63)
    (htip : A.getNumRightArcs g = 0)
    (firstEndInex secondEndIndex : Nat) (firstRead secondRead : List Nucleotide)
    (hrest : secondEndIndex < (B.getSequence g).length) :
    fg.expandReadByGraphToRight g align (fuel + 1) A B firstEndInex secondEndIndex
        firstRead secondRead
      = some (firstEndInex, secondEndIndex, firstRead, secondRead) := by
  obtain ⟨-, rfl⟩ := getSSNode_eq_some.mp hA
  have hpos : sizeAdd (sizeSub (SSNode.getSequence ⟨a.natAbs, a⟩ g).length fg.kmerSize) 1
      = (SSNode.getSequence ⟨a.natAbs, a⟩ g).length - (fg.kmerSize - 1) :=
    tailPos_of_le hk1 (by omega) (by omega) hlenA
  have hsub : sizeSub (B.getSequence g).length secondEndIndex
      = (B.getSequence g).length - secondEndIndex :=
    sizeSub_of_le (by omega) (by omega)
  have htarget : sizeSub (sizeAdd ((B.getSequence g).length - secondEndIndex) fg.kmerSize) 1
      = (B.getSequence g).length - secondEndIndex + fg.kmerSize - 1 := by
    rw [sizeAdd_of_lt (by omega), sizeSub_of_le (by omega) (by omega)]
  have hexp := expandNode_of_tip fg g
    ((B.getSequence g).length - secondEndIndex + fg.kmerSize - 1) fuel a ⟨a.natAbs, a⟩
    (((SSNode.getSequence ⟨a.natAbs, a⟩ g).drop
      ((SSNode.getSequence ⟨a.natAbs, a⟩ g).length - (fg.kmerSize - 1))).take
      ((SSNode.getSequence ⟨a.natAbs, a⟩ g).length
        - ((SSNode.getSequence ⟨a.natAbs, a⟩ g).length - (fg.kmerSize - 1))))
    hA htip (by rw [List.length_take, List.length_drop]; omega)
  unfold FindGap.expandReadByGraphToRight
  simp only [hpos, hsub, htarget, SSNode.getNodeID, substr_of_le _ _ (Nat.sub_le _ _),
    substr_of_le _ _ (Nat.le_of_lt hrest), hexp, bestRightPath, List.foldlM_nil,
    Option.pure_def, Option.bind_eq_bind, Option.some_bind, List.length_nil, Nat.add_zero,
    List.append_nil, substr_of_le _ _ (Nat.zero_le _), List.take_zero, List.drop_zero]

/-- Claim C18, amended: when overlap discovery succeeds in `alignTips(A, B)`, that is, when
`extendRead(A, B)` returns true, `alignTips` returns true with the two reads of `extendRead`,
for every graph, every scorer and every bound on the search. For a node A without right
arcs, and B with sequence left beyond the overlap on its right, this is the graph-assisted
extension: the bounded expansion over the right arcs of A meets no path of the required
length, its best path is the empty bridge, and the reads with that bridge appended, as
`expandReadByGraphToRight(A, B, ...)` leaves them, are the reads that `alignTips` returns.
The word size and the two lengths are `size_t` values below `2^63`, and A has at least
`k - 1` bases. -/
theorem alignTips_bridge_of_tip (fg : FindGap) (g : DBGraph)
    (align : List Nucleotide → List Nucleotide → Int) (fuel : Nat) (a b : Int) (A B : SSNode)
    (firstRead secondRead : List Nucleotide) (r : ReadRefs)
    (hk1 : 1 ≤ fg.kmerSize) (hk2 : fg.kmerSize < 2 ^ 63)
    (hA : g.getSSNode a = some A) (hB : g.getSSNode b = some B)
    (hlenA : fg.kmerSize ≤ (A.getSequence g).length + 1)
    (hszA : (A.getSequence g).length < 2 ^ 63) (hszB : (B.getSequence g).length < 2 ^ 63)
    (he : fg.extendRead g A B ⟨0, 0, 0, 0, firstRead, secondRead⟩ = some (true, r)) :
    (∀ fuel', fg.alignTips g align fuel' a b firstRead secondRead
        = some (true, r.firstRead, r.secondRead)) ∧
      (A.getNumRightArcs g = 0 → r.secondEndIndex < (B.getSequence g).length →
        fg.expandNode g ((B.getSequence g).length - r.secondEndIndex + fg.kmerSize - 1)
            (fuel + 1)
            [((A.getSequence g).drop ((A.getSequence g).length - (fg.kmerSize - 1)), [a])] []
          = some [] ∧
        ∃ bridge : List Nucleotide, bridge = [] ∧
          fg.expandReadByGraphToRight g align (fuel + 1) A B r.firstEndInex r.secondEndIndex
              r.firstRead r.secondRead
            = some (r.firstEndInex + bridge.length, r.secondEndIndex + bridge.length,
                r.firstRead ++ bridge,
                r.secondRead ++ ((B.getSequence g).drop r.secondEndIndex).take bridge.length) ∧
          fg.alignTips g align fuel a b firstRead secondRead
            = some (true, r.firstRead ++ bridge,
                r.secondRead ++ ((B.getSequence g).drop r.secondEndIndex).take bridge.length)) := by
  have hal : ∀ fuel', fg.alignTips g align fuel' a b firstRead secondRead
      = some (true, r.firstRead, r.secondRead) := by
    intro fuel'
    rw [alignTips_eq, hA, hB]
    simp only [Option.some_bind, he, Option.map_some']
  refine ⟨hal, fun htip hrest => ⟨?_, [], rfl, ?_, ?_⟩⟩
  · exact expandNode_of_tip fg g _ fuel a A _ hA htip
      (by rw [List.length_drop]; omega)
  · rw [expandReadByGraphToRight_of_tip fg g align fuel a A B hk1 hk2 hA hlenA hszA hszB htip
      _ _ _ _ hrest]
    simp
  · rw [hal fuel]
    simp

theorem alignTips_bridge_of_tip_witness :
    (∀ fuel', exFindGap.alignTips exGraph exAlign fuel' 1 2 [] []
        = some (true, [.A, .C, .G, .G, .T, .C, .A], [.A, .C, .G, .G, .T, .C, .A])) ∧
      (SSNode.getNumRightArcs ⟨1, 1⟩ exGraph = 0 ∧
        7 < (SSNode.getSequence ⟨2, 2⟩ exGraph).length) ∧
      exFindGap.expandNode exGraph
          ((SSNode.getSequence ⟨2, 2⟩ exGraph).length - 7 + exFindGap.kmerSize - 1) (10 + 1)
          [((SSNode.getSequence ⟨1, 1⟩ exGraph).drop
            ((SSNode.getSequence ⟨1, 1⟩ exGraph).length - (exFindGap.kmerSize - 1)), [1])] []
        = some [] ∧
      ∃ bridge : List Nucleotide, bridge = [] ∧
        exFindGap.expandReadByGraphToRight exGraph exAlign (10 + 1) ⟨1, 1⟩ ⟨2, 2⟩ 9 7
            [.A, .C, .G, .G, .T, .C, .A] [.A, .C, .G, .G, .T, .C, .A]
          = some (9 + bridge.length, 7 + bridge.length,
              [.A, .C, .G, .G, .T, .C, .A] ++ bridge,
              [.A, .C, .G, .G, .T, .C, .A]
                ++ ((SSNode.getSequence ⟨2, 2⟩ exGraph).drop 7).take bridge.length) ∧
        exFindGap.alignTips exGraph exAlign 10 1 2 [] []
          = some (true, [.A, .C, .G, .G, .T, .C, .A] ++ bridge,
              [.A, .C, .G, .G, .T, .C, .A]
                ++ ((SSNode.getSequence ⟨2, 2⟩ exGraph).drop 7).take bridge.length) := by
  have h := alignTips_bridge_of_tip exFindGap exGraph exAlign 10 1 2 ⟨1, 1⟩ ⟨2, 2⟩ [] []
    ⟨2, 0, 9, 7, [.A, .C, .G, .G, .T, .C, .A], [.A, .C, .G, .G, .T, .C, .A]⟩
    (by decide) (by decide) (by decide) (by decide) (by decide)
    (by
      have : (SSNode.getSequence ⟨1, 1⟩ exGraph).length = 9 := by decide
      rw [this]; norm_num)
    (by
      have : (SSNode.getSequence ⟨2, 2⟩ exGraph).length = 9 := by decide
      rw [this]; norm_num)
    (by decide)
  exact ⟨h.1, ⟨by decide, by decide⟩, h.2 (by decide) (by decide)⟩

/-- On the example graph, in which node 1 has no right arcs, the search from node 1 for the
two bases that node 2 has beyond the overlap returns no path, and `alignTips(1, 2)` returns
the overlap `ACGGTCA` twice. -/
theorem exGraph_alignTips :
    exFindGap.expandNode exGraph 4 11 [([.C, .A], [1])] [] = some [] ∧
      exFindGap.alignTips exGraph exAlign 10 1 2 [] []
        = some (true, [.A, .C, .G, .G, .T, .C, .A], [.A, .C, .G, .G, .T, .C, .A]) := by
  decide

end Brownie
